import Mathlib

/-! The MINIX console driver (`kernel/console.c`).

A shallow embedding of the console driver: the per-console state, the output
formatter (`out_char`, the inner loop of `cons_write`, `cons_echo`), the
escape-sequence parser (`parse_escape`), the command interpreter
(`do_escape`), the scrolling algorithm (`scroll_screen`) and `flush`.

Conventions of the embedding.

* `int` fields whose value may go negative (`c_column`, `c_row`, the escape
  parameters) are `Int`; signed overflow is undefined behaviour in C and is
  not modelled.
* `unsigned` values are `Nat`, and every `unsigned` operation of the source is
  reduced modulo `UINT_MOD`.
* A function taking `console_t *cons` reads and writes `*cons`, the tty and
  the display the console points to, the video RAM of that display and a few
  driver globals.  `State` gathers exactly these.
* Every `out_byte` is appended to the `ports` log.  `lock()` and `unlock()`
  have no effect on the data and are left out.
-/

namespace Console

/-! ## Constants of `console.c` -/

def BLANK_COLOR : Nat := 0x0700
def SCROLL_UP : Nat := 0
def SCROLL_DOWN : Nat := 1
def CONS_RAM_WORDS : Nat := 80
def MAX_ESC_PARMS : Nat := 2
def INDEX : Nat := 0
def DATA : Nat := 1
def VID_ORG : Nat := 12
def CURSOR : Nat := 14
def C_6845 : Nat := 0x3D4
def scr_width : Nat := 80
def scr_lines : Nat := 25
def scr_size : Nat := 80 * 25

/-- The mask for 8 bits, `BYTE` of `include/minix/const.h`. -/
def BYTE : Nat := 0o377

/-- The map from ANSI colours to PC attributes, `ansi_colors[8]`. -/
def ansi_colors (i : Nat) : Nat := [0, 4, 2, 6, 1, 5, 3, 7].getD i 0

/-- Modelled from the spec: the tab width `TAB_SIZE` of `tty.h`, which is not
among the sources; the tab stops are the multiples of 8. -/
def TAB_SIZE : Nat := 8

/-- Modelled from the spec: `TAB_MASK` of `tty.h`, which is not among the
sources; it is `TAB_SIZE - 1`. -/
def TAB_MASK : Nat := 7

/-! ## Machine arithmetic -/

/-- Number of values of the type `unsigned`.  The sources build for a word
size of 2 as well as 4 (`_WORD_SIZE`); the 16-bit value is taken here, and
all video addresses of a well-formed console are far below it. -/
def UINT_MOD : Nat := 65536

/-- Conversion of an `int` expression to `unsigned`. -/
def to_unsigned (i : Int) : Nat := (i % (UINT_MOD : Int)).toNat

/-- A value of the type `int`, which like `unsigned` has 16 bits: the result
of a signed operation that overflows wraps around in two's complement. -/
def to_int (i : Int) : Int := (i + 32768) % (UINT_MOD : Int) - 32768

/-- Addition on `unsigned`. -/
def uadd (a b : Nat) : Nat := (a + b) % UINT_MOD

/-- Subtraction on `unsigned`. -/
def usub (a b : Nat) : Nat := to_unsigned ((a : Int) - (b : Int))

/-- Conversion of an `int` to `char` as `parse_escape` and `do_escape`
receive it: the low eight bits. -/
def to_char (c : Int) : Nat := (c % 256).toNat

/-- The expression `c & BYTE` for an `int c`: the low eight bits. -/
def low_byte (c : Int) : Nat := (c % 256).toNat

/-! ## Data -/

/-- The fields of `tty_t` that the console driver touches.  The declaration
of `tty_t` is not among the sources: `opost_onlcr` is the value of the test
`(tty_termios.c_oflag & (OPOST|ONLCR)) == (OPOST|ONLCR)`. -/
structure tty_t where
  opost_onlcr : Bool
  tty_position : Int
  tty_reprint : Bool

/-- Data per physical screen, `display_t`. -/
structure display_t where
  vid_seg : Nat
  vid_size : Nat
  vid_mask : Nat
  blank_color : Nat
  vid_port : Nat
  wrap : Bool
  soft_scroll : Bool
  vid_base : Nat

/-- Per console data, `console_t`.  `c_esc_parmp` is the offset of the
pointer from `c_esc_parmv`; `c_tty` and `display` are in `State`. -/
structure console_t where
  c_column : Int
  c_row : Int
  c_rwords : Nat
  c_start : Nat
  c_limit : Nat
  c_org : Nat
  c_cur : Nat
  c_attr : Nat
  c_blank : Nat
  c_esc_state : Nat
  c_esc_intro : Nat
  c_esc_parmp : Nat
  c_esc_parmv0 : Int
  c_esc_parmv1 : Int
  c_ramqueue : Nat → Nat

/-- What a driver function called with `console_t *cons` can read or write:
the console, its tty (`*cons->c_tty`), its display (`*cons->display`), the
words of that display's video RAM, whether the console is the visible one
(`cons == curcons`), the globals `softscroll`, `annoying_beep` and `beeping`,
the speaker latch `port_b`, and the log of the bytes written to I/O ports.
`LINEWRAP` is the configuration macro of that name (not among the sources)
and `color` is the value found in the automatic variable `color` of
`do_escape`, which is read without ever being assigned. -/
structure State where
  cons : console_t
  tty : tty_t
  display : display_t
  vram : Nat → Nat
  is_curcons : Bool
  softscroll : Bool
  annoying_beep : Bool
  beeping : Bool
  port_b : Nat
  LINEWRAP : Bool
  color : Bool
  ports : List (Nat × Nat)

/-! ## Video memory -/

/-- Modelled from the spec: the address a display uses for word address `a`
(section 4.1: addresses wrap via the address mask when the display is
wrap-capable, otherwise they are used as they are). -/
def vid_addr (d : display_t) (a : Nat) : Nat :=
  if d.wrap then a &&& d.vid_mask else a

/-- The blank cell: a space in the display's blank colour. -/
def blank_cell (d : display_t) : Nat := d.blank_color ||| 0x20

/-- Modelled from the spec: `write_run` of section 4.1, the common part of the
assembly routines `mem_vid_copy` and `vid_vid_copy` (not among the sources).
Cell `i` of the run is stored at word address `dst + i`, for `i` below the
count, in ascending order: the word at an address is the last cell stored
there, or the old word when none is. -/
def write_run (d : display_t) (cells : Nat → Nat) (dst : Nat) :
    Nat → (Nat → Nat) → (Nat → Nat)
  | 0, vram, a => vram a
  | n + 1, vram, a =>
      if a = vid_addr d (dst + n) then cells n else write_run d cells dst n vram a

/-- Modelled from the spec: `mem_vid_copy(src, dst, count, display)`, which is
assembly code not among the sources.  `src = none` is `BLANK_MEM`: the run is
then `count` blank cells. -/
def mem_vid_copy (src : Option (Nat → Nat)) (dst count : Nat) (d : display_t)
    (vram : Nat → Nat) : Nat → Nat :=
  match src with
  | none => write_run d (fun _ => blank_cell d) dst count vram
  | some q => write_run d q dst count vram

/-- Modelled from the spec: `vid_vid_copy(src, dst, count, display)`, which is
assembly code not among the sources; `copy_run` of section 4.1.  The cells are
read from the memory as it is before the copy, so overlapping ranges behave
as if a temporary copy were used. -/
def vid_vid_copy (src dst count : Nat) (d : display_t) (vram : Nat → Nat) :
    Nat → Nat :=
  write_run d (fun i => vram (vid_addr d (src + i))) dst count vram

/-! ## The 6845 -/

/-- The function `set_6845(reg, val, screen)`: four `out_byte`s. -/
def set_6845 (reg val : Nat) (screen : display_t) (ports : List (Nat × Nat)) :
    List (Nat × Nat) :=
  ports ++ [(screen.vid_port + INDEX, reg),
            (screen.vid_port + DATA, (val >>> 8) &&& BYTE),
            (screen.vid_port + INDEX, reg + 1),
            (screen.vid_port + DATA, val &&& BYTE)]

/-! ## flush -/

/-- First half of `flush`: transfer the characters in `c_ramqueue` to the
screen. -/
def flush_queue (s : State) : State :=
  if 0 < s.cons.c_rwords then
    { s with
      vram := mem_vid_copy (some s.cons.c_ramqueue) s.cons.c_cur s.cons.c_rwords
                s.display s.vram
      cons := { s.cons with c_rwords := 0 }
      tty := { s.tty with tty_position := s.cons.c_column, tty_reprint := true } }
  else s

/-- The column after the two checks of `flush`. -/
def clip_column (c : Int) : Int :=
  let c := if c < 0 then 0 else c
  if c > scr_width then scr_width else c

/-- The row after the two checks of `flush`. -/
def clip_row (r : Int) : Int :=
  let r := if r < 0 then 0 else r
  if r ≥ scr_lines then (scr_lines : Int) - 1 else r

/-- Second half of `flush`: check and update the cursor position. -/
def flush_cursor (s : State) : State :=
  let col := clip_column s.cons.c_column
  let row := clip_row s.cons.c_row
  let cur := to_unsigned ((s.cons.c_org : Int) + row * scr_width + col)
  if cur ≠ s.cons.c_cur then
    { s with
      ports := if s.is_curcons then set_6845 CURSOR cur s.display s.ports else s.ports
      cons := { s.cons with c_column := col, c_row := row, c_cur := cur } }
  else
    { s with cons := { s.cons with c_column := col, c_row := row } }

/-- The function `flush(cons)`. -/
def flush (s : State) : State := flush_cursor (flush_queue s)

/-! ## scroll_screen -/

/-- The function `scroll_screen(cons, dir)`. -/
def scroll_screen (s0 : State) (dir : Nat) : State :=
  let s := flush s0
  let d := s.display
  let chars := scr_size - scr_width
  let s1 : State × Nat :=
    if dir = SCROLL_UP then
      let s :=
        if s.softscroll then
          { s with vram := vid_vid_copy (uadd s.cons.c_start scr_width) s.cons.c_start
                      chars d s.vram }
        else if d.wrap = false ∧ uadd (uadd s.cons.c_org scr_size) scr_width ≥ s.cons.c_limit then
          { s with vram := vid_vid_copy (uadd s.cons.c_org scr_width) s.cons.c_start
                      chars d s.vram
                   cons := { s.cons with c_org := s.cons.c_start } }
        else
          { s with cons := { s.cons with
                      c_org := (uadd s.cons.c_org scr_width) &&& d.vid_mask } }
      (s, (uadd s.cons.c_org chars) &&& d.vid_mask)
    else
      let s :=
        if s.softscroll then
          { s with vram := vid_vid_copy s.cons.c_start (uadd s.cons.c_start scr_width)
                      chars d s.vram }
        else if d.wrap = false ∧ s.cons.c_org < uadd s.cons.c_start scr_width then
          let new_org := usub s.cons.c_limit scr_size
          { s with vram := vid_vid_copy s.cons.c_org (uadd new_org scr_width)
                      chars d s.vram
                   cons := { s.cons with c_org := new_org } }
        else
          { s with cons := { s.cons with
                      c_org := (usub s.cons.c_org scr_width) &&& d.vid_mask } }
      (s, s.cons.c_org)
  let s := s1.1
  let new_line := s1.2
  let s := { s with vram := mem_vid_copy none new_line scr_width d s.vram }
  let s := { s with ports := set_6845 VID_ORG s.cons.c_org d s.ports }
  flush s

/-! ## do_escape -/

/-- The clamped count `n` of `ESC [nL`, `ESC [nM`, `ESC [n@` and `ESC [nP`:
at least 1 and at most `room`. -/
def clamp_count (value room : Int) : Int :=
  let n := if value < 1 then 1 else value
  if n > room then room else n

/-- The rendition command `ESC [nm` of `do_escape`.  The assignment to `color`
stands before the first `case` label of the `switch` and is never executed:
`s.color` is whatever the variable holds. -/
def do_rendition (s : State) (value : Int) : State :=
  let color := s.color
  let a := s.cons.c_attr
  if value = 1 then
    { s with cons := { s.cons with
        c_attr := if color then (a &&& 0xf0ff) ||| 0x0E00 else a ||| 0x0800 } }
  else if value = 4 then
    { s with cons := { s.cons with
        c_attr := if color then (a &&& 0xf0ff) ||| 0x0A00 else a &&& 0x8900 } }
  else if value = 5 then
    { s with cons := { s.cons with
        c_attr := if color then (a &&& 0xf0ff) ||| 0x0500 else a ||| 0x8000 } }
  else if value = 7 then
    { s with cons := { s.cons with
        c_attr :=
          if color then
            ((a &&& 0xf000) >>> 4) ||| (((a &&& 0x0f00) <<< 4) % UINT_MOD)
          else if a &&& 0x7000 = 0 then (a &&& 0x8800) ||| 0x7000
          else (a &&& 0x8800) ||| 0x0700 } }
  else if 30 ≤ value ∧ value ≤ 37 then
    let col := ansi_colors (value - 30).toNat
    let blank := (s.cons.c_blank &&& 0xf0ff) ||| (col <<< 8)
    { s with
      cons := { s.cons with c_attr := (a &&& 0xf0ff) ||| (col <<< 8), c_blank := blank }
      display := { s.display with blank_color := blank } }
  else if 40 ≤ value ∧ value ≤ 47 then
    let col := ansi_colors (value - 40).toNat
    let blank := (s.cons.c_blank &&& 0x0fff) ||| (col <<< 12)
    { s with
      cons := { s.cons with c_attr := (a &&& 0x0fff) ||| (col <<< 12), c_blank := blank }
      display := { s.display with blank_color := blank } }
  else
    { s with cons := { s.cons with c_attr := s.cons.c_blank } }

/-- The commands of `do_escape` that begin with `ESC [`; `c` is the command
character and `s` the state after the initial `flush`. -/
def do_escape_csi (s : State) (c : Nat) : State :=
  let value := s.cons.c_esc_parmv0
  let n1 : Int := if value = 0 then 1 else value
  if c = 65 then        -- 'A'
    flush { s with cons := { s.cons with c_row := s.cons.c_row - n1 } }
  else if c = 66 then   -- 'B'
    flush { s with cons := { s.cons with c_row := s.cons.c_row + n1 } }
  else if c = 67 then   -- 'C'
    flush { s with cons := { s.cons with c_column := s.cons.c_column + n1 } }
  else if c = 68 then   -- 'D'
    flush { s with cons := { s.cons with c_column := s.cons.c_column - n1 } }
  else if c = 72 then   -- 'H'
    flush { s with cons := { s.cons with
              c_row := s.cons.c_esc_parmv0 - 1, c_column := s.cons.c_esc_parmv1 - 1 } }
  else if c = 74 then   -- 'J'
    let cd : Nat × Nat :=
      if value = 0 then (usub scr_size (usub s.cons.c_cur s.cons.c_org), s.cons.c_cur)
      else if value = 1 then (usub s.cons.c_cur s.cons.c_org, s.cons.c_org)
      else if value = 2 then (scr_size, s.cons.c_org)
      else (0, s.cons.c_org)
    { s with vram := mem_vid_copy none cd.2 cd.1 s.display s.vram }
  else if c = 75 then   -- 'K'
    let cd : Nat × Nat :=
      if value = 0 then
        (to_unsigned ((scr_width : Int) - s.cons.c_column), s.cons.c_cur)
      else if value = 1 then
        (to_unsigned s.cons.c_column, to_unsigned ((s.cons.c_cur : Int) - s.cons.c_column))
      else if value = 2 then
        (scr_width, to_unsigned ((s.cons.c_cur : Int) - s.cons.c_column))
      else (0, s.cons.c_cur)
    { s with vram := mem_vid_copy none cd.2 cd.1 s.display s.vram }
  else if c = 76 then   -- 'L'
    let n := clamp_count value ((scr_lines : Int) - s.cons.c_row)
    let src := to_unsigned ((s.cons.c_org : Int) + s.cons.c_row * scr_width)
    let dst := to_unsigned ((src : Int) + n * scr_width)
    let count := to_unsigned (((scr_lines : Int) - s.cons.c_row - n) * scr_width)
    let v := vid_vid_copy src dst count s.display s.vram
    { s with vram := mem_vid_copy none src (to_unsigned (n * scr_width)) s.display v }
  else if c = 77 then   -- 'M'
    let n := clamp_count value ((scr_lines : Int) - s.cons.c_row)
    let dst := to_unsigned ((s.cons.c_org : Int) + s.cons.c_row * scr_width)
    let src := to_unsigned ((dst : Int) + n * scr_width)
    let count := to_unsigned (((scr_lines : Int) - s.cons.c_row - n) * scr_width)
    let v := vid_vid_copy src dst count s.display s.vram
    { s with vram := mem_vid_copy none (uadd dst count) (to_unsigned (n * scr_width))
                s.display v }
  else if c = 64 then   -- '@'
    let n := clamp_count value ((scr_width : Int) - s.cons.c_column)
    let src := s.cons.c_cur
    let dst := to_unsigned ((src : Int) + n)
    let count := to_unsigned ((scr_width : Int) - s.cons.c_column - n)
    let v := vid_vid_copy src dst count s.display s.vram
    { s with vram := mem_vid_copy none src (to_unsigned n) s.display v }
  else if c = 80 then   -- 'P'
    let n := clamp_count value ((scr_width : Int) - s.cons.c_column)
    let dst := s.cons.c_cur
    let src := to_unsigned ((dst : Int) + n)
    let count := to_unsigned ((scr_width : Int) - s.cons.c_column - n)
    let v := vid_vid_copy src dst count s.display s.vram
    { s with vram := mem_vid_copy none (uadd dst count) (to_unsigned n) s.display v }
  else if c = 109 then  -- 'm'
    do_rendition s value
  else s

/-- The function `do_escape(cons, c)`. -/
def do_escape (s0 : State) (c : Nat) : State :=
  let s := flush s0
  let s :=
    if s.cons.c_esc_intro = 0 then
      if c = 77 then      -- 'M', reverse index
        if s.cons.c_row = 0 then flush (scroll_screen s SCROLL_DOWN)
        else flush { s with cons := { s.cons with c_row := s.cons.c_row - 1 } }
      else s
    else if s.cons.c_esc_intro = 91 then do_escape_csi s c
    else s
  { s with cons := { s.cons with c_esc_state := 0 } }

/-! ## parse_escape -/

/-- The function `parse_escape(cons, c)`; `c` is the `char` parameter.  The
parameters are of the type `int`: a run of digits whose value does not fit
wraps around (`to_int`). -/
def parse_escape (s : State) (c : Nat) : State :=
  if s.cons.c_esc_state = 1 then
    let s := { s with cons := { s.cons with
                 c_esc_intro := 0, c_esc_parmp := 0, c_esc_parmv0 := 0, c_esc_parmv1 := 0 } }
    if c = 91 then        -- '['
      { s with cons := { s.cons with c_esc_intro := c, c_esc_state := 2 } }
    else if c = 77 then   -- 'M'
      do_escape s c
    else
      { s with cons := { s.cons with c_esc_state := 0 } }
  else if s.cons.c_esc_state = 2 then
    if 48 ≤ c ∧ c ≤ 57 then
      if s.cons.c_esc_parmp = 0 then
        { s with cons := { s.cons with
            c_esc_parmv0 := to_int (s.cons.c_esc_parmv0 * 10 + ((c : Int) - 48)) } }
      else if s.cons.c_esc_parmp = 1 then
        { s with cons := { s.cons with
            c_esc_parmv1 := to_int (s.cons.c_esc_parmv1 * 10 + ((c : Int) - 48)) } }
      else s
    else if c = 59 then   -- ';'
      let p := s.cons.c_esc_parmp + 1
      if p = 1 then
        { s with cons := { s.cons with c_esc_parmp := p, c_esc_parmv1 := 0 } }
      else
        { s with cons := { s.cons with c_esc_parmp := p } }
    else
      do_escape s c
  else s

/-! ## out_char -/

/-- The timer mode port `TIMER_MODE`; its definition is not among the sources
and the number is the one of the PC timer chip. -/
def TIMER_MODE : Nat := 0x43

/-- The port of timer channel 2, `TIMER2`; not among the sources. -/
def TIMER2 : Nat := 0x42

/-- The port `PORT_B` of the 8255, whose bits 0 and 1 drive the speaker; not
among the sources. -/
def PORT_B : Nat := 0x61

/-- The beep frequency `BEEP_FREQ`. -/
def BEEP_FREQ : Nat := 0x0533

/-- The function `beep()`; the alarm message to the clock task is not
modelled. -/
def beep (s : State) : State :=
  if s.beeping then s
  else
    { s with
      ports := s.ports ++ [(TIMER_MODE, 0xB6), (TIMER2, BEEP_FREQ &&& BYTE),
                 (TIMER2, (BEEP_FREQ >>> 8) &&& BYTE), (PORT_B, s.port_b ||| 3)]
      port_b := s.port_b ||| 3
      beeping := true }

/-- Move to the next row, or scroll up when on the last one: the statement
that `out_char` uses for line feed, tab overflow and line wrap. -/
def next_row (s : State) : State :=
  if s.cons.c_row = (scr_lines : Int) - 1 then scroll_screen s SCROLL_UP
  else { s with cons := { s.cons with c_row := s.cons.c_row + 1 } }

/-- Store a cell in `c_ramqueue` and count it:
`cons->c_ramqueue[cons->c_rwords++] = cons->c_attr | (c & BYTE)`. -/
def queue_char (s : State) (b : Nat) : State :=
  { s with cons := { s.cons with
      c_ramqueue := Function.update s.cons.c_ramqueue s.cons.c_rwords
                      ((s.cons.c_attr ||| b) % 65536)
      c_rwords := s.cons.c_rwords + 1 } }

/-- The function `out_char(cons, c)`. -/
def out_char (s : State) (c : Int) : State :=
  if 0 < s.cons.c_esc_state then parse_escape s (to_char c)
  else if c = 0 then s
  else if c = 7 then
    let s := flush s
    if s.annoying_beep then beep s else s
  else if c = 8 then
    let col := s.cons.c_column - 1
    let s := { s with cons := { s.cons with c_column := col } }
    let s :=
      if col < 0 then
        let row := s.cons.c_row - 1
        let s := { s with cons := { s.cons with c_row := row } }
        if row ≥ 0 then { s with cons := { s.cons with c_column := col + scr_width } }
        else s
      else s
    flush s
  else if c = 10 ∨ c = 11 ∨ c = 12 then
    let s :=
      if c = 10 ∧ s.tty.opost_onlcr then { s with cons := { s.cons with c_column := 0 } }
      else s
    flush (next_row s)
  else if c = 13 then
    flush { s with cons := { s.cons with c_column := 0 } }
  else if c = 9 then
    let col := (s.cons.c_column + TAB_SIZE) - (s.cons.c_column + TAB_SIZE) % (TAB_MASK + 1)
    let s := { s with cons := { s.cons with c_column := col } }
    let s :=
      if col > scr_width then
        next_row { s with cons := { s.cons with c_column := col - scr_width } }
      else s
    flush s
  else if c = 27 then
    let s := flush s
    { s with cons := { s.cons with c_esc_state := 1 } }
  else
    if s.cons.c_column ≥ scr_width ∧ s.LINEWRAP = false then s
    else
      let s :=
        if s.cons.c_column ≥ scr_width then
          flush (let t := next_row s; { t with cons := { t.cons with c_column := 0 } })
        else s
      let s := if s.cons.c_rwords = CONS_RAM_WORDS then flush s else s
      let s := queue_char s (low_byte c)
      { s with cons := { s.cons with c_column := s.cons.c_column + 1 } }

/-! ## cons_write and cons_echo -/

/-- One round of the inner loop of `cons_write`, for the byte `b` of the
buffer: the easy characters go to the queue directly and the others to
`out_char`.  `b` is the value of the byte, 0 to 255.  Where `char` is signed,
`*tbuf` is negative for a byte above 127: `(unsigned) *tbuf < ' '` is then
false as it is for the byte value, and `out_char` takes the same branch and
stores the same `c & BYTE` for `*tbuf` as for the byte value. -/
def cons_write_byte (s : State) (b : Nat) : State :=
  if b < 32 ∨ 0 < s.cons.c_esc_state ∨ s.cons.c_column ≥ scr_width
      ∨ s.cons.c_rwords ≥ CONS_RAM_WORDS then
    out_char s b
  else
    let s := queue_char s (b &&& BYTE)
    { s with cons := { s.cons with c_column := s.cons.c_column + 1 } }

/-- The inner loop of `cons_write` over the bytes of the buffer. -/
def cons_write_loop (s : State) (buf : List Nat) : State :=
  buf.foldl cons_write_byte s

/-- The function `cons_write(tp)` as far as the console goes.  `buf` holds the
bytes that the call finds to write: the `tty_outleft` bytes at `tty_out_vir`,
and no byte at all when `tty_inhibited` is set.  With nothing to do the function
returns at once, without a `flush`; otherwise the bytes go through the inner
loop, in copies of at most 64, and a `flush` follows.  The bookkeeping of the
tty and the reply to the writer are not modelled. -/
def cons_write (s : State) (buf : List Nat) : State :=
  if buf.length = 0 then s else flush (cons_write_loop s buf)

/-- The function `cons_echo(tp, c)`: print and flush. -/
def cons_echo (s : State) (c : Int) : State :=
  flush (out_char s c)

/-- Feeding bytes one at a time through `out_char`. -/
def out_chars (s : State) (cs : List Int) : State :=
  cs.foldl out_char s

/-- Feeding bytes one at a time through `cons_echo`. -/
def cons_echos (s : State) (cs : List Int) : State :=
  cs.foldl cons_echo s

/-- The cell shown at offset `i` of the visible window, the one that starts
at `c_org`. -/
def visible (s : State) (i : Nat) : Nat :=
  s.vram (vid_addr s.display (s.cons.c_org + i))

/-- The cursor address that `flush` computes:
`cons->c_org + cons->c_row * scr_width + cons->c_column` after the checks. -/
def flush_cur_addr (s : State) : Nat :=
  to_unsigned ((s.cons.c_org : Int) + clip_row s.cons.c_row * scr_width
    + clip_column s.cons.c_column)

/-- The bytes for which `out_char` has a `case` of its own. -/
def is_control (c : Int) : Prop :=
  c = 0 ∨ c = 7 ∨ c = 8 ∨ c = 9 ∨ c = 10 ∨ c = 11 ∨ c = 12 ∨ c = 13 ∨ c = 27

instance (c : Int) : Decidable (is_control c) := by
  unfold is_control
  infer_instance

/-- Cursor in range: `0 <= c_row < scr_lines` and `0 <= c_column <= scr_width`. -/
def cursor_in_range (s : State) : Prop :=
  0 ≤ s.cons.c_row ∧ s.cons.c_row < scr_lines ∧ 0 ≤ s.cons.c_column
    ∧ s.cons.c_column ≤ scr_width

instance (s : State) : Decidable (cursor_in_range s) := by
  unfold cursor_in_range
  infer_instance

/-- The cached cursor address is the address of the cursor:
`c_cur == c_org + c_row * scr_width + c_column`. -/
def cursor_synced (s : State) : Prop :=
  s.cons.c_cur = flush_cur_addr s

instance (s : State) : Decidable (cursor_synced s) := by
  unfold cursor_synced
  infer_instance

/-- The cell that `out_char` and `cons_write` queue for the byte `b` under the
attribute `attr`. -/
def cell_of (attr b : Nat) : Nat := (attr ||| (b % 256)) % 65536

/-! ## Concrete consoles -/

/-- A colour display with 16K of video memory that wraps, as `init_display`
sets it up for a CGA. -/
def ex_display : display_t :=
  { vid_seg := 0xB800, vid_size := 0x2000, vid_mask := 0x1fff, blank_color := BLANK_COLOR,
    vid_port := C_6845, wrap := true, soft_scroll := false, vid_base := 0xB8000 }

/-- Console 0 as `scr_init` leaves it on `ex_display`. -/
def ex_console : console_t :=
  { c_column := 0, c_row := 0, c_rwords := 0, c_start := 0, c_limit := 0x2000, c_org := 0,
    c_cur := 0, c_attr := BLANK_COLOR, c_blank := BLANK_COLOR, c_esc_state := 0,
    c_esc_intro := 0, c_esc_parmp := 0, c_esc_parmv0 := 0, c_esc_parmv1 := 0,
    c_ramqueue := fun _ => 0 }

/-- The driver with the single console `ex_console`, freshly initialised: blank
screen, the console visible, hardware scrolling. -/
def ex_state : State :=
  { cons := ex_console, tty := { opost_onlcr := true, tty_position := 0, tty_reprint := false },
    display := ex_display, vram := fun _ => blank_cell ex_display, is_curcons := true,
    softscroll := false, annoying_beep := true, beeping := false, port_b := 0,
    LINEWRAP := true, color := false, ports := [] }

/-- An EGA display shared by several consoles: `init_display` gives it 16K
words, and `scr_init` clears `wrap` when there is more than one console. -/
def ex_ega : display_t :=
  { vid_seg := 0xB800, vid_size := 0x4000, vid_mask := 0x3fff, blank_color := BLANK_COLOR,
    vid_port := C_6845, wrap := false, soft_scroll := false, vid_base := 0xB8000 }

/-- The second of three consoles as `scr_init` leaves it, the first two being
on `ex_ega` and the third on the monochrome adapter: `page_size` is
`0x4000 / 3 = 5461`, the region starts at `page_size`, and `c_cur` still holds
the zero of static storage because `scr_init` does not set it.  The visible
console is the first one. -/
def ex_second : State :=
  { ex_state with
    cons := { ex_console with c_start := 5461, c_limit := 10922, c_org := 5461 }
    display := ex_ega, vram := fun _ => blank_cell ex_ega, is_curcons := false }

/-- The cells of a run of bytes under one attribute. -/
def cells_of (attr : Nat) (bs : List Nat) (i : Nat) : Nat := cell_of attr (bs.getD i 0)

/-- The origin that `scroll_screen` chooses, from the state `t` after its
first `flush`. -/
def scroll_org (t : State) (dir : Nat) : Nat :=
  if dir = SCROLL_UP then
    if t.softscroll then t.cons.c_org
    else if t.display.wrap = false
        ∧ uadd (uadd t.cons.c_org scr_size) scr_width ≥ t.cons.c_limit then t.cons.c_start
    else (uadd t.cons.c_org scr_width) &&& t.display.vid_mask
  else
    if t.softscroll then t.cons.c_org
    else if t.display.wrap = false ∧ t.cons.c_org < uadd t.cons.c_start scr_width then
      usub t.cons.c_limit scr_size
    else (usub t.cons.c_org scr_width) &&& t.display.vid_mask

/-- The video memory after the copy that `scroll_screen` makes, if any. -/
def scroll_copy (t : State) (dir : Nat) : Nat → Nat :=
  if dir = SCROLL_UP then
    if t.softscroll then
      vid_vid_copy (uadd t.cons.c_start scr_width) t.cons.c_start (scr_size - scr_width)
        t.display t.vram
    else if t.display.wrap = false
        ∧ uadd (uadd t.cons.c_org scr_size) scr_width ≥ t.cons.c_limit then
      vid_vid_copy (uadd t.cons.c_org scr_width) t.cons.c_start (scr_size - scr_width)
        t.display t.vram
    else t.vram
  else
    if t.softscroll then
      vid_vid_copy t.cons.c_start (uadd t.cons.c_start scr_width) (scr_size - scr_width)
        t.display t.vram
    else if t.display.wrap = false ∧ t.cons.c_org < uadd t.cons.c_start scr_width then
      vid_vid_copy t.cons.c_org (uadd (usub t.cons.c_limit scr_size) scr_width)
        (scr_size - scr_width) t.display t.vram
    else t.vram

/-- The address of the line that `scroll_screen` blanks. -/
def scroll_new_line (t : State) (dir : Nat) : Nat :=
  if dir = SCROLL_UP then
    (uadd (scroll_org t dir) (scr_size - scr_width)) &&& t.display.vid_mask
  else scroll_org t dir

/-- The wrap property: `a` is the state after `scr_width` printable bytes fed
to `s` at column 0 and `t` the state after one more. -/
def wrap_outcome (s a t : State) : Prop :=
  a.cons.c_column = scr_width ∧ a.cons.c_row = s.cons.c_row
    ∧ a.cons.c_rwords = scr_width ∧ a.vram = s.vram
    ∧ t.cons.c_column = 1
    ∧ (s.cons.c_row < (scr_lines : Int) - 1 → t.cons.c_row = s.cons.c_row + 1)
    ∧ (¬ s.cons.c_row < (scr_lines : Int) - 1 →
        t.cons.c_row = (scr_lines : Int) - 1
          ∧ t.vram = (scroll_screen a SCROLL_UP).vram
          ∧ t.cons.c_org = (scroll_screen a SCROLL_UP).cons.c_org)

/-- The console inside an `ESC [` sequence: escape state 2 with the given
parameters and parameter pointer, everything else as in `t`. -/
def csi_state (t : State) (p0 p1 : Int) (pp : Nat) : State :=
  { t with cons := { t.cons with
      c_esc_state := 2, c_esc_intro := 91, c_esc_parmp := pp,
      c_esc_parmv0 := p0, c_esc_parmv1 := p1 } }

/-- Fuelled worker of `decimal`. -/
def decimal_aux : Nat → Nat → List Int
  | 0, _ => []
  | f + 1, n => if n < 10 then [48 + (n : Int)] else decimal_aux f (n / 10) ++ [48 + ((n % 10 : Nat) : Int)]

/-- The ASCII codes of the decimal digits of `n`, most significant first. -/
def decimal (n : Nat) : List Int := decimal_aux (n + 1) n

/-- The value that the digit accumulation of `parse_escape` builds from `p`. -/
def accumulate (p : Int) (ds : List Int) : Int :=
  ds.foldl (fun acc d => to_int (acc * 10 + (d - 48))) p

/-- A display whose address mask fits the driver: on a display that wraps,
`vid_mask + 1` is a power of two that holds at least one screen. -/
def display_ok (d : display_t) : Prop :=
  d.wrap = true → ∃ k, d.vid_mask = 2 ^ k - 1 ∧ scr_size ≤ 2 ^ k

/-- A console at rest: Normal escape state, nothing pending, the cursor in
range and the cached cursor address in step with it. -/
def at_rest (s : State) : Prop :=
  s.cons.c_esc_state = 0 ∧ s.cons.c_rwords = 0 ∧ cursor_in_range s ∧ cursor_synced s

instance (s : State) : Decidable (at_rest s) := by
  unfold at_rest
  infer_instance

/-- The bytes of `Hello`. -/
def hello : List Nat := [72, 101, 108, 108, 111]

/-- The bytes of `World`. -/
def world : List Nat := [87, 111, 114, 108, 100]

/-- The freshly initialised console on a tty without `OPOST|ONLCR` output
processing. -/
def ex_raw : State :=
  { ex_state with tty := { ex_state.tty with opost_onlcr := false } }

/-- The number of lines that `ESC [vL` and `ESC [vM` affect with the cursor on
row `r`: `min(max(v, 1), scr_lines - r)`. -/
def line_count (v r : Nat) : Nat := min (max v 1) (scr_lines - r)

/-- A console with the cursor on row 2 of a screen whose row `i` is filled
with the letter number `i` of the alphabet. -/
def ex_lines : State :=
  { ex_state with
    cons := { ex_console with c_row := 2, c_cur := 160 }
    vram := fun a => 0x0741 + a / 80 }

/-- The state after `k` calls of `scroll_screen(cons, dir)`. -/
def scroll_n (s : State) (dir : Nat) : Nat → State
  | 0 => s
  | k + 1 => scroll_screen (scroll_n s dir k) dir

/-- The origin that `scroll_screen` chooses when the origin is `org`, the rest
being as in `s`. -/
def org_step (s : State) (dir : Nat) (org : Nat) : Nat :=
  scroll_org { s with cons := { s.cons with c_org := org } } dir

/-- The first of the three consoles of `ex_second`, freshly initialised: its
region is the first `page_size = 5461` words of `ex_ega`. -/
def ex_first : State :=
  { ex_state with
    cons := { ex_console with c_start := 0, c_limit := 5461, c_org := 0 }
    display := ex_ega, vram := fun _ => blank_cell ex_ega }

/-- The address mask is one less than a power of two, at most `2 ^ 15`. -/
def mask_ok (d : display_t) : Prop := ∃ j, j ≤ 15 ∧ d.vid_mask + 1 = 2 ^ j

/-- The cases in which `k` scrolls up and `k` scrolls down bring the origin
back: software scrolling; a display that wraps, with the origin inside the mask;
a display that does not wrap, with the window inside the region and far enough
from the limit that none of the `k` scrolls relocates it. -/
def origin_returns (s : State) (k : Nat) : Prop :=
  s.softscroll = true
    ∨ (s.display.wrap = true ∧ s.cons.c_org ≤ s.display.vid_mask)
    ∨ (s.display.wrap = false ∧ s.cons.c_start ≤ s.cons.c_org
        ∧ s.cons.c_org + scr_size + k * scr_width < s.cons.c_limit
        ∧ s.cons.c_limit ≤ s.display.vid_mask + 1)

instance (s : State) (k : Nat) : Decidable (origin_returns s k) := by
  unfold origin_returns
  infer_instance

/-- The window invariant of `scroll_screen`: the display's addressing fits the
driver; on a display that does not wrap the visible window lies inside the
console's region, `c_start <= c_org && c_org + scr_size <= c_limit`, and the
region inside the video memory; under software scrolling the origin is at the
start of the region. -/
def window_ok (s : State) : Prop :=
  mask_ok s.display ∧ display_ok s.display
    ∧ (s.display.wrap = false →
        s.cons.c_start ≤ s.cons.c_org ∧ s.cons.c_org + scr_size ≤ s.cons.c_limit
          ∧ s.cons.c_limit ≤ s.display.vid_mask + 1)
    ∧ (s.softscroll = true → s.cons.c_org = s.cons.c_start)

/-- Two word addresses from which a display reaches the same words. -/
def addr_eq (d : display_t) (a b : Nat) : Prop :=
  ∀ i, vid_addr d (a + i) = vid_addr d (b + i)

/-! ## Shapes of the results, for the invariants -/

/-- What a command of `do_escape_csi` does to the state `t`: it ends with a
`flush` of a state with the same queue array, changes the video memory only,
or is a rendition. -/
def csi_shape (t r : State) : Prop :=
  (∃ u, r = flush u ∧ u.cons.c_ramqueue = t.cons.c_ramqueue)
    ∨ (∃ v, r = { t with vram := v }) ∨ (∃ v, r = do_rendition t v)

/-- The queue array of `r` is that of `s` or differs from it by one store at an
index below `CONS_RAM_WORDS`. -/
def stores_in_bounds (s r : State) : Prop :=
  r.cons.c_ramqueue = s.cons.c_ramqueue
    ∨ ∃ i, i < CONS_RAM_WORDS ∧ ∃ v, r.cons.c_ramqueue = Function.update s.cons.c_ramqueue i v

/-- A step that leaves the cursor, the count and the queue as they are. -/
def same_cursor_queue (s r : State) : Prop :=
  r.cons.c_rwords = s.cons.c_rwords ∧ r.cons.c_row = s.cons.c_row
    ∧ r.cons.c_column = s.cons.c_column ∧ r.cons.c_ramqueue = s.cons.c_ramqueue

/-- The shapes of the result of `out_char`. -/
def out_char_shapes (s : State) (c : Int) (r : State) : Prop :=
    (0 < s.cons.c_esc_state ∧ r = parse_escape s (to_char c))
      ∨ r = s
      ∨ (∃ u, same_cursor_queue (flush u) r ∧ u.cons.c_ramqueue = s.cons.c_ramqueue)
      ∨ (∃ u, r = { queue_char u (low_byte c) with
                cons := { (queue_char u (low_byte c)).cons with
                  c_column := u.cons.c_column + 1 } }
            ∧ u.cons.c_ramqueue = s.cons.c_ramqueue
            ∧ ((u = s ∧ s.cons.c_column < scr_width ∧ s.cons.c_rwords ≠ CONS_RAM_WORDS)
                ∨ (u = flush s ∧ s.cons.c_column < scr_width)
                ∨ ∃ w, u = flush w ∧ w.cons.c_column = 0))

/-- A console whose queue is full. -/
def ex_full : State :=
  { ex_state with cons := { ex_console with c_rwords := CONS_RAM_WORDS } }

/-- The state with the escape state reset, as `do_escape` leaves it. -/
def esc_done (x : State) : State := { x with cons := { x.cons with c_esc_state := 0 } }

/-- The state with another parameter pointer. -/
def set_parmp (x : State) (p : Nat) : State := { x with cons := { x.cons with c_esc_parmp := p } }

/-- The bytes of the sequence `ESC [ ds x`. -/
def csi (ds : List Int) (x : Int) : List Int := [27, 91] ++ ds ++ [x]

/-- The digits of a first parameter: none when it is omitted. -/
def param_digits (v : Option Nat) : List Int :=
  match v with
  | none => []
  | some v => decimal v

/-- The value left in `c_esc_parmv[0]` by a first parameter: 0 when it is
omitted. -/
def param_value (v : Option Nat) : Nat :=
  match v with
  | none => 0
  | some v => v

/-- The count of a cursor motion: 1 for a parameter that is 0 or omitted. -/
def motion_count (v : Option Nat) : Int :=
  if param_value v = 0 then 1 else (param_value v : Int)

/-- The offsets of the visible window that `ESC [vJ` blanks with the cursor at
offset `p`. -/
def erased_J (v p i : Nat) : Prop :=
  (v = 0 ∧ p ≤ i) ∨ (v = 1 ∧ i < p) ∨ v = 2

instance (v p i : Nat) : Decidable (erased_J v p i) := by
  unfold erased_J
  infer_instance

/-- The columns that `ESC [vK` blanks with the cursor at column `c`. -/
def erased_K (v c k : Nat) : Prop :=
  (v = 0 ∧ c ≤ k) ∨ (v = 1 ∧ k < c) ∨ v = 2

instance (v c k : Nat) : Decidable (erased_K v c k) := by
  unfold erased_K
  infer_instance

/-- The word address `a` is outside the visible window of `s`. -/
def outside_window (s : State) (a : Nat) : Prop :=
  ∀ i, i < scr_size → vid_addr s.display (s.cons.c_org + i) ≠ a

/-! ## The driver: `select_console`, `cons_org0`, `cons_stop` -/

/-- The data of the whole driver.  `cons_table`, `display_table`, `nr_cons`,
`curcons` and the globals are those of the source; `current` is the console
number kept by the tty code (its declaration is not among the sources).
`c_tty i` is the tty that `cons_table[i].c_tty` points at, `display i` the index
in `display_table` of the display that `cons_table[i].display` points at, and
`vram k` the video memory of display `k`.  `curcons` is `none` for the null
pointer. -/
structure Driver where
  cons_table : Nat → console_t
  c_tty : Nat → tty_t
  display : Nat → Nat
  display_table : Nat → display_t
  vram : Nat → Nat → Nat
  nr_cons : Int
  current : Int
  curcons : Option Nat
  softscroll : Bool
  annoying_beep : Bool
  beeping : Bool
  port_b : Nat
  LINEWRAP : Bool
  color : Bool
  ports : List (Nat × Nat)

/-- What a function called with `&cons_table[i]` sees of the driver. -/
def console_view (d : Driver) (i : Nat) : State :=
  { cons := d.cons_table i, tty := d.c_tty i, display := d.display_table (d.display i),
    vram := d.vram (d.display i), is_curcons := decide (d.curcons = some i),
    softscroll := d.softscroll, annoying_beep := d.annoying_beep, beeping := d.beeping,
    port_b := d.port_b, LINEWRAP := d.LINEWRAP, color := d.color, ports := d.ports }

/-- The driver after a function called with `&cons_table[i]` has left the
state `s`. -/
def console_store (d : Driver) (i : Nat) (s : State) : Driver :=
  { d with
    cons_table := Function.update d.cons_table i s.cons
    c_tty := Function.update d.c_tty i s.tty
    display_table := Function.update d.display_table (d.display i) s.display
    vram := Function.update d.vram (d.display i) s.vram
    softscroll := s.softscroll, annoying_beep := s.annoying_beep, beeping := s.beeping
    port_b := s.port_b, ports := s.ports }

/-- The function `select_console(cons_line)`. -/
def select_console (d : Driver) (cons_line : Int) : Driver :=
  if cons_line < 0 ∨ cons_line ≥ d.nr_cons then d
  else
    let i := cons_line.toNat
    let d := { d with current := cons_line, curcons := some i }
    let p := set_6845 VID_ORG (d.cons_table i).c_org (d.display_table (d.display i)) d.ports
    let p := set_6845 CURSOR (d.cons_table i).c_cur (d.display_table (d.display i)) p
    { d with ports := p }

/-- The `while` loop of `cons_org0` for one console; `none` when the fuel does
not suffice for the loop to end. -/
def cons_org0_loop : Nat → State → Option State
  | 0, _ => none
  | fuel + 1, s =>
    if s.cons.c_org > s.cons.c_start then
      let n := usub s.display.vid_size scr_size
      let n := if n > usub s.cons.c_org s.cons.c_start then usub s.cons.c_org s.cons.c_start
               else n
      cons_org0_loop fuel
        { s with
          vram := vid_vid_copy s.cons.c_org (usub s.cons.c_org n) scr_size s.display s.vram
          cons := { s.cons with c_org := usub s.cons.c_org n } }
    else some s

/-- The body of the `for` loop of `cons_org0` for the console `cons_line`. -/
def cons_org0_console (fuel : Nat) (d : Driver) (cons_line : Nat) : Option Driver :=
  (cons_org0_loop fuel (console_view d cons_line)).map
    (fun s => console_store d cons_line (flush s))

/-- The function `cons_org0()`; `none` when the fuel does not suffice for a
`while` loop to end. -/
def cons_org0 (fuel : Nat) (d : Driver) : Option Driver :=
  ((List.range d.nr_cons.toNat).foldlM (cons_org0_console fuel) d).map
    (fun d => select_console d d.current)

/-- The function `cons_stop()`. -/
def cons_stop (fuel : Nat) (d : Driver) : Option Driver :=
  (cons_org0 fuel d).map (fun d =>
    let d := { d with softscroll := true }
    let d := select_console d 0
    let c0 : console_t := { d.cons_table 0 with c_attr := BLANK_COLOR, c_blank := BLANK_COLOR }
    let d := { d with cons_table := Function.update d.cons_table 0 c0 }
    let d0 : display_t := { d.display_table 0 with blank_color := BLANK_COLOR }
    { d with display_table := Function.update d.display_table 0 d0 })

/-- The monochrome adapter as `init_display` and `scr_init` set it up when
there are several consoles. -/
def ex_mda : display_t :=
  { vid_seg := 0xB000, vid_size := 0x0800, vid_mask := 0x07ff, blank_color := BLANK_COLOR,
    vid_port := 0x3B4, wrap := false, soft_scroll := false, vid_base := 0xB0000 }

/-- A driver with three consoles, the first two on `ex_ega` and the third on
`ex_mda`, as `scr_init` sets them up; the first console is the visible one, and
the second has since scrolled two lines by hardware. -/
def ex_driver : Driver :=
  { cons_table := fun i =>
      if i = 0 then { ex_console with c_limit := 5461 }
      else if i = 1 then
        { ex_console with c_start := 5461, c_limit := 10922, c_org := 5621, c_cur := 5621 }
      else { ex_console with c_limit := 2048 }
    c_tty := fun _ => { opost_onlcr := true, tty_position := 0, tty_reprint := false }
    display := fun i => if i = 2 then 1 else 0
    display_table := fun k => if k = 0 then ex_ega else ex_mda
    vram := fun k _ => if k = 0 then blank_cell ex_ega else blank_cell ex_mda
    nr_cons := 3, current := 0, curcons := some 0
    softscroll := false, annoying_beep := true, beeping := false, port_b := 0
    LINEWRAP := true, color := false, ports := [] }

/-- The condition of `cons_org0` on console `i`: the origin is not below the
start of the region, the display has more memory than one screen, and both are
values of the type `unsigned`. -/
def org0_ready (d : Driver) (i : Nat) : Prop :=
  (d.cons_table i).c_start ≤ (d.cons_table i).c_org
    ∧ (d.cons_table i).c_org < UINT_MOD
    ∧ scr_size < (d.display_table (d.display i)).vid_size
    ∧ (d.display_table (d.display i)).vid_size < UINT_MOD

instance (d : Driver) (i : Nat) : Decidable (org0_ready d i) := by
  unfold org0_ready
  infer_instance

/-- What `cons_org0` keeps of the driver `d0` while it works: the console
count, the current console, the displays, and of each console the start of the
region, with an origin that is the old one or the start of the region. -/
def org0_frame (d0 d : Driver) : Prop :=
  d.nr_cons = d0.nr_cons ∧ d.current = d0.current ∧ d.curcons = d0.curcons
    ∧ d.display = d0.display ∧ d.display_table = d0.display_table
    ∧ ∀ j, (d.cons_table j).c_start = (d0.cons_table j).c_start
        ∧ ((d.cons_table j).c_org = (d0.cons_table j).c_org
            ∨ (d.cons_table j).c_org = (d.cons_table j).c_start)

/-- The parameters of `ESC [vm` that have a `case` of their own or are colours. -/
def is_rendition (v : Nat) : Prop :=
  v = 1 ∨ v = 4 ∨ v = 5 ∨ v = 7 ∨ (30 ≤ v ∧ v ≤ 37) ∨ (40 ≤ v ∧ v ≤ 47)

instance (v : Nat) : Decidable (is_rendition v) := by
  unfold is_rendition
  infer_instance

/-- The bytes of a run of rendition commands `ESC [wm`, one for each `w`. -/
def renditions (ws : List Nat) : List Int :=
  (ws.map (fun w => csi (decimal w) 109)).flatten

/-- The smallest multiple of `TAB_SIZE` that is strictly greater than `c`. -/
def next_tab (c : Int) : Int := (c / TAB_SIZE + 1) * TAB_SIZE

/-- The number of characters that `ESC [v@` and `ESC [vP` affect with the
cursor on column `c`: `min(max(v, 1), scr_width - c)`. -/
def char_count (v c : Nat) : Nat := min (max v 1) (scr_width - c)

/-- The lettered screen under software scrolling. -/
def ex_lines_soft : State := { ex_lines with softscroll := true }

/-- Bytes fed through `out_char` to `&cons_table[i]`. -/
def driver_out_chars (d : Driver) (i : Nat) (cs : List Int) : Driver :=
  console_store d i (out_chars (console_view d i) cs)

/-- One lower-case hexadecimal digit. -/
def Hexdump.hex_digit (d : Nat) : Char :=
  "0123456789abcdef".toList.getD d '0'

/-- Fuelled worker of `Hexdump.hex`: the digits of `n`, most significant
first. -/
def Hexdump.hex_aux : Nat → Nat → List Char
  | 0, _ => []
  | f + 1, n =>
      if n < 16 then [Hexdump.hex_digit n]
      else Hexdump.hex_aux f (n / 16) ++ [Hexdump.hex_digit (n % 16)]

/-- The conversion `%0wx` of `printf`: `n` in lower-case hexadecimal, padded
with zeros to at least `w` digits. -/
def Hexdump.hex (w n : Nat) : List Char :=
  let ds := Hexdump.hex_aux (n + 1) n
  List.replicate (w - ds.length) '0' ++ ds

/-- The body of the `for` loop of `print_buf` for the index `i`. -/
def Hexdump.print_byte (buf : Nat → Nat) (i : Nat) : List Char :=
  (if i &&& 0x0f = 0 then Hexdump.hex 4 i ++ ":   ".toList else [])
    ++ Hexdump.hex 2 (buf i &&& 0x00ff) ++ [' ']
    ++ (if i &&& 0x0f = 0xf then ['\n'] else [])

/-- The function `print_buf(buf, size)` of hexdump, for a buffer that is not
null: the characters it prints. -/
def Hexdump.print_buf (buf : Nat → Nat) (size : Nat) : List Char :=
  ((List.range size).map (Hexdump.print_byte buf)).flatten ++ ['\n']

/-- The loop `while (fread (buf+(size++), 1, 1, f));` of `main` over the bytes
that are left in the file: every call of `fread` is passed `buf + size` and
increments `size`, also the last one, which finds the end of the file, stores
nothing and returns 0.  The array `buf` has 16384 elements: the model is that of
the loop for a file of fewer than 16384 bytes, and does not represent the
overrun of the array by a longer file. -/
def Hexdump.read_loop : List Nat → (Nat → Nat) → Nat → (Nat → Nat) × Nat
  | [], buf, size => (buf, size + 1)
  | b :: rest, buf, size => Hexdump.read_loop rest (Function.update buf size b) (size + 1)

/-- The function `main` of hexdump: `file` is the content of the file named by
`argv[1]`, or `none` when it cannot be opened, and `buf` what the automatic
array `buf` holds on entry.  The result is the exit status and the characters
printed on the standard output. -/
def Hexdump.main (argc : Nat) (file : Option (List Nat)) (buf : Nat → Nat) :
    Nat × List Char :=
  if argc ≠ 2 then (1, "Usage: hexdump FILE\n".toList)
  else
    match file with
    | none => (2, [])
    | some bytes =>
        let r := Hexdump.read_loop bytes buf 0
        (0, Hexdump.print_buf r.1 r.2)

/-- The test of `scroll_screen` for the relocation path, with software
scrolling off: the display does not wrap and, for `SCROLL_UP`,
`c_org + scr_size + scr_width >= c_limit` in the arithmetic of `unsigned`, for
`SCROLL_DOWN`, `c_org < c_start + scr_width`. -/
def relocates (s : State) (dir : Nat) : Prop :=
  s.display.wrap = false
    ∧ (if dir = SCROLL_UP then uadd (uadd s.cons.c_org scr_size) scr_width ≥ s.cons.c_limit
       else s.cons.c_org < uadd s.cons.c_start scr_width)

instance (s : State) (dir : Nat) : Decidable (relocates s dir) := by
  unfold relocates
  infer_instance

/-- The video memory after `scroll_screen` has blanked the new line at the
origin `org`, in the memory `v`. -/
def blank_new_line (s : State) (dir org : Nat) (v : Nat → Nat) : Nat → Nat :=
  mem_vid_copy none
    (if dir = SCROLL_UP then (uadd org (scr_size - scr_width)) &&& s.display.vid_mask else org)
    scr_width s.display v

/-- The console `ex_first` with its origin at `org`. -/
def ex_first_at (org : Nat) : State :=
  { ex_first with cons := { ex_first.cons with c_org := org, c_cur := org } }

/-- The state with the cursor at row `r` and column `c`. -/
def set_cursor (s : State) (r c : Int) : State :=
  { s with cons := { s.cons with c_row := r, c_column := c } }

/-- The state with the given escape state, introducer and parameters. -/
def set_esc (s : State) (st intro pp : Nat) (p0 p1 : Int) : State :=
  { s with cons := { s.cons with
      c_esc_state := st, c_esc_intro := intro, c_esc_parmp := pp,
      c_esc_parmv0 := p0, c_esc_parmv1 := p1 } }

/-- Queue one cell and advance the column, as `out_char` and the inner loop of
`cons_write` do for a printable byte. -/
def queue_step (s : State) (b : Nat) : State :=
  { queue_char s b with
    cons := { (queue_char s b).cons with c_column := s.cons.c_column + 1 } }

/-- A property of the console that the building blocks of the output path
keep: `flush` and `scroll_screen` after any move of the cursor, a change of
the escape fields, queueing a cell left of the margin with room in the queue,
the `ESC [` commands with nothing pending, and the beep. -/
structure Kept (P : State → Prop) : Prop where
  on_flush : ∀ s r c, P s → P (flush (set_cursor s r c))
  on_scroll : ∀ s r c dir, P s → P (scroll_screen (set_cursor s r c) dir)
  on_esc : ∀ s st i pp p0 p1, P s → P (set_esc s st i pp p0 p1)
  on_queue : ∀ s b, P s → s.cons.c_column < scr_width → s.cons.c_rwords ≠ CONS_RAM_WORDS →
    P (queue_step s b)
  on_csi : ∀ s c, P s → s.cons.c_rwords = 0 → P (do_escape_csi s c)
  on_beep : ∀ s, P s → P (beep s)

/-- The window predicate of `scroll_screen` for a console on a display that
does not wrap, `c_start <= c_org && c_org + scr_size <= c_limit`, together
with what makes the display and the region well formed: the address mask is
one less than a power of two and the region lies inside the addressed
memory. -/
def region_ok (s : State) : Prop :=
  s.display.wrap = false ∧ mask_ok s.display ∧ s.cons.c_limit ≤ s.display.vid_mask + 1
    ∧ s.cons.c_start ≤ s.cons.c_org ∧ s.cons.c_org + scr_size ≤ s.cons.c_limit

/-- The console `ex_first` on row 24, under the given scrolling mode. -/
def ex_first_bottom (soft : Bool) : State :=
  { ex_first with cons := { ex_first.cons with c_row := 24, c_cur := 1920 }, softscroll := soft }

/-- The relation between the cached cursor address and the logical cursor:
`c_cur + c_rwords == c_org + c_row * scr_width + c_column`, in the arithmetic
of the type `unsigned`. -/
def queue_synced (s : State) : Prop :=
  uadd s.cons.c_cur s.cons.c_rwords
    = to_unsigned ((s.cons.c_org : Int) + s.cons.c_row * scr_width + s.cons.c_column)

instance (s : State) : Decidable (queue_synced s) := by
  unfold queue_synced
  infer_instance

/-- Nothing is pending and the cached cursor address is that of the cursor:
`c_rwords == 0` and `c_cur == c_org + c_row * scr_width + c_column`. -/
def settled (s : State) : Prop :=
  s.cons.c_rwords = 0
    ∧ s.cons.c_cur
        = to_unsigned ((s.cons.c_org : Int) + s.cons.c_row * scr_width + s.cons.c_column)

instance (s : State) : Decidable (settled s) := by
  unfold settled
  infer_instance

/-- The memory `w` differs from the memory `v` at word addresses from `lo`
up to, but not including, `hi` only. -/
def changed_within (lo hi : Nat) (v w : Nat → Nat) : Prop :=
  ∀ x, ¬ (lo ≤ x ∧ x < hi) → w x = v x

/-- The pending queue lies in the cursor's row: the cursor is in range, the
queue holds no more cells than there are columns left of the cursor, and
`c_cur + c_rwords == c_org + c_row * scr_width + c_column` as numbers. -/
def queue_in_row (s : State) : Prop :=
  cursor_in_range s ∧ (s.cons.c_rwords : Int) ≤ s.cons.c_column
    ∧ (s.cons.c_cur : Int) + s.cons.c_rwords
        = s.cons.c_org + s.cons.c_row * scr_width + s.cons.c_column

instance (s : State) : Decidable (queue_in_row s) := by
  unfold queue_in_row
  infer_instance

/-- The invariant behind C33, for a console whose region is `a` to `b` and
which started with the video memory `v0`: the window predicate holds on a
well-formed display that does not wrap, the pending queue lies in the
cursor's row, and the video memory differs from `v0` inside the region
only. -/
def writes_ok (a b : Nat) (v0 : Nat → Nat) (r : State) : Prop :=
  region_ok r ∧ queue_in_row r ∧ r.cons.c_start = a ∧ r.cons.c_limit = b
    ∧ changed_within a b v0 r.vram

/-- The console `ex_first` two lines below the start of its region, on a
screen whose memory holds the letter number `a / 80` of the alphabet at every
word address `a`. -/
def ex_window : State :=
  { ex_first_at 160 with vram := fun a => 0x0741 + a / 80 }

/-- The port of the monochrome 6845, `M_6845`. -/
def M_6845 : Nat := 0x3B4

/-- The base of the monochrome video memory, `MONO_BASE`. -/
def MONO_BASE : Nat := 0xB0000

/-- The base of the colour video memory, `COLOR_BASE`. -/
def COLOR_BASE : Nat := 0xB8000

/-- The size in bytes of the monochrome video memory, `MONO_SIZE`. -/
def MONO_SIZE : Nat := 0x1000

/-- The size in bytes of the colour video memory, `COLOR_SIZE`. -/
def COLOR_SIZE : Nat := 0x4000

/-- The size in bytes of the video memory of an EGA or VGA, `EGA_SIZE`. -/
def EGA_SIZE : Nat := 0x8000

/-- The function `init_display(display, crtport, ega_or_vga)` for one of the
two entries of `display_table`.  `seg` is the value that the function stores in
`vid_seg`, a selector or a click number that it gets from `protected_mode`,
`VIDEO_SELECTOR0`, `VIDEO_SELECTOR1` and `physb_to_hclick`, none of which is
among the sources; the call of `init_dataseg` is not modelled. -/
def init_display (display : display_t) (crtport : Nat) (ega_or_vga : Bool) (seg : Nat) :
    display_t :=
  let display := { display with vid_port := crtport }
  let display :=
    if display.vid_port = C_6845 then
      { display with vid_base := COLOR_BASE, vid_size := COLOR_SIZE }
    else { display with vid_base := MONO_BASE, vid_size := MONO_SIZE }
  let display := if ega_or_vga then { display with vid_size := EGA_SIZE } else display
  let display := { display with wrap := !ega_or_vga }
  let display := { display with vid_seg := seg }
  let display := { display with vid_size := display.vid_size >>> 1 }
  { display with vid_mask := usub display.vid_size 1 }

/-- The function `set_mda()`: the bytes it writes to the ports of the
monochrome adapter. -/
def set_mda (ports : List (Nat × Nat)) : List (Nat × Nat) :=
  let init_data : List Nat :=
    [0x61, 0x50, 0x52, 0x0f, 0x19, 0x06, 0x19, 0x19, 0x02, 0x0d, 0x0b, 0x0c,
     0x00, 0x00, 0x00, 0x00]
  ports ++ [(0x03b8, 0x01)]
    ++ ((List.range 16).map (fun i => [(0x03b4, i), (0x03b5, init_data.getD i 0)])).flatten
    ++ [(0x03b8, 0x29), (0x03b4, 10), (0x03b5, 0x00), (0x03b4, 11), (0x03b5, 14)]

/-- The function `scr_init(tp)` for the tty number `line`.  `bios_crtbase` is
the word that the function reads at the physical address 0x463, `ega` the
global of that name and `NR_CONS` the configuration constant, at least 1
(neither is defined among the sources); `seg k` is the value that
`init_display` stores in `vid_seg` of display `k`.  The call of `kb_init` and
the stores into the tty structure are not modelled. -/
def scr_init (d : Driver) (line : Nat) (bios_crtbase : Nat) (ega : Bool) (NR_CONS : Int)
    (seg : Nat → Nat) : Driver :=
  if (line : Int) ≥ d.nr_cons then d
  else
    let t0 := init_display (d.display_table 0) bios_crtbase ega (seg 0)
    let t1 := init_display (d.display_table 1) M_6845 false (seg 1)
    let nr : Int := ((uadd t0.vid_size t1.vid_size / scr_size : Nat) : Int)
    let nr := if nr > NR_CONS then NR_CONS else nr
    let t0 := if nr > 1 then { t0 with wrap := false } else t0
    let t1 := if nr > 1 then { t1 with wrap := false } else t1
    let mda : Bool := decide ((line : Int) = nr - 1 ∧ line ≠ 0)
    let page_size := t0.vid_size / to_unsigned nr
    let start := if mda then 0 else to_unsigned ((line : Int) * (page_size : Int))
    let limit := if mda then 2048 else uadd start page_size
    let k := if mda then 1 else 0
    let cons : console_t :=
      { d.cons_table line with
        c_start := start, c_limit := limit, c_org := start
        c_attr := BLANK_COLOR, c_blank := BLANK_COLOR }
    let t0 := if mda then t0 else { t0 with blank_color := BLANK_COLOR }
    let t1 := if mda then { t1 with blank_color := BLANK_COLOR } else t1
    let table := Function.update (Function.update d.display_table 0 t0) 1 t1
    let d1 : Driver :=
      { d with
        cons_table := Function.update d.cons_table line cons
        display := Function.update d.display line k
        display_table := table
        vram := Function.update d.vram k (mem_vid_copy none start scr_size (table k) (d.vram k))
        nr_cons := nr
        ports := if mda then set_mda d.ports else d.ports }
    select_console d1 0

/-- The driver before the first call of `scr_init`: `nr_cons` is 1,
`annoying_beep` is 1 and the rest of the static storage is zero.  The video
memories hold zeros here, and `LINEWRAP` is taken as set. -/
def boot_driver : Driver :=
  { cons_table := fun _ =>
      { c_column := 0, c_row := 0, c_rwords := 0, c_start := 0, c_limit := 0, c_org := 0,
        c_cur := 0, c_attr := 0, c_blank := 0, c_esc_state := 0, c_esc_intro := 0,
        c_esc_parmp := 0, c_esc_parmv0 := 0, c_esc_parmv1 := 0, c_ramqueue := fun _ => 0 }
    c_tty := fun _ => { opost_onlcr := true, tty_position := 0, tty_reprint := false }
    display := fun _ => 0
    display_table := fun _ =>
      { vid_seg := 0, vid_size := 0, vid_mask := 0, blank_color := 0, vid_port := 0,
        wrap := false, soft_scroll := false, vid_base := 0 }
    vram := fun _ _ => 0
    nr_cons := 1, current := 0, curcons := none
    softscroll := false, annoying_beep := true, beeping := false, port_b := 0
    LINEWRAP := true, color := false, ports := [] }

/-- The driver after `scr_init` has run for the tty lines `0` to `n - 1`, in
this order, from `boot_driver`, with 0 for the values of `vid_seg`. -/
def scr_init_lines (n : Nat) (bios_crtbase : Nat) (ega : Bool) (NR_CONS : Int) : Driver :=
  (List.range n).foldl (fun d line => scr_init d line bios_crtbase ega NR_CONS (fun _ => 0))
    boot_driver

/-- The consoles `i` and `j` of a display are kept apart: the display does not
wrap, the window of console `i` lies inside its region, and the two regions
are disjoint. -/
def apart (d : Driver) (i j : Nat) : Prop :=
  (d.display_table (d.display i)).wrap = false
    ∧ (d.cons_table i).c_org + scr_size ≤ (d.cons_table i).c_limit
    ∧ ((d.cons_table i).c_limit ≤ (d.cons_table j).c_start
        ∨ (d.cons_table j).c_limit ≤ (d.cons_table i).c_start)

instance (d : Driver) (i j : Nat) : Decidable (apart d i j) := by
  unfold apart
  infer_instance

/-- Any two consoles that share a display are kept apart. -/
def org0_separate (d : Driver) : Prop :=
  ∀ i, i < d.nr_cons.toNat → ∀ j, j < d.nr_cons.toNat → i ≠ j → d.display i = d.display j →
    apart d i j

instance (d : Driver) : Decidable (org0_separate d) := by
  unfold org0_separate
  infer_instance

/-- What `cons_org0` keeps of the driver `d0` while it works, with nothing
pending: besides `org0_frame`, the limits of the regions and the empty queues,
and what every console shows. -/
def org0_shown (d0 d : Driver) : Prop :=
  org0_frame d0 d
    ∧ (∀ j, (d.cons_table j).c_limit = (d0.cons_table j).c_limit
          ∧ (d.cons_table j).c_rwords = (d0.cons_table j).c_rwords)
    ∧ ∀ j, j < d0.nr_cons.toNat → ∀ k, k < scr_size →
        visible (console_view d j) k = visible (console_view d0 j) k

/-- The driver `ex_driver` after `out_char` of the letter A on its second
console: the cell of the letter is pending. -/
def ex_driver_pending : Driver := driver_out_chars ex_driver 1 [65]

/-! # Properties -/

/-! ## Video memory runs -/

theorem write_run_zero (d : display_t) (cells : Nat → Nat) (dst : Nat) (v : Nat → Nat) :
    write_run d cells dst 0 v = v := by
  funext a
  simp [write_run]

theorem write_run_succ (d : display_t) (cells : Nat → Nat) (dst n : Nat) (v : Nat → Nat) :
    write_run d cells dst (n + 1) v
      = Function.update (write_run d cells dst n v) (vid_addr d (dst + n)) (cells n) := by
  funext a
  simp [write_run, Function.update_apply]

/-! ## flush -/

theorem flush_eq (s : State) :
    flush s =
      { s with
        vram := write_run s.display s.cons.c_ramqueue s.cons.c_cur s.cons.c_rwords s.vram
        tty := if 0 < s.cons.c_rwords then
                 { s.tty with tty_position := s.cons.c_column, tty_reprint := true }
               else s.tty
        ports := if flush_cur_addr s ≠ s.cons.c_cur ∧ s.is_curcons = true then
                   set_6845 CURSOR (flush_cur_addr s) s.display s.ports
                 else s.ports
        cons := { s.cons with
          c_rwords := 0
          c_column := clip_column s.cons.c_column
          c_row := clip_row s.cons.c_row
          c_cur := flush_cur_addr s } } := by
  obtain ⟨c, t, d, v, ic, ss, ab, bp, pb, lw, co, po⟩ := s
  obtain ⟨col, row, rw, st, li, og, cu, att, bl, es, ei, ep, p0, p1, q⟩ := c
  by_cases h : 0 < rw
  · by_cases h2 : to_unsigned ((og : Int) + clip_row row * scr_width + clip_column col) = cu
    · simp [flush, flush_queue, flush_cursor, flush_cur_addr, h, h2, mem_vid_copy]
    · by_cases h3 : ic = true
      · simp [flush, flush_queue, flush_cursor, flush_cur_addr, h, h2, h3, mem_vid_copy]
      · simp [flush, flush_queue, flush_cursor, flush_cur_addr, h, h2, h3, mem_vid_copy]
  · have h0 : rw = 0 := by omega
    subst h0
    by_cases h2 : to_unsigned ((og : Int) + clip_row row * scr_width + clip_column col) = cu
    · simp [flush, flush_queue, flush_cursor, flush_cur_addr, h2, write_run_zero]
    · by_cases h3 : ic = true
      · simp [flush, flush_queue, flush_cursor, flush_cur_addr, h2, h3, write_run_zero]
      · simp [flush, flush_queue, flush_cursor, flush_cur_addr, h2, h3, write_run_zero]

@[simp] theorem flush_vram (s : State) :
    (flush s).vram
      = write_run s.display s.cons.c_ramqueue s.cons.c_cur s.cons.c_rwords s.vram := by
  rw [flush_eq]

@[simp] theorem flush_column (s : State) :
    (flush s).cons.c_column = clip_column s.cons.c_column := by
  rw [flush_eq]

@[simp] theorem flush_row (s : State) : (flush s).cons.c_row = clip_row s.cons.c_row := by
  rw [flush_eq]

@[simp] theorem flush_cur (s : State) : (flush s).cons.c_cur = flush_cur_addr s := by
  rw [flush_eq]

@[simp] theorem flush_rwords (s : State) : (flush s).cons.c_rwords = 0 := by
  rw [flush_eq]

@[simp] theorem flush_org (s : State) : (flush s).cons.c_org = s.cons.c_org := by
  rw [flush_eq]

@[simp] theorem flush_start (s : State) : (flush s).cons.c_start = s.cons.c_start := by
  rw [flush_eq]

@[simp] theorem flush_limit (s : State) : (flush s).cons.c_limit = s.cons.c_limit := by
  rw [flush_eq]

@[simp] theorem flush_attr (s : State) : (flush s).cons.c_attr = s.cons.c_attr := by
  rw [flush_eq]

@[simp] theorem flush_blank (s : State) : (flush s).cons.c_blank = s.cons.c_blank := by
  rw [flush_eq]

@[simp] theorem flush_esc_state (s : State) :
    (flush s).cons.c_esc_state = s.cons.c_esc_state := by
  rw [flush_eq]

@[simp] theorem flush_esc_intro (s : State) :
    (flush s).cons.c_esc_intro = s.cons.c_esc_intro := by
  rw [flush_eq]

@[simp] theorem flush_esc_parmp (s : State) :
    (flush s).cons.c_esc_parmp = s.cons.c_esc_parmp := by
  rw [flush_eq]

@[simp] theorem flush_esc_parmv0 (s : State) :
    (flush s).cons.c_esc_parmv0 = s.cons.c_esc_parmv0 := by
  rw [flush_eq]

@[simp] theorem flush_esc_parmv1 (s : State) :
    (flush s).cons.c_esc_parmv1 = s.cons.c_esc_parmv1 := by
  rw [flush_eq]

@[simp] theorem flush_ramqueue (s : State) :
    (flush s).cons.c_ramqueue = s.cons.c_ramqueue := by
  rw [flush_eq]

@[simp] theorem flush_display (s : State) : (flush s).display = s.display := by
  rw [flush_eq]

@[simp] theorem flush_is_curcons (s : State) : (flush s).is_curcons = s.is_curcons := by
  rw [flush_eq]

@[simp] theorem flush_softscroll (s : State) : (flush s).softscroll = s.softscroll := by
  rw [flush_eq]

@[simp] theorem flush_LINEWRAP (s : State) : (flush s).LINEWRAP = s.LINEWRAP := by
  rw [flush_eq]

@[simp] theorem flush_color (s : State) : (flush s).color = s.color := by
  rw [flush_eq]

@[simp] theorem flush_opost_onlcr (s : State) :
    (flush s).tty.opost_onlcr = s.tty.opost_onlcr := by
  rw [flush_eq]
  by_cases h : 0 < s.cons.c_rwords <;> simp [h]

theorem clip_column_of_range (c : Int) (h0 : 0 ≤ c) (h1 : c ≤ scr_width) :
    clip_column c = c := by
  unfold clip_column
  simp only [scr_width] at *
  split_ifs <;> omega

theorem clip_row_of_range (r : Int) (h0 : 0 ≤ r) (h1 : r < scr_lines) : clip_row r = r := by
  unfold clip_row
  simp only [scr_lines] at *
  split_ifs <;> omega

theorem clip_column_range (c : Int) : 0 ≤ clip_column c ∧ clip_column c ≤ scr_width := by
  unfold clip_column
  simp only [scr_width]
  split_ifs <;> omega

theorem clip_row_range (r : Int) : 0 ≤ clip_row r ∧ clip_row r < scr_lines := by
  unfold clip_row
  simp only [scr_lines]
  split_ifs <;> omega

/-! ## out_char on a printable byte -/

theorem out_char_printable_state (s : State) (c : Int)
    (hesc : s.cons.c_esc_state = 0) (hcol : s.cons.c_column < scr_width)
    (hq : s.cons.c_rwords < CONS_RAM_WORDS) (hc : ¬ is_control c) :
    out_char s c =
      { s with cons := { s.cons with
          c_ramqueue := Function.update s.cons.c_ramqueue s.cons.c_rwords
                          ((s.cons.c_attr ||| low_byte c) % 65536)
          c_rwords := s.cons.c_rwords + 1
          c_column := s.cons.c_column + 1 } } := by
  simp only [is_control, not_or] at hc
  obtain ⟨h0, h7, h8, h9, h10, h11, h12, h13, h27⟩ := hc
  have hcol' : ¬ (s.cons.c_column ≥ (scr_width : Int)) := by omega
  have hq' : s.cons.c_rwords ≠ CONS_RAM_WORDS := by omega
  simp [out_char, hesc, h0, h7, h8, h9, h10, h11, h12, h13, h27, hcol', hq', queue_char]

theorem or_low_byte (a l : Nat) (ha : a % 256 = 0) (hl : l < 256) : a ||| l = a + l := by
  have h := Nat.mul_add_lt_is_or (i := 8) (b := l) (by simpa using hl) (a / 256)
  have e : 2 ^ 8 * (a / 256) = a := by
    have := Nat.div_add_mod a 256
    omega
  rw [e] at h
  exact h.symm

theorem low_byte_lt (c : Int) : low_byte c < 256 := by
  unfold low_byte
  omega

theorem low_byte_natCast (b : Nat) : low_byte (b : Int) = b % 256 := by
  unfold low_byte
  omega

theorem not_is_control_of_ge (b : Nat) (h : 32 ≤ b) : ¬ is_control (b : Int) := by
  unfold is_control
  omega

theorem and_BYTE (b : Nat) : b &&& BYTE = b % 256 := by
  have := Nat.and_pow_two_sub_one_eq_mod b 8
  simpa [BYTE] using this

theorem cur_addr_succ (org : Nat) (row col : Int) (hr0 : 0 ≤ row) (hr1 : row < scr_lines)
    (hc0 : 0 ≤ col) (hc1 : col < scr_width) (hwin : org + scr_size < UINT_MOD) :
    to_unsigned ((org : Int) + row * scr_width + (col + 1))
      = to_unsigned ((org : Int) + row * scr_width + col) + 1 := by
  simp only [to_unsigned, UINT_MOD, scr_size, scr_width, scr_lines] at *
  push_cast at *
  have h1 : ((org : Int) + row * 80 + col) % 65536 = (org : Int) + row * 80 + col :=
    Int.emod_eq_of_lt (by omega) (by omega)
  have h2 : ((org : Int) + row * 80 + (col + 1)) % 65536 = (org : Int) + row * 80 + (col + 1) :=
    Int.emod_eq_of_lt (by omega) (by omega)
  rw [h1, h2]
  omega

theorem write_run_front (d : display_t) (cells : Nat → Nat) (dst n : Nat) (v : Nat → Nat) :
    write_run d cells dst (n + 1) v
      = write_run d (fun i => cells (i + 1)) (dst + 1) n
          (Function.update v (vid_addr d dst) (cells 0)) := by
  induction n with
  | zero => simp [write_run_succ, write_run_zero]
  | succ n ih =>
    rw [write_run_succ, ih, write_run_succ]
    have e : dst + (n + 1) = dst + 1 + n := by omega
    rw [e]

theorem write_run_congr (d : display_t) (f g : Nat → Nat) (dst n : Nat) (v : Nat → Nat)
    (h : ∀ i, i < n → f i = g i) : write_run d f dst n v = write_run d g dst n v := by
  induction n with
  | zero => simp [write_run_zero]
  | succ n ih =>
    rw [write_run_succ, write_run_succ, ih (fun i hi => h i (by omega)), h n (by omega)]

/-! ## C2: one printable byte -/

/-- C2 (as amended): on a console in Normal escape state whose pending queue is
empty, whose cursor is in range with `c_column < scr_width` and whose attribute
has an empty low byte, `out_char(b)` for a byte `b` that is not a control code,
followed by `flush`, stores the cell `c_attr | (b & 0xFF)` at the cached cursor
address `c_cur` and changes no other cell; the low byte of that cell is
`b & 0xFF` and its high byte is the high byte of `c_attr`; `c_column` advances
by one and `c_row` is unchanged. -/
theorem C2_printable_cell (s : State) (b : Int)
    (hesc : s.cons.c_esc_state = 0) (hq : s.cons.c_rwords = 0)
    (hcur : cursor_in_range s) (hcol : s.cons.c_column < scr_width)
    (hattr : s.cons.c_attr % 256 = 0) (hb : ¬ is_control b) :
    (flush (out_char s b)).vram
        = Function.update s.vram (vid_addr s.display s.cons.c_cur)
            ((s.cons.c_attr ||| low_byte b) % 65536)
      ∧ (s.cons.c_attr ||| low_byte b) % 65536 % 256 = low_byte b
      ∧ (s.cons.c_attr ||| low_byte b) % 65536 / 256 = s.cons.c_attr / 256 % 256
      ∧ (flush (out_char s b)).cons.c_column = s.cons.c_column + 1
      ∧ (flush (out_char s b)).cons.c_row = s.cons.c_row := by
  obtain ⟨hr0, hr1, hc0, hc1⟩ := hcur
  have hq' : s.cons.c_rwords < CONS_RAM_WORDS := by simp [hq, CONS_RAM_WORDS]
  rw [out_char_printable_state s b hesc hcol hq' hb]
  have hl := low_byte_lt b
  rw [or_low_byte _ _ hattr hl]
  refine ⟨?_, by omega, by omega, ?_, ?_⟩
  · simp [hq, write_run_succ, write_run_zero]
  · simp only [flush_column]
    exact clip_column_of_range _ (by omega) (by omega)
  · simp only [flush_row]
    exact clip_row_of_range _ hr0 hr1

/-- C2, witness: the letter `A` on the freshly initialised console. -/
theorem C2_printable_cell_witness :
    (flush (out_char ex_state 65)).vram
        = Function.update ex_state.vram (vid_addr ex_state.display ex_state.cons.c_cur)
            ((ex_state.cons.c_attr ||| low_byte 65) % 65536)
      ∧ (ex_state.cons.c_attr ||| low_byte 65) % 65536 % 256 = low_byte 65
      ∧ (ex_state.cons.c_attr ||| low_byte 65) % 65536 / 256 = ex_state.cons.c_attr / 256 % 256
      ∧ (flush (out_char ex_state 65)).cons.c_column = ex_state.cons.c_column + 1
      ∧ (flush (out_char ex_state 65)).cons.c_row = ex_state.cons.c_row :=
  C2_printable_cell ex_state 65 (by decide) (by decide) (by decide) (by decide) (by decide)
    (by decide)

/-- C2, counterexample: after `out_char('A')` on the fresh console the state is
Normal with `c_column == 1 < scr_width` and one cell pending; `out_char('B')`
followed by `flush` then changes two cells, the one at address 0 and the one at
address 1. -/
theorem C2_counterexample :
    (out_char ex_state 65).cons.c_esc_state = 0
      ∧ (out_char ex_state 65).cons.c_column < scr_width
      ∧ ¬ is_control 66
      ∧ (flush (out_char (out_char ex_state 65) 66)).vram 0 ≠ (out_char ex_state 65).vram 0
      ∧ (flush (out_char (out_char ex_state 65) 66)).vram 1 ≠ (out_char ex_state 65).vram 1 := by
  decide

/-! ## C1: batching -/

/-- What one `cons_echo` of a printable byte does to a console at rest. -/
theorem cons_echo_printable (s : State) (b : Nat)
    (hesc : s.cons.c_esc_state = 0) (hq : s.cons.c_rwords = 0)
    (hcur : cursor_in_range s) (hsync : cursor_synced s)
    (hwin : s.cons.c_org + scr_size < UINT_MOD)
    (hcol : s.cons.c_column < scr_width) (hb : 32 ≤ b) :
    (cons_echo s b).vram
        = Function.update s.vram (vid_addr s.display s.cons.c_cur) (cell_of s.cons.c_attr b)
      ∧ (cons_echo s b).cons.c_cur = s.cons.c_cur + 1
      ∧ (cons_echo s b).cons.c_column = s.cons.c_column + 1
      ∧ (cons_echo s b).cons.c_row = s.cons.c_row
      ∧ (cons_echo s b).cons.c_org = s.cons.c_org
      ∧ (cons_echo s b).cons.c_attr = s.cons.c_attr
      ∧ (cons_echo s b).display = s.display
      ∧ (cons_echo s b).cons.c_esc_state = 0
      ∧ (cons_echo s b).cons.c_rwords = 0 := by
  obtain ⟨hr0, hr1, hc0, hc1⟩ := hcur
  have hq' : s.cons.c_rwords < CONS_RAM_WORDS := by simp [hq, CONS_RAM_WORDS]
  unfold cons_echo
  rw [out_char_printable_state s b hesc hcol hq' (not_is_control_of_ge b hb)]
  have hcc : clip_column (s.cons.c_column + 1) = s.cons.c_column + 1 :=
    clip_column_of_range _ (by omega) (by omega)
  have hcc0 : clip_column s.cons.c_column = s.cons.c_column :=
    clip_column_of_range _ (by omega) (by omega)
  have hrr : clip_row s.cons.c_row = s.cons.c_row := clip_row_of_range _ hr0 hr1
  refine ⟨?_, ?_, ?_, ?_, ?_, ?_, ?_, ?_, ?_⟩
  · simp [hq, write_run_succ, write_run_zero, cell_of, low_byte_natCast]
  · simp only [flush_cur, flush_cur_addr, hcc, hrr]
    unfold cursor_synced flush_cur_addr at hsync
    rw [hsync, hcc0, hrr]
    exact cur_addr_succ _ _ _ hr0 hr1 hc0 hcol hwin
  · simp [hcc]
  · simp [hrr]
  · simp
  · simp
  · simp
  · simp [hesc]
  · simp

/-- Feeding printable bytes one at a time through `cons_echo`: the bytes land
in consecutive cells from the cursor on. -/
theorem cons_echos_printable (bs : List Nat) : ∀ (s : State),
    s.cons.c_esc_state = 0 → s.cons.c_rwords = 0 → cursor_in_range s → cursor_synced s →
    s.cons.c_org + scr_size < UINT_MOD → s.cons.c_column + bs.length ≤ scr_width →
    (∀ b ∈ bs, 32 ≤ b) →
    (cons_echos s (bs.map Int.ofNat)).vram
        = write_run s.display (cells_of s.cons.c_attr bs) s.cons.c_cur bs.length s.vram
      ∧ (cons_echos s (bs.map Int.ofNat)).cons.c_column = s.cons.c_column + bs.length
      ∧ (cons_echos s (bs.map Int.ofNat)).cons.c_row = s.cons.c_row
      ∧ (cons_echos s (bs.map Int.ofNat)).cons.c_org = s.cons.c_org
      ∧ cursor_synced (cons_echos s (bs.map Int.ofNat)) := by
  induction bs with
  | nil =>
    intro s _ _ _ hsync _ _ _
    simp [cons_echos, write_run_zero, hsync]
  | cons b bs ih =>
    intro s hesc hq hcur hsync hwin hfit hpr
    have hlen : (b :: bs).length = bs.length + 1 := rfl
    rw [hlen] at hfit
    push_cast at hfit
    have hcol : s.cons.c_column < scr_width := by
      have : (0 : Int) ≤ bs.length := Int.natCast_nonneg _
      omega
    obtain ⟨e1, e2, e3, e4, e5, e6, e7, e8, e9⟩ :=
      cons_echo_printable s b hesc hq hcur hsync hwin hcol (hpr b (List.mem_cons_self _ _))
    have hcur' : cursor_in_range (cons_echo s b) := by
      obtain ⟨hr0, hr1, hc0, hc1⟩ := hcur
      refine ⟨?_, ?_, ?_, ?_⟩
      · rw [e4]; exact hr0
      · rw [e4]; exact hr1
      · rw [e3]; omega
      · rw [e3]; omega
    have hsync' : cursor_synced (cons_echo s b) := by
      unfold cursor_synced cons_echo
      rw [flush_cur]
      simp [flush_cur_addr, clip_column_of_range _ (clip_column_range _).1 (clip_column_range _).2,
        clip_row_of_range _ (clip_row_range _).1 (clip_row_range _).2]
    have hfit' : (cons_echo s b).cons.c_column + bs.length ≤ scr_width := by
      rw [e3]; omega
    obtain ⟨r1, r2, r3, r4, r5⟩ :=
      ih (cons_echo s b) e8 e9 hcur' hsync' (by rw [e5]; exact hwin) hfit'
        (fun x hx => hpr x (List.mem_cons_of_mem _ hx))
    have hstep : cons_echos s ((b :: bs).map Int.ofNat)
        = cons_echos (cons_echo s b) (bs.map Int.ofNat) := by
      simp [cons_echos]
    rw [hstep]
    refine ⟨?_, ?_, ?_, ?_, r5⟩
    · rw [r1, e1, e2, e6, e7, hlen, write_run_front]
      rfl
    · rw [r2, e3]; omega
    · rw [r3, e4]
    · rw [r4, e5]

/-- One round of the inner loop of `cons_write` on an easy character. -/
theorem cons_write_byte_easy (s : State) (b : Nat)
    (hesc : s.cons.c_esc_state = 0) (hcol : s.cons.c_column < scr_width)
    (hq : s.cons.c_rwords < CONS_RAM_WORDS) (hb : 32 ≤ b) :
    cons_write_byte s b =
      { s with cons := { s.cons with
          c_ramqueue := Function.update s.cons.c_ramqueue s.cons.c_rwords
                          (cell_of s.cons.c_attr b)
          c_rwords := s.cons.c_rwords + 1
          c_column := s.cons.c_column + 1 } } := by
  have h1 : ¬ b < 32 := by omega
  have h2 : ¬ (s.cons.c_column ≥ (scr_width : Int)) := by omega
  have h3 : ¬ (s.cons.c_rwords ≥ CONS_RAM_WORDS) := by omega
  simp [cons_write_byte, h1, h2, h3, hesc, queue_char, cell_of, and_BYTE]

/-- A run of easy characters through any step function that queues them. -/
theorem easy_run (f : State → Nat → State)
    (hf : ∀ (s : State) (b : Nat), s.cons.c_esc_state = 0 → s.cons.c_column < scr_width →
      s.cons.c_rwords < CONS_RAM_WORDS → 32 ≤ b →
      f s b = { s with cons := { s.cons with
                  c_ramqueue := Function.update s.cons.c_ramqueue s.cons.c_rwords
                                  (cell_of s.cons.c_attr b)
                  c_rwords := s.cons.c_rwords + 1
                  c_column := s.cons.c_column + 1 } })
    (bs : List Nat) : ∀ (s : State),
    s.cons.c_esc_state = 0 → s.cons.c_column + bs.length ≤ scr_width →
    s.cons.c_rwords + bs.length ≤ CONS_RAM_WORDS → (∀ b ∈ bs, 32 ≤ b) →
    bs.foldl f s =
      { s with cons := { s.cons with
          c_ramqueue := fun i =>
            if s.cons.c_rwords ≤ i ∧ i < s.cons.c_rwords + bs.length then
              cells_of s.cons.c_attr bs (i - s.cons.c_rwords)
            else s.cons.c_ramqueue i
          c_rwords := s.cons.c_rwords + bs.length
          c_column := s.cons.c_column + bs.length } } := by
  induction bs with
  | nil =>
    intro s _ _ _ _
    obtain ⟨c, t, d, v, ic, ss, ab, bp, pb, lw, co, po⟩ := s
    obtain ⟨col, row, rw, st, li, og, cu, att, bl, es, ei, ep, p0, p1, q⟩ := c
    have e : (fun i => if rw ≤ i ∧ i < rw then cells_of att [] (i - rw) else q i) = q := by
      funext i
      have : ¬ (rw ≤ i ∧ i < rw) := by omega
      simp [this]
    simp [e]
  | cons b bs ih =>
    intro s hesc hfit hroom hpr
    have hlen : (b :: bs).length = bs.length + 1 := rfl
    rw [hlen] at hfit hroom
    push_cast at hfit
    have hnn : (0 : Int) ≤ bs.length := Int.natCast_nonneg _
    rw [List.foldl_cons, hf s b hesc (by omega) (by omega) (hpr b (List.mem_cons_self _ _))]
    rw [ih _ (by simpa using hesc) (by simp; omega) (by simp; omega)
      (fun x hx => hpr x (List.mem_cons_of_mem _ hx))]
    simp only [hlen]
    congr 2 <;> first | (push_cast; omega) | omega | skip
    funext i
    simp only [Function.update_apply, cells_of]
    by_cases h1 : i = s.cons.c_rwords
    · subst h1
      simp
    · by_cases h2 : s.cons.c_rwords + 1 ≤ i ∧ i < s.cons.c_rwords + 1 + bs.length
      · have h3 : s.cons.c_rwords ≤ i ∧ i < s.cons.c_rwords + (bs.length + 1) := by omega
        obtain ⟨k, hk⟩ : ∃ k, i - s.cons.c_rwords = k + 1 := ⟨i - s.cons.c_rwords - 1, by omega⟩
        have hk' : i - (s.cons.c_rwords + 1) = k := by omega
        simp [h1, h2, h3, hk, hk']
      · have h3 : ¬ (s.cons.c_rwords ≤ i ∧ i < s.cons.c_rwords + (bs.length + 1)) := by omega
        simp [h1, h2, h3]

/-- The inner loop of `cons_write` on a run of easy characters only fills the
queue and advances the column. -/
theorem cons_write_loop_easy (bs : List Nat) : ∀ (s : State),
    s.cons.c_esc_state = 0 → s.cons.c_column + bs.length ≤ scr_width →
    s.cons.c_rwords + bs.length ≤ CONS_RAM_WORDS → (∀ b ∈ bs, 32 ≤ b) →
    cons_write_loop s bs =
      { s with cons := { s.cons with
          c_ramqueue := fun i =>
            if s.cons.c_rwords ≤ i ∧ i < s.cons.c_rwords + bs.length then
              cells_of s.cons.c_attr bs (i - s.cons.c_rwords)
            else s.cons.c_ramqueue i
          c_rwords := s.cons.c_rwords + bs.length
          c_column := s.cons.c_column + bs.length } } := by
  intro s hesc hfit hroom hpr
  exact easy_run cons_write_byte cons_write_byte_easy bs s hesc hfit hroom hpr

/-- Batching when the cursor cache is in step: for a console in Normal escape
state with an empty pending queue whose cursor is in range and whose cached
cursor address is in step with it (`c_cur == c_org + c_row * scr_width +
c_column`, the window lying below the end of the `unsigned` range), and for
`k < CONS_RAM_WORDS` printable bytes (each `>= 0x20`) with
`c_column + k <= scr_width`: the inner loop of `cons_write` followed by one
`flush` gives the same video memory, `c_row`, `c_column` and `c_cur` as
`out_char` followed by `flush` on each byte (the `cons_echo` path). -/
theorem batching_when_synced (s : State) (bs : List Nat)
    (hesc : s.cons.c_esc_state = 0) (hq : s.cons.c_rwords = 0)
    (hcur : cursor_in_range s) (hsync : cursor_synced s)
    (hwin : s.cons.c_org + scr_size < UINT_MOD)
    (hpr : ∀ b ∈ bs, 32 ≤ b) (hk : bs.length < CONS_RAM_WORDS)
    (hfit : s.cons.c_column + bs.length ≤ scr_width) :
    (flush (cons_write_loop s bs)).vram = (cons_echos s (bs.map Int.ofNat)).vram
      ∧ (flush (cons_write_loop s bs)).cons.c_row
          = (cons_echos s (bs.map Int.ofNat)).cons.c_row
      ∧ (flush (cons_write_loop s bs)).cons.c_column
          = (cons_echos s (bs.map Int.ofNat)).cons.c_column
      ∧ (flush (cons_write_loop s bs)).cons.c_cur
          = (cons_echos s (bs.map Int.ofNat)).cons.c_cur := by
  obtain ⟨e1, e2, e3, e4, e5⟩ := cons_echos_printable bs s hesc hq hcur hsync hwin hfit hpr
  have hloop := cons_write_loop_easy bs s hesc hfit (by omega) hpr
  obtain ⟨hr0, hr1, hc0, hc1⟩ := hcur
  have hnn : (0 : Int) ≤ bs.length := Int.natCast_nonneg _
  have hcc : clip_column (s.cons.c_column + bs.length) = s.cons.c_column + bs.length :=
    clip_column_of_range _ (by omega) hfit
  have hrr : clip_row s.cons.c_row = s.cons.c_row := clip_row_of_range _ hr0 hr1
  unfold cursor_synced flush_cur_addr at e5
  rw [e2, e3, e4, hcc, hrr] at e5
  rw [hloop]
  refine ⟨?_, ?_, ?_, ?_⟩
  · rw [e1, flush_vram]
    simp only [hq, Nat.zero_add]
    apply write_run_congr
    intro i hi
    simp [hi]
  · rw [e3, flush_row]
    exact hrr
  · rw [e2, flush_column]
    exact hcc
  · rw [e5, flush_cur]
    simp [flush_cur_addr, hcc, hrr]

set_option maxRecDepth 100000 in
/-- C1: with an EGA and `NR_CONS = 3`, `scr_init` leaves the second console with
`c_start == c_org == 5461` and `c_cur == 0`: it sets `c_org` and never `c_cur`.
That console, `ex_second`, is in Normal state with an empty queue at column 0.
For the two bytes `AB` the inner loop of `cons_write` followed by one `flush`
stores both cells at the stale `c_cur`, addresses 0 and 1, which belong to the
first console; `out_char` followed by `flush` on each byte stores `A` at
address 0 and `B` at 5462.  The two paths leave different video memories. -/
theorem C1_batching_unsynced :
    ((scr_init_lines 3 C_6845 true 3).cons_table 1).c_start = 5461
      ∧ ((scr_init_lines 3 C_6845 true 3).cons_table 1).c_org = 5461
      ∧ ((scr_init_lines 3 C_6845 true 3).cons_table 1).c_cur = 0
      ∧ ((scr_init_lines 3 C_6845 true 3).cons_table 0).c_limit = 5461
      ∧ (scr_init_lines 3 C_6845 true 3).cons_table 1 = ex_second.cons
      ∧ ex_second.cons.c_esc_state = 0 ∧ ex_second.cons.c_rwords = 0
      ∧ (∀ b ∈ [65, 66], 32 ≤ b) ∧ [65, 66].length < CONS_RAM_WORDS
      ∧ ex_second.cons.c_column + ([65, 66] : List Nat).length ≤ scr_width
      ∧ (flush (cons_write_loop ex_second [65, 66])).vram 0 = 0x0741
      ∧ (flush (cons_write_loop ex_second [65, 66])).vram 1 = 0x0742
      ∧ (cons_write ex_second [65, 66]).vram 1 = 0x0742
      ∧ (cons_echos ex_second ([65, 66].map Int.ofNat)).vram 0 = 0x0741
      ∧ (cons_echos ex_second ([65, 66].map Int.ofNat)).vram 1 = 0x0720
      ∧ (cons_echos ex_second ([65, 66].map Int.ofNat)).vram 5462 = 0x0742
      ∧ (flush (cons_write_loop ex_second [65, 66])).vram 1
          ≠ (cons_echos ex_second ([65, 66].map Int.ofNat)).vram 1 := by
  refine ⟨by decide, by decide, by decide, by decide, rfl, ?_⟩
  decide

/-! ## scroll_screen -/

theorem clip_row_idem (r : Int) : clip_row (clip_row r) = clip_row r :=
  clip_row_of_range _ (clip_row_range r).1 (clip_row_range r).2

theorem clip_column_idem (c : Int) : clip_column (clip_column c) = clip_column c :=
  clip_column_of_range _ (clip_column_range c).1 (clip_column_range c).2

theorem scroll_screen_eq (s : State) (dir : Nat) :
    scroll_screen s dir
      = flush { flush s with
          vram := mem_vid_copy none (scroll_new_line (flush s) dir) scr_width (flush s).display
                    (scroll_copy (flush s) dir)
          ports := set_6845 VID_ORG (scroll_org (flush s) dir) (flush s).display (flush s).ports
          cons := { (flush s).cons with c_org := scroll_org (flush s) dir } } := by
  unfold scroll_screen scroll_new_line scroll_copy scroll_org
  generalize flush s = t
  simp only []
  split_ifs <;> rfl

@[simp] theorem scroll_screen_row (s : State) (dir : Nat) :
    (scroll_screen s dir).cons.c_row = clip_row s.cons.c_row := by
  rw [scroll_screen_eq]; simp [clip_row_idem]

@[simp] theorem scroll_screen_column (s : State) (dir : Nat) :
    (scroll_screen s dir).cons.c_column = clip_column s.cons.c_column := by
  rw [scroll_screen_eq]; simp [clip_column_idem]

@[simp] theorem scroll_screen_rwords (s : State) (dir : Nat) :
    (scroll_screen s dir).cons.c_rwords = 0 := by
  rw [scroll_screen_eq]; simp

@[simp] theorem scroll_screen_org (s : State) (dir : Nat) :
    (scroll_screen s dir).cons.c_org = scroll_org (flush s) dir := by
  rw [scroll_screen_eq]; simp

@[simp] theorem scroll_screen_vram (s : State) (dir : Nat) :
    (scroll_screen s dir).vram
      = mem_vid_copy none (scroll_new_line (flush s) dir) scr_width s.display
          (scroll_copy (flush s) dir) := by
  rw [scroll_screen_eq]; simp [write_run_zero]

@[simp] theorem scroll_screen_esc_state (s : State) (dir : Nat) :
    (scroll_screen s dir).cons.c_esc_state = s.cons.c_esc_state := by
  rw [scroll_screen_eq]; simp

@[simp] theorem scroll_screen_display (s : State) (dir : Nat) :
    (scroll_screen s dir).display = s.display := by
  rw [scroll_screen_eq]; simp

@[simp] theorem scroll_screen_attr (s : State) (dir : Nat) :
    (scroll_screen s dir).cons.c_attr = s.cons.c_attr := by
  rw [scroll_screen_eq]; simp

/-! ## C3: line wrap -/

theorem out_char_easy (s : State) (b : Nat)
    (hesc : s.cons.c_esc_state = 0) (hcol : s.cons.c_column < scr_width)
    (hq : s.cons.c_rwords < CONS_RAM_WORDS) (hb : 32 ≤ b) :
    out_char s (b : Int) =
      { s with cons := { s.cons with
          c_ramqueue := Function.update s.cons.c_ramqueue s.cons.c_rwords
                          (cell_of s.cons.c_attr b)
          c_rwords := s.cons.c_rwords + 1
          c_column := s.cons.c_column + 1 } } := by
  rw [out_char_printable_state s b hesc hcol hq (not_is_control_of_ge b hb)]
  simp [cell_of, low_byte_natCast]

theorem out_chars_easy (bs : List Nat) (s : State)
    (hesc : s.cons.c_esc_state = 0) (hfit : s.cons.c_column + bs.length ≤ scr_width)
    (hroom : s.cons.c_rwords + bs.length ≤ CONS_RAM_WORDS) (hpr : ∀ b ∈ bs, 32 ≤ b) :
    out_chars s (bs.map Int.ofNat) = cons_write_loop s bs := by
  unfold out_chars
  rw [List.foldl_map, cons_write_loop_easy bs s hesc hfit hroom hpr]
  exact easy_run (fun s b => out_char s (Int.ofNat b)) out_char_easy bs s hesc hfit hroom hpr

/-- A printable byte at the right margin, with line wrap: `out_char` goes to
the next row, flushes, and queues the byte at column 0. -/
theorem out_char_wrap (s : State) (c : Int)
    (hesc : s.cons.c_esc_state = 0) (hcol : s.cons.c_column ≥ scr_width)
    (hwrap : s.LINEWRAP = true) (hc : ¬ is_control c) :
    out_char s c =
      { flush { next_row s with cons := { (next_row s).cons with c_column := 0 } } with
        cons := { (flush { next_row s with
                    cons := { (next_row s).cons with c_column := 0 } }).cons with
          c_ramqueue := Function.update (next_row s).cons.c_ramqueue 0
                          ((s.cons.c_attr ||| low_byte c) % 65536)
          c_rwords := 1
          c_column := 1 } } := by
  simp only [is_control, not_or] at hc
  obtain ⟨h0, h7, h8, h9, h10, h11, h12, h13, h27⟩ := hc
  have hnr : (next_row s).cons.c_attr = s.cons.c_attr := by
    unfold next_row; split_ifs <;> simp
  simp [out_char, hesc, h0, h7, h8, h9, h10, h11, h12, h13, h27, hcol, hwrap, queue_char,
    CONS_RAM_WORDS, hnr, clip_column]

/-- After a full line of easy characters the next byte of the inner loop of
`cons_write` goes to `out_char`. -/
theorem cons_write_loop_margin (s : State) (bs : List Nat) (b : Nat)
    (hesc : s.cons.c_esc_state = 0) (hq : s.cons.c_rwords = 0)
    (hcol : s.cons.c_column = 0) (hlen : bs.length = scr_width) (hpr : ∀ x ∈ bs, 32 ≤ x) :
    cons_write_loop s (bs ++ [b]) = out_char (cons_write_loop s bs) (b : Int) := by
  have hloop := cons_write_loop_easy bs s hesc (by rw [hcol, hlen]; simp)
    (by rw [hq, hlen]; simp [scr_width, CONS_RAM_WORDS]) hpr
  unfold cons_write_loop
  rw [List.foldl_append]
  simp only [List.foldl_cons, List.foldl_nil]
  have : (List.foldl cons_write_byte s bs).cons.c_column ≥ (scr_width : Int) := by
    have h := hloop
    unfold cons_write_loop at h
    rw [h]
    simp [hcol, hlen]
  simp [cons_write_byte, this]

theorem cons_write_loop_wrap (s : State) (bs : List Nat) (b : Nat)
    (hesc : s.cons.c_esc_state = 0) (hq : s.cons.c_rwords = 0)
    (hcol : s.cons.c_column = 0) (hr0 : 0 ≤ s.cons.c_row) (hr1 : s.cons.c_row < scr_lines)
    (hlen : bs.length = scr_width) (hpr : ∀ x ∈ bs, 32 ≤ x) (hb : 32 ≤ b)
    (hwrap : s.LINEWRAP = true) :
    wrap_outcome s (cons_write_loop s bs) (cons_write_loop s (bs ++ [b])) := by
  have hloop := cons_write_loop_easy bs s hesc (by rw [hcol, hlen]; simp)
    (by rw [hq, hlen]; simp [scr_width, CONS_RAM_WORDS]) hpr
  rw [cons_write_loop_margin s bs b hesc hq hcol hlen hpr]
  have ha_col : (cons_write_loop s bs).cons.c_column = scr_width := by
    rw [hloop]; simp [hcol, hlen]
  have ha_row : (cons_write_loop s bs).cons.c_row = s.cons.c_row := by rw [hloop]
  have ha_rw : (cons_write_loop s bs).cons.c_rwords = scr_width := by
    rw [hloop]; simp [hq, hlen]
  have ha_v : (cons_write_loop s bs).vram = s.vram := by rw [hloop]
  have ha_esc : (cons_write_loop s bs).cons.c_esc_state = 0 := by rw [hloop]; simpa using hesc
  have ha_lw : (cons_write_loop s bs).LINEWRAP = true := by rw [hloop]; simpa using hwrap
  refine ⟨ha_col, ha_row, ha_rw, ha_v, ?_⟩
  generalize cons_write_loop s bs = a at *
  rw [out_char_wrap a b ha_esc (by omega) ha_lw (not_is_control_of_ge b hb)]
  refine ⟨by simp, ?_, ?_⟩
  · intro h
    have hne : ¬ a.cons.c_row = (scr_lines : Int) - 1 := by omega
    simp only [next_row, hne, if_false, flush_row]
    rw [ha_row]
    exact clip_row_of_range _ (by omega) (by simp only [scr_lines] at *; omega)
  · intro h
    have he : a.cons.c_row = (scr_lines : Int) - 1 := by simp only [scr_lines] at *; omega
    simp only [next_row, he, if_true]
    refine ⟨?_, ?_, ?_⟩
    · simp [clip_row_idem, he]
      exact clip_row_of_range _ (by simp [scr_lines]) (by simp [scr_lines])
    · simp [write_run_zero]
    · simp

/-- C3: starting in Normal state at column 0 of row `r` (a row of the screen)
with an empty pending queue, `scr_width` printable bytes leave
`c_column == scr_width` and `c_row == r` with nothing flushed (all of them still
pending, video memory untouched); with line wrap enabled one further printable
byte leaves `c_column == 1`, and `c_row == r + 1` when `r < scr_lines - 1`,
otherwise `c_row == scr_lines - 1` with the video memory and the origin that
`scroll_screen(cons, SCROLL_UP)` produces.  This holds for the inner loop of
`cons_write` and for `out_char` called byte by byte. -/
theorem C3_line_wrap (s : State) (bs : List Nat) (b : Nat)
    (hesc : s.cons.c_esc_state = 0) (hq : s.cons.c_rwords = 0)
    (hcol : s.cons.c_column = 0) (hr0 : 0 ≤ s.cons.c_row) (hr1 : s.cons.c_row < scr_lines)
    (hlen : bs.length = scr_width) (hpr : ∀ x ∈ bs, 32 ≤ x) (hb : 32 ≤ b)
    (hwrap : s.LINEWRAP = true) :
    wrap_outcome s (cons_write_loop s bs) (cons_write_loop s (bs ++ [b]))
      ∧ wrap_outcome s (out_chars s (bs.map Int.ofNat))
          (out_chars s ((bs ++ [b]).map Int.ofNat)) := by
  have h := cons_write_loop_wrap s bs b hesc hq hcol hr0 hr1 hlen hpr hb hwrap
  have e1 : out_chars s (bs.map Int.ofNat) = cons_write_loop s bs :=
    out_chars_easy bs s hesc (by rw [hcol, hlen]; simp)
      (by rw [hq, hlen]; simp [scr_width, CONS_RAM_WORDS]) hpr
  have e2 : out_chars s ((bs ++ [b]).map Int.ofNat) = cons_write_loop s (bs ++ [b]) := by
    rw [cons_write_loop_margin s bs b hesc hq hcol hlen hpr, ← e1]
    simp [out_chars, List.foldl_append]
  rw [e1, e2]
  exact ⟨h, h⟩

/-- C3, witness: eighty letters `A` and then a `B` on the fresh console. -/
theorem C3_line_wrap_witness :
    wrap_outcome ex_state (cons_write_loop ex_state (List.replicate 80 65))
        (cons_write_loop ex_state (List.replicate 80 65 ++ [66]))
      ∧ wrap_outcome ex_state (out_chars ex_state ((List.replicate 80 65).map Int.ofNat))
          (out_chars ex_state ((List.replicate 80 65 ++ [66]).map Int.ofNat)) :=
  C3_line_wrap ex_state (List.replicate 80 65) 66 (by decide) (by decide) (by decide)
    (by decide) (by decide) (by decide) (by decide) (by decide) (by decide)

/-! ## Escape sequences -/

theorem out_chars_append (s : State) (xs ys : List Int) :
    out_chars s (xs ++ ys) = out_chars (out_chars s xs) ys := by
  simp [out_chars, List.foldl_append]

theorem out_chars_cons (s : State) (x : Int) (xs : List Int) :
    out_chars s (x :: xs) = out_chars (out_char s x) xs := rfl

theorem out_chars_nil (s : State) : out_chars s [] = s := rfl

theorem out_chars_esc_bracket (s : State) (hesc : s.cons.c_esc_state = 0) :
    out_chars s [27, 91] = csi_state (flush s) 0 0 0 := by
  simp [out_chars, out_char, hesc, parse_escape, to_char, csi_state]

theorem decimal_aux_digits (f : Nat) : ∀ n, ∀ d ∈ decimal_aux f n, 48 ≤ d ∧ d ≤ 57 := by
  induction f with
  | zero => intro n d hd; simp [decimal_aux] at hd
  | succ f ih =>
    intro n d hd
    unfold decimal_aux at hd
    split_ifs at hd with h
    · simp at hd; omega
    · rw [List.mem_append] at hd
      rcases hd with hd | hd
      · exact ih _ d hd
      · simp at hd; omega

theorem to_int_small (i : Int) (h0 : -32768 ≤ i) (h1 : i < 32768) : to_int i = i := by
  unfold to_int UINT_MOD
  omega

theorem accumulate_decimal_aux (f : Nat) :
    ∀ n, n < f → accumulate 0 (decimal_aux f n) = to_int n := by
  induction f with
  | zero => intro n h; omega
  | succ f ih =>
    intro n h
    unfold decimal_aux
    split_ifs with h10
    · unfold accumulate
      simp only [List.foldl_cons, List.foldl_nil]
      unfold to_int UINT_MOD
      omega
    · have := ih (n / 10) (by omega)
      unfold accumulate at this ⊢
      rw [List.foldl_append, this]
      simp only [List.foldl_cons, List.foldl_nil]
      unfold to_int UINT_MOD
      omega

/-- The digits of `n` leave `n` as it wraps around in an `int`. -/
theorem accumulate_decimal_wrap (n : Nat) : accumulate 0 (decimal n) = to_int n :=
  accumulate_decimal_aux (n + 1) n (by omega)

theorem accumulate_decimal (n : Nat) (h : n < 32768) : accumulate 0 (decimal n) = n := by
  rw [accumulate_decimal_wrap]
  exact to_int_small _ (by omega) (by omega)

theorem decimal_digits (n : Nat) : ∀ d ∈ decimal n, 48 ≤ d ∧ d ≤ 57 :=
  decimal_aux_digits (n + 1) n

theorem to_char_digit (d : Int) (h : 48 ≤ d ∧ d ≤ 57) :
    48 ≤ to_char d ∧ to_char d ≤ 57 ∧ ((to_char d : Nat) : Int) = d := by
  unfold to_char
  omega

theorem out_char_digit0 (t : State) (p0 p1 : Int) (d : Int) (h : 48 ≤ d ∧ d ≤ 57) :
    out_char (csi_state t p0 p1 0) d = csi_state t (to_int (p0 * 10 + (d - 48))) p1 0 := by
  obtain ⟨h1, h2, h3⟩ := to_char_digit d h
  simp [out_char, csi_state, parse_escape, h1, h2, h3]

theorem out_char_digit1 (t : State) (p0 p1 : Int) (d : Int) (h : 48 ≤ d ∧ d ≤ 57) :
    out_char (csi_state t p0 p1 1) d = csi_state t p0 (to_int (p1 * 10 + (d - 48))) 1 := by
  obtain ⟨h1, h2, h3⟩ := to_char_digit d h
  simp [out_char, csi_state, parse_escape, h1, h2, h3]

theorem out_chars_digits0 (ds : List Int) : ∀ (t : State) (p0 p1 : Int),
    (∀ d ∈ ds, 48 ≤ d ∧ d ≤ 57) →
    out_chars (csi_state t p0 p1 0) ds = csi_state t (accumulate p0 ds) p1 0 := by
  induction ds with
  | nil => intro t p0 p1 _; rfl
  | cons d ds ih =>
    intro t p0 p1 h
    rw [out_chars_cons, out_char_digit0 t p0 p1 d (h d (List.mem_cons_self _ _)),
      ih t _ p1 (fun x hx => h x (List.mem_cons_of_mem _ hx))]
    rfl

theorem out_chars_digits1 (ds : List Int) : ∀ (t : State) (p0 p1 : Int),
    (∀ d ∈ ds, 48 ≤ d ∧ d ≤ 57) →
    out_chars (csi_state t p0 p1 1) ds = csi_state t p0 (accumulate p1 ds) 1 := by
  induction ds with
  | nil => intro t p0 p1 _; rfl
  | cons d ds ih =>
    intro t p0 p1 h
    rw [out_chars_cons, out_char_digit1 t p0 p1 d (h d (List.mem_cons_self _ _)),
      ih t p0 _ (fun x hx => h x (List.mem_cons_of_mem _ hx))]
    rfl

theorem out_char_semicolon (t : State) (p0 p1 : Int) :
    out_char (csi_state t p0 p1 0) 59 = csi_state t p0 0 1 := by
  simp [out_char, csi_state, parse_escape, to_char]

/-- A command character ends an `ESC [` sequence: `do_escape` runs the command
on the flushed console and resets the escape state. -/
theorem out_char_command (t : State) (p0 p1 : Int) (pp : Nat) (c : Int)
    (hd : ¬ (48 ≤ to_char c ∧ to_char c ≤ 57)) (hs : to_char c ≠ 59) :
    out_char (csi_state t p0 p1 pp) c
      = { do_escape_csi (flush (csi_state t p0 p1 pp)) (to_char c) with
          cons := { (do_escape_csi (flush (csi_state t p0 p1 pp)) (to_char c)).cons with
            c_esc_state := 0 } } := by
  simp [out_char, csi_state, parse_escape, hd, hs, do_escape]

theorem write_run_const_hit (d : display_t) (x dst : Nat) (v : Nat → Nat) (n i : Nat)
    (hi : i < n) : write_run d (fun _ => x) dst n v (vid_addr d (dst + i)) = x := by
  induction n with
  | zero => omega
  | succ n ih =>
    rw [write_run_succ, Function.update_apply]
    by_cases h : vid_addr d (dst + i) = vid_addr d (dst + n)
    · simp [h]
    · have hin : i < n := by
        rcases Nat.lt_or_ge i n with h' | h'
        · exact h'
        · have : i = n := by omega
          subst this
          exact absurd rfl h
      simp [h, ih hin]

theorem do_escape_csi_H (t : State) :
    do_escape_csi t 72
      = flush { t with cons := { t.cons with
          c_row := t.cons.c_esc_parmv0 - 1, c_column := t.cons.c_esc_parmv1 - 1 } } := by
  simp [do_escape_csi]

theorem do_escape_csi_J2 (t : State) (h : t.cons.c_esc_parmv0 = 2) :
    do_escape_csi t 74
      = { t with vram := mem_vid_copy none t.cons.c_org scr_size t.display t.vram } := by
  simp [do_escape_csi, h]

theorem do_escape_csi_M (t : State) (n : Int) (dst src count : Nat)
    (hn : n = clamp_count t.cons.c_esc_parmv0 ((scr_lines : Int) - t.cons.c_row))
    (hdst : dst = to_unsigned ((t.cons.c_org : Int) + t.cons.c_row * scr_width))
    (hsrc : src = to_unsigned ((dst : Int) + n * scr_width))
    (hcount : count = to_unsigned (((scr_lines : Int) - t.cons.c_row - n) * scr_width)) :
    do_escape_csi t 77
      = { t with vram := mem_vid_copy none (uadd dst count) (to_unsigned (n * scr_width))
                  t.display (vid_vid_copy src dst count t.display t.vram) } := by
  subst hcount hsrc hdst hn
  simp [do_escape_csi]

/-! ## C4: clearing the screen -/

/-- The effect of `ESC [ 2 J` fed through `out_char`. -/
theorem clear_screen_effect (s : State) (hesc : s.cons.c_esc_state = 0)
    (hcur : cursor_in_range s) :
    (∀ i, i < scr_size →
        visible (out_chars s [27, 91, 50, 74]) i
          = blank_cell (out_chars s [27, 91, 50, 74]).display)
      ∧ (out_chars s [27, 91, 50, 74]).display.blank_color = s.display.blank_color
      ∧ (out_chars s [27, 91, 50, 74]).cons.c_org = s.cons.c_org
      ∧ (out_chars s [27, 91, 50, 74]).cons.c_row = s.cons.c_row
      ∧ (out_chars s [27, 91, 50, 74]).cons.c_column = s.cons.c_column
      ∧ (out_chars s [27, 91, 50, 74]).cons.c_esc_state = 0
      ∧ (out_chars s [27, 91, 50, 74]).cons.c_rwords = 0
      ∧ (out_chars s [27, 91, 50, 74]).display = s.display := by
  obtain ⟨hr0, hr1, hc0, hc1⟩ := hcur
  have e : out_chars s [27, 91, 50, 74]
      = out_chars (out_chars s [27, 91]) [50, 74] := rfl
  rw [e, out_chars_esc_bracket s hesc, out_chars_cons, out_char_digit0 _ _ _ _ (by decide),
    out_chars_cons, out_chars_nil, out_char_command _ _ _ _ _ (by decide) (by decide)]
  have hrr : clip_row s.cons.c_row = s.cons.c_row := clip_row_of_range _ hr0 hr1
  have hcc : clip_column s.cons.c_column = s.cons.c_column := clip_column_of_range _ hc0 hc1
  have h74 : to_char 74 = 74 := by decide
  simp only [h74]
  rw [do_escape_csi_J2 _ (by simp [csi_state]; decide)]
  refine ⟨?_, ?_, ?_, ?_, ?_, ?_, ?_, ?_⟩
  · intro i hi
    simp only [visible, mem_vid_copy]
    simp only [csi_state, flush_org, flush_display]
    exact write_run_const_hit _ _ _ _ _ _ hi
  · simp [csi_state]
  · simp [csi_state]
  · simp [csi_state, clip_row_idem, hrr]
  · simp [csi_state, clip_column_idem, hcc]
  · simp
  · simp [csi_state]
  · simp [csi_state]

/-- C4: for every console in Normal escape state with any video memory contents
and a cursor in range, feeding `ESC [ 2 J` through `out_char` leaves each of the
`scr_size` cells of the visible window that starts at `c_org` equal to the
blank cell (a space in the display's blank colour, which the sequence does not
change), leaves `c_org`, `c_row` and `c_column` unchanged and ends in Normal
state. -/
theorem C4_clear_screen (s : State) (hesc : s.cons.c_esc_state = 0)
    (hcur : cursor_in_range s) :
    (∀ i, i < scr_size →
        visible (out_chars s [27, 91, 50, 74]) i
          = blank_cell (out_chars s [27, 91, 50, 74]).display)
      ∧ (out_chars s [27, 91, 50, 74]).display.blank_color = s.display.blank_color
      ∧ (out_chars s [27, 91, 50, 74]).cons.c_org = s.cons.c_org
      ∧ (out_chars s [27, 91, 50, 74]).cons.c_row = s.cons.c_row
      ∧ (out_chars s [27, 91, 50, 74]).cons.c_column = s.cons.c_column
      ∧ (out_chars s [27, 91, 50, 74]).cons.c_esc_state = 0 := by
  obtain ⟨h1, h2, h3, h4, h5, h6, _, _⟩ := clear_screen_effect s hesc hcur
  exact ⟨h1, h2, h3, h4, h5, h6⟩

/-- C4, witness: the lettered screen `ex_lines`, checked at the first and at the
last cell of the window. -/
theorem C4_clear_screen_witness :
    visible (out_chars ex_lines [27, 91, 50, 74]) 0
        = blank_cell (out_chars ex_lines [27, 91, 50, 74]).display
      ∧ visible (out_chars ex_lines [27, 91, 50, 74]) 1999
        = blank_cell (out_chars ex_lines [27, 91, 50, 74]).display
      ∧ (out_chars ex_lines [27, 91, 50, 74]).cons.c_org = ex_lines.cons.c_org
      ∧ (out_chars ex_lines [27, 91, 50, 74]).cons.c_row = ex_lines.cons.c_row
      ∧ (out_chars ex_lines [27, 91, 50, 74]).cons.c_column = ex_lines.cons.c_column :=
  ⟨(C4_clear_screen ex_lines (by decide) (by decide)).1 0 (by decide),
   (C4_clear_screen ex_lines (by decide) (by decide)).1 1999 (by decide),
   (C4_clear_screen ex_lines (by decide) (by decide)).2.2.1,
   (C4_clear_screen ex_lines (by decide) (by decide)).2.2.2.1,
   (C4_clear_screen ex_lines (by decide) (by decide)).2.2.2.2.1⟩

/-! ## C5: cursor positioning -/

/-- C5: for every console in Normal escape state and all `m` in `1..scr_lines`
and `n` in `1..scr_width`, feeding `ESC [`, the decimal digits of `m`, `;`, the
decimal digits of `n` and `H` through `out_char` sets `c_row == m - 1` and
`c_column == n - 1`, leaves the video memory as the flush of the pending output
leaves it, and ends in Normal state. -/
theorem C5_cursor_position (s : State) (m n : Nat) (hesc : s.cons.c_esc_state = 0)
    (hm : 1 ≤ m ∧ m ≤ scr_lines) (hn : 1 ≤ n ∧ n ≤ scr_width) :
    (out_chars s ([27, 91] ++ decimal m ++ [59] ++ decimal n ++ [72])).cons.c_row
        = (m : Int) - 1
      ∧ (out_chars s ([27, 91] ++ decimal m ++ [59] ++ decimal n ++ [72])).cons.c_column
        = (n : Int) - 1
      ∧ (out_chars s ([27, 91] ++ decimal m ++ [59] ++ decimal n ++ [72])).vram
        = (flush s).vram
      ∧ (out_chars s ([27, 91] ++ decimal m ++ [59] ++ decimal n ++ [72])).cons.c_esc_state
        = 0 := by
  have e : out_chars s ([27, 91] ++ decimal m ++ [59] ++ decimal n ++ [72])
      = out_char (out_chars (out_char (out_chars (out_chars s [27, 91]) (decimal m)) 59)
          (decimal n)) 72 := by
    simp only [out_chars_append, out_chars_cons, out_chars_nil]
  have hm3 : m < 32768 := by
    have := hm.2
    simp only [scr_lines] at this
    omega
  have hn3 : n < 32768 := by
    have := hn.2
    simp only [scr_width] at this
    omega
  rw [e, out_chars_esc_bracket s hesc, out_chars_digits0 _ _ _ _ (decimal_digits m),
    out_char_semicolon, out_chars_digits1 _ _ _ _ (decimal_digits n),
    out_char_command _ _ _ _ _ (by decide) (by decide), accumulate_decimal m hm3,
    accumulate_decimal n hn3]
  have h72 : to_char 72 = 72 := by decide
  simp only [h72, do_escape_csi_H]
  obtain ⟨hm1, hm2⟩ := hm
  obtain ⟨hn1, hn2⟩ := hn
  have hrr : clip_row ((m : Int) - 1) = (m : Int) - 1 :=
    clip_row_of_range _ (by omega) (by omega)
  have hcc : clip_column ((n : Int) - 1) = (n : Int) - 1 :=
    clip_column_of_range _ (by omega) (by omega)
  refine ⟨?_, ?_, ?_, ?_⟩
  · simp [csi_state, hrr]
  · simp [csi_state, hcc]
  · simp [csi_state, write_run_zero]
  · simp

/-- C5, witness: `ESC [ 5 ; 10 H` gives row 4, column 9. -/
theorem C5_cursor_position_witness :
    (out_chars ex_state [27, 91, 53, 59, 49, 48, 72]).cons.c_row = 4
      ∧ (out_chars ex_state [27, 91, 53, 59, 49, 48, 72]).cons.c_column = 9
      ∧ (out_chars ex_state [27, 91, 53, 59, 49, 48, 72]).vram = (flush ex_state).vram
      ∧ (out_chars ex_state [27, 91, 53, 59, 49, 48, 72]).cons.c_esc_state = 0 :=
  C5_cursor_position ex_state 5 10 (by decide) (by decide) (by decide)

/-! ## Reading the visible window -/

theorem vid_addr_inj (d : display_t) (hok : display_ok d) (org i j : Nat)
    (hi : i < scr_size) (hj : j < scr_size)
    (h : vid_addr d (org + i) = vid_addr d (org + j)) : i = j := by
  unfold vid_addr at h
  by_cases hw : d.wrap = true
  · obtain ⟨k, hk, hsz⟩ := hok hw
    simp only [hw, if_true, hk, Nat.and_pow_two_sub_one_eq_mod] at h
    have h1 : (org + i) ≡ (org + j) [MOD 2 ^ k] := h
    have h2 : i ≡ j [MOD 2 ^ k] := Nat.ModEq.add_left_cancel' org h1
    have h3 : i % 2 ^ k = j % 2 ^ k := h2
    rw [Nat.mod_eq_of_lt (by omega), Nat.mod_eq_of_lt (by omega)] at h3
    exact h3
  · simp only [hw] at h
    simpa using h

theorem write_run_miss (d : display_t) (cells : Nat → Nat) (dst : Nat) (v : Nat → Nat)
    (n a : Nat) (h : ∀ i, i < n → vid_addr d (dst + i) ≠ a) :
    write_run d cells dst n v a = v a := by
  induction n with
  | zero => simp [write_run_zero]
  | succ n ih =>
    rw [write_run_succ, Function.update_apply]
    have h1 : a ≠ vid_addr d (dst + n) := fun e => h n (by omega) e.symm
    simp [h1, ih (fun i hi => h i (by omega))]

theorem write_run_hit (d : display_t) (cells : Nat → Nat) (dst : Nat) (v : Nat → Nat)
    (n i : Nat) (hi : i < n)
    (hinj : ∀ j, j < n → vid_addr d (dst + j) = vid_addr d (dst + i) → j = i) :
    write_run d cells dst n v (vid_addr d (dst + i)) = cells i := by
  induction n with
  | zero => omega
  | succ n ih =>
    rw [write_run_succ, Function.update_apply]
    by_cases h : vid_addr d (dst + i) = vid_addr d (dst + n)
    · have := hinj n (by omega) h.symm
      subst this
      simp
    · have hin : i < n := by
        rcases Nat.lt_or_ge i n with h' | h'
        · exact h'
        · have : i = n := by omega
          subst this
          exact absurd rfl h
      simp [h, ih hin (fun j hj => hinj j (by omega))]

/-- Reading the window through `vid_addr`: a run written at offset `p` of the
window is read back at offsets `p .. p + n - 1` and leaves the other offsets
of the window alone. -/
theorem write_run_window (d : display_t) (hok : display_ok d) (cells : Nat → Nat)
    (org p n : Nat) (v : Nat → Nat) (hn : p + n ≤ scr_size) (i : Nat) (hi : i < scr_size) :
    write_run d cells (org + p) n v (vid_addr d (org + i))
      = if p ≤ i ∧ i < p + n then cells (i - p) else v (vid_addr d (org + i)) := by
  by_cases h : p ≤ i ∧ i < p + n
  · simp only [h, and_self, if_true]
    have e : org + i = org + p + (i - p) := by omega
    rw [e]
    apply write_run_hit _ _ _ _ _ _ (by omega)
    intro j hj hj'
    have e1 : org + p + j = org + (p + j) := by omega
    have e2 : org + p + (i - p) = org + i := by omega
    rw [e1, e2] at hj'
    have := vid_addr_inj d hok org (p + j) i (by omega) hi hj'
    omega
  · simp only [h, if_false]
    apply write_run_miss
    intro j hj hj'
    have e1 : org + p + j = org + (p + j) := by omega
    rw [e1] at hj'
    have := vid_addr_inj d hok org (p + j) i (by omega) hi hj'
    omega

/-! ## Consoles at rest -/

theorem cur_addr_exact (org : Nat) (row col : Int) (hr0 : 0 ≤ row) (hr1 : row < scr_lines)
    (hc0 : 0 ≤ col) (hc1 : col ≤ scr_width) (hwin : org + scr_size < UINT_MOD) :
    to_unsigned ((org : Int) + row * scr_width + col) = org + (row * scr_width + col).toNat := by
  simp only [to_unsigned, UINT_MOD, scr_size, scr_width, scr_lines] at *
  push_cast at *
  have h1 : ((org : Int) + row * 80 + col) % 65536 = (org : Int) + row * 80 + col :=
    Int.emod_eq_of_lt (by omega) (by omega)
  rw [h1]
  omega

/-- The cursor address of a console at rest. -/
theorem at_rest_cur (s : State) (h : at_rest s) (hwin : s.cons.c_org + scr_size < UINT_MOD) :
    s.cons.c_cur = s.cons.c_org + (s.cons.c_row * scr_width + s.cons.c_column).toNat := by
  obtain ⟨_, _, ⟨hr0, hr1, hc0, hc1⟩, hsync⟩ := h
  unfold cursor_synced flush_cur_addr at hsync
  rw [hsync, clip_row_of_range _ hr0 hr1, clip_column_of_range _ hc0 hc1]
  exact cur_addr_exact _ _ _ hr0 hr1 hc0 hc1 hwin

theorem flush_at_rest (s : State) (hesc : s.cons.c_esc_state = 0) : at_rest (flush s) := by
  refine ⟨by simpa using hesc, by simp, ?_, ?_⟩
  · have h1 := clip_row_range s.cons.c_row
    have h2 := clip_column_range s.cons.c_column
    exact ⟨by simpa using h1.1, by simpa using h1.2, by simpa using h2.1, by simpa using h2.2⟩
  · unfold cursor_synced
    rw [flush_cur]
    simp [flush_cur_addr, clip_row_idem, clip_column_idem]

/-- A `cons_write` of easy characters that fit on the line, on a console at
rest. -/
theorem cons_write_easy (s : State) (bs : List Nat) (h : at_rest s)
    (hfit : s.cons.c_column + bs.length ≤ scr_width) (hlen : bs.length ≤ CONS_RAM_WORDS)
    (hpr : ∀ b ∈ bs, 32 ≤ b) :
    (cons_write s bs).vram
        = write_run s.display (cells_of s.cons.c_attr bs) s.cons.c_cur bs.length s.vram
      ∧ (cons_write s bs).cons.c_column = s.cons.c_column + bs.length
      ∧ (cons_write s bs).cons.c_row = s.cons.c_row
      ∧ (cons_write s bs).cons.c_org = s.cons.c_org
      ∧ (cons_write s bs).cons.c_attr = s.cons.c_attr
      ∧ (cons_write s bs).display = s.display
      ∧ (cons_write s bs).tty.opost_onlcr = s.tty.opost_onlcr
      ∧ at_rest (cons_write s bs) := by
  by_cases h0 : bs.length = 0
  · have hb : bs = [] := List.length_eq_zero.mp h0
    subst hb
    have e : cons_write s [] = s := rfl
    rw [e]
    exact ⟨by rw [List.length_nil, write_run_zero], by simp, rfl, rfl, rfl, rfl, rfl, h⟩
  obtain ⟨hesc, hq, ⟨hr0, hr1, hc0, hc1⟩, hsync⟩ := h
  have hloop := cons_write_loop_easy bs s hesc hfit (by omega) hpr
  have hnn : (0 : Int) ≤ bs.length := Int.natCast_nonneg _
  have hat : at_rest (flush (cons_write_loop s bs)) :=
    flush_at_rest _ (by rw [hloop]; simpa using hesc)
  unfold cons_write
  rw [if_neg h0]
  rw [hloop] at hat ⊢
  refine ⟨?_, ?_, ?_, ?_, ?_, ?_, ?_, hat⟩
  · rw [flush_vram]
    simp only [hq, Nat.zero_add]
    apply write_run_congr
    intro i hi
    simp [hi]
  · rw [flush_column]
    exact clip_column_of_range _ (by simp only []; omega) hfit
  · rw [flush_row]
    exact clip_row_of_range _ hr0 hr1
  · simp
  · simp
  · simp
  · simp

theorem cons_write_byte_ctl (s : State) (b : Nat) (h : b < 32) :
    cons_write_byte s b = out_char s (b : Int) := by
  simp [cons_write_byte, h]

theorem cons_write_byte_esc (s : State) (b : Nat) (h : 0 < s.cons.c_esc_state) :
    cons_write_byte s b = out_char s (b : Int) := by
  simp [cons_write_byte, h]

/-- Line feed in Normal state. -/
theorem out_char_lf (s : State) (hesc : s.cons.c_esc_state = 0) :
    out_char s 10
      = flush (next_row (if s.tty.opost_onlcr then
                  { s with cons := { s.cons with c_column := 0 } } else s)) := by
  simp [out_char, hesc]

/-- The inner loop of `cons_write` on `ESC [ 2 J` is `out_char` on each byte. -/
theorem cons_write_loop_clear (s : State) (hesc : s.cons.c_esc_state = 0) :
    cons_write_loop s [27, 91, 50, 74] = out_chars s [27, 91, 50, 74] := by
  have e1 : cons_write_loop s [27, 91, 50, 74]
      = cons_write_byte (cons_write_byte (cons_write_byte (cons_write_byte s 27) 91) 50) 74 :=
    rfl
  have e2 : out_chars s [27, 91, 50, 74]
      = out_char (out_char (out_chars s [27, 91]) 50) 74 := rfl
  have e3 : out_chars s [27, 91] = out_char (out_char s 27) 91 := rfl
  have h1 : cons_write_byte s 27 = out_char s 27 := cons_write_byte_ctl s 27 (by decide)
  have h2 : 0 < (out_char s 27).cons.c_esc_state := by simp [out_char, hesc]
  have h3 : 0 < (out_chars s [27, 91]).cons.c_esc_state := by
    rw [out_chars_esc_bracket s hesc]; simp [csi_state]
  have h4 : 0 < (out_char (out_chars s [27, 91]) 50).cons.c_esc_state := by
    rw [out_chars_esc_bracket s hesc, out_char_digit0 _ _ _ _ (by decide)]; simp [csi_state]
  rw [e1, e2, h1, cons_write_byte_esc _ _ h2]
  simp only [Nat.cast_ofNat]
  rw [← e3, cons_write_byte_esc _ _ h3]
  simp only [Nat.cast_ofNat]
  rw [cons_write_byte_esc _ _ h4]
  simp only [Nat.cast_ofNat]

/-! ## C6: Hello, World -/

theorem visible_flush (t : State) (i : Nat) (h : t.cons.c_rwords = 0) :
    visible (flush t) i = visible t i := by
  simp [visible, h, write_run_zero]

theorem cons_write_loop_snoc (s : State) (bs : List Nat) (b : Nat) :
    cons_write_loop s (bs ++ [b]) = cons_write_byte (cons_write_loop s bs) b := by
  simp [cons_write_loop, List.foldl_append]

/-- `Hello` and a line feed written to a fresh console whose tty maps NL to
CR-NL. -/
theorem cons_write_hello_eq (s : State)
    (hesc : s.cons.c_esc_state = 0) (hq : s.cons.c_rwords = 0)
    (hrow : s.cons.c_row = 0) (hcol : s.cons.c_column = 0)
    (htty : s.tty.opost_onlcr = true) :
    cons_write s (hello ++ [10])
      = flush (flush { s with cons := { s.cons with
          c_ramqueue := fun i =>
            if i < 5 then cells_of s.cons.c_attr hello i else s.cons.c_ramqueue i
          c_rwords := 5
          c_column := 0
          c_row := 1 } }) := by
  have hloop := cons_write_loop_easy hello s hesc (by rw [hcol]; decide)
    (by rw [hq]; decide) (by decide)
  unfold cons_write
  rw [if_neg (by decide), cons_write_loop_snoc, hloop, cons_write_byte_ctl _ _ (by decide)]
  simp only [Nat.cast_ofNat]
  rw [out_char_lf _ (by simpa using hesc)]
  simp [htty, next_row, hrow, scr_lines, hq, hello]

theorem cons_write_hello (s : State)
    (hesc : s.cons.c_esc_state = 0) (hq : s.cons.c_rwords = 0)
    (hrow : s.cons.c_row = 0) (hcol : s.cons.c_column = 0)
    (htty : s.tty.opost_onlcr = true) :
    (cons_write s (hello ++ [10])).vram
        = write_run s.display (cells_of s.cons.c_attr hello) s.cons.c_cur 5 s.vram
      ∧ (cons_write s (hello ++ [10])).cons.c_row = 1
      ∧ (cons_write s (hello ++ [10])).cons.c_column = 0
      ∧ (cons_write s (hello ++ [10])).cons.c_org = s.cons.c_org
      ∧ (cons_write s (hello ++ [10])).cons.c_attr = s.cons.c_attr
      ∧ (cons_write s (hello ++ [10])).display = s.display
      ∧ at_rest (cons_write s (hello ++ [10])) := by
  rw [cons_write_hello_eq s hesc hq hrow hcol htty]
  refine ⟨?_, ?_, ?_, ?_, ?_, ?_, ?_⟩
  · simp only [flush_vram, flush_display, flush_rwords, write_run_zero, flush_ramqueue,
      flush_cur]
    apply write_run_congr
    intro i hi
    simp [hi]
  · simp [clip_row, scr_lines]
  · simp [clip_column, scr_width]
  · simp
  · simp
  · simp
  · apply flush_at_rest
    simpa using hesc

/-- C6 (as amended): on a console with the cursor at row 0, column 0, Normal
escape state, nothing pending, the cached cursor address at the origin
(`c_cur == c_org`, as for console 0 after `scr_init`) and a tty whose output
flags have `OPOST|ONLCR` set: after `cons_write` of `Hello\n` the cursor is at
row 1, column 0 and row 0, columns 0..4 hold `H`, `e`, `l`, `l`, `o` with the
attribute in force; after `cons_write` of `World` row 1, columns 0..4 hold
`World`; after `cons_write` of `ESC [ 2 J` every visible cell is blank and the
cursor is still at row 1, column 5. -/
theorem C6_hello_world (s : State)
    (hesc : s.cons.c_esc_state = 0) (hq : s.cons.c_rwords = 0)
    (hrow : s.cons.c_row = 0) (hcol : s.cons.c_column = 0)
    (hcur : s.cons.c_cur = s.cons.c_org) (htty : s.tty.opost_onlcr = true)
    (hok : display_ok s.display) (hwin : s.cons.c_org + scr_size < UINT_MOD) :
    (cons_write s (hello ++ [10])).cons.c_row = 1
      ∧ (cons_write s (hello ++ [10])).cons.c_column = 0
      ∧ (∀ i, i < 5 →
          visible (cons_write s (hello ++ [10])) i = cell_of s.cons.c_attr (hello.getD i 0))
      ∧ (∀ i, i < 5 →
          visible (cons_write (cons_write s (hello ++ [10])) world) (scr_width + i)
            = cell_of s.cons.c_attr (world.getD i 0))
      ∧ (∀ i, i < scr_size →
          visible (cons_write (cons_write (cons_write s (hello ++ [10])) world)
              [27, 91, 50, 74]) i
            = blank_cell s.display)
      ∧ (cons_write (cons_write (cons_write s (hello ++ [10])) world)
            [27, 91, 50, 74]).cons.c_row = 1
      ∧ (cons_write (cons_write (cons_write s (hello ++ [10])) world)
            [27, 91, 50, 74]).cons.c_column = 5 := by
  obtain ⟨a1, a2, a3, a4, a5, a6, a7⟩ := cons_write_hello s hesc hq hrow hcol htty
  generalize cons_write s (hello ++ [10]) = s1 at *
  have hwin1 : s1.cons.c_org + scr_size < UINT_MOD := by rw [a4]; exact hwin
  have hcur1 : s1.cons.c_cur = s1.cons.c_org + 80 := by
    rw [at_rest_cur s1 a7 hwin1, a2, a3]
    simp [scr_width]
  obtain ⟨b1, b2, b3, b4, b5, b6, b7, b8⟩ :=
    cons_write_easy s1 world a7 (by rw [a3]; decide) (by decide) (by decide)
  generalize cons_write s1 world = s2 at *
  have hclear : cons_write s2 [27, 91, 50, 74] = flush (out_chars s2 [27, 91, 50, 74]) := by
    unfold cons_write
    rw [if_neg (by decide), cons_write_loop_clear s2 b8.1]
  obtain ⟨c1, c2, c3, c4, c5, c6, c7, c8⟩ := clear_screen_effect s2 b8.1 b8.2.2.1
  refine ⟨a2, a3, ?_, ?_, ?_, ?_, ?_⟩
  · intro i hi
    unfold visible
    rw [a1, a6, a4, hcur]
    have := write_run_window s.display hok (cells_of s.cons.c_attr hello) s.cons.c_org 0 5
      s.vram (by decide) i (by simp only [scr_size]; omega)
    simp only [Nat.add_zero] at this
    rw [this]
    simp [hi, cells_of]
  · intro i hi
    unfold visible
    rw [b1, b6, b4, hcur1, a6, a5]
    have := write_run_window s.display hok (cells_of s.cons.c_attr world) s1.cons.c_org 80 5
      s1.vram (by decide) (scr_width + i) (by simp only [scr_size, scr_width]; omega)
    have e : world.length = 5 := rfl
    rw [e, this]
    have h1 : 80 ≤ scr_width + i ∧ scr_width + i < 80 + 5 := by
      simp only [scr_width]; omega
    have h2 : scr_width + i - 80 = i := by simp only [scr_width]; omega
    simp [h1, h2, cells_of]
  · intro i hi
    rw [hclear, visible_flush _ _ c7, c1 i hi]
    simp [blank_cell, c2, b6, a6]
  · rw [hclear, flush_row, c4, b3, a2]
    decide
  · rw [hclear, flush_column, c5, b2, a3]
    decide

/-- C6, witness: the freshly initialised console `ex_state`, checked at the
first and last letter of each word and at the first and last cell of the
cleared window. -/
theorem C6_hello_world_witness :
    (cons_write ex_state (hello ++ [10])).cons.c_row = 1
      ∧ (cons_write ex_state (hello ++ [10])).cons.c_column = 0
      ∧ visible (cons_write ex_state (hello ++ [10])) 0 = cell_of ex_state.cons.c_attr 72
      ∧ visible (cons_write ex_state (hello ++ [10])) 4 = cell_of ex_state.cons.c_attr 111
      ∧ visible (cons_write (cons_write ex_state (hello ++ [10])) world) (scr_width + 0)
          = cell_of ex_state.cons.c_attr 87
      ∧ visible (cons_write (cons_write ex_state (hello ++ [10])) world) (scr_width + 4)
          = cell_of ex_state.cons.c_attr 100
      ∧ visible (cons_write (cons_write (cons_write ex_state (hello ++ [10])) world)
            [27, 91, 50, 74]) 0 = blank_cell ex_state.display
      ∧ visible (cons_write (cons_write (cons_write ex_state (hello ++ [10])) world)
            [27, 91, 50, 74]) 1999 = blank_cell ex_state.display
      ∧ (cons_write (cons_write (cons_write ex_state (hello ++ [10])) world)
            [27, 91, 50, 74]).cons.c_row = 1
      ∧ (cons_write (cons_write (cons_write ex_state (hello ++ [10])) world)
            [27, 91, 50, 74]).cons.c_column = 5 :=
  have h := C6_hello_world ex_state (by decide) (by decide) (by decide) (by decide)
    (by decide) (by decide) (fun _ => ⟨13, by decide, by decide⟩) (by decide)
  ⟨h.1, h.2.1, h.2.2.1 0 (by decide), h.2.2.1 4 (by decide), h.2.2.2.1 0 (by decide),
   h.2.2.2.1 4 (by decide), h.2.2.2.2.1 0 (by decide), h.2.2.2.2.1 1999 (by decide),
   h.2.2.2.2.2.1, h.2.2.2.2.2.2⟩

/-- C6, counterexample: the freshly initialised console `ex_raw` (blank screen,
cursor at row 0, column 0, Normal state) whose tty does not have `OPOST|ONLCR`
set: after `Hello\n` the cursor is at row 1, column 5, not column 0, through
`cons_write` and through `out_char` alike. -/
theorem C6_counterexample :
    ex_raw.cons.c_row = 0 ∧ ex_raw.cons.c_column = 0 ∧ ex_raw.cons.c_esc_state = 0
      ∧ ex_raw.cons.c_rwords = 0
      ∧ (∀ i, i < scr_size → visible ex_raw i = blank_cell ex_raw.display)
      ∧ (cons_write ex_raw (hello ++ [10])).cons.c_row = 1
      ∧ (cons_write ex_raw (hello ++ [10])).cons.c_column = 5
      ∧ (out_chars ex_raw ((hello ++ [10]).map Int.ofNat)).cons.c_column = 5 :=
  ⟨by decide, by decide, by decide, by decide, fun _ _ => rfl, by decide, by decide, by decide⟩

/-! ## C7: deleting lines -/

theorem clamp_count_lines (v r : Nat) (hr : r < scr_lines) :
    clamp_count (v : Int) ((scr_lines : Int) - (r : Int)) = (line_count v r : Int) := by
  unfold clamp_count line_count
  simp only [scr_lines] at *
  split_ifs <;> omega

theorem to_unsigned_natCast (a : Nat) (h : a < UINT_MOD) : to_unsigned (a : Int) = a := by
  simp only [to_unsigned, UINT_MOD] at *
  omega

theorem uadd_small (a b : Nat) (h : a + b < UINT_MOD) : uadd a b = a + b := by
  simp only [uadd, UINT_MOD] at *
  omega

/-- The effect of `ESC [vM` (delete lines) on the visible window: with the
cursor on row `r` and `n = line_count v r`, rows above `r` keep their cells,
rows `r .. scr_lines - 1 - n` take the cells of the row `n` below, and the last
`n` rows are blank. -/
theorem delete_lines_effect (s : State) (v r : Nat) (hv : v < 32768)
    (hesc : s.cons.c_esc_state = 0) (hcur : cursor_in_range s)
    (hrow : s.cons.c_row = (r : Int))
    (hok : display_ok s.display) (hwin : s.cons.c_org + scr_size < UINT_MOD) :
    (∀ i, i < scr_size →
      visible (out_chars s ([27, 91] ++ decimal v ++ [77])) i
        = if i < r * scr_width then visible (flush s) i
          else if i < (scr_lines - line_count v r) * scr_width then
            visible (flush s) (i + line_count v r * scr_width)
          else blank_cell s.display)
      ∧ (out_chars s ([27, 91] ++ decimal v ++ [77])).cons.c_row = s.cons.c_row
      ∧ (out_chars s ([27, 91] ++ decimal v ++ [77])).cons.c_column = s.cons.c_column
      ∧ (out_chars s ([27, 91] ++ decimal v ++ [77])).cons.c_org = s.cons.c_org
      ∧ (out_chars s ([27, 91] ++ decimal v ++ [77])).cons.c_esc_state = 0 := by
  obtain ⟨hr0, hr1, hc0, hc1⟩ := hcur
  have hr : r < scr_lines := by rw [hrow] at hr1; exact_mod_cast hr1
  have e : out_chars s ([27, 91] ++ decimal v ++ [77])
      = out_char (out_chars (out_chars s [27, 91]) (decimal v)) 77 := by
    simp only [out_chars_append, out_chars_cons, out_chars_nil]
  have h77 : to_char 77 = 77 := by decide
  have hrr : clip_row s.cons.c_row = s.cons.c_row := clip_row_of_range _ hr0 hr1
  have hcc : clip_column s.cons.c_column = s.cons.c_column := clip_column_of_range _ hc0 hc1
  have hcr : clip_row (r : Int) = r := by rw [← hrow]; exact hrr
  have hn : line_count v r ≤ scr_lines - r ∧ 1 ≤ line_count v r := by
    unfold line_count; simp only [scr_lines] at *; omega
  rw [e, out_chars_esc_bracket s hesc, out_chars_digits0 _ _ _ _ (decimal_digits v),
    out_char_command _ _ _ _ _ (by decide) (by decide), accumulate_decimal v hv, h77]
  rw [do_escape_csi_M _ (line_count v r) (s.cons.c_org + r * scr_width)
    (s.cons.c_org + (r + line_count v r) * scr_width)
    ((scr_lines - r - line_count v r) * scr_width)]
  · refine ⟨?_, ?_, ?_, ?_, ?_⟩
    · intro i hi
      simp only [visible, mem_vid_copy, vid_vid_copy]
      simp only [csi_state, flush_vram, flush_display, flush_rwords, write_run_zero,
        flush_org]
      have e1 : uadd (s.cons.c_org + r * scr_width)
          ((scr_lines - r - line_count v r) * scr_width)
          = s.cons.c_org + (scr_lines - line_count v r) * scr_width := by
        rw [uadd_small]
        · simp only [scr_lines, scr_width] at *; omega
        · simp only [scr_lines, scr_width, scr_size, UINT_MOD] at *; omega
      have e2 : to_unsigned ((line_count v r : Int) * (scr_width : Int))
          = line_count v r * scr_width := by
        have := to_unsigned_natCast (line_count v r * scr_width)
          (by simp only [scr_lines, scr_width, scr_size, UINT_MOD] at *; omega)
        rw [← this]; push_cast; rfl
      rw [e1, e2]
      rw [write_run_window _ hok _ _ _ _ _
        (by simp only [scr_lines, scr_width, scr_size] at *; omega) i hi]
      by_cases h3 : (scr_lines - line_count v r) * scr_width ≤ i
      · have h3' : (scr_lines - line_count v r) * scr_width ≤ i
            ∧ i < (scr_lines - line_count v r) * scr_width + line_count v r * scr_width := by
          simp only [scr_lines, scr_width, scr_size] at *; omega
        have h4 : ¬ i < r * scr_width := by
          simp only [scr_lines, scr_width, scr_size] at *; omega
        have h5 : ¬ i < (scr_lines - line_count v r) * scr_width := by omega
        simp only [h3', and_self, if_true, h4, h5, if_false]
      · have h3' : ¬ ((scr_lines - line_count v r) * scr_width ≤ i
            ∧ i < (scr_lines - line_count v r) * scr_width + line_count v r * scr_width) := by
          omega
        simp only [h3', if_false]
        rw [write_run_window _ hok _ _ _ _ _
          (by simp only [scr_lines, scr_width, scr_size] at *; omega) i hi]
        by_cases h1 : i < r * scr_width
        · have h1' : ¬ (r * scr_width ≤ i
              ∧ i < r * scr_width + (scr_lines - r - line_count v r) * scr_width) := by omega
          simp only [h1, h1', if_true, if_false]
        · have h1' : r * scr_width ≤ i
              ∧ i < r * scr_width + (scr_lines - r - line_count v r) * scr_width := by
            simp only [scr_lines, scr_width, scr_size] at *; omega
          have h5 : i < (scr_lines - line_count v r) * scr_width := by omega
          have e3 : s.cons.c_org + (r + line_count v r) * scr_width + (i - r * scr_width)
              = s.cons.c_org + (i + line_count v r * scr_width) := by
            simp only [scr_lines, scr_width, scr_size] at *; omega
          simp only [h1, h1', and_self, if_true, if_false, h5, e3]
    · simp [csi_state, clip_row_idem, hrr]
    · simp [csi_state, clip_column_idem, hcc]
    · simp [csi_state]
    · simp
  · simp [csi_state, hrow, hcr, clamp_count_lines v r hr]
  · simp only [csi_state, flush_org, flush_row, hrow, hcr]
    have := to_unsigned_natCast (s.cons.c_org + r * scr_width)
      (by simp only [scr_lines, scr_width, scr_size, UINT_MOD] at *; omega)
    rw [← this]; push_cast; rfl
  · have := to_unsigned_natCast (s.cons.c_org + (r + line_count v r) * scr_width)
      (by simp only [scr_lines, scr_width, scr_size, UINT_MOD] at *; omega)
    rw [← this]; push_cast; ring_nf
  · simp only [csi_state, flush_row, hrow, hcr]
    have := to_unsigned_natCast ((scr_lines - r - line_count v r) * scr_width)
      (by simp only [scr_lines, scr_width, scr_size, UINT_MOD] at *; omega)
    rw [← this]
    congr 1
    have h1 : ((scr_lines - r - line_count v r : Nat) : Int)
        = (scr_lines : Int) - (r : Int) - (line_count v r : Int) := by omega
    push_cast
    rw [h1]

/-- C7 (as amended): on a console in Normal escape state whose cursor is at
row 2, feeding `ESC [ 2 M` (delete 2 lines) makes rows 2 and 3 hold the prior
content of rows 4 and 5 respectively, and blanks the bottom 2 rows of the
screen.  The prior content is the one after the pending output is flushed. -/
theorem C7_delete_two_lines (s : State)
    (hesc : s.cons.c_esc_state = 0) (hcur : cursor_in_range s) (hrow : s.cons.c_row = 2)
    (hok : display_ok s.display) (hwin : s.cons.c_org + scr_size < UINT_MOD) :
    ∀ j, j < scr_width →
      visible (out_chars s [27, 91, 50, 77]) (2 * scr_width + j)
          = visible (flush s) (4 * scr_width + j)
        ∧ visible (out_chars s [27, 91, 50, 77]) (3 * scr_width + j)
          = visible (flush s) (5 * scr_width + j)
        ∧ visible (out_chars s [27, 91, 50, 77]) ((scr_lines - 2) * scr_width + j)
          = blank_cell s.display
        ∧ visible (out_chars s [27, 91, 50, 77]) ((scr_lines - 1) * scr_width + j)
          = blank_cell s.display := by
  intro j hj
  have h := (delete_lines_effect s 2 2 (by decide) hesc hcur hrow hok hwin).1
  have e : ([27, 91] ++ decimal 2 ++ [77] : List Int) = [27, 91, 50, 77] := rfl
  rw [e] at h
  have hl : line_count 2 2 = 2 := rfl
  simp only [scr_width, scr_lines, scr_size, hl] at h hj ⊢
  refine ⟨?_, ?_, ?_, ?_⟩
  · rw [h _ (by omega)]
    have h1 : ¬ (2 * 80 + j < 2 * 80) := by omega
    have h2 : 2 * 80 + j < (25 - 2) * 80 := by omega
    simp only [h1, h2, if_true, if_false]
    congr 1
    omega
  · rw [h _ (by omega)]
    have h1 : ¬ (3 * 80 + j < 2 * 80) := by omega
    have h2 : 3 * 80 + j < (25 - 2) * 80 := by omega
    simp only [h1, h2, if_true, if_false]
    congr 1
    omega
  · rw [h _ (by omega)]
    have h1 : ¬ ((25 - 2) * 80 + j < 2 * 80) := by omega
    have h2 : ¬ ((25 - 2) * 80 + j < (25 - 2) * 80) := by omega
    simp only [h1, h2, if_false]
  · rw [h _ (by omega)]
    have h1 : ¬ ((25 - 1) * 80 + j < 2 * 80) := by omega
    have h2 : ¬ ((25 - 1) * 80 + j < (25 - 2) * 80) := by omega
    simp only [h1, h2, if_false]

/-- C7, witness: the lettered screen `ex_lines`, at column 79. -/
theorem C7_delete_two_lines_witness :
    visible (out_chars ex_lines [27, 91, 50, 77]) (2 * scr_width + 79)
        = visible (flush ex_lines) (4 * scr_width + 79)
      ∧ visible (out_chars ex_lines [27, 91, 50, 77]) (3 * scr_width + 79)
        = visible (flush ex_lines) (5 * scr_width + 79)
      ∧ visible (out_chars ex_lines [27, 91, 50, 77]) ((scr_lines - 2) * scr_width + 79)
        = blank_cell ex_lines.display
      ∧ visible (out_chars ex_lines [27, 91, 50, 77]) ((scr_lines - 1) * scr_width + 79)
        = blank_cell ex_lines.display :=
  C7_delete_two_lines ex_lines (by decide) (by decide) (by decide)
    (fun _ => ⟨13, by decide, by decide⟩) (by decide) 79 (by decide)

set_option maxRecDepth 1000000 in
/-- C7, counterexample: on the lettered screen `ex_lines` (cursor on row 2, rows
3 to 5 not blank) the first cell of row 2 after `ESC [ 2 M` is not the prior
first cell of row 3, and the first cell of row 3 is not the prior first cell of
row 4. -/
theorem C7_counterexample :
    ex_lines.cons.c_row = 2 ∧ ex_lines.cons.c_esc_state = 0 ∧ ex_lines.cons.c_rwords = 0
      ∧ visible ex_lines (3 * scr_width) ≠ blank_cell ex_lines.display
      ∧ visible ex_lines (4 * scr_width) ≠ blank_cell ex_lines.display
      ∧ visible ex_lines (5 * scr_width) ≠ blank_cell ex_lines.display
      ∧ visible (out_chars ex_lines [27, 91, 50, 77]) (2 * scr_width)
          ≠ visible ex_lines (3 * scr_width)
      ∧ visible (out_chars ex_lines [27, 91, 50, 77]) (3 * scr_width)
          ≠ visible ex_lines (4 * scr_width) := by
  decide

/-! ## C8: the origin after scrolling up and down -/

theorem scroll_screen_org_step (s : State) (dir : Nat) :
    (scroll_screen s dir).cons.c_org = org_step s dir s.cons.c_org := by
  rw [scroll_screen_org]
  simp [org_step, scroll_org]

@[simp] theorem scroll_screen_softscroll (s : State) (dir : Nat) :
    (scroll_screen s dir).softscroll = s.softscroll := by
  rw [scroll_screen_eq]; simp

@[simp] theorem scroll_screen_start (s : State) (dir : Nat) :
    (scroll_screen s dir).cons.c_start = s.cons.c_start := by
  rw [scroll_screen_eq]; simp

@[simp] theorem scroll_screen_limit (s : State) (dir : Nat) :
    (scroll_screen s dir).cons.c_limit = s.cons.c_limit := by
  rw [scroll_screen_eq]; simp

theorem org_step_scroll_screen (s : State) (dir dir' : Nat) :
    org_step (scroll_screen s dir') dir = org_step s dir := by
  funext org
  simp [org_step, scroll_org]

theorem org_step_scroll_n (s : State) (dir dir' : Nat) (k : Nat) :
    org_step (scroll_n s dir' k) dir = org_step s dir := by
  induction k with
  | zero => rfl
  | succ k ih => rw [scroll_n, org_step_scroll_screen, ih]

theorem scroll_n_org (s : State) (dir : Nat) (k : Nat) :
    (scroll_n s dir k).cons.c_org = (org_step s dir)^[k] s.cons.c_org := by
  induction k with
  | zero => rfl
  | succ k ih =>
    rw [scroll_n, scroll_screen_org_step, org_step_scroll_n, ih, Function.iterate_succ_apply']

/-- Undoing `k` steps one by one. -/
theorem iterate_undo (U D : Nat → Nat) (P : Nat → Nat → Prop)
    (h : ∀ k x, P (k + 1) x → P k (U x) ∧ D (U x) = x) :
    ∀ k x, P k x → D^[k] (U^[k] x) = x := by
  intro k
  induction k with
  | zero => intro x _; rfl
  | succ k ih =>
    intro x hx
    obtain ⟨h1, h2⟩ := h k x hx
    rw [Function.iterate_succ_apply' D, Function.iterate_succ_apply U, ih (U x) h1, h2]

theorem and_mask (x j : Nat) (mask : Nat) (hm : mask + 1 = 2 ^ j) : x &&& mask = x % 2 ^ j := by
  have : mask = 2 ^ j - 1 := by omega
  rw [this, Nat.and_pow_two_sub_one_eq_mod]

theorem usub_eq (a b : Nat) (hb : b ≤ UINT_MOD) : usub a b = (a + UINT_MOD - b) % UINT_MOD := by
  simp only [usub, to_unsigned, UINT_MOD] at *
  omega

set_option maxRecDepth 10000 in
/-- C8, counterexample: on the freshly initialised first console of a
non-wrapping EGA (`c_start == 0`, `c_limit == 5461`), 44 scrolls up followed by
44 scrolls down do not bring `c_org` back to 0: the 44th scroll up relocates
the window to `c_start` and the first scroll down relocates it to
`c_limit - scr_size`. -/
theorem C8_counterexample :
    (scroll_n (scroll_n ex_first SCROLL_UP 44) SCROLL_DOWN 44).cons.c_org
      ≠ ex_first.cons.c_org := by
  rw [scroll_n_org, org_step_scroll_n, scroll_n_org]
  decide

theorem org_step_soft (s : State) (dir org : Nat) (h : s.softscroll = true) :
    org_step s dir org = org := by
  simp [org_step, scroll_org, h]

theorem pow_le_65536 (j : Nat) (hj : j ≤ 15) : 2 ^ j ≤ 32768 := by
  have : (32768 : Nat) = 2 ^ 15 := by norm_num
  rw [this]
  exact Nat.pow_le_pow_right (by norm_num) hj

theorem pow_dvd_65536 (j : Nat) (hj : j ≤ 15) : 2 ^ j ∣ 65536 := by
  have : (65536 : Nat) = 2 ^ 16 := by norm_num
  rw [this]
  exact Nat.pow_dvd_pow 2 (by omega)

theorem pow_dvd_UINT_MOD (j : Nat) (hj : j ≤ 15) : 2 ^ j ∣ UINT_MOD := pow_dvd_65536 j hj

theorem org_step_up_wrap (s : State) (org j : Nat) (hs : s.softscroll = false)
    (hw : s.display.wrap = true) (hj : j ≤ 15) (hm : s.display.vid_mask + 1 = 2 ^ j) :
    org_step s SCROLL_UP org = (org + scr_width) % 2 ^ j := by
  simp only [org_step, scroll_org, hs, hw, if_true, uadd, UINT_MOD]
  simp only [Bool.false_eq_true, if_false, Bool.true_eq_false, false_and]
  rw [and_mask _ j _ hm, Nat.mod_mod_of_dvd _ (pow_dvd_65536 j hj)]

theorem org_step_down_wrap (s : State) (org j : Nat) (hs : s.softscroll = false)
    (hw : s.display.wrap = true) (hj : j ≤ 15) (hm : s.display.vid_mask + 1 = 2 ^ j) :
    org_step s SCROLL_DOWN org = (org + UINT_MOD - scr_width) % 2 ^ j := by
  have hd : ¬ SCROLL_DOWN = SCROLL_UP := by decide
  simp only [org_step, scroll_org, hs, hw, hd, if_false]
  simp only [Bool.false_eq_true, if_false, Bool.true_eq_false, false_and]
  rw [and_mask _ j _ hm, usub_eq _ _ (by decide), Nat.mod_mod_of_dvd _ (pow_dvd_UINT_MOD j hj)]

theorem down_up_wrap (x j : Nat) (hj : j ≤ 15) (hx : x < 2 ^ j) :
    ((x + scr_width) % 2 ^ j + UINT_MOD - scr_width) % 2 ^ j = x := by
  have h1 : (x + scr_width) % 2 ^ j + (UINT_MOD - scr_width) ≡ x + scr_width + (UINT_MOD - scr_width)
      [MOD 2 ^ j] := Nat.ModEq.add_right _ (Nat.mod_modEq _ _)
  have h2 : x + scr_width + (UINT_MOD - scr_width) = x + UINT_MOD := by
    unfold scr_width UINT_MOD; omega
  have h3 : x + UINT_MOD ≡ x [MOD 2 ^ j] := by
    have : UINT_MOD ≡ 0 [MOD 2 ^ j] := (Nat.modEq_zero_iff_dvd).2 (pow_dvd_UINT_MOD j hj)
    simpa using Nat.ModEq.add_left x this
  have h4 : (x + scr_width) % 2 ^ j + UINT_MOD - scr_width
      = (x + scr_width) % 2 ^ j + (UINT_MOD - scr_width) := by
    unfold scr_width UINT_MOD; omega
  rw [h4]
  rw [h2] at h1
  have h5 := h1.trans h3
  unfold Nat.ModEq at h5
  rw [h5, Nat.mod_eq_of_lt hx]

theorem org_step_up_plain (s : State) (org j : Nat) (hs : s.softscroll = false)
    (hw : s.display.wrap = false) (hj : j ≤ 15) (hm : s.display.vid_mask + 1 = 2 ^ j)
    (h1 : org + scr_size + scr_width < s.cons.c_limit)
    (h2 : s.cons.c_limit ≤ s.display.vid_mask + 1) :
    org_step s SCROLL_UP org = org + scr_width := by
  have hp := pow_le_65536 j hj
  have e1 : uadd (uadd org scr_size) scr_width = org + scr_size + scr_width := by
    rw [uadd_small org scr_size (by unfold UINT_MOD scr_size scr_width at *; omega),
      uadd_small _ _ (by unfold UINT_MOD scr_size scr_width at *; omega)]
  have e2 : uadd org scr_width = org + scr_width :=
    uadd_small _ _ (by unfold UINT_MOD scr_size scr_width at *; omega)
  have h3 : ¬ (org + scr_size + scr_width ≥ s.cons.c_limit) := by omega
  simp only [org_step, scroll_org, hs, hw, if_true, e1, e2]
  simp only [Bool.false_eq_true, if_false, h3, and_false]
  rw [and_mask _ j _ hm, Nat.mod_eq_of_lt (by unfold scr_size scr_width at *; omega)]

theorem org_step_down_plain (s : State) (org j : Nat) (hs : s.softscroll = false)
    (hw : s.display.wrap = false) (hj : j ≤ 15) (hm : s.display.vid_mask + 1 = 2 ^ j)
    (h1 : s.cons.c_start + scr_width ≤ org) (h2 : org ≤ s.display.vid_mask + 1) :
    org_step s SCROLL_DOWN org = org - scr_width := by
  have hp := pow_le_65536 j hj
  have hd : ¬ SCROLL_DOWN = SCROLL_UP := by decide
  have e1 : uadd s.cons.c_start scr_width = s.cons.c_start + scr_width :=
    uadd_small _ _ (by unfold UINT_MOD scr_width at *; omega)
  have e2 : usub org scr_width = org - scr_width := by
    rw [usub_eq _ _ (by decide)]
    unfold UINT_MOD scr_width at *
    omega
  have h3 : ¬ (org < s.cons.c_start + scr_width) := by omega
  simp only [org_step, scroll_org, hs, hw, hd, if_false, e1, e2]
  simp only [Bool.false_eq_true, if_false, h3, and_false]
  rw [and_mask _ j _ hm, Nat.mod_eq_of_lt (by unfold scr_width at *; omega)]

/-- C8 (as amended): on a display whose address mask is one less than a power
of two, `k` calls of `scroll_screen(SCROLL_UP)` followed by `k` calls of
`scroll_screen(SCROLL_DOWN)` leave `c_org` equal to its value before the first
call under software scrolling, on a display that wraps (origin inside the
mask), and on a display that does not wrap as long as the window stays clear of
the region limit (`c_org + scr_size + k * scr_width < c_limit`), so that no
scroll relocates it. -/
theorem C8_origin_restored (s : State) (k : Nat) (hm : mask_ok s.display)
    (h : origin_returns s k) :
    (scroll_n (scroll_n s SCROLL_UP k) SCROLL_DOWN k).cons.c_org = s.cons.c_org := by
  rw [scroll_n_org, org_step_scroll_n, scroll_n_org]
  obtain ⟨j, hj, hmj⟩ := hm
  by_cases hs : s.softscroll = true
  · apply iterate_undo _ _ (fun _ _ => True) _ k _ trivial
    intro k x _
    exact ⟨trivial, by rw [org_step_soft s _ _ hs, org_step_soft s _ _ hs]⟩
  · have hs' : s.softscroll = false := by simpa using hs
    rcases h with h | ⟨hw, hx⟩ | ⟨hw, h1, h2, h3⟩
    · exact absurd h hs
    · apply iterate_undo _ _ (fun _ x => x < 2 ^ j) _ k _ (by omega)
      intro k x hx
      rw [org_step_up_wrap s x j hs' hw hj hmj, org_step_down_wrap s _ j hs' hw hj hmj]
      exact ⟨Nat.mod_lt _ (by positivity), down_up_wrap x j hj hx⟩
    · apply iterate_undo _ _
        (fun k x => s.cons.c_start ≤ x ∧ x + scr_size + k * scr_width < s.cons.c_limit) _ k _
        ⟨h1, h2⟩
      intro k x ⟨hx1, hx2⟩
      have hx3 : x + scr_size + scr_width < s.cons.c_limit := by
        have : (k + 1) * scr_width = k * scr_width + scr_width := by ring
        omega
      rw [org_step_up_plain s x j hs' hw hj hmj hx3 h3,
        org_step_down_plain s _ j hs' hw hj hmj (by omega)
          (by unfold scr_size scr_width at *; omega)]
      refine ⟨⟨by omega, ?_⟩, by omega⟩
      have : (k + 1) * scr_width = k * scr_width + scr_width := by ring
      omega

/-- C8, witness: thirty scrolls each way on the wrapping display of `ex_state`,
three each way on the non-wrapping display of `ex_first`. -/
theorem C8_origin_restored_witness :
    (scroll_n (scroll_n ex_state SCROLL_UP 30) SCROLL_DOWN 30).cons.c_org
        = ex_state.cons.c_org
      ∧ (scroll_n (scroll_n ex_first SCROLL_UP 3) SCROLL_DOWN 3).cons.c_org
        = ex_first.cons.c_org :=
  ⟨C8_origin_restored ex_state 30 ⟨13, by decide, by decide⟩ (by decide),
   C8_origin_restored ex_first 3 ⟨14, by decide, by decide⟩ (by decide)⟩

/-! ## C9: the visible window after scrolling up and down -/

theorem addr_eq_of (d : display_t) (j : Nat) (hm : d.vid_mask + 1 = 2 ^ j) (a b : Nat)
    (h1 : d.wrap = true → a % 2 ^ j = b % 2 ^ j) (h2 : d.wrap = false → a = b) :
    addr_eq d a b := by
  intro i
  unfold vid_addr
  by_cases hw : d.wrap = true
  · simp only [hw, if_true]
    rw [and_mask _ j _ hm, and_mask _ j _ hm]
    exact Nat.ModEq.add_right i (h1 hw)
  · have hw' : d.wrap = false := by simpa using hw
    simp only [hw', Bool.false_eq_true, if_false]
    rw [h2 hw']

theorem write_run_addr_eq (d : display_t) (cells : Nat → Nat) (a b n : Nat) (v : Nat → Nat)
    (h : addr_eq d a b) : write_run d cells a n v = write_run d cells b n v := by
  induction n with
  | zero => simp [write_run_zero]
  | succ n ih => rw [write_run_succ, write_run_succ, ih, h n]

/-- The scrolled origin and the copy of `scroll_screen`, going up: the cell at
offset `i` of the new window, before the new line is blanked, is the cell at
offset `i + scr_width` of the old one. -/
theorem scroll_copy_up (t : State) (hw : window_ok t) (i : Nat)
    (hi : i < scr_size - scr_width) :
    scroll_copy t SCROLL_UP (vid_addr t.display (scroll_org t SCROLL_UP + i))
      = t.vram (vid_addr t.display (t.cons.c_org + (i + scr_width))) := by
  obtain ⟨⟨j, hj, hm⟩, hok, hplain, hsoft⟩ := hw
  have hp := pow_le_65536 j hj
  have hdvd := pow_dvd_UINT_MOD j hj
  by_cases hs : t.softscroll = true
  · -- software scrolling
    have ho := hsoft hs
    have e : addr_eq t.display (uadd t.cons.c_start scr_width) (t.cons.c_start + scr_width) := by
      apply addr_eq_of _ j hm
      · intro _
        exact Nat.mod_mod_of_dvd _ hdvd
      · intro hwr
        obtain ⟨h1, h2, h3⟩ := hplain hwr
        exact uadd_small _ _ (by unfold UINT_MOD scr_size scr_width at *; omega)
    simp only [scroll_copy, scroll_org, hs, if_true, vid_vid_copy, ho]
    have := write_run_window t.display hok
      (fun i => t.vram (vid_addr t.display (uadd t.cons.c_start scr_width + i)))
      t.cons.c_start 0 (scr_size - scr_width) t.vram (by unfold scr_size scr_width; omega) i
      (by unfold scr_size scr_width at *; omega)
    simp only [Nat.add_zero] at this
    rw [this]
    have h1 : 0 ≤ i ∧ i < 0 + (scr_size - scr_width) := by omega
    simp only [h1, and_self, if_true, Nat.sub_zero]
    rw [e i]
    congr 2
    omega
  · have hs' : t.softscroll = false := by simpa using hs
    by_cases hr : t.display.wrap = false
        ∧ uadd (uadd t.cons.c_org scr_size) scr_width ≥ t.cons.c_limit
    · -- relocation to the start of the region
      have hwr := hr.1
      obtain ⟨h1, h2, h3⟩ := hplain hwr
      have e : uadd t.cons.c_org scr_width = t.cons.c_org + scr_width :=
        uadd_small _ _ (by unfold UINT_MOD scr_size scr_width at *; omega)
      simp only [scroll_copy, scroll_org, hs', if_true, vid_vid_copy]
      simp only [Bool.false_eq_true, if_false]
      rw [if_pos hr, if_pos hr, e]
      have := write_run_window t.display hok
        (fun i => t.vram (vid_addr t.display (t.cons.c_org + scr_width + i)))
        t.cons.c_start 0 (scr_size - scr_width) t.vram (by unfold scr_size scr_width; omega) i
        (by unfold scr_size scr_width at *; omega)
      simp only [Nat.add_zero] at this
      rw [this]
      have h1 : 0 ≤ i ∧ i < 0 + (scr_size - scr_width) := by omega
      simp only [h1, and_self, if_true, Nat.sub_zero]
      congr 2
      omega
    · -- origin shift
      have e : addr_eq t.display ((uadd t.cons.c_org scr_width) &&& t.display.vid_mask)
          (t.cons.c_org + scr_width) := by
        apply addr_eq_of _ j hm
        · intro _
          rw [and_mask _ j _ hm, Nat.mod_mod, uadd, Nat.mod_mod_of_dvd _ hdvd]
        · intro hwr
          obtain ⟨h1, h2, h3⟩ := hplain hwr
          have h4 : ¬ (uadd (uadd t.cons.c_org scr_size) scr_width ≥ t.cons.c_limit) := by
            intro h; exact hr ⟨hwr, h⟩
          rw [uadd_small t.cons.c_org scr_size
            (by unfold UINT_MOD scr_size scr_width at *; omega),
            uadd_small _ _ (by unfold UINT_MOD scr_size scr_width at *; omega)] at h4
          rw [uadd_small _ _ (by unfold UINT_MOD scr_size scr_width at *; omega),
            and_mask _ j _ hm, Nat.mod_eq_of_lt (by unfold scr_size scr_width at *; omega)]
      simp only [scroll_copy, scroll_org, hs', if_true]
      simp only [Bool.false_eq_true, if_false]
      rw [if_neg hr, if_neg hr, e i]
      congr 2
      omega

/-- On a display that does not wrap, the origin chosen by `scroll_screen`
keeps the window inside the region. -/
theorem scroll_org_plain (t : State) (hw : window_ok t) (dir : Nat)
    (hwr : t.display.wrap = false) :
    t.cons.c_start ≤ scroll_org t dir ∧ scroll_org t dir + scr_size ≤ t.cons.c_limit := by
  obtain ⟨⟨j, hj, hm⟩, hok, hplain, hsoft⟩ := hw
  have hp := pow_le_65536 j hj
  have hsz : scr_size = 2000 := rfl
  have hwd : scr_width = 80 := rfl
  have hu : UINT_MOD = 65536 := rfl
  obtain ⟨h1, h2, h3⟩ := hplain hwr
  have e1 : uadd (uadd t.cons.c_org scr_size) scr_width = t.cons.c_org + scr_size + scr_width := by
    rw [uadd_small t.cons.c_org scr_size (by omega), uadd_small _ _ (by omega)]
  have e2 : uadd t.cons.c_org scr_width = t.cons.c_org + scr_width :=
    uadd_small _ _ (by omega)
  have e3 : uadd t.cons.c_start scr_width = t.cons.c_start + scr_width :=
    uadd_small _ _ (by omega)
  have e4 : usub t.cons.c_limit scr_size = t.cons.c_limit - scr_size := by
    rw [usub_eq _ _ (by omega), hu, hsz]
    omega
  unfold scroll_org
  by_cases hd : dir = SCROLL_UP
  · rw [if_pos hd]
    by_cases hs : t.softscroll = true
    · rw [if_pos hs]; omega
    · rw [if_neg hs]
      by_cases hr : t.display.wrap = false
          ∧ uadd (uadd t.cons.c_org scr_size) scr_width ≥ t.cons.c_limit
      · rw [if_pos hr]; omega
      · rw [if_neg hr, e2, and_mask _ j _ hm, Nat.mod_eq_of_lt (by omega)]
        have : ¬ (t.cons.c_org + scr_size + scr_width ≥ t.cons.c_limit) := by
          intro h; exact hr ⟨hwr, by rw [e1]; exact h⟩
        omega
  · rw [if_neg hd]
    by_cases hs : t.softscroll = true
    · rw [if_pos hs]; omega
    · rw [if_neg hs]
      by_cases hr : t.display.wrap = false ∧ t.cons.c_org < uadd t.cons.c_start scr_width
      · rw [if_pos hr, e4]; omega
      · rw [if_neg hr]
        have h5 : ¬ (t.cons.c_org < t.cons.c_start + scr_width) := by
          intro h; exact hr ⟨hwr, by rw [e3]; exact h⟩
        have e5 : usub t.cons.c_org scr_width = t.cons.c_org - scr_width := by
          rw [usub_eq _ _ (by omega), hu, hwd]
          omega
        rw [e5, and_mask _ j _ hm, Nat.mod_eq_of_lt (by omega)]
        omega

theorem scroll_org_soft (t : State) (dir : Nat) (h : t.softscroll = true) :
    scroll_org t dir = t.cons.c_org := by
  unfold scroll_org
  simp [h]

/-- The line that `scroll_screen` blanks going up is the last line of the
new window. -/
theorem scroll_new_line_up (t : State) (hw : window_ok t) :
    addr_eq t.display (scroll_new_line t SCROLL_UP)
      (scroll_org t SCROLL_UP + (scr_size - scr_width)) := by
  have hpl := scroll_org_plain t hw SCROLL_UP
  obtain ⟨⟨j, hj, hm⟩, hok, hplain, hsoft⟩ := hw
  have hp := pow_le_65536 j hj
  have hdvd := pow_dvd_UINT_MOD j hj
  have hsz : scr_size = 2000 := rfl
  have hwd : scr_width = 80 := rfl
  have hu : UINT_MOD = 65536 := rfl
  simp only [scroll_new_line, if_true]
  apply addr_eq_of _ j hm
  · intro _
    rw [and_mask _ j _ hm, Nat.mod_mod, uadd, Nat.mod_mod_of_dvd _ hdvd]
  · intro hwr
    obtain ⟨h1, h2, h3⟩ := hplain hwr
    obtain ⟨h4, h5⟩ := hpl hwr
    rw [uadd_small _ _ (by omega),
      and_mask _ j _ hm, Nat.mod_eq_of_lt (by omega)]

theorem window_ok_flush (s : State) (h : window_ok s) : window_ok (flush s) := by
  unfold window_ok at *
  simpa using h

/-- What `scroll_screen(cons, SCROLL_UP)` does to the visible window: every
line moves up one line and the last line is blank. -/
theorem scroll_up_visible (s : State) (hw : window_ok s) (i : Nat) (hi : i < scr_size) :
    visible (scroll_screen s SCROLL_UP) i
      = if i < scr_size - scr_width then visible (flush s) (i + scr_width)
        else blank_cell s.display := by
  have hwt := window_ok_flush s hw
  have hnl := scroll_new_line_up (flush s) hwt
  have hok : display_ok s.display := hw.2.1
  unfold visible
  rw [scroll_screen_vram, scroll_screen_display, scroll_screen_org]
  simp only [mem_vid_copy]
  have hd : (flush s).display = s.display := flush_display s
  have hsz : scr_size = 2000 := rfl
  have hwd : scr_width = 80 := rfl
  rw [hd] at hnl ⊢
  rw [write_run_addr_eq _ _ _ _ _ _ hnl,
    write_run_window s.display hok _ _ _ _ _ (by omega) i hi]
  by_cases h : i < scr_size - scr_width
  · have h' : ¬ (scr_size - scr_width ≤ i ∧ i < scr_size - scr_width + scr_width) := by omega
    simp only [h, h', if_true, if_false]
    have := scroll_copy_up (flush s) hwt i h
    rw [hd] at this
    rw [this]
  · have h' : scr_size - scr_width ≤ i ∧ i < scr_size - scr_width + scr_width := by
      omega
    simp only [h, h', and_self, if_true, if_false]

/-- The scrolled origin and the copy of `scroll_screen`, going down: the cell
at offset `i + scr_width` of the new window is the cell at offset `i` of the
old one. -/
theorem scroll_copy_down (t : State) (hw : window_ok t) (i : Nat)
    (hi : i < scr_size - scr_width) :
    scroll_copy t SCROLL_DOWN
        (vid_addr t.display (scroll_org t SCROLL_DOWN + (i + scr_width)))
      = t.vram (vid_addr t.display (t.cons.c_org + i)) := by
  obtain ⟨⟨j, hj, hm⟩, hok, hplain, hsoft⟩ := hw
  have hp := pow_le_65536 j hj
  have hdvd := pow_dvd_UINT_MOD j hj
  have hsz : scr_size = 2000 := rfl
  have hwd : scr_width = 80 := rfl
  have hu : UINT_MOD = 65536 := rfl
  have hd : ¬ SCROLL_DOWN = SCROLL_UP := by decide
  unfold scroll_copy scroll_org
  rw [if_neg hd, if_neg hd]
  by_cases hs : t.softscroll = true
  · -- software scrolling
    have ho := hsoft hs
    have e : addr_eq t.display (uadd t.cons.c_start scr_width) (t.cons.c_start + scr_width) := by
      apply addr_eq_of _ j hm
      · intro _
        exact Nat.mod_mod_of_dvd _ hdvd
      · intro hwr
        obtain ⟨h1, h2, h3⟩ := hplain hwr
        exact uadd_small _ _ (by omega)
    rw [if_pos hs, if_pos hs, ho]
    unfold vid_vid_copy
    rw [write_run_addr_eq _ _ _ _ _ _ e,
      write_run_window t.display hok _ _ _ _ _ (by omega) (i + scr_width) (by omega)]
    have h1 : scr_width ≤ i + scr_width ∧ i + scr_width < scr_width + (scr_size - scr_width) := by
      omega
    simp only [h1, and_self, if_true, Nat.add_sub_cancel]
  · rw [if_neg hs, if_neg hs]
    by_cases hr : t.display.wrap = false ∧ t.cons.c_org < uadd t.cons.c_start scr_width
    · -- relocation to the end of the region
      have hwr := hr.1
      obtain ⟨h1, h2, h3⟩ := hplain hwr
      have e4 : usub t.cons.c_limit scr_size = t.cons.c_limit - scr_size := by
        rw [usub_eq _ _ (by omega), hu, hsz]
        omega
      have e5 : uadd (t.cons.c_limit - scr_size) scr_width
          = t.cons.c_limit - scr_size + scr_width := uadd_small _ _ (by omega)
      rw [if_pos hr, if_pos hr, e4, e5]
      unfold vid_vid_copy
      rw [write_run_window t.display hok _ _ _ _ _ (by omega) (i + scr_width) (by omega)]
      have h1 : scr_width ≤ i + scr_width ∧ i + scr_width < scr_width + (scr_size - scr_width) := by
        omega
      simp only [h1, and_self, if_true, Nat.add_sub_cancel]
    · -- origin shift
      rw [if_neg hr, if_neg hr]
      have e : addr_eq t.display ((usub t.cons.c_org scr_width &&& t.display.vid_mask) + scr_width)
          t.cons.c_org := by
        apply addr_eq_of _ j hm
        · intro _
          rw [and_mask _ j _ hm, usub_eq _ _ (by omega), Nat.mod_mod_of_dvd _ hdvd]
          have h1 : (t.cons.c_org + UINT_MOD - scr_width) % 2 ^ j + scr_width
              ≡ t.cons.c_org + UINT_MOD - scr_width + scr_width [MOD 2 ^ j] :=
            Nat.ModEq.add_right _ (Nat.mod_modEq _ _)
          have h2 : t.cons.c_org + UINT_MOD - scr_width + scr_width = t.cons.c_org + UINT_MOD := by
            omega
          have h3 : t.cons.c_org + UINT_MOD ≡ t.cons.c_org [MOD 2 ^ j] := by
            have : UINT_MOD ≡ 0 [MOD 2 ^ j] := (Nat.modEq_zero_iff_dvd).2 hdvd
            simpa using Nat.ModEq.add_left t.cons.c_org this
          rw [h2] at h1
          exact h1.trans h3
        · intro hwr
          obtain ⟨h1, h2, h3⟩ := hplain hwr
          have h5 : ¬ (t.cons.c_org < uadd t.cons.c_start scr_width) := by
            intro h; exact hr ⟨hwr, h⟩
          rw [uadd_small _ _ (by omega)] at h5
          have e5 : usub t.cons.c_org scr_width = t.cons.c_org - scr_width := by
            rw [usub_eq _ _ (by omega), hu, hwd]
            omega
          rw [e5, and_mask _ j _ hm, Nat.mod_eq_of_lt (by omega)]
          omega
      have := e i
      rw [← this]
      congr 2
      omega

/-- What `scroll_screen(cons, SCROLL_DOWN)` does to the visible window: every
line moves down one line and the first line is blank. -/
theorem scroll_down_visible (s : State) (hw : window_ok s) (i : Nat) (hi : i < scr_size) :
    visible (scroll_screen s SCROLL_DOWN) i
      = if i < scr_width then blank_cell s.display
        else visible (flush s) (i - scr_width) := by
  have hwt := window_ok_flush s hw
  have hok : display_ok s.display := hw.2.1
  have hd : (flush s).display = s.display := flush_display s
  have hsz : scr_size = 2000 := rfl
  have hwd : scr_width = 80 := rfl
  have hdn : ¬ SCROLL_DOWN = SCROLL_UP := by decide
  unfold visible
  rw [scroll_screen_vram, scroll_screen_display, scroll_screen_org]
  simp only [mem_vid_copy, scroll_new_line, hdn, if_false]
  have := write_run_window s.display hok (fun _ => blank_cell s.display)
    (scroll_org (flush s) SCROLL_DOWN) 0 scr_width (scroll_copy (flush s) SCROLL_DOWN)
    (by omega) i hi
  simp only [Nat.add_zero] at this
  rw [this]
  by_cases h : i < scr_width
  · have h' : 0 ≤ i ∧ i < 0 + scr_width := by omega
    simp only [h, h', and_self, if_true]
  · have h' : ¬ (0 ≤ i ∧ i < 0 + scr_width) := by omega
    simp only [h, h', if_false]
    have h2 := scroll_copy_down (flush s) hwt (i - scr_width) (by omega)
    have e : i - scr_width + scr_width = i := by omega
    rw [e, hd] at h2
    rw [h2, hd]

theorem window_ok_scroll_screen (s : State) (dir : Nat) (h : window_ok s) :
    window_ok (scroll_screen s dir) := by
  have hf := window_ok_flush s h
  have hpl := scroll_org_plain (flush s) hf dir
  obtain ⟨hm, hok, hplain, hsoft⟩ := h
  refine ⟨by simpa using hm, by simpa using hok, ?_, ?_⟩
  · intro hwr
    simp only [scroll_screen_display] at hwr
    obtain ⟨h1, h2, h3⟩ := hplain hwr
    have := hpl (by simpa using hwr)
    simp only [flush_start, flush_limit] at this
    simp only [scroll_screen_start, scroll_screen_org, scroll_screen_limit,
      scroll_screen_display]
    exact ⟨this.1, this.2, h3⟩
  · intro hs
    simp only [scroll_screen_softscroll] at hs
    simp only [scroll_screen_start, scroll_screen_org]
    rw [scroll_org_soft _ _ (by simpa using hs)]
    simpa using hsoft hs

theorem scroll_n_props (s : State) (dir : Nat) (hw : window_ok s)
    (hq : s.cons.c_rwords = 0) (k : Nat) :
    window_ok (scroll_n s dir k) ∧ (scroll_n s dir k).cons.c_rwords = 0
      ∧ (scroll_n s dir k).display = s.display := by
  induction k with
  | zero => exact ⟨hw, hq, rfl⟩
  | succ k ih =>
    obtain ⟨h1, h2, h3⟩ := ih
    refine ⟨window_ok_scroll_screen _ _ h1, by simp [scroll_n], ?_⟩
    simp [scroll_n, h3]

/-- The visible window after `k` scrolls up. -/
theorem scroll_n_up_visible (s : State) (hw : window_ok s) (hq : s.cons.c_rwords = 0)
    (k : Nat) : ∀ i, i < scr_size →
    visible (scroll_n s SCROLL_UP k) i
      = if i + k * scr_width < scr_size then visible s (i + k * scr_width)
        else blank_cell s.display := by
  have hsz : scr_size = 2000 := rfl
  have hwd : scr_width = 80 := rfl
  induction k with
  | zero =>
    intro i hi
    simp [scroll_n, hi]
  | succ k ih =>
    intro i hi
    obtain ⟨h1, h2, h3⟩ := scroll_n_props s SCROLL_UP hw hq k
    rw [scroll_n, scroll_up_visible _ h1 i hi, h3]
    by_cases h : i < scr_size - scr_width
    · simp only [h, if_true]
      rw [visible_flush _ _ h2, ih (i + scr_width) (by omega)]
      have e : i + scr_width + k * scr_width = i + (k + 1) * scr_width := by ring
      rw [e]
    · have h' : ¬ (i + (k + 1) * scr_width < scr_size) := by
        rw [hwd, hsz] at *
        omega
      simp only [h, h', if_false]

/-- The visible window after `k` scrolls down. -/
theorem scroll_n_down_visible (s : State) (hw : window_ok s) (hq : s.cons.c_rwords = 0)
    (k : Nat) : ∀ i, i < scr_size →
    visible (scroll_n s SCROLL_DOWN k) i
      = if i < k * scr_width then blank_cell s.display
        else visible s (i - k * scr_width) := by
  have hsz : scr_size = 2000 := rfl
  have hwd : scr_width = 80 := rfl
  induction k with
  | zero =>
    intro i hi
    simp [scroll_n]
  | succ k ih =>
    intro i hi
    obtain ⟨h1, h2, h3⟩ := scroll_n_props s SCROLL_DOWN hw hq k
    rw [scroll_n, scroll_down_visible _ h1 i hi, h3]
    by_cases h : i < scr_width
    · have h' : i < (k + 1) * scr_width := by rw [hwd] at *; omega
      simp only [h, h', if_true]
    · simp only [h, if_false]
      rw [visible_flush _ _ h2, ih (i - scr_width) (by omega)]
      by_cases h4 : i - scr_width < k * scr_width
      · have h' : i < (k + 1) * scr_width := by rw [hwd] at *; omega
        simp only [h4, h', if_true]
      · have h' : ¬ (i < (k + 1) * scr_width) := by rw [hwd] at *; omega
        simp only [h4, h', if_false]
        congr 1
        rw [hwd] at *
        omega

/-- C9 (as amended): for a console with nothing pending that satisfies the
window invariant, on wrap-capable and on non-wrap-capable displays and under
software scrolling alike, `k` calls of `scroll_screen(SCROLL_UP)` followed by
`k` calls of `scroll_screen(SCROLL_DOWN)` leave the visible cells from row `k`
on (offsets `k * scr_width` and up, read relative to `c_org`) equal to the
visible cells before the first call, and leave the first `k` rows blank. -/
theorem C9_content_after_scrolls (s : State) (k : Nat) (hw : window_ok s)
    (hq : s.cons.c_rwords = 0) :
    ∀ i, i < scr_size →
      visible (scroll_n (scroll_n s SCROLL_UP k) SCROLL_DOWN k) i
        = if i < k * scr_width then blank_cell s.display else visible s i := by
  intro i hi
  have hsz : scr_size = 2000 := rfl
  have hwd : scr_width = 80 := rfl
  obtain ⟨h1, h2, h3⟩ := scroll_n_props s SCROLL_UP hw hq k
  rw [scroll_n_down_visible _ h1 h2 k i hi, h3]
  by_cases h : i < k * scr_width
  · simp only [h, if_true]
  · simp only [h, if_false]
    rw [scroll_n_up_visible s hw hq k _ (by omega)]
    have e : i - k * scr_width + k * scr_width = i := by omega
    rw [e]
    simp only [hi, if_true]

/-- C9, witness: two scrolls each way on the lettered screen of a wrapping
display, at the first cell of row 0 and of row 2; and 44 each way, relocations
included, on a display that does not wrap, at the last cell of the window. -/
theorem C9_content_after_scrolls_witness :
    visible (scroll_n (scroll_n ex_lines SCROLL_UP 2) SCROLL_DOWN 2) 0
        = blank_cell ex_lines.display
      ∧ visible (scroll_n (scroll_n ex_lines SCROLL_UP 2) SCROLL_DOWN 2) 160
        = visible ex_lines 160
      ∧ visible (scroll_n (scroll_n ex_first SCROLL_UP 44) SCROLL_DOWN 44) 1999
        = blank_cell ex_first.display :=
  ⟨C9_content_after_scrolls ex_lines 2
      ⟨⟨13, by decide, by decide⟩, fun _ => ⟨13, by decide, by decide⟩,
        fun h => absurd h (by decide), fun h => absurd h (by decide)⟩ (by decide) 0
      (by decide),
   C9_content_after_scrolls ex_lines 2
      ⟨⟨13, by decide, by decide⟩, fun _ => ⟨13, by decide, by decide⟩,
        fun h => absurd h (by decide), fun h => absurd h (by decide)⟩ (by decide) 160
      (by decide),
   C9_content_after_scrolls ex_first 44
      ⟨⟨14, by decide, by decide⟩, fun h => absurd h (by decide),
        fun _ => by decide, fun h => absurd h (by decide)⟩ (by decide) 1999 (by decide)⟩

set_option maxRecDepth 100000 in
/-- C9, counterexample: on the lettered screen `ex_lines`, with nothing
pending, one scroll up followed by one scroll down leaves a cell at offset 0 of
the window that differs from the one before: the top line comes back blank. -/
theorem C9_counterexample :
    ex_lines.cons.c_rwords = 0
      ∧ visible (scroll_n (scroll_n ex_lines SCROLL_UP 1) SCROLL_DOWN 1) 0
          ≠ visible ex_lines 0 := by
  decide

/-! ## C10: the origin register -/

/-- C10 (the code at the failing input): `scroll_screen(cons, SCROLL_UP)` on
the second console of the EGA, which is not the visible one (`cons != curcons`),
writes its new origin `5541 = 0x15A5` to the 6845 register pair `VID_ORG` of the
display, and writes nothing else. -/
theorem C10_unfocused_scroll_writes_origin :
    ex_second.is_curcons = false
      ∧ (scroll_screen ex_second SCROLL_UP).cons.c_org = 0x15A5
      ∧ (scroll_screen ex_second SCROLL_UP).ports
          = [(C_6845 + INDEX, VID_ORG), (C_6845 + DATA, 0x15),
             (C_6845 + INDEX, VID_ORG + 1), (C_6845 + DATA, 0xA5)] := by
  decide

/-! ## C14 to C16: the queue bound, the cursor range and the escape states -/

@[simp] theorem scroll_screen_ramqueue (s : State) (dir : Nat) :
    (scroll_screen s dir).cons.c_ramqueue = s.cons.c_ramqueue := by
  rw [scroll_screen_eq]; simp

theorem cursor_in_range_flush (s : State) : cursor_in_range (flush s) := by
  unfold cursor_in_range
  simp only [flush_row, flush_column]
  have h1 := clip_row_range s.cons.c_row
  have h2 := clip_column_range s.cons.c_column
  omega

theorem cursor_in_range_scroll (s : State) (dir : Nat) : cursor_in_range (scroll_screen s dir) := by
  unfold cursor_in_range
  simp only [scroll_screen_row, scroll_screen_column]
  have h1 := clip_row_range s.cons.c_row
  have h2 := clip_column_range s.cons.c_column
  omega

theorem do_escape_esc_state (s : State) (c : Nat) : (do_escape s c).cons.c_esc_state = 0 := by
  unfold do_escape
  rfl

theorem do_rendition_inv (t : State) (v : Int) :
    (do_rendition t v).cons.c_rwords = t.cons.c_rwords
      ∧ (do_rendition t v).cons.c_row = t.cons.c_row
      ∧ (do_rendition t v).cons.c_column = t.cons.c_column
      ∧ (do_rendition t v).cons.c_ramqueue = t.cons.c_ramqueue := by
  unfold do_rendition
  split_ifs <;> simp

theorem do_escape_csi_shape (t : State) (c : Nat) : csi_shape t (do_escape_csi t c) := by
  by_cases h65 : c = 65
  · subst h65; exact Or.inl ⟨_, rfl, rfl⟩
  by_cases h66 : c = 66
  · subst h66; exact Or.inl ⟨_, rfl, rfl⟩
  by_cases h67 : c = 67
  · subst h67; exact Or.inl ⟨_, rfl, rfl⟩
  by_cases h68 : c = 68
  · subst h68; exact Or.inl ⟨_, rfl, rfl⟩
  by_cases h72 : c = 72
  · subst h72; exact Or.inl ⟨_, rfl, rfl⟩
  by_cases h74 : c = 74
  · subst h74; exact Or.inr (Or.inl ⟨_, rfl⟩)
  by_cases h75 : c = 75
  · subst h75; exact Or.inr (Or.inl ⟨_, rfl⟩)
  by_cases h76 : c = 76
  · subst h76; exact Or.inr (Or.inl ⟨_, rfl⟩)
  by_cases h77 : c = 77
  · subst h77; exact Or.inr (Or.inl ⟨_, rfl⟩)
  by_cases h64 : c = 64
  · subst h64; exact Or.inr (Or.inl ⟨_, rfl⟩)
  by_cases h80 : c = 80
  · subst h80; exact Or.inr (Or.inl ⟨_, rfl⟩)
  by_cases h109 : c = 109
  · subst h109; exact Or.inr (Or.inr ⟨_, rfl⟩)
  · refine Or.inr (Or.inl ⟨t.vram, ?_⟩)
    unfold do_escape_csi
    dsimp only
    rw [if_neg h65, if_neg h66, if_neg h67, if_neg h68, if_neg h72, if_neg h74, if_neg h75,
      if_neg h76, if_neg h77, if_neg h64, if_neg h80, if_neg h109]

/-- The invariants through a command: nothing pending, cursor in range, queue
array untouched. -/
theorem csi_shape_inv (t r : State) (h : csi_shape t r) (hr : t.cons.c_rwords = 0)
    (hc : cursor_in_range t) :
    r.cons.c_rwords = 0 ∧ cursor_in_range r ∧ r.cons.c_ramqueue = t.cons.c_ramqueue := by
  rcases h with ⟨u, rfl, hu⟩ | ⟨v, rfl⟩ | ⟨v, rfl⟩
  · exact ⟨flush_rwords _, cursor_in_range_flush _, by simp [hu]⟩
  · exact ⟨hr, hc, rfl⟩
  · have hd := do_rendition_inv t v
    refine ⟨hd.1.trans hr, ?_, hd.2.2.2⟩
    unfold cursor_in_range at hc ⊢
    rw [hd.2.1, hd.2.2.1]
    exact hc

theorem do_escape_shape (s : State) (c : Nat) :
    ∃ x, do_escape s c = { x with cons := { x.cons with c_esc_state := 0 } }
      ∧ ((∃ u, x = flush u ∧ u.cons.c_ramqueue = s.cons.c_ramqueue)
          ∨ csi_shape (flush s) x) := by
  unfold do_escape
  dsimp only
  split_ifs
  · exact ⟨_, rfl, Or.inl ⟨_, rfl, by simp⟩⟩
  · exact ⟨_, rfl, Or.inl ⟨_, rfl, by simp⟩⟩
  · exact ⟨_, rfl, Or.inl ⟨_, rfl, rfl⟩⟩
  · exact ⟨_, rfl, Or.inr (do_escape_csi_shape _ _)⟩
  · exact ⟨_, rfl, Or.inl ⟨_, rfl, rfl⟩⟩

theorem do_escape_inv (s : State) (c : Nat) :
    (do_escape s c).cons.c_rwords = 0 ∧ cursor_in_range (do_escape s c)
      ∧ (do_escape s c).cons.c_ramqueue = s.cons.c_ramqueue := by
  obtain ⟨x, hx, h⟩ := do_escape_shape s c
  have hx' : x.cons.c_rwords = 0 ∧ cursor_in_range x
      ∧ x.cons.c_ramqueue = s.cons.c_ramqueue := by
    rcases h with ⟨u, rfl, hu⟩ | h
    · exact ⟨flush_rwords u, cursor_in_range_flush u, by simp [hu]⟩
    · have h := csi_shape_inv (flush s) x h (flush_rwords s) (cursor_in_range_flush s)
      exact ⟨h.1, h.2.1, h.2.2.trans (flush_ramqueue s)⟩
  rw [hx]
  exact hx'

theorem parse_escape_shape (s : State) (c : Nat) :
    same_cursor_queue s (parse_escape s c)
      ∨ ∃ u, parse_escape s c = do_escape u c ∧ u.cons.c_ramqueue = s.cons.c_ramqueue := by
  unfold parse_escape
  dsimp only
  split_ifs
  all_goals first
    | exact Or.inl ⟨rfl, rfl, rfl, rfl⟩
    | exact Or.inr ⟨_, rfl, rfl⟩

theorem parse_escape_inv (s : State) (c : Nat) :
    ((parse_escape s c).cons.c_rwords = s.cons.c_rwords ∨ (parse_escape s c).cons.c_rwords = 0)
      ∧ (cursor_in_range s → cursor_in_range (parse_escape s c))
      ∧ (parse_escape s c).cons.c_ramqueue = s.cons.c_ramqueue := by
  rcases parse_escape_shape s c with h | ⟨u, hu, hq⟩
  · refine ⟨Or.inl h.1, ?_, h.2.2.2⟩
    intro hc
    unfold cursor_in_range at hc ⊢
    rw [h.2.1, h.2.2.1]
    exact hc
  · rw [hu]
    have h := do_escape_inv u c
    exact ⟨Or.inr h.1, fun _ => h.2.1, h.2.2.trans hq⟩

theorem next_row_ramqueue (s : State) : (next_row s).cons.c_ramqueue = s.cons.c_ramqueue := by
  unfold next_row
  split_ifs <;> simp

theorem beep_same (s : State) : same_cursor_queue s (beep s) := by
  unfold beep
  split_ifs <;> exact ⟨rfl, rfl, rfl, rfl⟩

theorem out_char_shape (s : State) (c : Int) : out_char_shapes s c (out_char s c) := by
  obtain ⟨r, hr⟩ : ∃ r, r = out_char s c := ⟨_, rfl⟩
  rw [← hr]
  unfold out_char at hr
  unfold out_char_shapes
  by_cases h0 : 0 < s.cons.c_esc_state
  · rw [if_pos h0] at hr
    exact Or.inl ⟨h0, hr⟩
  rw [if_neg h0] at hr
  by_cases h1 : c = 0
  · rw [if_pos h1] at hr
    exact Or.inr (Or.inl hr)
  rw [if_neg h1] at hr
  by_cases h7 : c = 7
  · rw [if_pos h7] at hr
    refine Or.inr (Or.inr (Or.inl ⟨s, ?_, rfl⟩))
    subst hr
    dsimp only
    split_ifs
    · exact beep_same _
    · exact ⟨rfl, rfl, rfl, rfl⟩
  rw [if_neg h7] at hr
  by_cases h8 : c = 8
  · rw [if_pos h8] at hr
    subst hr
    refine Or.inr (Or.inr (Or.inl ⟨_, ⟨rfl, rfl, rfl, rfl⟩, ?_⟩))
    dsimp only
    split_ifs <;> rfl
  rw [if_neg h8] at hr
  by_cases h10 : c = 10 ∨ c = 11 ∨ c = 12
  · rw [if_pos h10] at hr
    subst hr
    refine Or.inr (Or.inr (Or.inl ⟨_, ⟨rfl, rfl, rfl, rfl⟩, ?_⟩))
    dsimp only
    rw [next_row_ramqueue]
    split_ifs <;> rfl
  rw [if_neg h10] at hr
  by_cases h13 : c = 13
  · rw [if_pos h13] at hr
    subst hr
    exact Or.inr (Or.inr (Or.inl ⟨_, ⟨rfl, rfl, rfl, rfl⟩, rfl⟩))
  rw [if_neg h13] at hr
  by_cases h9 : c = 9
  · rw [if_pos h9] at hr
    subst hr
    refine Or.inr (Or.inr (Or.inl ⟨_, ⟨rfl, rfl, rfl, rfl⟩, ?_⟩))
    dsimp only
    split_ifs
    · rw [next_row_ramqueue]
    · rfl
  rw [if_neg h9] at hr
  by_cases h27 : c = 27
  · rw [if_pos h27] at hr
    subst hr
    exact Or.inr (Or.inr (Or.inl ⟨s, ⟨rfl, rfl, rfl, rfl⟩, rfl⟩))
  rw [if_neg h27] at hr
  by_cases hd : s.cons.c_column ≥ scr_width ∧ s.LINEWRAP = false
  · rw [if_pos hd] at hr
    exact Or.inr (Or.inl hr)
  rw [if_neg hd] at hr
  refine Or.inr (Or.inr (Or.inr ?_))
  by_cases hw : s.cons.c_column ≥ scr_width
  · rw [if_pos hw] at hr
    dsimp only at hr
    rw [flush_rwords, if_neg (by decide : ¬ (0 = CONS_RAM_WORDS))] at hr
    refine ⟨_, hr, ?_, Or.inr (Or.inr ⟨_, rfl, rfl⟩)⟩
    simp [next_row_ramqueue]
  · rw [if_neg hw] at hr
    dsimp only at hr
    by_cases hq : s.cons.c_rwords = CONS_RAM_WORDS
    · rw [if_pos hq] at hr
      exact ⟨_, hr, by simp, Or.inr (Or.inl ⟨rfl, by omega⟩)⟩
    · rw [if_neg hq] at hr
      exact ⟨_, hr, rfl, Or.inl ⟨rfl, by omega, hq⟩⟩

theorem out_char_queue_inv (s : State) (c : Int) (hr : s.cons.c_rwords ≤ CONS_RAM_WORDS) :
    (out_char s c).cons.c_rwords ≤ CONS_RAM_WORDS ∧ stores_in_bounds s (out_char s c) := by
  have hN : CONS_RAM_WORDS = 80 := rfl
  rcases out_char_shape s c with ⟨_, h⟩ | h | ⟨u, h, hu⟩ | ⟨u, h, hu, hcase⟩
  · rw [h]
    have hp := parse_escape_inv s (to_char c)
    refine ⟨?_, Or.inl hp.2.2⟩
    rcases hp.1 with e | e <;> omega
  · rw [h]
    exact ⟨hr, Or.inl rfl⟩
  · refine ⟨?_, Or.inl ?_⟩
    · rw [h.1, flush_rwords]; omega
    · rw [h.2.2.2, flush_ramqueue, hu]
  · rw [h]
    have hlt : u.cons.c_rwords < CONS_RAM_WORDS := by
      rcases hcase with ⟨rfl, _, hne⟩ | ⟨rfl, _⟩ | ⟨w, rfl, _⟩
      · omega
      · rw [flush_rwords]; omega
      · rw [flush_rwords]; omega
    refine ⟨?_, Or.inr ⟨u.cons.c_rwords, hlt,
      (u.cons.c_attr ||| low_byte c) % 65536, ?_⟩⟩
    · show u.cons.c_rwords + 1 ≤ CONS_RAM_WORDS
      omega
    · show Function.update u.cons.c_ramqueue u.cons.c_rwords _ = _
      rw [hu]

theorem out_char_cursor_inv (s : State) (c : Int) (hc : cursor_in_range s) :
    cursor_in_range (out_char s c) := by
  have hW : scr_width = 80 := rfl
  rcases out_char_shape s c with ⟨_, h⟩ | h | ⟨u, h, hu⟩ | ⟨u, h, hu, hcase⟩
  · rw [h]
    exact (parse_escape_inv s (to_char c)).2.1 hc
  · rw [h]
    exact hc
  · have hf := cursor_in_range_flush u
    unfold cursor_in_range at hf ⊢
    rw [h.2.1, h.2.2.1]
    exact hf
  · rw [h]
    have hu2 : cursor_in_range u ∧ u.cons.c_column < scr_width := by
      rcases hcase with ⟨rfl, hlt, _⟩ | ⟨rfl, hlt⟩ | ⟨w, rfl, hw⟩
      · exact ⟨hc, hlt⟩
      · refine ⟨cursor_in_range_flush s, ?_⟩
        rw [flush_column, clip_column_of_range _ hc.2.2.1 hc.2.2.2]
        exact hlt
      · refine ⟨cursor_in_range_flush w, ?_⟩
        rw [flush_column, hw]
        decide
    obtain ⟨⟨a, b, c1, d⟩, e⟩ := hu2
    refine ⟨a, b, ?_, ?_⟩
    · show (0 : Int) ≤ u.cons.c_column + 1
      omega
    · show u.cons.c_column + 1 ≤ (scr_width : Int)
      omega

theorem cons_write_byte_queue_inv (s : State) (b : Nat)
    (hr : s.cons.c_rwords ≤ CONS_RAM_WORDS) :
    (cons_write_byte s b).cons.c_rwords ≤ CONS_RAM_WORDS
      ∧ stores_in_bounds s (cons_write_byte s b) := by
  unfold cons_write_byte
  split_ifs with h
  · exact out_char_queue_inv s b hr
  · have hlt : s.cons.c_rwords < CONS_RAM_WORDS := by omega
    exact ⟨hlt, Or.inr ⟨s.cons.c_rwords, hlt, _, rfl⟩⟩

/-- A full queue in Normal state, left of the margin: `out_char` flushes and
then stores the cell of a printable byte at index 0. -/
theorem out_char_full_queue (s : State) (c : Int) (hesc : s.cons.c_esc_state = 0)
    (hc : ¬ is_control c) (hcol : 0 ≤ s.cons.c_column ∧ s.cons.c_column < scr_width)
    (hq : s.cons.c_rwords = CONS_RAM_WORDS) :
    out_char s c
      = { flush s with cons := { (flush s).cons with
            c_ramqueue := Function.update s.cons.c_ramqueue 0
                            ((s.cons.c_attr ||| low_byte c) % 65536)
            c_rwords := 1
            c_column := s.cons.c_column + 1 } } := by
  unfold is_control at hc
  have hW : scr_width = 80 := rfl
  have hcc : clip_column s.cons.c_column = s.cons.c_column :=
    clip_column_of_range _ hcol.1 (by omega)
  have h1 : ¬ (s.cons.c_column ≥ scr_width ∧ s.LINEWRAP = false) := by omega
  have h2 : ¬ (s.cons.c_column ≥ (scr_width : Int)) := by omega
  unfold out_char
  have e0 : ¬ 0 < s.cons.c_esc_state := by omega
  have c0 : ¬ c = 0 := by omega
  have c7 : ¬ c = 7 := by omega
  have c8 : ¬ c = 8 := by omega
  have c10 : ¬ (c = 10 ∨ c = 11 ∨ c = 12) := by omega
  have c13 : ¬ c = 13 := by omega
  have c9 : ¬ c = 9 := by omega
  have c27 : ¬ c = 27 := by omega
  rw [if_neg e0, if_neg c0, if_neg c7, if_neg c8, if_neg c10, if_neg c13, if_neg c9,
    if_neg c27, if_neg h1]
  dsimp only
  rw [if_neg h2, if_pos hq]
  unfold queue_char
  simp [hcc]

theorem parse_escape_state1 (s : State) (k : Nat) (h : s.cons.c_esc_state = 1) :
    (parse_escape s k).cons.c_esc_state = if k = 91 then 2 else 0 := by
  unfold parse_escape
  rw [if_pos h]
  dsimp only
  split_ifs
  · rfl
  · exact do_escape_esc_state _ _
  · rfl

theorem parse_escape_state2 (s : State) (k : Nat) (h : s.cons.c_esc_state = 2) :
    (parse_escape s k).cons.c_esc_state
      = if (48 ≤ k ∧ k ≤ 57) ∨ k = 59 then 2 else 0 := by
  unfold parse_escape
  rw [if_neg (by omega), if_pos h]
  by_cases hd : 48 ≤ k ∧ k ≤ 57
  · rw [if_pos hd, if_pos (Or.inl hd)]
    split_ifs <;> exact h
  · rw [if_neg hd]
    by_cases hs : k = 59
    · rw [if_pos hs, if_pos (Or.inr hs)]
      dsimp only
      split_ifs <;> exact h
    · rw [if_neg hs, if_neg (by tauto)]
      exact do_escape_esc_state _ _

theorem out_char_in_escape (s : State) (c : Int) (h : 0 < s.cons.c_esc_state) :
    out_char s c = parse_escape s (to_char c) := by
  unfold out_char
  rw [if_pos h]

/-- C14: `c_rwords <= CONS_RAM_WORDS` is kept by the inner-loop step of
`cons_write`, `out_char`, `flush`, `scroll_screen`, `parse_escape` and
`do_escape`; the one store into `c_ramqueue` that the loop step and `out_char`
can make is at an index below `CONS_RAM_WORDS` and the other operations store
nothing; and when the queue is full `out_char` first flushes it, so that the
pending cells reach the video memory, and then stores the new cell at index 0
instead of dropping it. -/
theorem C14_queue_bound (s : State) (hq : s.cons.c_rwords ≤ CONS_RAM_WORDS) :
    (∀ b, (cons_write_byte s b).cons.c_rwords ≤ CONS_RAM_WORDS
        ∧ stores_in_bounds s (cons_write_byte s b))
      ∧ (∀ c, (out_char s c).cons.c_rwords ≤ CONS_RAM_WORDS
          ∧ stores_in_bounds s (out_char s c))
      ∧ ((flush s).cons.c_rwords ≤ CONS_RAM_WORDS
          ∧ (flush s).cons.c_ramqueue = s.cons.c_ramqueue)
      ∧ (∀ dir, (scroll_screen s dir).cons.c_rwords ≤ CONS_RAM_WORDS
          ∧ (scroll_screen s dir).cons.c_ramqueue = s.cons.c_ramqueue)
      ∧ (∀ k, (parse_escape s k).cons.c_rwords ≤ CONS_RAM_WORDS
          ∧ (parse_escape s k).cons.c_ramqueue = s.cons.c_ramqueue)
      ∧ (∀ k, (do_escape s k).cons.c_rwords ≤ CONS_RAM_WORDS
          ∧ (do_escape s k).cons.c_ramqueue = s.cons.c_ramqueue)
      ∧ (∀ c, s.cons.c_esc_state = 0 → ¬ is_control c
          → 0 ≤ s.cons.c_column ∧ s.cons.c_column < scr_width
          → s.cons.c_rwords = CONS_RAM_WORDS
          → (out_char s c).vram
                = mem_vid_copy (some s.cons.c_ramqueue) s.cons.c_cur CONS_RAM_WORDS
                    s.display s.vram
              ∧ (out_char s c).cons.c_rwords = 1
              ∧ (out_char s c).cons.c_ramqueue 0 = (s.cons.c_attr ||| low_byte c) % 65536
              ∧ (out_char s c).cons.c_column = s.cons.c_column + 1) := by
  have hN : CONS_RAM_WORDS = 80 := rfl
  refine ⟨fun b => cons_write_byte_queue_inv s b hq, fun c => out_char_queue_inv s c hq,
    ⟨by rw [flush_rwords]; omega, flush_ramqueue s⟩,
    fun dir => ⟨by rw [scroll_screen_rwords]; omega, scroll_screen_ramqueue s dir⟩,
    fun k => ?_, fun k => ?_, fun c hesc hc hcol hfull => ?_⟩
  · have h := parse_escape_inv s k
    refine ⟨?_, h.2.2⟩
    rcases h.1 with e | e <;> omega
  · have h := do_escape_inv s k
    exact ⟨by omega, h.2.2⟩
  · rw [out_char_full_queue s c hesc hc hcol hfull]
    refine ⟨?_, rfl, ?_, rfl⟩
    · show (flush s).vram = _
      rw [flush_vram, hfull]
      rfl
    · exact Function.update_same (0 : Nat) _ s.cons.c_ramqueue

theorem C14_queue_bound_witness :
    ex_full.cons.c_rwords ≤ CONS_RAM_WORDS
      ∧ (out_char ex_full 65).cons.c_rwords = 1
      ∧ (out_char ex_full 65).cons.c_ramqueue 0 = 0x0741 :=
  ⟨by decide,
   ((C14_queue_bound ex_full (by decide)).2.2.2.2.2.2 65 (by decide) (by decide)
      (by decide) (by decide)).2.1,
   ((C14_queue_bound ex_full (by decide)).2.2.2.2.2.2 65 (by decide) (by decide)
      (by decide) (by decide)).2.2.1⟩

/-- C15: the cursor range `0 <= c_row < scr_lines`, `0 <= c_column <= scr_width`
is kept by `out_char` for every byte and by `flush`. -/
theorem C15_cursor_range (s : State) (c : Int) (h : cursor_in_range s) :
    cursor_in_range (out_char s c) ∧ cursor_in_range (flush (out_char s c))
      ∧ cursor_in_range (flush s) :=
  ⟨out_char_cursor_inv s c h, cursor_in_range_flush _, cursor_in_range_flush _⟩

theorem C15_cursor_range_witness :
    cursor_in_range ex_state
      ∧ cursor_in_range (out_char ex_state 8) ∧ cursor_in_range (flush (out_char ex_state 8))
      ∧ cursor_in_range (flush ex_state) :=
  ⟨by decide, C15_cursor_range ex_state 8 (by decide)⟩

/-- C16: in escape state 1 the byte `[` leads to state 2 and every other byte
to state 0; in state 2 a digit or `;` keeps state 2 and every other byte leads
to state 0; and `do_escape` leaves state 0 whatever the command byte is. -/
theorem C16_escape_transitions (s : State) (c : Int) (hc : 0 ≤ c ∧ c < 256) :
    (s.cons.c_esc_state = 1 →
        (out_char s c).cons.c_esc_state = if c = 91 then 2 else 0)
      ∧ (s.cons.c_esc_state = 2 →
        (out_char s c).cons.c_esc_state = if (48 ≤ c ∧ c ≤ 57) ∨ c = 59 then 2 else 0)
      ∧ (∀ t : State, (do_escape t (to_char c)).cons.c_esc_state = 0) := by
  have hk : ((to_char c : Nat) : Int) = c := by
    unfold to_char
    omega
  refine ⟨fun h => ?_, fun h => ?_, fun t => do_escape_esc_state _ _⟩
  · rw [out_char_in_escape s c (by omega), parse_escape_state1 s _ h]
    by_cases e : c = 91
    · rw [if_pos e, if_pos (by omega)]
    · rw [if_neg e, if_neg (by omega)]
  · rw [out_char_in_escape s c (by omega), parse_escape_state2 s _ h]
    by_cases e : (48 ≤ c ∧ c ≤ 57) ∨ c = 59
    · rw [if_pos e, if_pos (by omega)]
    · rw [if_neg e, if_neg (by omega)]

theorem C16_escape_transitions_witness :
    (0 : Int) ≤ 72 ∧ (72 : Int) < 256
      ∧ (out_char (csi_state ex_state 1 1 1) 72).cons.c_esc_state = 0 :=
  ⟨by decide, by decide,
   (C16_escape_transitions (csi_state ex_state 1 1 1) 72 (by decide)).2.1 rfl⟩

/-! ## C17 to C20: commands with parameters -/

theorem flush_flush (s : State) : flush (flush s) = flush s := by
  rw [flush_eq (flush s)]
  have h1 : flush_cur_addr (flush s) = (flush s).cons.c_cur := by
    rw [flush_cur]
    simp [flush_cur_addr, clip_row_idem, clip_column_idem]
  simp only [h1, flush_rwords, write_run_zero, ne_eq, not_true_eq_false, false_and, if_false,
    lt_self_iff_false, flush_column, flush_row, clip_row_idem, clip_column_idem]
  rw [flush_eq]

theorem flush_csi_state (t : State) (p0 p1 : Int) (pp : Nat) :
    flush (csi_state t p0 p1 pp) = csi_state (flush t) p0 p1 pp := by
  rw [flush_eq, flush_eq]
  rfl

theorem flush_set_parmp (t : State) (p : Nat) :
    flush (set_parmp t p) = set_parmp (flush t) p := by
  rw [flush_eq, flush_eq]
  rfl

theorem csi_command (s : State) (hesc : s.cons.c_esc_state = 0) (ds : List Int)
    (hds : ∀ d ∈ ds, 48 ≤ d ∧ d ≤ 57) (x : Int)
    (hd : ¬ (48 ≤ to_char x ∧ to_char x ≤ 57)) (hs : to_char x ≠ 59) :
    out_chars s ([27, 91] ++ ds ++ [x])
      = esc_done (do_escape_csi (csi_state (flush s) (accumulate 0 ds) 0 0) (to_char x)) := by
  have e : out_chars s ([27, 91] ++ ds ++ [x])
      = out_char (out_chars (out_chars s [27, 91]) ds) x := by
    simp only [out_chars_append, out_chars_cons, out_chars_nil]
  rw [e, out_chars_esc_bracket s hesc, out_chars_digits0 _ _ _ _ hds,
    out_char_command _ _ _ _ _ hd hs, flush_csi_state, flush_flush]
  rfl

theorem param_digits_ok (v : Option Nat) :
    (∀ d ∈ param_digits v, 48 ≤ d ∧ d ≤ 57)
      ∧ accumulate 0 (param_digits v) = to_int (param_value v) := by
  cases v with
  | none => exact ⟨fun d hd => by simp [param_digits] at hd, by decide⟩
  | some v => exact ⟨decimal_digits v, accumulate_decimal_wrap v⟩

/-- The command `x` of an `ESC [` sequence with any first parameter `v`: it is
run with the value that `v` leaves in an `int`. -/
theorem csi_param_wrap (s : State) (hesc : s.cons.c_esc_state = 0) (v : Option Nat)
    (x : Int) (hd : ¬ (48 ≤ to_char x ∧ to_char x ≤ 57)) (hs : to_char x ≠ 59) :
    out_chars s (csi (param_digits v) x)
      = esc_done (do_escape_csi (csi_state (flush s) (to_int (param_value v)) 0 0)
          (to_char x)) := by
  unfold csi
  rw [csi_command s hesc _ (param_digits_ok v).1 x hd hs, (param_digits_ok v).2]

/-- The command `x` of an `ESC [` sequence with a first parameter `v` that an
`int` holds, run on the flushed console. -/
theorem csi_param_command (s : State) (hesc : s.cons.c_esc_state = 0) (v : Option Nat)
    (hint : param_value v < 32768)
    (x : Int) (hd : ¬ (48 ≤ to_char x ∧ to_char x ≤ 57)) (hs : to_char x ≠ 59) :
    out_chars s (csi (param_digits v) x)
      = esc_done (do_escape_csi (csi_state (flush s) (param_value v) 0 0) (to_char x)) := by
  rw [csi_param_wrap s hesc v x hd hs, to_int_small _ (by omega) (by omega)]

/-- The four cursor motions `ESC [vA`, `ESC [vB`, `ESC [vC` and `ESC [vD` on a
console with the cursor in range. -/
theorem cursor_motion_effect (s : State) (v : Option Nat)
    (hint : param_value v < 32768) (hesc : s.cons.c_esc_state = 0)
    (hcur : cursor_in_range s) :
    ((out_chars s (csi (param_digits v) 65)).cons.c_row
          = max 0 (s.cons.c_row - motion_count v)
        ∧ (out_chars s (csi (param_digits v) 65)).cons.c_column = s.cons.c_column
        ∧ (out_chars s (csi (param_digits v) 65)).vram = (flush s).vram)
      ∧ ((out_chars s (csi (param_digits v) 66)).cons.c_row
          = min ((scr_lines : Int) - 1) (s.cons.c_row + motion_count v)
        ∧ (out_chars s (csi (param_digits v) 66)).cons.c_column = s.cons.c_column
        ∧ (out_chars s (csi (param_digits v) 66)).vram = (flush s).vram)
      ∧ ((out_chars s (csi (param_digits v) 67)).cons.c_column
          = min (scr_width : Int) (s.cons.c_column + motion_count v)
        ∧ (out_chars s (csi (param_digits v) 67)).cons.c_row = s.cons.c_row
        ∧ (out_chars s (csi (param_digits v) 67)).vram = (flush s).vram)
      ∧ ((out_chars s (csi (param_digits v) 68)).cons.c_column
          = max 0 (s.cons.c_column - motion_count v)
        ∧ (out_chars s (csi (param_digits v) 68)).cons.c_row = s.cons.c_row
        ∧ (out_chars s (csi (param_digits v) 68)).vram = (flush s).vram) := by
  obtain ⟨hr0, hr1, hc0, hc1⟩ := hcur
  have hrr : clip_row s.cons.c_row = s.cons.c_row := clip_row_of_range _ hr0 hr1
  have hcc : clip_column s.cons.c_column = s.cons.c_column := clip_column_of_range _ hc0 hc1
  have hn : 1 ≤ motion_count v := by
    unfold motion_count
    split_ifs <;> omega
  have hL : scr_lines = 25 := rfl
  have hW : scr_width = 80 := rfl
  have hup : ∀ n : Int, 1 ≤ n → clip_row (s.cons.c_row - n) = max 0 (s.cons.c_row - n) := by
    intro n h
    unfold clip_row
    dsimp only
    split_ifs <;> omega
  have hdown : ∀ n : Int, 1 ≤ n →
      clip_row (s.cons.c_row + n) = min ((scr_lines : Int) - 1) (s.cons.c_row + n) := by
    intro n h
    unfold clip_row
    dsimp only
    split_ifs <;> omega
  have hright : ∀ n : Int, 1 ≤ n →
      clip_column (s.cons.c_column + n) = min (scr_width : Int) (s.cons.c_column + n) := by
    intro n h
    unfold clip_column
    dsimp only
    split_ifs <;> omega
  have hleft : ∀ n : Int, 1 ≤ n →
      clip_column (s.cons.c_column - n) = max 0 (s.cons.c_column - n) := by
    intro n h
    unfold clip_column
    dsimp only
    split_ifs <;> omega
  rw [csi_param_command s hesc v hint 65 (by decide) (by decide),
    csi_param_command s hesc v hint 66 (by decide) (by decide),
    csi_param_command s hesc v hint 67 (by decide) (by decide),
    csi_param_command s hesc v hint 68 (by decide) (by decide)]
  have h65 : to_char 65 = 65 := rfl
  have h66 : to_char 66 = 66 := rfl
  have h67 : to_char 67 = 67 := rfl
  have h68 : to_char 68 = 68 := rfl
  rw [h65, h66, h67, h68, ← hup _ hn, ← hdown _ hn, ← hright _ hn, ← hleft _ hn]
  unfold motion_count
  refine ⟨⟨?_, ?_, ?_⟩, ⟨?_, ?_, ?_⟩, ⟨?_, ?_, ?_⟩, ⟨?_, ?_, ?_⟩⟩ <;>
    simp [do_escape_csi, csi_state, esc_done, hrr, hcc, clip_row_idem, clip_column_idem,
      write_run_zero]

theorem do_rendition_set_parmp (t : State) (p : Nat) (v : Int) :
    do_rendition (set_parmp t p) v = set_parmp (do_rendition t v) p := by
  unfold do_rendition set_parmp
  dsimp only
  split_ifs <;> rfl

/-- The commands of `do_escape` neither read nor write the parameter pointer. -/
theorem do_escape_csi_set_parmp (u : State) (p : Nat) (c : Nat) :
    do_escape_csi (set_parmp u p) c = set_parmp (do_escape_csi u c) p := by
  by_cases h65 : c = 65
  · subst h65
    show flush _ = set_parmp (flush _) p
    rw [← flush_set_parmp]
    rfl
  by_cases h66 : c = 66
  · subst h66
    show flush _ = set_parmp (flush _) p
    rw [← flush_set_parmp]
    rfl
  by_cases h67 : c = 67
  · subst h67
    show flush _ = set_parmp (flush _) p
    rw [← flush_set_parmp]
    rfl
  by_cases h68 : c = 68
  · subst h68
    show flush _ = set_parmp (flush _) p
    rw [← flush_set_parmp]
    rfl
  by_cases h72 : c = 72
  · subst h72
    show flush _ = set_parmp (flush _) p
    rw [← flush_set_parmp]
    rfl
  by_cases h74 : c = 74
  · subst h74; rfl
  by_cases h75 : c = 75
  · subst h75; rfl
  by_cases h76 : c = 76
  · subst h76; rfl
  by_cases h77 : c = 77
  · subst h77; rfl
  by_cases h64 : c = 64
  · subst h64; rfl
  by_cases h80 : c = 80
  · subst h80; rfl
  by_cases h109 : c = 109
  · subst h109
    exact do_rendition_set_parmp u p _
  · unfold do_escape_csi
    dsimp only
    rw [if_neg h65, if_neg h66, if_neg h67, if_neg h68, if_neg h72, if_neg h74, if_neg h75,
      if_neg h76, if_neg h77, if_neg h64, if_neg h80, if_neg h109,
      if_neg h65, if_neg h66, if_neg h67, if_neg h68, if_neg h72, if_neg h74, if_neg h75,
      if_neg h76, if_neg h77, if_neg h64, if_neg h80, if_neg h109]

theorem out_char_digit_full (t : State) (p0 p1 : Int) (pp : Nat) (d : Int)
    (hpp : MAX_ESC_PARMS ≤ pp) (h : 48 ≤ d ∧ d ≤ 57) :
    out_char (csi_state t p0 p1 pp) d = csi_state t p0 p1 pp := by
  obtain ⟨h1, h2, h3⟩ := to_char_digit d h
  have hM : MAX_ESC_PARMS = 2 := rfl
  have e0 : ¬ pp = 0 := by omega
  have e1 : ¬ pp = 1 := by omega
  simp [out_char, csi_state, parse_escape, h1, h2, e0, e1]

theorem out_chars_digits_full (ds : List Int) : ∀ (t : State) (p0 p1 : Int) (pp : Nat),
    MAX_ESC_PARMS ≤ pp → (∀ d ∈ ds, 48 ≤ d ∧ d ≤ 57) →
    out_chars (csi_state t p0 p1 pp) ds = csi_state t p0 p1 pp := by
  induction ds with
  | nil => intro t p0 p1 pp _ _; rfl
  | cons d ds ih =>
    intro t p0 p1 pp hpp h
    rw [out_chars_cons, out_char_digit_full t p0 p1 pp d hpp (h d (by simp))]
    exact ih t p0 p1 pp hpp (fun x hx => h x (by simp [hx]))

theorem out_char_semicolon_full (t : State) (p0 p1 : Int) (pp : Nat) (hpp : 1 ≤ pp) :
    out_char (csi_state t p0 p1 pp) 59 = csi_state t p0 p1 (pp + 1) := by
  have e0 : ¬ pp = 0 := by omega
  simp [out_char, csi_state, parse_escape, to_char, e0]

/-- In escape state 2 a digit or `;` changes nothing but the parameter pointer
and the two parameters, and neither parameter once the pointer is at or past
the end of `c_esc_parmv`. -/
theorem parse_escape_params_only (u : State) (k : Nat) (h2 : u.cons.c_esc_state = 2)
    (hk : (48 ≤ k ∧ k ≤ 57) ∨ k = 59) :
    ∃ p v0 v1,
      parse_escape u k
          = { u with cons := { u.cons with
                c_esc_parmp := p, c_esc_parmv0 := v0, c_esc_parmv1 := v1 } }
        ∧ (MAX_ESC_PARMS ≤ u.cons.c_esc_parmp →
            v0 = u.cons.c_esc_parmv0 ∧ v1 = u.cons.c_esc_parmv1) := by
  have hM : MAX_ESC_PARMS = 2 := rfl
  unfold parse_escape
  rw [if_neg (by omega), if_pos h2]
  by_cases hd : 48 ≤ k ∧ k ≤ 57
  · rw [if_pos hd]
    split_ifs with e0 e1
    · exact ⟨_, _, _, rfl, fun h => by omega⟩
    · exact ⟨_, _, _, rfl, fun h => by omega⟩
    · exact ⟨_, _, _, rfl, fun _ => ⟨rfl, rfl⟩⟩
  · have hs : k = 59 := by tauto
    rw [if_neg hd, if_pos hs]
    dsimp only
    split_ifs with e0
    · exact ⟨_, _, _, rfl, fun h => by omega⟩
    · exact ⟨_, _, _, rfl, fun _ => ⟨rfl, rfl⟩⟩

/-- A third parameter changes nothing but the parameter pointer. -/
theorem extra_param_ignored (s : State) (a b c : List Int) (x : Int)
    (hesc : s.cons.c_esc_state = 0)
    (ha : ∀ d ∈ a, 48 ≤ d ∧ d ≤ 57) (hb : ∀ d ∈ b, 48 ≤ d ∧ d ≤ 57)
    (hc : ∀ d ∈ c, 48 ≤ d ∧ d ≤ 57)
    (hd : ¬ (48 ≤ to_char x ∧ to_char x ≤ 57)) (hs : to_char x ≠ 59) :
    out_chars s ([27, 91] ++ a ++ [59] ++ b ++ [59] ++ c ++ [x])
      = set_parmp (out_chars s ([27, 91] ++ a ++ [59] ++ b ++ [x])) 2 := by
  have e3 : out_chars s ([27, 91] ++ a ++ [59] ++ b ++ [59] ++ c ++ [x])
      = out_char (out_chars (out_char (out_chars (out_char (out_chars (out_chars s [27, 91]) a)
          59) b) 59) c) x := by
    simp only [out_chars_append, out_chars_cons, out_chars_nil]
  have e2 : out_chars s ([27, 91] ++ a ++ [59] ++ b ++ [x])
      = out_char (out_chars (out_char (out_chars (out_chars s [27, 91]) a) 59) b) x := by
    simp only [out_chars_append, out_chars_cons, out_chars_nil]
  rw [e3, e2, out_chars_esc_bracket s hesc, out_chars_digits0 _ _ _ _ ha, out_char_semicolon,
    out_chars_digits1 _ _ _ _ hb, out_char_semicolon_full _ _ _ _ (by decide),
    out_chars_digits_full _ _ _ _ _ (by decide) hc, out_char_command _ _ _ _ _ hd hs,
    out_char_command _ _ _ _ _ hd hs, flush_csi_state, flush_csi_state]
  have e : csi_state (flush (flush s)) (accumulate 0 a) (accumulate 0 b) (1 + 1)
      = set_parmp (csi_state (flush (flush s)) (accumulate 0 a) (accumulate 0 b) 1) 2 := rfl
  rw [e, do_escape_csi_set_parmp]
  rfl

/-- Blanking `n` cells from offset `p` of the window: the cells at offsets
`p .. p + n - 1` are blank and every other word of the memory is as before. -/
theorem blank_run_window (d : display_t) (hok : display_ok d) (org p n : Nat)
    (v : Nat → Nat) (hn : p + n ≤ scr_size) :
    (∀ i, i < scr_size →
        mem_vid_copy none (org + p) n d v (vid_addr d (org + i))
          = if p ≤ i ∧ i < p + n then blank_cell d else v (vid_addr d (org + i)))
      ∧ (∀ a, (∀ i, i < scr_size → vid_addr d (org + i) ≠ a) →
          mem_vid_copy none (org + p) n d v a = v a) := by
  constructor
  · intro i hi
    exact write_run_window d hok _ org p n v hn i hi
  · intro a ha
    apply write_run_miss
    intro j hj
    have e : org + p + j = org + (p + j) := by omega
    rw [e]
    exact ha _ (by omega)

/-- The command `ESC [vJ` as one blank run inside the window. -/
theorem erase_display_run (s : State) (v : Option Nat)
    (hint : param_value v < 32768) (hesc : s.cons.c_esc_state = 0)
    (hcur : cursor_in_range s) (hwin : s.cons.c_org + scr_size < UINT_MOD) :
    ∃ p n, p + n ≤ scr_size
      ∧ (∀ i, i < scr_size → ((p ≤ i ∧ i < p + n)
          ↔ erased_J (param_value v) (s.cons.c_row * scr_width + s.cons.c_column).toNat i))
      ∧ out_chars s (csi (param_digits v) 74)
          = esc_done { csi_state (flush s) (param_value v) 0 0 with
              vram := mem_vid_copy none (s.cons.c_org + p) n s.display (flush s).vram } := by
  obtain ⟨hr0, hr1, hc0, hc1⟩ := hcur
  have hrr : clip_row s.cons.c_row = s.cons.c_row := clip_row_of_range _ hr0 hr1
  have hcc : clip_column s.cons.c_column = s.cons.c_column := clip_column_of_range _ hc0 hc1
  have hL : scr_lines = 25 := rfl
  have hW : scr_width = 80 := rfl
  have hS : scr_size = 2000 := rfl
  have hU : UINT_MOD = 65536 := rfl
  have hcur : flush_cur_addr s
      = s.cons.c_org + (s.cons.c_row * scr_width + s.cons.c_column).toNat := by
    unfold flush_cur_addr
    rw [hrr, hcc]
    exact cur_addr_exact _ _ _ hr0 hr1 hc0 hc1 hwin
  generalize hp : (s.cons.c_row * scr_width + s.cons.c_column).toNat = p at hcur
  have hp2 : p ≤ 2000 := by
    rw [← hp, hW]
    omega
  rw [csi_param_command s hesc v hint 74 (by decide) (by decide)]
  have h74 : to_char 74 = 74 := rfl
  rw [h74]
  have hsub : usub (s.cons.c_org + p) s.cons.c_org = p := by
    unfold usub to_unsigned
    rw [hU]
    push_cast
    omega
  have hsub2 : usub scr_size p = 2000 - p := by
    unfold usub to_unsigned
    rw [hU, hS]
    omega
  by_cases h0 : param_value v = 0
  · refine ⟨p, 2000 - p, by omega, ?_, ?_⟩
    · intro i hi
      unfold erased_J
      omega
    · simp [do_escape_csi, csi_state, h0, hcur, hsub, hsub2]
  by_cases h1 : param_value v = 1
  · refine ⟨0, p, by omega, ?_, ?_⟩
    · intro i hi
      unfold erased_J
      omega
    · simp [do_escape_csi, csi_state, h1, hcur, hsub]
  by_cases h2 : param_value v = 2
  · refine ⟨0, 2000, by omega, ?_, ?_⟩
    · intro i hi
      unfold erased_J
      omega
    · simp [do_escape_csi, csi_state, h2, hS]
  · refine ⟨0, 0, by omega, ?_, ?_⟩
    · intro i hi
      unfold erased_J
      omega
    · have e0 : ¬ ((param_value v : Int) = 0) := by omega
      have e1 : ¬ ((param_value v : Int) = 1) := by omega
      have e2 : ¬ ((param_value v : Int) = 2) := by omega
      simp [do_escape_csi, csi_state, e0, e1, e2]

/-- The effect of `ESC [vJ` on a console with the cursor at offset `p` of the
window: the offsets in `erased_J v p` are blank and every other word of the
video memory, the cursor and the origin are as the flush left them. -/
theorem erase_display_effect (s : State) (v : Option Nat)
    (hint : param_value v < 32768) (hesc : s.cons.c_esc_state = 0)
    (hcur : cursor_in_range s) (hok : display_ok s.display)
    (hwin : s.cons.c_org + scr_size < UINT_MOD) :
    (∀ i, i < scr_size →
        visible (out_chars s (csi (param_digits v) 74)) i
          = if erased_J (param_value v) (s.cons.c_row * scr_width + s.cons.c_column).toNat i
            then blank_cell s.display else visible (flush s) i)
      ∧ (∀ a, outside_window s a →
          (out_chars s (csi (param_digits v) 74)).vram a = (flush s).vram a)
      ∧ (out_chars s (csi (param_digits v) 74)).cons.c_row = s.cons.c_row
      ∧ (out_chars s (csi (param_digits v) 74)).cons.c_column = s.cons.c_column
      ∧ (out_chars s (csi (param_digits v) 74)).cons.c_cur = (flush s).cons.c_cur
      ∧ (out_chars s (csi (param_digits v) 74)).cons.c_org = s.cons.c_org
      ∧ (out_chars s (csi (param_digits v) 74)).cons.c_esc_state = 0 := by
  obtain ⟨p, n, hn, hset, hrun⟩ := erase_display_run s v hint hesc hcur hwin
  obtain ⟨hr0, hr1, hc0, hc1⟩ := hcur
  have hrr : clip_row s.cons.c_row = s.cons.c_row := clip_row_of_range _ hr0 hr1
  have hcc : clip_column s.cons.c_column = s.cons.c_column := clip_column_of_range _ hc0 hc1
  have hb := blank_run_window s.display hok s.cons.c_org p n (flush s).vram hn
  rw [hrun]
  refine ⟨?_, ?_, ?_, ?_, ?_, ?_, ?_⟩
  · intro i hi
    have h := hb.1 i hi
    simp only [visible, esc_done, csi_state, flush_org, flush_display]
    rw [h]
    by_cases hc : p ≤ i ∧ i < p + n
    · rw [if_pos hc, if_pos ((hset i hi).1 hc)]
    · rw [if_neg hc, if_neg (fun e => hc ((hset i hi).2 e))]
  · intro a ha
    exact hb.2 a ha
  · simp [esc_done, csi_state, hrr]
  · simp [esc_done, csi_state, hcc]
  · simp [esc_done, csi_state]
  · simp [esc_done, csi_state]
  · simp [esc_done]

/-- The command `ESC [vK` as one blank run inside the window. -/
theorem erase_line_run (s : State) (v : Option Nat)
    (hint : param_value v < 32768) (r c : Nat)
    (hesc : s.cons.c_esc_state = 0)
    (hrow : s.cons.c_row = (r : Int)) (hcol : s.cons.c_column = (c : Int))
    (hr : r < scr_lines) (hc : c ≤ scr_width)
    (hwin : s.cons.c_org + scr_size < UINT_MOD) :
    ∃ k n, k + n ≤ scr_width
      ∧ (∀ j, j < scr_width → ((k ≤ j ∧ j < k + n) ↔ erased_K (param_value v) c j))
      ∧ out_chars s (csi (param_digits v) 75)
          = esc_done { csi_state (flush s) (param_value v) 0 0 with
              vram := mem_vid_copy none (s.cons.c_org + (r * scr_width + k)) n s.display
                        (flush s).vram } := by
  have hL : scr_lines = 25 := rfl
  have hW : scr_width = 80 := rfl
  have hS : scr_size = 2000 := rfl
  have hU : UINT_MOD = 65536 := rfl
  have hr0 : (0 : Int) ≤ s.cons.c_row := by omega
  have hr1 : s.cons.c_row < scr_lines := by omega
  have hc0 : (0 : Int) ≤ s.cons.c_column := by omega
  have hc1 : s.cons.c_column ≤ scr_width := by omega
  have hrr : clip_row s.cons.c_row = s.cons.c_row := clip_row_of_range _ hr0 hr1
  have hcc : clip_column s.cons.c_column = s.cons.c_column := clip_column_of_range _ hc0 hc1
  have hcur : flush_cur_addr s = s.cons.c_org + (r * scr_width + c) := by
    unfold flush_cur_addr
    rw [hrr, hcc, cur_addr_exact _ _ _ hr0 hr1 hc0 hc1 hwin, hrow, hcol, hW]
    omega
  have hcc2 : clip_column (c : Int) = c := by rw [← hcol]; exact hcc
  rw [csi_param_command s hesc v hint 75 (by decide) (by decide)]
  have h75 : to_char 75 = 75 := rfl
  rw [h75]
  have hcnt0 : to_unsigned ((scr_width : Int) - c) = 80 - c := by
    unfold to_unsigned
    rw [hU, hW]
    omega
  have hcnt1 : to_unsigned (c : Int) = c := by
    unfold to_unsigned
    rw [hU]
    omega
  have hdst : to_unsigned ((s.cons.c_org : Int) + ((r : Int) * (scr_width : Int) + c) - c)
      = s.cons.c_org + r * scr_width := by
    unfold to_unsigned
    rw [hU, hW]
    push_cast
    omega
  by_cases h0 : param_value v = 0
  · refine ⟨c, 80 - c, by omega, ?_, ?_⟩
    · intro j hj
      unfold erased_K
      omega
    · simp [do_escape_csi, csi_state, h0, hcur, hcc2, hcol, hcnt0]
  by_cases h1 : param_value v = 1
  · refine ⟨0, c, by omega, ?_, ?_⟩
    · intro j hj
      unfold erased_K
      omega
    · simp [do_escape_csi, csi_state, h1, hcur, hcc2, hcol, hcnt1, hdst]
  by_cases h2 : param_value v = 2
  · refine ⟨0, scr_width, by omega, ?_, ?_⟩
    · intro j hj
      unfold erased_K
      omega
    · simp [do_escape_csi, csi_state, h2, hcur, hcc2, hcol, hdst]
  · refine ⟨0, 0, by omega, ?_, ?_⟩
    · intro j hj
      unfold erased_K
      omega
    · have e0 : ¬ ((param_value v : Int) = 0) := by omega
      have e1 : ¬ ((param_value v : Int) = 1) := by omega
      have e2 : ¬ ((param_value v : Int) = 2) := by omega
      simp [do_escape_csi, csi_state, e0, e1, e2, hcur, write_run_zero, mem_vid_copy]

/-- The effect of `ESC [vK` on a console with the cursor on row `r`, column
`c`: the columns in `erased_K v c` of row `r` are blank and every other word of
the video memory, the cursor and the origin are as the flush left them. -/
theorem erase_line_effect (s : State) (v : Option Nat)
    (hint : param_value v < 32768) (r c : Nat)
    (hesc : s.cons.c_esc_state = 0)
    (hrow : s.cons.c_row = (r : Int)) (hcol : s.cons.c_column = (c : Int))
    (hr : r < scr_lines) (hc : c ≤ scr_width) (hok : display_ok s.display)
    (hwin : s.cons.c_org + scr_size < UINT_MOD) :
    (∀ j k, j < scr_lines → k < scr_width →
        visible (out_chars s (csi (param_digits v) 75)) (j * scr_width + k)
          = if j = r ∧ erased_K (param_value v) c k then blank_cell s.display
            else visible (flush s) (j * scr_width + k))
      ∧ (∀ a, outside_window s a →
          (out_chars s (csi (param_digits v) 75)).vram a = (flush s).vram a)
      ∧ (out_chars s (csi (param_digits v) 75)).cons.c_row = s.cons.c_row
      ∧ (out_chars s (csi (param_digits v) 75)).cons.c_column = s.cons.c_column
      ∧ (out_chars s (csi (param_digits v) 75)).cons.c_cur = (flush s).cons.c_cur
      ∧ (out_chars s (csi (param_digits v) 75)).cons.c_org = s.cons.c_org
      ∧ (out_chars s (csi (param_digits v) 75)).cons.c_esc_state = 0 := by
  obtain ⟨k0, n, hn, hset, hrun⟩ := erase_line_run s v hint r c hesc hrow hcol hr hc hwin
  have hL : scr_lines = 25 := rfl
  have hW : scr_width = 80 := rfl
  have hS : scr_size = 2000 := rfl
  have hrr : clip_row s.cons.c_row = s.cons.c_row :=
    clip_row_of_range _ (by omega) (by omega)
  have hcc : clip_column s.cons.c_column = s.cons.c_column :=
    clip_column_of_range _ (by omega) (by omega)
  have hb := blank_run_window s.display hok s.cons.c_org (r * scr_width + k0) n
    (flush s).vram (by rw [hW] at hn ⊢; omega)
  rw [hrun]
  refine ⟨?_, ?_, ?_, ?_, ?_, ?_, ?_⟩
  · intro j k hj hk
    rw [hW] at hn hset hb hk ⊢
    have h := hb.1 (j * 80 + k) (by omega)
    simp only [visible, esc_done, csi_state, flush_org, flush_display]
    rw [h]
    have hs := hset k hk
    by_cases hin : j = r ∧ erased_K (param_value v) c k
    · rw [if_pos hin, if_pos]
      have h2 := hs.2 hin.2
      omega
    · rw [if_neg hin, if_neg]
      intro h2
      apply hin
      have hjr : j = r := by omega
      refine ⟨hjr, hs.1 ?_⟩
      omega
  · intro a ha
    exact hb.2 a ha
  · simp [esc_done, csi_state, hrr]
  · simp [esc_done, csi_state, hcc]
  · simp [esc_done, csi_state]
  · simp [esc_done, csi_state]
  · simp [esc_done]

/-- C17 (amended): for digit strings `a`, `b`, `c` and a command byte `x`,
`ESC [ a ; b ; c x` leaves the console in the state that `ESC [ a ; b x`
leaves, except that the parameter pointer `c_esc_parmp` is 2 instead of 1; and
in escape state 2 a digit or `;` changes nothing but `c_esc_parmp`,
`c_esc_parmv[0]` and `c_esc_parmv[1]`, and neither parameter once the pointer
is at or past the end of `c_esc_parmv`. -/
theorem C17_extra_parameter (s : State) (a b c : List Int) (x : Int)
    (hesc : s.cons.c_esc_state = 0)
    (ha : ∀ d ∈ a, 48 ≤ d ∧ d ≤ 57) (hb : ∀ d ∈ b, 48 ≤ d ∧ d ≤ 57)
    (hc : ∀ d ∈ c, 48 ≤ d ∧ d ≤ 57)
    (hx : ¬ (48 ≤ to_char x ∧ to_char x ≤ 57) ∧ to_char x ≠ 59) :
    out_chars s ([27, 91] ++ a ++ [59] ++ b ++ [59] ++ c ++ [x])
        = set_parmp (out_chars s ([27, 91] ++ a ++ [59] ++ b ++ [x])) 2
      ∧ (∀ (u : State) (k : Nat), u.cons.c_esc_state = 2 → (48 ≤ k ∧ k ≤ 57) ∨ k = 59 →
          ∃ p v0 v1,
            parse_escape u k
                = { u with cons := { u.cons with
                      c_esc_parmp := p, c_esc_parmv0 := v0, c_esc_parmv1 := v1 } }
              ∧ (MAX_ESC_PARMS ≤ u.cons.c_esc_parmp →
                  v0 = u.cons.c_esc_parmv0 ∧ v1 = u.cons.c_esc_parmv1)) :=
  ⟨extra_param_ignored s a b c x hesc ha hb hc hx.1 hx.2,
   fun u k h2 hk => parse_escape_params_only u k h2 hk⟩

theorem C17_extra_parameter_witness :
    out_chars ex_state ([27, 91] ++ [49] ++ [59] ++ [50] ++ [59] ++ [51] ++ [72])
      = set_parmp (out_chars ex_state ([27, 91] ++ [49] ++ [59] ++ [50] ++ [72])) 2 :=
  (C17_extra_parameter ex_state [49] [50] [51] 72 (by decide) (by decide) (by decide)
    (by decide) (by decide)).1

set_option maxRecDepth 100000 in
/-- C17, counterexample: after `ESC [ 1 ; 1 ; 1 H` the parameter pointer of the
console is 2 and after `ESC [ 1 ; 1 H` it is 1, so the two states differ. -/
theorem C17_counterexample :
    (out_chars ex_state [27, 91, 49, 59, 49, 59, 49, 72]).cons.c_esc_parmp = 2
      ∧ (out_chars ex_state [27, 91, 49, 59, 49, 72]).cons.c_esc_parmp = 1
      ∧ out_chars ex_state [27, 91, 49, 59, 49, 59, 49, 72]
          ≠ out_chars ex_state [27, 91, 49, 59, 49, 72] := by
  have h3 : (out_chars ex_state [27, 91, 49, 59, 49, 59, 49, 72]).cons.c_esc_parmp = 2 := by
    decide
  have h2 : (out_chars ex_state [27, 91, 49, 59, 49, 72]).cons.c_esc_parmp = 1 := by
    decide
  refine ⟨h3, h2, fun e => ?_⟩
  rw [e, h2] at h3
  exact absurd h3 (by decide)

/-- C20 (amended): on a console in Normal state with the cursor on row `r`, column `c`
(`r < scr_lines`, `c <= scr_width`), `ESC [vK` makes blank exactly the columns
`c .. scr_width - 1` of row `r` when `v` is 0 or omitted, exactly the columns
below `c` of row `r` when `v` is 1, the whole row `r` when `v` is 2 and no cell
for another `v`; every other cell of the window and every word outside it is as
the flush at the `ESC` left it, and the cursor and the origin are unchanged.
The window is read through the addressing of a display that fits the driver,
with `c_org + scr_size` inside the unsigned range.  The parameter is one that
an `int` holds, `v < 32768`. -/
theorem C20_erase_line (s : State) (v : Option Nat)
    (hint : param_value v < 32768) (r c : Nat)
    (hesc : s.cons.c_esc_state = 0)
    (hrow : s.cons.c_row = (r : Int)) (hcol : s.cons.c_column = (c : Int))
    (hr : r < scr_lines) (hc : c ≤ scr_width) (hok : display_ok s.display)
    (hwin : s.cons.c_org + scr_size < UINT_MOD) :
    (∀ j k, j < scr_lines → k < scr_width →
        visible (out_chars s (csi (param_digits v) 75)) (j * scr_width + k)
          = if j = r ∧ erased_K (param_value v) c k then blank_cell s.display
            else visible (flush s) (j * scr_width + k))
      ∧ (∀ a, outside_window s a →
          (out_chars s (csi (param_digits v) 75)).vram a = (flush s).vram a)
      ∧ (out_chars s (csi (param_digits v) 75)).cons.c_row = s.cons.c_row
      ∧ (out_chars s (csi (param_digits v) 75)).cons.c_column = s.cons.c_column
      ∧ (out_chars s (csi (param_digits v) 75)).cons.c_cur = (flush s).cons.c_cur
      ∧ (out_chars s (csi (param_digits v) 75)).cons.c_org = s.cons.c_org
      ∧ (out_chars s (csi (param_digits v) 75)).cons.c_esc_state = 0 :=
  erase_line_effect s v hint r c hesc hrow hcol hr hc hok hwin

theorem C20_erase_line_witness :
    visible (out_chars ex_lines (csi (param_digits none) 75)) (2 * scr_width + 79)
      = if 2 = 2 ∧ erased_K (param_value none) 0 79 then blank_cell ex_lines.display
        else visible (flush ex_lines) (2 * scr_width + 79) :=
  (C20_erase_line ex_lines none (by decide) 2 0 (by decide) (by decide) (by decide) (by decide)
    (by decide) (fun _ => ⟨13, by decide, by decide⟩) (by decide)).1 2 79 (by decide)
      (by decide)

set_option maxRecDepth 100000 in
/-- C20, counterexample: the parameter 65536 does not fit in an `int`; the
digits leave 0 in `c_esc_parmv[0]`, and `ESC [65536K` makes the cells from the
cursor to the end of the row blank, where the claim has no cell blanked for a
`v` other than 0, 1 and 2. -/
theorem C20_counterexample :
    ex_lines.cons.c_row = 2 ∧ ex_lines.cons.c_column = 0
      ∧ ¬ erased_K (param_value (some 65536)) 0 7
      ∧ visible (flush ex_lines) (2 * scr_width + 7) = 0x0743
      ∧ visible (out_chars ex_lines (csi (param_digits (some 65536)) 75)) (2 * scr_width + 7)
          = 0x0720
      ∧ visible (out_chars ex_lines (csi (param_digits (some 65537)) 75)) (2 * scr_width + 7)
          = 0x0743 := by
  decide

/-! ## C11 to C13: the driver and its consoles -/

theorem select_console_out (d : Driver) (i : Int) (h : i < 0 ∨ i ≥ d.nr_cons) :
    select_console d i = d := by
  unfold select_console
  rw [if_pos h]

theorem select_console_in (d : Driver) (i : Int) (h : 0 ≤ i ∧ i < d.nr_cons) :
    select_console d i
      = { d with
          current := i
          curcons := some i.toNat
          ports := set_6845 CURSOR (d.cons_table i.toNat).c_cur
                     (d.display_table (d.display i.toNat))
                     (set_6845 VID_ORG (d.cons_table i.toNat).c_org
                       (d.display_table (d.display i.toNat)) d.ports) } := by
  unfold select_console
  rw [if_neg (by omega)]

/-- C11: `select_console(i)` with `i` out of range changes nothing, so neither
`current` nor `curcons` changes and no port is written; with `0 <= i < nr_cons`
it sets `current` to `i` and `curcons` to console `i`, and writes that
console's `c_org` to the register pair `VID_ORG` and then its `c_cur` to the
pair `CURSOR`, both at the port of that console's display. -/
theorem C11_select_console (d : Driver) (i : Int) :
    ((i < 0 ∨ i ≥ d.nr_cons) →
        select_console d i = d)
      ∧ ((0 ≤ i ∧ i < d.nr_cons) →
        (select_console d i).current = i
          ∧ (select_console d i).curcons = some i.toNat
          ∧ (select_console d i).ports
              = d.ports
                ++ [((d.display_table (d.display i.toNat)).vid_port + INDEX, VID_ORG),
                    ((d.display_table (d.display i.toNat)).vid_port + DATA,
                      ((d.cons_table i.toNat).c_org >>> 8) &&& BYTE),
                    ((d.display_table (d.display i.toNat)).vid_port + INDEX, VID_ORG + 1),
                    ((d.display_table (d.display i.toNat)).vid_port + DATA,
                      (d.cons_table i.toNat).c_org &&& BYTE),
                    ((d.display_table (d.display i.toNat)).vid_port + INDEX, CURSOR),
                    ((d.display_table (d.display i.toNat)).vid_port + DATA,
                      ((d.cons_table i.toNat).c_cur >>> 8) &&& BYTE),
                    ((d.display_table (d.display i.toNat)).vid_port + INDEX, CURSOR + 1),
                    ((d.display_table (d.display i.toNat)).vid_port + DATA,
                      (d.cons_table i.toNat).c_cur &&& BYTE)]
          ∧ (select_console d i).cons_table = d.cons_table
          ∧ (select_console d i).vram = d.vram) := by
  refine ⟨fun h => select_console_out d i h, fun h => ?_⟩
  rw [select_console_in d i h]
  refine ⟨rfl, rfl, ?_, rfl, rfl⟩
  simp [set_6845]

theorem C11_select_console_witness :
    select_console ex_driver 3 = ex_driver
      ∧ (select_console ex_driver 1).current = 1
      ∧ (select_console ex_driver 1).curcons = some 1 :=
  ⟨(C11_select_console ex_driver 3).1 (by decide),
   ((C11_select_console ex_driver 1).2 (by decide)).1,
   ((C11_select_console ex_driver 1).2 (by decide)).2.1⟩

/-- The `while` loop of `cons_org0` ends with the origin at the start of the
region when the fuel exceeds the distance: it changes the video memory and
`c_org` only. -/
theorem cons_org0_loop_spec (fuel : Nat) : ∀ (s : State),
    s.cons.c_start ≤ s.cons.c_org → s.cons.c_org < UINT_MOD →
    scr_size < s.display.vid_size → s.display.vid_size < UINT_MOD →
    s.cons.c_org - s.cons.c_start < fuel →
    ∃ v, cons_org0_loop fuel s
      = some { s with vram := v, cons := { s.cons with c_org := s.cons.c_start } } := by
  have hU : UINT_MOD = 65536 := rfl
  have hS : scr_size = 2000 := rfl
  induction fuel with
  | zero => intro s _ _ _ _ hf; omega
  | succ fuel ih =>
    intro s h1 h2 h3 h4 hf
    unfold cons_org0_loop
    by_cases hgt : s.cons.c_org > s.cons.c_start
    · rw [if_pos hgt]
      dsimp only
      have hn0 : usub s.display.vid_size scr_size = s.display.vid_size - scr_size := by
        unfold usub to_unsigned
        rw [hU]
        omega
      have hm : usub s.cons.c_org s.cons.c_start = s.cons.c_org - s.cons.c_start := by
        unfold usub to_unsigned
        rw [hU]
        omega
      rw [hn0, hm]
      generalize hn : (if s.display.vid_size - scr_size > s.cons.c_org - s.cons.c_start
        then s.cons.c_org - s.cons.c_start else s.display.vid_size - scr_size) = n
      have hn1 : 1 ≤ n ∧ n ≤ s.cons.c_org - s.cons.c_start := by
        rw [← hn]
        split_ifs <;> omega
      have hsub : usub s.cons.c_org n = s.cons.c_org - n := by
        unfold usub to_unsigned
        rw [hU]
        omega
      rw [hsub]
      obtain ⟨v, hv⟩ := ih
        { s with
          vram := vid_vid_copy s.cons.c_org (s.cons.c_org - n) scr_size s.display s.vram
          cons := { s.cons with c_org := s.cons.c_org - n } }
        (by show s.cons.c_start ≤ s.cons.c_org - n; omega)
        (by show s.cons.c_org - n < UINT_MOD; omega) h3 h4
        (by show s.cons.c_org - n - s.cons.c_start < fuel; omega)
      exact ⟨v, hv⟩
    · rw [if_neg hgt]
      have e : s.cons.c_org = s.cons.c_start := by omega
      refine ⟨s.vram, ?_⟩
      rw [← e]

theorem org0_frame_refl (d : Driver) : org0_frame d d :=
  ⟨rfl, rfl, rfl, rfl, rfl, fun _ => ⟨rfl, Or.inl rfl⟩⟩

/-- One round of the `for` loop of `cons_org0`. -/
theorem cons_org0_console_spec (fuel : Nat) (hfuel : UINT_MOD ≤ fuel) (d : Driver) (i : Nat)
    (h : org0_ready d i) :
    ∃ d1, cons_org0_console fuel d i = some d1
      ∧ d1.nr_cons = d.nr_cons ∧ d1.current = d.current ∧ d1.curcons = d.curcons
      ∧ d1.display = d.display ∧ d1.display_table = d.display_table
      ∧ (∀ j, j ≠ i → d1.cons_table j = d.cons_table j)
      ∧ (d1.cons_table i).c_start = (d.cons_table i).c_start
      ∧ (d1.cons_table i).c_org = (d.cons_table i).c_start := by
  obtain ⟨h1, h2, h3, h4⟩ := h
  obtain ⟨v, hv⟩ := cons_org0_loop_spec fuel (console_view d i) h1 h2 h3 h4
    (by show (d.cons_table i).c_org - (d.cons_table i).c_start < fuel; omega)
  unfold cons_org0_console
  rw [hv]
  refine ⟨_, rfl, rfl, rfl, rfl, rfl, ?_, ?_, ?_, ?_⟩
  · show Function.update d.display_table (d.display i) (flush _).display = d.display_table
    rw [flush_display]
    exact Function.update_eq_self _ _
  · intro j hj
    show Function.update d.cons_table i _ j = d.cons_table j
    rw [Function.update_noteq hj]
  · show (Function.update d.cons_table i (flush _).cons i).c_start = _
    rw [Function.update_same, flush_start]
    rfl
  · show (Function.update d.cons_table i (flush _).cons i).c_org = _
    rw [Function.update_same, flush_org]
    rfl

/-- The `for` loop of `cons_org0` over the consoles of the list `l`. -/
theorem cons_org0_for_spec (fuel : Nat) (hfuel : UINT_MOD ≤ fuel) (d0 : Driver)
    (l : List Nat) : ∀ (d : Driver), org0_frame d0 d → (∀ i ∈ l, org0_ready d0 i) →
    ∃ d', l.foldlM (cons_org0_console fuel) d = some d' ∧ org0_frame d0 d'
      ∧ (∀ j, (d.cons_table j).c_org = (d.cons_table j).c_start →
            (d'.cons_table j).c_org = (d'.cons_table j).c_start)
      ∧ (∀ i ∈ l, (d'.cons_table i).c_org = (d'.cons_table i).c_start) := by
  induction l with
  | nil =>
    intro d hd _
    exact ⟨d, rfl, hd, fun _ h => h, fun i hi => by simp at hi⟩
  | cons i l ih =>
    intro d hd hl
    obtain ⟨e1, e2, e3, e4, e5, e6⟩ := hd
    have hr0 := hl i (by simp)
    have hr : org0_ready d i := by
      obtain ⟨a1, a2, a3, a4⟩ := hr0
      unfold org0_ready
      rw [e4, e5, (e6 i).1]
      refine ⟨?_, ?_, a3, a4⟩
      · rcases (e6 i).2 with h | h
        · rw [h]; exact a1
        · rw [h, (e6 i).1]
      · rcases (e6 i).2 with h | h
        · rw [h]; exact a2
        · rw [h, (e6 i).1]; omega
    obtain ⟨d1, hd1, f1, f2, f3, f4, f5, f6, f7, f8⟩ :=
      cons_org0_console_spec fuel hfuel d i hr
    have hframe : org0_frame d0 d1 := by
      refine ⟨f1.trans e1, f2.trans e2, f3.trans e3, f4.trans e4, f5.trans e5, fun j => ?_⟩
      by_cases hj : j = i
      · subst hj
        exact ⟨f7.trans (e6 j).1, Or.inr (f8.trans f7.symm)⟩
      · rw [f6 j hj]
        exact e6 j
    obtain ⟨d', hd', g1, g2, g3⟩ := ih d1 hframe (fun k hk => hl k (by simp [hk]))
    refine ⟨d', ?_, g1, ?_, ?_⟩
    · rw [List.foldlM_cons, hd1]
      exact hd'
    · intro j hj
      apply g2
      by_cases hji : j = i
      · subst hji
        exact f8.trans f7.symm
      · rw [f6 j hji]
        exact hj
    · intro k hk
      rcases List.mem_cons.1 hk with rfl | hk'
      · exact g2 _ (f8.trans f7.symm)
      · exact g3 k hk'

/-- The function `cons_org0` returns when every console is ready for it and
the fuel is enough; every origin is then at the start of its region, the
regions are those of before and `current` is kept. -/
theorem cons_org0_spec (fuel : Nat) (hfuel : UINT_MOD ≤ fuel) (d : Driver)
    (h : ∀ i, i < d.nr_cons.toNat → org0_ready d i) :
    ∃ d', cons_org0 fuel d = some d'
      ∧ (∀ i, i < d.nr_cons.toNat →
          (d'.cons_table i).c_org = (d'.cons_table i).c_start
            ∧ (d'.cons_table i).c_start = (d.cons_table i).c_start)
      ∧ d'.current = d.current ∧ d'.nr_cons = d.nr_cons := by
  obtain ⟨d1, hd1, ⟨e1, e2, e3, e4, e5, e6⟩, _, g3⟩ :=
    cons_org0_for_spec fuel hfuel d (List.range d.nr_cons.toNat) d (org0_frame_refl d)
      (fun i hi => h i (List.mem_range.1 hi))
  unfold cons_org0
  rw [hd1]
  refine ⟨_, rfl, ?_, ?_, ?_⟩
  · intro i hi
    have hc : (select_console d1 d1.current).cons_table = d1.cons_table := by
      unfold select_console
      split_ifs <;> rfl
    rw [hc]
    exact ⟨g3 i (List.mem_range.2 hi), (e6 i).1⟩
  · have hc : (select_console d1 d1.current).current = d1.current := by
      unfold select_console
      split_ifs <;> rfl
    rw [hc, e2]
  · have hc : (select_console d1 d1.current).nr_cons = d1.nr_cons := by
      unfold select_console
      split_ifs <;> rfl
    rw [hc, e1]

theorem select_console_softscroll (d : Driver) (i : Int) (b : Bool) :
    select_console { d with softscroll := b } i
      = { select_console d i with softscroll := b } := by
  unfold select_console
  dsimp only
  split_ifs <;> rfl

theorem select_console_cons_table (d : Driver) (i : Int) :
    (select_console d i).cons_table = d.cons_table := by
  unfold select_console
  split_ifs <;> rfl

/-- C12: when every console has `c_start <= c_org` and a display with
`vid_size > scr_size` (both values of the type `unsigned`), `cons_org0`
returns, for every amount of fuel from `UINT_MOD` on; afterwards every console
has `c_org == c_start`, with `c_start` as before, and `current` is the same as
before. -/
theorem C12_cons_org0 (d : Driver) (fuel : Nat) (hfuel : UINT_MOD ≤ fuel)
    (h : ∀ i, i < d.nr_cons.toNat → org0_ready d i) :
    ∃ d', cons_org0 fuel d = some d'
      ∧ (∀ i, i < d.nr_cons.toNat →
          (d'.cons_table i).c_org = (d'.cons_table i).c_start
            ∧ (d'.cons_table i).c_start = (d.cons_table i).c_start)
      ∧ d'.current = d.current := by
  obtain ⟨d', h1, h2, h3, _⟩ := cons_org0_spec fuel hfuel d h
  exact ⟨d', h1, h2, h3⟩

theorem C12_cons_org0_witness :
    ∃ d', cons_org0 UINT_MOD ex_driver = some d'
      ∧ (d'.cons_table 1).c_org = (d'.cons_table 1).c_start
      ∧ (d'.cons_table 1).c_start = (ex_driver.cons_table 1).c_start
      ∧ d'.current = ex_driver.current :=
  (C12_cons_org0 ex_driver UINT_MOD (le_refl _) (by decide)).imp
    (fun _ h => ⟨h.1, (h.2.1 1 (by decide)).1, (h.2.1 1 (by decide)).2, h.2.2⟩)

/-- C13 (amended): under the conditions of C12, `cons_stop` returns the state
of `cons_org0` followed by `select_console(0)` with three more stores:
`softscroll` is 1, `c_attr` and `c_blank` of console 0 are `BLANK_COLOR`, and
`blank_color` of display 0 is `BLANK_COLOR`.  Every origin is then at the start
of its region, and console 0 is the current one when there is a console. -/
theorem C13_cons_stop (d : Driver) (fuel : Nat) (hfuel : UINT_MOD ≤ fuel)
    (h : ∀ i, i < d.nr_cons.toNat → org0_ready d i) (h0 : 0 < d.nr_cons) :
    ∃ d1, cons_org0 fuel d = some d1
      ∧ cons_stop fuel d
          = some { select_console d1 0 with
              softscroll := true
              cons_table := Function.update (select_console d1 0).cons_table 0
                { (select_console d1 0).cons_table 0 with
                  c_attr := BLANK_COLOR, c_blank := BLANK_COLOR }
              display_table := Function.update (select_console d1 0).display_table 0
                { (select_console d1 0).display_table 0 with blank_color := BLANK_COLOR } }
      ∧ (∀ d2, cons_stop fuel d = some d2 →
          (∀ i, i < d.nr_cons.toNat → (d2.cons_table i).c_org = (d2.cons_table i).c_start)
            ∧ d2.current = 0 ∧ d2.curcons = some 0 ∧ d2.softscroll = true
            ∧ (d2.cons_table 0).c_attr = BLANK_COLOR ∧ (d2.cons_table 0).c_blank = BLANK_COLOR
            ∧ (d2.display_table 0).blank_color = BLANK_COLOR) := by
  obtain ⟨d1, h1, h2, h3, h4⟩ := cons_org0_spec fuel hfuel d h
  have hin : (0 : Int) ≤ 0 ∧ (0 : Int) < d1.nr_cons := by omega
  have hstop : cons_stop fuel d
      = some { select_console d1 0 with
          softscroll := true
          cons_table := Function.update (select_console d1 0).cons_table 0
            { (select_console d1 0).cons_table 0 with
              c_attr := BLANK_COLOR, c_blank := BLANK_COLOR }
          display_table := Function.update (select_console d1 0).display_table 0
            { (select_console d1 0).display_table 0 with blank_color := BLANK_COLOR } } := by
    unfold cons_stop
    rw [h1]
    have e := select_console_softscroll d1 0 true
    simp only [Option.map_some']
    rw [e]
  refine ⟨d1, h1, hstop, ?_⟩
  intro d2 hd2
  rw [hstop] at hd2
  have e := (Option.some.inj hd2).symm
  subst e
  refine ⟨?_, ?_, ?_, rfl, ?_, ?_, ?_⟩
  · intro i hi
    show (Function.update (select_console d1 0).cons_table 0 _ i).c_org
      = (Function.update (select_console d1 0).cons_table 0 _ i).c_start
    rw [select_console_cons_table]
    by_cases hi0 : i = 0
    · subst hi0
      rw [Function.update_same]
      exact (h2 0 hi).1
    · rw [Function.update_noteq hi0]
      exact (h2 i hi).1
  · show (select_console d1 0).current = 0
    rw [select_console_in d1 0 hin]
  · show (select_console d1 0).curcons = some 0
    rw [select_console_in d1 0 hin]
    rfl
  · show (Function.update (select_console d1 0).cons_table 0 _ 0).c_attr = BLANK_COLOR
    rw [Function.update_same]
    rfl
  · show (Function.update (select_console d1 0).cons_table 0 _ 0).c_blank = BLANK_COLOR
    rw [Function.update_same]
    rfl
  · show (Function.update (select_console d1 0).display_table 0 _ 0).blank_color = BLANK_COLOR
    rw [Function.update_same]
    rfl

theorem C13_cons_stop_witness :
    ∃ d1, cons_org0 UINT_MOD ex_driver = some d1
      ∧ cons_stop UINT_MOD ex_driver
          = some { select_console d1 0 with
              softscroll := true
              cons_table := Function.update (select_console d1 0).cons_table 0
                { (select_console d1 0).cons_table 0 with
                  c_attr := BLANK_COLOR, c_blank := BLANK_COLOR }
              display_table := Function.update (select_console d1 0).display_table 0
                { (select_console d1 0).display_table 0 with blank_color := BLANK_COLOR } } :=
  (C13_cons_stop ex_driver UINT_MOD (le_refl _) (by decide) (by decide)).imp
    (fun _ h => ⟨h.1, h.2.1⟩)

set_option maxRecDepth 100000 in
/-- C13, counterexample: on the driver `ex_driver`, which scrolls by hardware,
`cons_stop` leaves `softscroll` set while `cons_org0` followed by
`select_console(0)` leaves it clear, so the two resulting states differ. -/
theorem C13_counterexample :
    (cons_stop 10 ex_driver).map (fun d => d.softscroll) = some true
      ∧ (cons_org0 10 ex_driver).map (fun d => (select_console d 0).softscroll)
          = some false := by
  decide

/-! ## C25 to C28: colours, reset, backspace and tab -/

/-- The rendition command `ESC [vm` runs `do_rendition` on the flushed
console. -/
theorem csi_rendition (s : State) (hesc : s.cons.c_esc_state = 0) (v : Option Nat)
    (hint : param_value v < 32768) :
    out_chars s (csi (param_digits v) 109)
      = esc_done (do_rendition (csi_state (flush s) (param_value v) 0 0) (param_value v)) := by
  rw [csi_param_command s hesc v hint 109 (by decide) (by decide)]
  rfl

theorem and_or_mask (a m c n : Nat) :
    ((a &&& m) ||| c) &&& n = (a &&& (m &&& n)) ||| (c &&& n) := by
  rw [Nat.and_comm, Nat.and_or_distrib_left, Nat.and_comm n, Nat.and_comm n, Nat.and_assoc]

theorem ansi_colors_lt (k : Nat) : ansi_colors k < 8 := by
  by_cases h : k < 8
  · interval_cases k <;> decide
  · have : ansi_colors k = 0 := by
      unfold ansi_colors
      rw [List.getD_eq_default]
      simp only [List.length_cons, List.length_nil]
      omega
    omega

/-- A colour index in the foreground nibble touches no other bit. -/
theorem fg_nibble (a col : Nat) (h : col < 8) :
    ((a &&& 0xf0ff) ||| (col <<< 8)) &&& 0x0f00 = col <<< 8
      ∧ ((a &&& 0xf0ff) ||| (col <<< 8)) &&& 0xf000 = a &&& 0xf000
      ∧ ((a &&& 0xf0ff) ||| (col <<< 8)) &&& 0x00ff = a &&& 0x00ff := by
  rw [and_or_mask, and_or_mask, and_or_mask]
  have h1 : (0xf0ff : Nat) &&& 0x0f00 = 0 := by decide
  have h2 : (0xf0ff : Nat) &&& 0xf000 = 0xf000 := by decide
  have h3 : (0xf0ff : Nat) &&& 0x00ff = 0x00ff := by decide
  have c1 : (col <<< 8) &&& 0x0f00 = col <<< 8 := by interval_cases col <;> decide
  have c2 : (col <<< 8) &&& 0xf000 = 0 := by interval_cases col <;> decide
  have c3 : (col <<< 8) &&& 0x00ff = 0 := by interval_cases col <;> decide
  rw [h1, h2, h3, c1, c2, c3, Nat.and_zero, Nat.zero_or, Nat.or_zero, Nat.or_zero]
  exact ⟨rfl, rfl, rfl⟩

/-- A colour index in the background nibble touches no other bit. -/
theorem bg_nibble (a col : Nat) (h : col < 8) :
    ((a &&& 0x0fff) ||| (col <<< 12)) &&& 0xf000 = col <<< 12
      ∧ ((a &&& 0x0fff) ||| (col <<< 12)) &&& 0x0f00 = a &&& 0x0f00
      ∧ ((a &&& 0x0fff) ||| (col <<< 12)) &&& 0x00ff = a &&& 0x00ff := by
  rw [and_or_mask, and_or_mask, and_or_mask]
  have h1 : (0x0fff : Nat) &&& 0xf000 = 0 := by decide
  have h2 : (0x0fff : Nat) &&& 0x0f00 = 0x0f00 := by decide
  have h3 : (0x0fff : Nat) &&& 0x00ff = 0x00ff := by decide
  have c1 : (col <<< 12) &&& 0xf000 = col <<< 12 := by interval_cases col <;> decide
  have c2 : (col <<< 12) &&& 0x0f00 = 0 := by interval_cases col <;> decide
  have c3 : (col <<< 12) &&& 0x00ff = 0 := by interval_cases col <;> decide
  rw [h1, h2, h3, c1, c2, c3, Nat.and_zero, Nat.zero_or, Nat.or_zero, Nat.or_zero]
  exact ⟨rfl, rfl, rfl⟩

theorem do_rendition_fg (t : State) (v : Nat) (h : 30 ≤ v ∧ v ≤ 37) :
    do_rendition t (v : Int)
      = { t with
          cons := { t.cons with
            c_attr := (t.cons.c_attr &&& 0xf0ff) ||| (ansi_colors (v - 30) <<< 8)
            c_blank := (t.cons.c_blank &&& 0xf0ff) ||| (ansi_colors (v - 30) <<< 8) }
          display := { t.display with
            blank_color := (t.cons.c_blank &&& 0xf0ff) ||| (ansi_colors (v - 30) <<< 8) } } := by
  have e : ((v : Int) - 30).toNat = v - 30 := by omega
  have n1 : ¬ (v : Int) = 1 := by omega
  have n4 : ¬ (v : Int) = 4 := by omega
  have n5 : ¬ (v : Int) = 5 := by omega
  have n7 : ¬ (v : Int) = 7 := by omega
  have p : (30 : Int) ≤ v ∧ (v : Int) ≤ 37 := by omega
  unfold do_rendition
  rw [if_neg n1, if_neg n4, if_neg n5, if_neg n7, if_pos p]
  simp only [e]

theorem do_rendition_bg (t : State) (v : Nat) (h : 40 ≤ v ∧ v ≤ 47) :
    do_rendition t (v : Int)
      = { t with
          cons := { t.cons with
            c_attr := (t.cons.c_attr &&& 0x0fff) ||| (ansi_colors (v - 40) <<< 12)
            c_blank := (t.cons.c_blank &&& 0x0fff) ||| (ansi_colors (v - 40) <<< 12) }
          display := { t.display with
            blank_color := (t.cons.c_blank &&& 0x0fff) ||| (ansi_colors (v - 40) <<< 12) } } := by
  have e : ((v : Int) - 40).toNat = v - 40 := by omega
  have n1 : ¬ (v : Int) = 1 := by omega
  have n4 : ¬ (v : Int) = 4 := by omega
  have n5 : ¬ (v : Int) = 5 := by omega
  have n7 : ¬ (v : Int) = 7 := by omega
  have nf : ¬ ((30 : Int) ≤ v ∧ (v : Int) ≤ 37) := by omega
  have p : (40 : Int) ≤ v ∧ (v : Int) ≤ 47 := by omega
  unfold do_rendition
  rw [if_neg n1, if_neg n4, if_neg n5, if_neg n7, if_neg nf, if_pos p]
  simp only [e]

theorem do_rendition_reset (t : State) (v : Nat) (h : ¬ is_rendition v) :
    do_rendition t (v : Int) = { t with cons := { t.cons with c_attr := t.cons.c_blank } } := by
  unfold is_rendition at h
  have n1 : ¬ (v : Int) = 1 := by omega
  have n4 : ¬ (v : Int) = 4 := by omega
  have n5 : ¬ (v : Int) = 5 := by omega
  have n7 : ¬ (v : Int) = 7 := by omega
  have nf : ¬ ((30 : Int) ≤ v ∧ (v : Int) ≤ 37) := by omega
  have nb : ¬ ((40 : Int) ≤ v ∧ (v : Int) ≤ 47) := by omega
  unfold do_rendition
  rw [if_neg n1, if_neg n4, if_neg n5, if_neg n7, if_neg nf, if_neg nb]

/-- The renditions 1, 4, 5 and 7 change `c_attr` only. -/
theorem do_rendition_style (t : State) (v : Nat) (h : v = 1 ∨ v = 4 ∨ v = 5 ∨ v = 7) :
    ∃ a, do_rendition t (v : Int) = { t with cons := { t.cons with c_attr := a } } := by
  unfold do_rendition
  rcases h with rfl | rfl | rfl | rfl
  · exact ⟨_, rfl⟩
  · exact ⟨_, rfl⟩
  · exact ⟨_, rfl⟩
  · exact ⟨_, rfl⟩

/-- The colour commands: the nibble that `ESC [vm` replaces and the bits it
keeps. -/
theorem colour_effect (s : State) (v : Nat) (hesc : s.cons.c_esc_state = 0) :
    (30 ≤ v ∧ v ≤ 37 →
        (out_chars s (csi (decimal v) 109)).cons.c_attr &&& 0x0f00
            = ansi_colors (v - 30) <<< 8
          ∧ (out_chars s (csi (decimal v) 109)).cons.c_attr &&& 0xf000
            = s.cons.c_attr &&& 0xf000
          ∧ (out_chars s (csi (decimal v) 109)).cons.c_attr &&& 0x00ff
            = s.cons.c_attr &&& 0x00ff)
      ∧ (40 ≤ v ∧ v ≤ 47 →
        (out_chars s (csi (decimal v) 109)).cons.c_attr &&& 0xf000
            = ansi_colors (v - 40) <<< 12
          ∧ (out_chars s (csi (decimal v) 109)).cons.c_attr &&& 0x0f00
            = s.cons.c_attr &&& 0x0f00
          ∧ (out_chars s (csi (decimal v) 109)).cons.c_attr &&& 0x00ff
            = s.cons.c_attr &&& 0x00ff) := by
  have e1 : param_digits (some v) = decimal v := rfl
  have e2 : param_value (some v) = v := rfl
  constructor
  · intro h
    have e := csi_rendition s hesc (some v) (by show v < 32768; omega)
    rw [e1, e2] at e
    rw [e]
    rw [do_rendition_fg _ v h]
    have := fg_nibble s.cons.c_attr (ansi_colors (v - 30)) (ansi_colors_lt _)
    simpa [esc_done, csi_state] using this
  · intro h
    have e := csi_rendition s hesc (some v) (by show v < 32768; omega)
    rw [e1, e2] at e
    rw [e]
    rw [do_rendition_bg _ v h]
    have := bg_nibble s.cons.c_attr (ansi_colors (v - 40)) (ansi_colors_lt _)
    simpa [esc_done, csi_state] using this

/-- The table `ansi_colors` is a permutation of 0..7. -/
theorem ansi_colors_perm :
    (∀ i, i < 8 → ansi_colors i < 8)
      ∧ (∀ i, i < 8 → ∀ j, j < 8 → ansi_colors i = ansi_colors j → i = j)
      ∧ (∀ k, k < 8 → ∃ i, i < 8 ∧ ansi_colors i = k) := by
  refine ⟨fun i _ => ansi_colors_lt i, by decide, by decide⟩

/-- What `ESC [vm` leaves of the console: Normal state, the blank attribute
unless `v` is a colour, and for a `v` that is no rendition `c_attr == c_blank`. -/
theorem rendition_effect (s : State) (v : Option Nat)
    (hint : param_value v < 32768) (hesc : s.cons.c_esc_state = 0) :
    (out_chars s (csi (param_digits v) 109)).cons.c_esc_state = 0
      ∧ (¬ is_rendition (param_value v) →
          (out_chars s (csi (param_digits v) 109)).cons.c_attr = s.cons.c_blank
            ∧ (out_chars s (csi (param_digits v) 109)).cons.c_blank = s.cons.c_blank
            ∧ (out_chars s (csi (param_digits v) 109)).display = s.display)
      ∧ (param_value v = 1 ∨ param_value v = 4 ∨ param_value v = 5 ∨ param_value v = 7 →
          (out_chars s (csi (param_digits v) 109)).cons.c_blank = s.cons.c_blank
            ∧ (out_chars s (csi (param_digits v) 109)).display = s.display) := by
  rw [csi_rendition s hesc v hint]
  refine ⟨rfl, fun h => ?_, fun h => ?_⟩
  · rw [do_rendition_reset _ _ h]
    simp [esc_done, csi_state]
  · obtain ⟨a, ha⟩ := do_rendition_style (csi_state (flush s) (param_value v) 0 0) _ h
    rw [ha]
    simp [esc_done, csi_state]

/-- After any run of the renditions 1, 4, 5 and 7, an `ESC [vm` whose `v` is
no rendition sets `c_attr` to the blank attribute that the console had before
the run. -/
theorem reset_after_styles (ws : List Nat) : ∀ (s : State) (v : Option Nat),
    param_value v < 32768 →
    s.cons.c_esc_state = 0 → (∀ w ∈ ws, w = 1 ∨ w = 4 ∨ w = 5 ∨ w = 7) →
    ¬ is_rendition (param_value v) →
    (out_chars s (renditions ws ++ csi (param_digits v) 109)).cons.c_attr = s.cons.c_blank := by
  induction ws with
  | nil =>
    intro s v hint hesc _ hv
    exact ((rendition_effect s v hint hesc).2.1 hv).1
  | cons w ws ih =>
    intro s v hint hesc hws hv
    have e : renditions (w :: ws) ++ csi (param_digits v) 109
        = csi (param_digits (some w)) 109 ++ (renditions ws ++ csi (param_digits v) 109) := by
      simp [renditions, param_digits]
    have hw4 : param_value (some w) < 32768 := by
      show w < 32768
      rcases hws w (by simp) with h | h | h | h <;> omega
    have hw := rendition_effect s (some w) hw4 hesc
    rw [e, out_chars_append, ih _ v hint hw.1 (fun x hx => hws x (by simp [hx])) hv]
    exact (hw.2.2 (hws w (by simp))).1

/-- C25: `ESC [vm` with `v` in 30..37 puts `ansi_colors[v - 30]` into bits 8
to 11 of `c_attr` and keeps bits 12 to 15 (and the low byte); with `v` in
40..47 it puts `ansi_colors[v - 40]` into bits 12 to 15 and keeps bits 8 to 11
(and the low byte); and `ansi_colors` is a permutation of 0..7: its values are
below 8, distinct indices give distinct values and every value is taken. -/
theorem C25_colour_commands (s : State) (v : Nat) (hesc : s.cons.c_esc_state = 0) :
    (30 ≤ v ∧ v ≤ 37 →
        (out_chars s (csi (decimal v) 109)).cons.c_attr &&& 0x0f00
            = ansi_colors (v - 30) <<< 8
          ∧ (out_chars s (csi (decimal v) 109)).cons.c_attr &&& 0xf000
            = s.cons.c_attr &&& 0xf000
          ∧ (out_chars s (csi (decimal v) 109)).cons.c_attr &&& 0x00ff
            = s.cons.c_attr &&& 0x00ff)
      ∧ (40 ≤ v ∧ v ≤ 47 →
        (out_chars s (csi (decimal v) 109)).cons.c_attr &&& 0xf000
            = ansi_colors (v - 40) <<< 12
          ∧ (out_chars s (csi (decimal v) 109)).cons.c_attr &&& 0x0f00
            = s.cons.c_attr &&& 0x0f00
          ∧ (out_chars s (csi (decimal v) 109)).cons.c_attr &&& 0x00ff
            = s.cons.c_attr &&& 0x00ff)
      ∧ (∀ i, i < 8 → ansi_colors i < 8)
      ∧ (∀ i, i < 8 → ∀ j, j < 8 → ansi_colors i = ansi_colors j → i = j)
      ∧ (∀ k, k < 8 → ∃ i, i < 8 ∧ ansi_colors i = k) :=
  ⟨(colour_effect s v hesc).1, (colour_effect s v hesc).2, ansi_colors_perm⟩

theorem C25_colour_commands_witness :
    (out_chars ex_state (csi (decimal 31) 109)).cons.c_attr &&& 0x0f00
        = ansi_colors (31 - 30) <<< 8
      ∧ (out_chars ex_state (csi (decimal 44) 109)).cons.c_attr &&& 0xf000
        = ansi_colors (44 - 40) <<< 12 :=
  ⟨((C25_colour_commands ex_state 31 (by decide)).1 (by decide)).1,
   ((C25_colour_commands ex_state 44 (by decide)).2.1 (by decide)).1⟩

/-- C26 (amended): `ESC [vm` whose `v` (0 when omitted) is none of 1, 4, 5, 7,
30..37, 40..47 sets `c_attr` to the console's blank attribute `c_blank` and
leaves `c_blank` and the display's blank colour alone; this holds after any run
of the renditions 1, 4, 5 and 7, which do not change `c_blank`.  The parameter
is one that an `int` holds, `v < 32768`. -/
theorem C26_rendition_reset (s : State) (ws : List Nat) (v : Option Nat)
    (hint : param_value v < 32768)
    (hesc : s.cons.c_esc_state = 0) (hws : ∀ w ∈ ws, w = 1 ∨ w = 4 ∨ w = 5 ∨ w = 7)
    (hv : ¬ is_rendition (param_value v)) :
    (out_chars s (csi (param_digits v) 109)).cons.c_attr = s.cons.c_blank
      ∧ (out_chars s (csi (param_digits v) 109)).cons.c_blank = s.cons.c_blank
      ∧ (out_chars s (csi (param_digits v) 109)).display = s.display
      ∧ (out_chars s (renditions ws ++ csi (param_digits v) 109)).cons.c_attr
          = s.cons.c_blank :=
  ⟨((rendition_effect s v hint hesc).2.1 hv).1, ((rendition_effect s v hint hesc).2.1 hv).2.1,
   ((rendition_effect s v hint hesc).2.1 hv).2.2, reset_after_styles ws s v hint hesc hws hv⟩

theorem C26_rendition_reset_witness :
    (out_chars ex_state (csi (param_digits none) 109)).cons.c_attr = ex_state.cons.c_blank
      ∧ (out_chars ex_state (renditions [1, 7] ++ csi (param_digits none) 109)).cons.c_attr
          = ex_state.cons.c_blank :=
  ⟨(C26_rendition_reset ex_state [1, 7] none (by decide) (by decide) (by decide) (by decide)).1,
   (C26_rendition_reset ex_state [1, 7] none (by decide) (by decide) (by decide) (by decide)).2.2.2⟩

set_option maxRecDepth 100000 in
/-- C26, counterexample: on the fresh console `ESC [ 0 m` leaves the attribute
`BLANK_COLOR`, but after the colour command `ESC [ 3 1 m` the same `ESC [ 0 m`
leaves the attribute 0x0400: the reset depends on the colour commands issued
before.  And the parameter 65537, which is none of 1, 4, 5, 7, 30..37 and
40..47, does not fit in an `int`: its digits leave 1 in `c_esc_parmv[0]`, and
`ESC [65537m` sets the rendition 1 instead of resetting the attribute. -/
theorem C26_counterexample :
    (out_chars ex_state (csi (decimal 0) 109)).cons.c_attr = BLANK_COLOR
      ∧ (out_chars ex_state (csi (decimal 31) 109 ++ csi (decimal 0) 109)).cons.c_attr
          = 0x0400
      ∧ (out_chars ex_state (csi (decimal 31) 109 ++ csi (decimal 0) 109)).cons.c_attr
          ≠ BLANK_COLOR
      ∧ ¬ is_rendition 65537
      ∧ accumulate 0 (decimal 65537) = 1
      ∧ (out_chars ex_state (csi (decimal 65537) 109)).cons.c_attr = 0x0F00
      ∧ (out_chars ex_state (csi (decimal 65537) 109)).cons.c_blank = 0x0700 := by
  decide

/-- Backspace in Normal state. -/
theorem out_char_bs (s : State) (hesc : s.cons.c_esc_state = 0) :
    out_char s 8
      = flush (if s.cons.c_column - 1 < 0 then
                 (if s.cons.c_row - 1 ≥ 0 then
                    { s with cons := { s.cons with
                        c_column := s.cons.c_column - 1 + scr_width,
                        c_row := s.cons.c_row - 1 } }
                  else
                    { s with cons := { s.cons with
                        c_column := s.cons.c_column - 1, c_row := s.cons.c_row - 1 } })
               else { s with cons := { s.cons with c_column := s.cons.c_column - 1 } }) := by
  have h0 : ¬ 0 < s.cons.c_esc_state := by omega
  unfold out_char
  rw [if_neg h0, if_neg (by decide), if_neg (by decide), if_pos rfl]

/-- The effect of the backspace byte on a console in Normal state with the
cursor in range. -/
theorem backspace_effect (s : State) (hesc : s.cons.c_esc_state = 0)
    (hcur : cursor_in_range s) :
    (0 < s.cons.c_column →
        (out_char s 8).cons.c_row = s.cons.c_row
          ∧ (out_char s 8).cons.c_column = s.cons.c_column - 1)
      ∧ (s.cons.c_column = 0 ∧ 0 < s.cons.c_row →
        (out_char s 8).cons.c_row = s.cons.c_row - 1
          ∧ (out_char s 8).cons.c_column = (scr_width : Int) - 1)
      ∧ (s.cons.c_column = 0 ∧ s.cons.c_row = 0 →
        (out_char s 8).cons.c_row = 0 ∧ (out_char s 8).cons.c_column = 0)
      ∧ (out_char s 8).vram = (flush s).vram
      ∧ (out_char s 8).cons.c_org = s.cons.c_org
      ∧ (out_char s 8).cons.c_esc_state = 0 := by
  obtain ⟨hr0, hr1, hc0, hc1⟩ := hcur
  have hL : scr_lines = 25 := rfl
  have hW : scr_width = 80 := rfl
  rw [out_char_bs s hesc]
  have hclip_r : ∀ x : Int, 0 ≤ x → x < 25 → clip_row x = x := fun x a b =>
    clip_row_of_range x a (by omega)
  have hclip_c : ∀ x : Int, 0 ≤ x → x ≤ 80 → clip_column x = x := fun x a b =>
    clip_column_of_range x a (by omega)
  refine ⟨fun h => ?_, fun h => ?_, fun h => ?_, ?_, ?_, ?_⟩
  · rw [if_neg (by omega), flush_row, flush_column]
    dsimp only
    rw [hclip_r _ hr0 (by omega), hclip_c _ (by omega) (by omega)]
    exact ⟨rfl, rfl⟩
  · rw [if_pos (by omega), if_pos (by omega), flush_row, flush_column]
    dsimp only
    rw [hclip_r _ (by omega) (by omega), hclip_c _ (by omega) (by omega)]
    exact ⟨rfl, by omega⟩
  · rw [if_pos (by omega), if_neg (by omega), flush_row, flush_column]
    dsimp only
    constructor
    · unfold clip_row
      dsimp only
      split_ifs <;> omega
    · unfold clip_column
      dsimp only
      split_ifs <;> omega
  · split_ifs <;> simp
  · split_ifs <;> simp
  · split_ifs <;> simp [hesc]

theorem next_tab_spec (c : Int) :
    next_tab c % TAB_SIZE = 0 ∧ c < next_tab c
      ∧ ∀ m : Int, m % TAB_SIZE = 0 → c < m → next_tab c ≤ m := by
  unfold next_tab
  have hT : (TAB_SIZE : Int) = 8 := rfl
  rw [hT]
  refine ⟨by omega, by omega, fun m h1 h2 => by omega⟩

/-- TAB in Normal state. -/
theorem out_char_tab (s : State) (hesc : s.cons.c_esc_state = 0) :
    out_char s 9
      = flush (if next_tab s.cons.c_column > scr_width then
                 next_row { s with cons := { s.cons with
                   c_column := next_tab s.cons.c_column - scr_width } }
               else { s with cons := { s.cons with c_column := next_tab s.cons.c_column } }) := by
  have h0 : ¬ 0 < s.cons.c_esc_state := by omega
  have e : (s.cons.c_column + TAB_SIZE) - (s.cons.c_column + TAB_SIZE) % ((TAB_MASK : Int) + 1)
      = next_tab s.cons.c_column := by
    unfold next_tab
    have hT : (TAB_SIZE : Int) = 8 := rfl
    have hM : (TAB_MASK : Int) = 7 := rfl
    rw [hT, hM]
    omega
  unfold out_char
  have c0 : ¬ (9 : Int) = 0 := by decide
  have c7 : ¬ (9 : Int) = 7 := by decide
  have c8 : ¬ (9 : Int) = 8 := by decide
  have c10 : ¬ ((9 : Int) = 10 ∨ (9 : Int) = 11 ∨ (9 : Int) = 12) := by decide
  have c13 : ¬ (9 : Int) = 13 := by decide
  rw [if_neg h0, if_neg c0, if_neg c7, if_neg c8, if_neg c10, if_neg c13, if_pos rfl]
  dsimp only
  rw [e]

/-- The scroll that a state makes does not depend on its cursor column. -/
theorem scroll_screen_column_free (s : State) (c : Int) (dir : Nat) :
    (scroll_screen { s with cons := { s.cons with c_column := c } } dir).vram
        = (scroll_screen s dir).vram
      ∧ (scroll_screen { s with cons := { s.cons with c_column := c } } dir).cons.c_org
        = (scroll_screen s dir).cons.c_org := by
  constructor
  · rw [scroll_screen_vram, scroll_screen_vram]
    simp [scroll_new_line, scroll_copy, scroll_org]
  · rw [scroll_screen_org, scroll_screen_org]
    simp [scroll_org]

/-- The effect of the TAB byte on a console in Normal state with the cursor in
range. -/
theorem tab_effect (s : State) (hesc : s.cons.c_esc_state = 0) (hcur : cursor_in_range s) :
    (next_tab s.cons.c_column ≤ scr_width →
        (out_char s 9).cons.c_row = s.cons.c_row
          ∧ (out_char s 9).cons.c_column = next_tab s.cons.c_column
          ∧ (out_char s 9).vram = (flush s).vram
          ∧ (out_char s 9).cons.c_org = s.cons.c_org)
      ∧ (scr_width < next_tab s.cons.c_column ∧ s.cons.c_row < (scr_lines : Int) - 1 →
        (out_char s 9).cons.c_row = s.cons.c_row + 1
          ∧ (out_char s 9).cons.c_column = next_tab s.cons.c_column - scr_width
          ∧ (out_char s 9).vram = (flush s).vram
          ∧ (out_char s 9).cons.c_org = s.cons.c_org)
      ∧ (scr_width < next_tab s.cons.c_column ∧ s.cons.c_row = (scr_lines : Int) - 1 →
        (out_char s 9).cons.c_row = s.cons.c_row
          ∧ (out_char s 9).cons.c_column = next_tab s.cons.c_column - scr_width
          ∧ (out_char s 9).vram = (scroll_screen s SCROLL_UP).vram
          ∧ (out_char s 9).cons.c_org = (scroll_screen s SCROLL_UP).cons.c_org)
      ∧ (out_char s 9).cons.c_column % TAB_SIZE = 0
      ∧ (out_char s 9).cons.c_esc_state = 0 := by
  obtain ⟨hr0, hr1, hc0, hc1⟩ := hcur
  have hL : scr_lines = 25 := rfl
  have hW : scr_width = 80 := rfl
  have hT : (TAB_SIZE : Int) = 8 := rfl
  have hclip_r : ∀ x : Int, 0 ≤ x → x < 25 → clip_row x = x := fun x a b =>
    clip_row_of_range x a (by omega)
  have hclip_c : ∀ x : Int, 0 ≤ x → x ≤ 80 → clip_column x = x := fun x a b =>
    clip_column_of_range x a (by omega)
  obtain ⟨t1, t2, t3⟩ := next_tab_spec s.cons.c_column
  have t4 : next_tab s.cons.c_column ≤ s.cons.c_column + 8 := by
    unfold next_tab
    rw [hT]
    omega
  rw [hT] at t1
  generalize ht : next_tab s.cons.c_column = t at *
  rw [out_char_tab s hesc, ht]
  have A : t ≤ scr_width →
      (flush { s with cons := { s.cons with c_column := t } }).cons.c_row = s.cons.c_row
        ∧ (flush { s with cons := { s.cons with c_column := t } }).cons.c_column = t
        ∧ (flush { s with cons := { s.cons with c_column := t } }).vram = (flush s).vram
        ∧ (flush { s with cons := { s.cons with c_column := t } }).cons.c_org = s.cons.c_org := by
    intro h
    rw [flush_row, flush_column, flush_vram, flush_vram, flush_org]
    dsimp only
    rw [hclip_r _ hr0 (by omega), hclip_c _ (by omega) (by omega)]
    exact ⟨rfl, rfl, rfl, rfl⟩
  have B : scr_width < t → s.cons.c_row < (scr_lines : Int) - 1 →
      (flush (next_row { s with cons := { s.cons with c_column := t - scr_width } })).cons.c_row
          = s.cons.c_row + 1
        ∧ (flush (next_row { s with cons := { s.cons with
              c_column := t - scr_width } })).cons.c_column = t - scr_width
        ∧ (flush (next_row { s with cons := { s.cons with
              c_column := t - scr_width } })).vram = (flush s).vram
        ∧ (flush (next_row { s with cons := { s.cons with
              c_column := t - scr_width } })).cons.c_org = s.cons.c_org := by
    intro h1 h2
    unfold next_row
    dsimp only
    rw [if_neg (by omega), flush_row, flush_column, flush_vram, flush_vram, flush_org]
    dsimp only
    rw [hclip_r _ (by omega) (by omega), hclip_c _ (by omega) (by omega)]
    exact ⟨rfl, rfl, rfl, rfl⟩
  have C : scr_width < t → s.cons.c_row = (scr_lines : Int) - 1 →
      (flush (next_row { s with cons := { s.cons with c_column := t - scr_width } })).cons.c_row
          = s.cons.c_row
        ∧ (flush (next_row { s with cons := { s.cons with
              c_column := t - scr_width } })).cons.c_column = t - scr_width
        ∧ (flush (next_row { s with cons := { s.cons with
              c_column := t - scr_width } })).vram = (scroll_screen s SCROLL_UP).vram
        ∧ (flush (next_row { s with cons := { s.cons with
              c_column := t - scr_width } })).cons.c_org
            = (scroll_screen s SCROLL_UP).cons.c_org := by
    intro h1 h2
    have hcf := scroll_screen_column_free s (t - scr_width) SCROLL_UP
    unfold next_row
    dsimp only
    rw [if_pos h2, flush_row, flush_column, flush_vram, flush_org, scroll_screen_row,
      scroll_screen_column, scroll_screen_rwords, write_run_zero, hcf.1, hcf.2]
    dsimp only
    rw [clip_row_idem, clip_column_idem, hclip_r _ hr0 (by omega),
      hclip_c _ (by omega) (by omega)]
    exact ⟨rfl, rfl, rfl, rfl⟩
  refine ⟨fun h => ?_, fun h => ?_, fun h => ?_, ?_, ?_⟩
  · rw [if_neg (by omega)]
    exact A h
  · rw [if_pos (by omega)]
    exact B h.1 h.2
  · rw [if_pos (by omega)]
    exact C h.1 h.2
  · by_cases h : t ≤ scr_width
    · rw [if_neg (by omega), (A h).2.1, hT]
      exact t1
    · rw [if_pos (by omega)]
      by_cases h2 : s.cons.c_row = (scr_lines : Int) - 1
      · rw [(C (by omega) h2).2.1, hT, hW]
        omega
      · rw [(B (by omega) (by omega)).2.1, hT, hW]
        omega
  · by_cases h : t ≤ scr_width
    · rw [if_neg (by omega), flush_esc_state]
      exact hesc
    · rw [if_pos (by omega), flush_esc_state]
      unfold next_row
      dsimp only
      split_ifs
      · rw [scroll_screen_esc_state]
        exact hesc
      · exact hesc

/-- C27: in Normal state with the cursor in range at row `r`, column `c`, the
backspace byte moves the cursor to `(r, c - 1)` when `c > 0`, to
`(r - 1, scr_width - 1)` when `c == 0` and `r > 0`, and leaves it at `(0, 0)`
when `c == 0` and `r == 0`; the video memory is the one that a flush of the
pending output gives, and the origin is unchanged. -/
theorem C27_backspace (s : State) (hesc : s.cons.c_esc_state = 0)
    (hcur : cursor_in_range s) :
    (0 < s.cons.c_column →
        (out_char s 8).cons.c_row = s.cons.c_row
          ∧ (out_char s 8).cons.c_column = s.cons.c_column - 1)
      ∧ (s.cons.c_column = 0 ∧ 0 < s.cons.c_row →
        (out_char s 8).cons.c_row = s.cons.c_row - 1
          ∧ (out_char s 8).cons.c_column = (scr_width : Int) - 1)
      ∧ (s.cons.c_column = 0 ∧ s.cons.c_row = 0 →
        (out_char s 8).cons.c_row = 0 ∧ (out_char s 8).cons.c_column = 0)
      ∧ (out_char s 8).vram = (flush s).vram
      ∧ (out_char s 8).cons.c_org = s.cons.c_org
      ∧ (out_char s 8).cons.c_esc_state = 0 :=
  backspace_effect s hesc hcur

theorem C27_backspace_witness :
    (out_char ex_lines 8).cons.c_row = ex_lines.cons.c_row - 1
      ∧ (out_char ex_lines 8).cons.c_column = (scr_width : Int) - 1
      ∧ (out_char ex_lines 8).vram = (flush ex_lines).vram :=
  ⟨((C27_backspace ex_lines (by decide) (by decide)).2.1 (by decide)).1,
   ((C27_backspace ex_lines (by decide) (by decide)).2.1 (by decide)).2,
   (C27_backspace ex_lines (by decide) (by decide)).2.2.2.1⟩

/-- C28: in Normal state with the cursor in range at column `c`, and `t` the
smallest multiple of `TAB_SIZE` strictly greater than `c`: when
`t <= scr_width` the TAB byte moves the cursor to column `t` on the same row;
otherwise it moves to column `t - scr_width` on the next row, or, on the last
row, stays on that row while the video memory and the origin become those that
`scroll_screen(cons, SCROLL_UP)` gives.  After TAB `c_column` is a multiple of
`TAB_SIZE`. -/
theorem C28_tab (s : State) (hesc : s.cons.c_esc_state = 0) (hcur : cursor_in_range s) :
    (next_tab s.cons.c_column % TAB_SIZE = 0 ∧ s.cons.c_column < next_tab s.cons.c_column
        ∧ ∀ m : Int, m % TAB_SIZE = 0 → s.cons.c_column < m → next_tab s.cons.c_column ≤ m)
      ∧ (next_tab s.cons.c_column ≤ scr_width →
        (out_char s 9).cons.c_row = s.cons.c_row
          ∧ (out_char s 9).cons.c_column = next_tab s.cons.c_column
          ∧ (out_char s 9).vram = (flush s).vram
          ∧ (out_char s 9).cons.c_org = s.cons.c_org)
      ∧ (scr_width < next_tab s.cons.c_column ∧ s.cons.c_row < (scr_lines : Int) - 1 →
        (out_char s 9).cons.c_row = s.cons.c_row + 1
          ∧ (out_char s 9).cons.c_column = next_tab s.cons.c_column - scr_width
          ∧ (out_char s 9).vram = (flush s).vram
          ∧ (out_char s 9).cons.c_org = s.cons.c_org)
      ∧ (scr_width < next_tab s.cons.c_column ∧ s.cons.c_row = (scr_lines : Int) - 1 →
        (out_char s 9).cons.c_row = s.cons.c_row
          ∧ (out_char s 9).cons.c_column = next_tab s.cons.c_column - scr_width
          ∧ (out_char s 9).vram = (scroll_screen s SCROLL_UP).vram
          ∧ (out_char s 9).cons.c_org = (scroll_screen s SCROLL_UP).cons.c_org)
      ∧ (out_char s 9).cons.c_column % TAB_SIZE = 0
      ∧ (out_char s 9).cons.c_esc_state = 0 :=
  ⟨next_tab_spec s.cons.c_column, tab_effect s hesc hcur⟩

theorem C28_tab_witness :
    (out_char ex_lines 9).cons.c_row = ex_lines.cons.c_row
      ∧ (out_char ex_lines 9).cons.c_column = next_tab ex_lines.cons.c_column
      ∧ (out_char ex_lines 9).vram = (flush ex_lines).vram
      ∧ (out_char ex_lines 9).cons.c_org = ex_lines.cons.c_org :=
  (C28_tab ex_lines (by decide) (by decide)).2.1 (by decide)

/-! ## C21 to C24: inserting and deleting lines and characters -/

/-- A copy followed by a blank run, both inside the window: the cells at
offsets `pb .. pb + n - 1` are blank, those at `pd .. pd + cnt - 1` outside the
blank run hold the old cells from offset `ps` on, and every other word of the
memory is as before. -/
theorem copy_blank_window (d : display_t) (hok : display_ok d) (org : Nat) (v : Nat → Nat)
    (ps pd cnt pb n : Nat) (h2 : pd + cnt ≤ scr_size) (h3 : pb + n ≤ scr_size) :
    (∀ i, i < scr_size →
        mem_vid_copy none (org + pb) n d (vid_vid_copy (org + ps) (org + pd) cnt d v)
            (vid_addr d (org + i))
          = if pb ≤ i ∧ i < pb + n then blank_cell d
            else if pd ≤ i ∧ i < pd + cnt then v (vid_addr d (org + (ps + (i - pd))))
            else v (vid_addr d (org + i)))
      ∧ (∀ a, (∀ i, i < scr_size → vid_addr d (org + i) ≠ a) →
          mem_vid_copy none (org + pb) n d (vid_vid_copy (org + ps) (org + pd) cnt d v) a
            = v a) := by
  have hb := blank_run_window d hok org pb n (vid_vid_copy (org + ps) (org + pd) cnt d v) h3
  constructor
  · intro i hi
    rw [hb.1 i hi]
    by_cases hin : pb ≤ i ∧ i < pb + n
    · rw [if_pos hin, if_pos hin]
    · rw [if_neg hin, if_neg hin]
      unfold vid_vid_copy
      rw [write_run_window d hok _ org pd cnt v h2 i hi]
      by_cases hc : pd ≤ i ∧ i < pd + cnt
      · rw [if_pos hc, if_pos hc, Nat.add_assoc]
      · rw [if_neg hc, if_neg hc]
  · intro a ha
    rw [hb.2 a ha]
    unfold vid_vid_copy
    apply write_run_miss
    intro j hj
    rw [Nat.add_assoc]
    exact ha _ (by omega)

theorem do_escape_csi_L (t : State) (n : Int) (dst src count : Nat)
    (hn : n = clamp_count t.cons.c_esc_parmv0 ((scr_lines : Int) - t.cons.c_row))
    (hsrc : src = to_unsigned ((t.cons.c_org : Int) + t.cons.c_row * scr_width))
    (hdst : dst = to_unsigned ((src : Int) + n * scr_width))
    (hcount : count = to_unsigned (((scr_lines : Int) - t.cons.c_row - n) * scr_width)) :
    do_escape_csi t 76
      = { t with vram := mem_vid_copy none src (to_unsigned (n * scr_width))
                  t.display (vid_vid_copy src dst count t.display t.vram) } := by
  subst hcount hdst hsrc hn
  rfl

theorem do_escape_csi_at (t : State) (n : Int) (dst src count : Nat)
    (hn : n = clamp_count t.cons.c_esc_parmv0 ((scr_width : Int) - t.cons.c_column))
    (hsrc : src = t.cons.c_cur)
    (hdst : dst = to_unsigned ((src : Int) + n))
    (hcount : count = to_unsigned ((scr_width : Int) - t.cons.c_column - n)) :
    do_escape_csi t 64
      = { t with vram := mem_vid_copy none src (to_unsigned n)
                  t.display (vid_vid_copy src dst count t.display t.vram) } := by
  subst hcount hdst hsrc hn
  rfl

theorem do_escape_csi_P (t : State) (n : Int) (dst src count : Nat)
    (hn : n = clamp_count t.cons.c_esc_parmv0 ((scr_width : Int) - t.cons.c_column))
    (hdst : dst = t.cons.c_cur)
    (hsrc : src = to_unsigned ((dst : Int) + n))
    (hcount : count = to_unsigned ((scr_width : Int) - t.cons.c_column - n)) :
    do_escape_csi t 80
      = { t with vram := mem_vid_copy none (uadd dst count) (to_unsigned n)
                  t.display (vid_vid_copy src dst count t.display t.vram) } := by
  subst hcount hsrc hdst hn
  rfl

theorem clamp_count_chars (v c : Nat) (hc : c ≤ scr_width) :
    clamp_count (v : Int) ((scr_width : Int) - (c : Int)) = (char_count v c : Int) := by
  unfold clamp_count char_count
  simp only [scr_width] at *
  split_ifs <;> omega

theorem to_unsigned_of_eq (x : Int) (a : Nat) (hx : x = (a : Int)) (ha : a < UINT_MOD) :
    to_unsigned x = a := by
  rw [hx]
  exact to_unsigned_natCast a ha

/-- The state in which `do_escape` runs the command of `ESC [v..` on a console
with the cursor in range. -/
theorem csi_state_fields (s : State) (p0 : Int) (r c : Nat)
    (hrow : s.cons.c_row = (r : Int)) (hcol : s.cons.c_column = (c : Int))
    (hr : r < scr_lines) (hc : c ≤ scr_width) (hwin : s.cons.c_org + scr_size < UINT_MOD) :
    (csi_state (flush s) p0 0 0).cons.c_row = (r : Int)
      ∧ (csi_state (flush s) p0 0 0).cons.c_column = (c : Int)
      ∧ (csi_state (flush s) p0 0 0).cons.c_org = s.cons.c_org
      ∧ (csi_state (flush s) p0 0 0).cons.c_cur = s.cons.c_org + (r * scr_width + c)
      ∧ (csi_state (flush s) p0 0 0).cons.c_esc_parmv0 = p0
      ∧ (csi_state (flush s) p0 0 0).display = s.display
      ∧ (csi_state (flush s) p0 0 0).vram = (flush s).vram := by
  have hL : scr_lines = 25 := rfl
  have hW : scr_width = 80 := rfl
  have hr0 : (0 : Int) ≤ s.cons.c_row := by omega
  have hr1 : s.cons.c_row < scr_lines := by omega
  have hc0 : (0 : Int) ≤ s.cons.c_column := by omega
  have hc1 : s.cons.c_column ≤ scr_width := by omega
  have hrr : clip_row s.cons.c_row = s.cons.c_row := clip_row_of_range _ hr0 hr1
  have hcc : clip_column s.cons.c_column = s.cons.c_column := clip_column_of_range _ hc0 hc1
  have hcur : flush_cur_addr s = s.cons.c_org + (r * scr_width + c) := by
    unfold flush_cur_addr
    rw [hrr, hcc, cur_addr_exact _ _ _ hr0 hr1 hc0 hc1 hwin, hrow, hcol, hW]
    omega
  refine ⟨?_, ?_, ?_, ?_, rfl, ?_, rfl⟩
  · show (flush s).cons.c_row = r
    rw [flush_row, hrr, hrow]
  · show (flush s).cons.c_column = c
    rw [flush_column, hcc, hcol]
  · show (flush s).cons.c_org = s.cons.c_org
    rw [flush_org]
  · show (flush s).cons.c_cur = _
    rw [flush_cur, hcur]
  · show (flush s).display = s.display
    rw [flush_display]

/-- The command `ESC [vL` as a copy and a blank run inside the window. -/
theorem insert_lines_run (s : State) (v : Option Nat)
    (hint : param_value v < 32768) (r c : Nat)
    (hesc : s.cons.c_esc_state = 0)
    (hrow : s.cons.c_row = (r : Int)) (hcol : s.cons.c_column = (c : Int))
    (hr : r < scr_lines) (hc : c ≤ scr_width) (hwin : s.cons.c_org + scr_size < UINT_MOD) :
    out_chars s (csi (param_digits v) 76)
      = esc_done { csi_state (flush s) (param_value v) 0 0 with
          vram := mem_vid_copy none (s.cons.c_org + r * scr_width)
                    (line_count (param_value v) r * scr_width) s.display
                    (vid_vid_copy (s.cons.c_org + r * scr_width)
                      (s.cons.c_org + (r + line_count (param_value v) r) * scr_width)
                      ((scr_lines - r - line_count (param_value v) r) * scr_width)
                      s.display (flush s).vram) } := by
  have hL : scr_lines = 25 := rfl
  have hW : scr_width = 80 := rfl
  have hS : scr_size = 2000 := rfl
  have hU : UINT_MOD = 65536 := rfl
  obtain ⟨f1, f2, f3, f4, f5, f6, f7⟩ :=
    csi_state_fields s (param_value v) r c hrow hcol hr hc hwin
  have hn : line_count (param_value v) r ≤ scr_lines - r ∧ 1 ≤ line_count (param_value v) r := by
    unfold line_count
    rw [hL] at hr ⊢
    omega
  have hcl := clamp_count_lines (param_value v) r hr
  generalize line_count (param_value v) r = n at hn hcl
  rw [csi_param_command s hesc v hint 76 (by decide) (by decide)]
  have h76 : to_char 76 = 76 := rfl
  rw [h76, do_escape_csi_L _ (n : Int) (s.cons.c_org + (r + n) * scr_width)
    (s.cons.c_org + r * scr_width) ((scr_lines - r - n) * scr_width)
    (by rw [f1, f5, hcl])
    (by rw [f1, f3]; symm; apply to_unsigned_of_eq
        · push_cast; rfl
        · rw [hW] ; omega)
    (by symm; apply to_unsigned_of_eq
        · push_cast; ring
        · rw [hW]; omega)
    (by rw [f1]; symm; apply to_unsigned_of_eq
        · rw [hL] at hn ⊢; rw [hL] at hr; push_cast [Nat.cast_sub (by omega : r ≤ 25), Nat.cast_sub (by omega : n ≤ 25 - r)]; rfl
        · rw [hW, hL]; rw [hL] at hn; omega)]
  rw [f6, f7]
  have e : to_unsigned ((n : Int) * (scr_width : Int)) = n * scr_width := by
    apply to_unsigned_of_eq
    · push_cast; rfl
    · rw [hW]; rw [hL] at hn; omega
  rw [e]
  simp only [f6]

/-- The command `ESC [vM` as a copy and a blank run inside the window. -/
theorem delete_lines_run (s : State) (v : Option Nat)
    (hint : param_value v < 32768) (r c : Nat)
    (hesc : s.cons.c_esc_state = 0)
    (hrow : s.cons.c_row = (r : Int)) (hcol : s.cons.c_column = (c : Int))
    (hr : r < scr_lines) (hc : c ≤ scr_width) (hwin : s.cons.c_org + scr_size < UINT_MOD) :
    out_chars s (csi (param_digits v) 77)
      = esc_done { csi_state (flush s) (param_value v) 0 0 with
          vram := mem_vid_copy none
                    (s.cons.c_org + (scr_lines - line_count (param_value v) r) * scr_width)
                    (line_count (param_value v) r * scr_width) s.display
                    (vid_vid_copy
                      (s.cons.c_org + (r + line_count (param_value v) r) * scr_width)
                      (s.cons.c_org + r * scr_width)
                      ((scr_lines - r - line_count (param_value v) r) * scr_width)
                      s.display (flush s).vram) } := by
  have hL : scr_lines = 25 := rfl
  have hW : scr_width = 80 := rfl
  have hS : scr_size = 2000 := rfl
  have hU : UINT_MOD = 65536 := rfl
  obtain ⟨f1, f2, f3, f4, f5, f6, f7⟩ :=
    csi_state_fields s (param_value v) r c hrow hcol hr hc hwin
  have hn : line_count (param_value v) r ≤ scr_lines - r ∧ 1 ≤ line_count (param_value v) r := by
    unfold line_count
    rw [hL] at hr ⊢
    omega
  have hcl := clamp_count_lines (param_value v) r hr
  generalize line_count (param_value v) r = n at hn hcl
  rw [hL] at hn hr
  rw [csi_param_command s hesc v hint 77 (by decide) (by decide)]
  have h77 : to_char 77 = 77 := rfl
  rw [h77, do_escape_csi_M _ (n : Int) (s.cons.c_org + r * scr_width)
    (s.cons.c_org + (r + n) * scr_width) ((scr_lines - r - n) * scr_width)
    (by rw [f1, f5, hcl])
    (by rw [f1, f3]; symm; apply to_unsigned_of_eq
        · push_cast; rfl
        · rw [hW]; omega)
    (by symm; apply to_unsigned_of_eq
        · push_cast; ring
        · rw [hW]; omega)
    (by rw [f1]; symm; apply to_unsigned_of_eq
        · rw [hL]
          push_cast [Nat.cast_sub (by omega : r ≤ 25), Nat.cast_sub (by omega : n ≤ 25 - r)]
          rfl
        · rw [hW, hL]; omega)]
  have e : to_unsigned ((n : Int) * (scr_width : Int)) = n * scr_width := by
    apply to_unsigned_of_eq
    · push_cast; rfl
    · rw [hW]; omega
  have e2 : uadd (s.cons.c_org + r * scr_width) ((scr_lines - r - n) * scr_width)
      = s.cons.c_org + (scr_lines - n) * scr_width := by
    rw [uadd_small _ _ (by rw [hW, hL]; omega), hW, hL]
    omega
  rw [e, e2]
  simp only [f6, f7]

/-- The command `ESC [v@` as a copy and a blank run inside the window. -/
theorem insert_chars_run (s : State) (v : Option Nat)
    (hint : param_value v < 32768) (r c : Nat)
    (hesc : s.cons.c_esc_state = 0)
    (hrow : s.cons.c_row = (r : Int)) (hcol : s.cons.c_column = (c : Int))
    (hr : r < scr_lines) (hc : c ≤ scr_width) (hwin : s.cons.c_org + scr_size < UINT_MOD) :
    out_chars s (csi (param_digits v) 64)
      = esc_done { csi_state (flush s) (param_value v) 0 0 with
          vram := mem_vid_copy none (s.cons.c_org + (r * scr_width + c))
                    (char_count (param_value v) c) s.display
                    (vid_vid_copy (s.cons.c_org + (r * scr_width + c))
                      (s.cons.c_org + (r * scr_width + c + char_count (param_value v) c))
                      (scr_width - c - char_count (param_value v) c)
                      s.display (flush s).vram) } := by
  have hL : scr_lines = 25 := rfl
  have hW : scr_width = 80 := rfl
  have hS : scr_size = 2000 := rfl
  have hU : UINT_MOD = 65536 := rfl
  obtain ⟨f1, f2, f3, f4, f5, f6, f7⟩ :=
    csi_state_fields s (param_value v) r c hrow hcol hr hc hwin
  have hn : char_count (param_value v) c ≤ scr_width - c := by
    unfold char_count
    omega
  have hcl := clamp_count_chars (param_value v) c hc
  generalize char_count (param_value v) c = n at hn hcl
  rw [hW] at hn hc
  rw [hL] at hr
  rw [csi_param_command s hesc v hint 64 (by decide) (by decide)]
  have h64 : to_char 64 = 64 := rfl
  rw [h64, do_escape_csi_at _ (n : Int) (s.cons.c_org + (r * scr_width + c + n))
    (s.cons.c_org + (r * scr_width + c)) (scr_width - c - n)
    (by rw [f2, f5, hcl])
    (by rw [f4])
    (by symm; apply to_unsigned_of_eq
        · push_cast; ring
        · rw [hW]; omega)
    (by rw [f2]; symm; apply to_unsigned_of_eq
        · rw [hW]
          push_cast [Nat.cast_sub (by omega : c ≤ 80), Nat.cast_sub (by omega : n ≤ 80 - c)]
          rfl
        · rw [hW]; omega)]
  have e : to_unsigned (n : Int) = n := to_unsigned_natCast n (by omega)
  rw [e]
  simp only [f6, f7]

/-- The command `ESC [vP` as a copy and a blank run inside the window. -/
theorem delete_chars_run (s : State) (v : Option Nat)
    (hint : param_value v < 32768) (r c : Nat)
    (hesc : s.cons.c_esc_state = 0)
    (hrow : s.cons.c_row = (r : Int)) (hcol : s.cons.c_column = (c : Int))
    (hr : r < scr_lines) (hc : c ≤ scr_width) (hwin : s.cons.c_org + scr_size < UINT_MOD) :
    out_chars s (csi (param_digits v) 80)
      = esc_done { csi_state (flush s) (param_value v) 0 0 with
          vram := mem_vid_copy none
                    (s.cons.c_org + (r * scr_width + (scr_width - char_count (param_value v) c)))
                    (char_count (param_value v) c) s.display
                    (vid_vid_copy
                      (s.cons.c_org + (r * scr_width + c + char_count (param_value v) c))
                      (s.cons.c_org + (r * scr_width + c))
                      (scr_width - c - char_count (param_value v) c)
                      s.display (flush s).vram) } := by
  have hL : scr_lines = 25 := rfl
  have hW : scr_width = 80 := rfl
  have hS : scr_size = 2000 := rfl
  have hU : UINT_MOD = 65536 := rfl
  obtain ⟨f1, f2, f3, f4, f5, f6, f7⟩ :=
    csi_state_fields s (param_value v) r c hrow hcol hr hc hwin
  have hn : char_count (param_value v) c ≤ scr_width - c := by
    unfold char_count
    omega
  have hcl := clamp_count_chars (param_value v) c hc
  generalize char_count (param_value v) c = n at hn hcl
  rw [hW] at hn hc
  rw [hL] at hr
  rw [csi_param_command s hesc v hint 80 (by decide) (by decide)]
  have h80 : to_char 80 = 80 := rfl
  rw [h80, do_escape_csi_P _ (n : Int) (s.cons.c_org + (r * scr_width + c))
    (s.cons.c_org + (r * scr_width + c + n)) (scr_width - c - n)
    (by rw [f2, f5, hcl])
    (by rw [f4])
    (by symm; apply to_unsigned_of_eq
        · push_cast; ring
        · rw [hW]; omega)
    (by rw [f2]; symm; apply to_unsigned_of_eq
        · rw [hW]
          push_cast [Nat.cast_sub (by omega : c ≤ 80), Nat.cast_sub (by omega : n ≤ 80 - c)]
          rfl
        · rw [hW]; omega)]
  have e : to_unsigned (n : Int) = n := to_unsigned_natCast n (by omega)
  have e2 : uadd (s.cons.c_org + (r * scr_width + c)) (scr_width - c - n)
      = s.cons.c_org + (r * scr_width + (scr_width - n)) := by
    rw [uadd_small _ _ (by rw [hW]; omega), hW]
    omega
  rw [e, e2]
  simp only [f6, f7]

/-- A command that changes the video memory only: what is left of the console
in Normal state with the cursor in range. -/
theorem csi_vram_result (s : State) (p0 : Int) (w : Nat → Nat) (hcur : cursor_in_range s) :
    (esc_done { csi_state (flush s) p0 0 0 with vram := w }).vram = w
      ∧ (esc_done { csi_state (flush s) p0 0 0 with vram := w }).display = s.display
      ∧ (esc_done { csi_state (flush s) p0 0 0 with vram := w }).cons.c_row = s.cons.c_row
      ∧ (esc_done { csi_state (flush s) p0 0 0 with vram := w }).cons.c_column
          = s.cons.c_column
      ∧ (esc_done { csi_state (flush s) p0 0 0 with vram := w }).cons.c_cur
          = (flush s).cons.c_cur
      ∧ (esc_done { csi_state (flush s) p0 0 0 with vram := w }).cons.c_org = s.cons.c_org
      ∧ (esc_done { csi_state (flush s) p0 0 0 with vram := w }).cons.c_esc_state = 0 := by
  obtain ⟨hr0, hr1, hc0, hc1⟩ := hcur
  have hrr : clip_row s.cons.c_row = s.cons.c_row := clip_row_of_range _ hr0 hr1
  have hcc : clip_column s.cons.c_column = s.cons.c_column := clip_column_of_range _ hc0 hc1
  refine ⟨rfl, ?_, ?_, ?_, rfl, ?_, rfl⟩
  · show (flush s).display = s.display
    rw [flush_display]
  · show (flush s).cons.c_row = s.cons.c_row
    rw [flush_row, hrr]
  · show (flush s).cons.c_column = s.cons.c_column
    rw [flush_column, hcc]
  · show (flush s).cons.c_org = s.cons.c_org
    rw [flush_org]

theorem cursor_in_range_of (s : State) (r c : Nat)
    (hrow : s.cons.c_row = (r : Int)) (hcol : s.cons.c_column = (c : Int))
    (hr : r < scr_lines) (hc : c ≤ scr_width) : cursor_in_range s := by
  unfold cursor_in_range
  omega

/-- The effect of `ESC [vL` with the cursor on row `r` and
`n = line_count v r`: the rows above `r` keep their cells, rows
`r .. r + n - 1` are blank and each row from `r + n` on holds the cells that
row `n` above it held. -/
theorem insert_lines_effect (s : State) (v : Option Nat)
    (hint : param_value v < 32768) (r c : Nat)
    (hesc : s.cons.c_esc_state = 0)
    (hrow : s.cons.c_row = (r : Int)) (hcol : s.cons.c_column = (c : Int))
    (hr : r < scr_lines) (hc : c ≤ scr_width) (hok : display_ok s.display)
    (hwin : s.cons.c_org + scr_size < UINT_MOD) :
    (∀ j k, j < scr_lines → k < scr_width →
        visible (out_chars s (csi (param_digits v) 76)) (j * scr_width + k)
          = if j < r then visible (flush s) (j * scr_width + k)
            else if j < r + line_count (param_value v) r then blank_cell s.display
            else visible (flush s) ((j - line_count (param_value v) r) * scr_width + k))
      ∧ (∀ a, outside_window s a →
          (out_chars s (csi (param_digits v) 76)).vram a = (flush s).vram a)
      ∧ (out_chars s (csi (param_digits v) 76)).cons.c_row = s.cons.c_row
      ∧ (out_chars s (csi (param_digits v) 76)).cons.c_column = s.cons.c_column
      ∧ (out_chars s (csi (param_digits v) 76)).cons.c_org = s.cons.c_org
      ∧ (out_chars s (csi (param_digits v) 76)).cons.c_esc_state = 0 := by
  have hL : scr_lines = 25 := rfl
  have hW : scr_width = 80 := rfl
  have hS : scr_size = 2000 := rfl
  have hn : line_count (param_value v) r ≤ scr_lines - r ∧ 1 ≤ line_count (param_value v) r := by
    unfold line_count
    rw [hL] at hr ⊢
    omega
  rw [insert_lines_run s v hint r c hesc hrow hcol hr hc hwin]
  generalize line_count (param_value v) r = n at hn
  rw [hL] at hn hr
  obtain ⟨g1, g2, g3, g4, _, g6, g7⟩ := csi_vram_result s (param_value v)
    (mem_vid_copy none (s.cons.c_org + r * scr_width) (n * scr_width) s.display
      (vid_vid_copy (s.cons.c_org + r * scr_width) (s.cons.c_org + (r + n) * scr_width)
        ((scr_lines - r - n) * scr_width) s.display (flush s).vram))
    (cursor_in_range_of s r c hrow hcol (by omega) hc)
  have hcb := copy_blank_window s.display hok s.cons.c_org (flush s).vram (r * scr_width)
    ((r + n) * scr_width) ((scr_lines - r - n) * scr_width) (r * scr_width) (n * scr_width)
    (by rw [hW, hL, hS]; omega) (by rw [hW, hS]; omega)
  refine ⟨?_, ?_, g3, g4, g6, g7⟩
  · intro j k hj hk
    unfold visible
    rw [g1, g2, g6, hcb.1 _ (by rw [hW, hS]; rw [hL] at hj; rw [hW] at hk; omega), flush_org,
      flush_display]
    rw [hL] at hj
    rw [hW] at hk ⊢
    rw [hL]
    by_cases h1 : j < r
    · rw [if_pos h1, if_neg (by omega), if_neg (by omega)]
    · rw [if_neg h1]
      by_cases h2 : j < r + n
      · rw [if_pos h2, if_pos (by omega)]
      · rw [if_neg h2, if_neg (by omega), if_pos (by omega)]
        congr 2
        omega
  · intro a ha
    rw [g1]
    exact hcb.2 a ha

/-- The effect of `ESC [vM` with the cursor on row `r` and
`n = line_count v r`: the rows above `r` keep their cells, each row from `r` to
`scr_lines - 1 - n` holds the cells that row `n` below it held, and the last
`n` rows are blank. -/
theorem delete_lines_rows (s : State) (v : Option Nat)
    (hint : param_value v < 32768) (r c : Nat)
    (hesc : s.cons.c_esc_state = 0)
    (hrow : s.cons.c_row = (r : Int)) (hcol : s.cons.c_column = (c : Int))
    (hr : r < scr_lines) (hc : c ≤ scr_width) (hok : display_ok s.display)
    (hwin : s.cons.c_org + scr_size < UINT_MOD) :
    (∀ j k, j < scr_lines → k < scr_width →
        visible (out_chars s (csi (param_digits v) 77)) (j * scr_width + k)
          = if j < r then visible (flush s) (j * scr_width + k)
            else if j < scr_lines - line_count (param_value v) r then
              visible (flush s) ((j + line_count (param_value v) r) * scr_width + k)
            else blank_cell s.display)
      ∧ (∀ a, outside_window s a →
          (out_chars s (csi (param_digits v) 77)).vram a = (flush s).vram a)
      ∧ (out_chars s (csi (param_digits v) 77)).cons.c_row = s.cons.c_row
      ∧ (out_chars s (csi (param_digits v) 77)).cons.c_column = s.cons.c_column
      ∧ (out_chars s (csi (param_digits v) 77)).cons.c_org = s.cons.c_org
      ∧ (out_chars s (csi (param_digits v) 77)).cons.c_esc_state = 0 := by
  have hL : scr_lines = 25 := rfl
  have hW : scr_width = 80 := rfl
  have hS : scr_size = 2000 := rfl
  have hn : line_count (param_value v) r ≤ scr_lines - r ∧ 1 ≤ line_count (param_value v) r := by
    unfold line_count
    rw [hL] at hr ⊢
    omega
  rw [delete_lines_run s v hint r c hesc hrow hcol hr hc hwin]
  generalize line_count (param_value v) r = n at hn
  rw [hL] at hn hr
  obtain ⟨g1, g2, g3, g4, _, g6, g7⟩ := csi_vram_result s (param_value v)
    (mem_vid_copy none (s.cons.c_org + (scr_lines - n) * scr_width) (n * scr_width) s.display
      (vid_vid_copy (s.cons.c_org + (r + n) * scr_width) (s.cons.c_org + r * scr_width)
        ((scr_lines - r - n) * scr_width) s.display (flush s).vram))
    (cursor_in_range_of s r c hrow hcol (by omega) hc)
  have hcb := copy_blank_window s.display hok s.cons.c_org (flush s).vram ((r + n) * scr_width)
    (r * scr_width) ((scr_lines - r - n) * scr_width) ((scr_lines - n) * scr_width)
    (n * scr_width) (by rw [hW, hL, hS]; omega) (by rw [hW, hL, hS]; omega)
  refine ⟨?_, ?_, g3, g4, g6, g7⟩
  · intro j k hj hk
    unfold visible
    rw [g1, g2, g6, hcb.1 _ (by rw [hW, hS]; rw [hL] at hj; rw [hW] at hk; omega), flush_org,
      flush_display]
    rw [hL] at hj
    rw [hW] at hk ⊢
    rw [hL]
    by_cases h1 : j < r
    · rw [if_pos h1, if_neg (by omega), if_neg (by omega)]
    · rw [if_neg h1]
      by_cases h2 : j < 25 - n
      · rw [if_pos h2, if_neg (by omega), if_pos (by omega)]
        congr 2
        omega
      · rw [if_neg h2, if_pos (by omega)]
  · intro a ha
    rw [g1]
    exact hcb.2 a ha

/-- The effect of `ESC [v@` with the cursor on row `r`, column `c` and
`n = char_count v c`: in row `r` the columns left of `c` keep their cells,
columns `c .. c + n - 1` are blank and each column from `c + n` on holds the
cell that the column `n` to its left held; the other rows keep their cells. -/
theorem insert_chars_effect (s : State) (v : Option Nat)
    (hint : param_value v < 32768) (r c : Nat)
    (hesc : s.cons.c_esc_state = 0)
    (hrow : s.cons.c_row = (r : Int)) (hcol : s.cons.c_column = (c : Int))
    (hr : r < scr_lines) (hc : c ≤ scr_width) (hok : display_ok s.display)
    (hwin : s.cons.c_org + scr_size < UINT_MOD) :
    (∀ j k, j < scr_lines → k < scr_width →
        visible (out_chars s (csi (param_digits v) 64)) (j * scr_width + k)
          = if j = r ∧ c ≤ k then
              (if k < c + char_count (param_value v) c then blank_cell s.display
               else visible (flush s) (j * scr_width + (k - char_count (param_value v) c)))
            else visible (flush s) (j * scr_width + k))
      ∧ (∀ a, outside_window s a →
          (out_chars s (csi (param_digits v) 64)).vram a = (flush s).vram a)
      ∧ (out_chars s (csi (param_digits v) 64)).cons.c_row = s.cons.c_row
      ∧ (out_chars s (csi (param_digits v) 64)).cons.c_column = s.cons.c_column
      ∧ (out_chars s (csi (param_digits v) 64)).cons.c_org = s.cons.c_org
      ∧ (out_chars s (csi (param_digits v) 64)).cons.c_esc_state = 0 := by
  have hL : scr_lines = 25 := rfl
  have hW : scr_width = 80 := rfl
  have hS : scr_size = 2000 := rfl
  have hn : char_count (param_value v) c ≤ scr_width - c := by
    unfold char_count
    omega
  rw [insert_chars_run s v hint r c hesc hrow hcol hr hc hwin]
  generalize char_count (param_value v) c = n at hn
  rw [hL] at hr
  rw [hW] at hn hc
  obtain ⟨g1, g2, g3, g4, _, g6, g7⟩ := csi_vram_result s (param_value v)
    (mem_vid_copy none (s.cons.c_org + (r * scr_width + c)) n s.display
      (vid_vid_copy (s.cons.c_org + (r * scr_width + c))
        (s.cons.c_org + (r * scr_width + c + n)) (scr_width - c - n) s.display (flush s).vram))
    (cursor_in_range_of s r c hrow hcol (by omega) (by omega))
  have hcb := copy_blank_window s.display hok s.cons.c_org (flush s).vram (r * scr_width + c)
    (r * scr_width + c + n) (scr_width - c - n) (r * scr_width + c) n
    (by rw [hW, hS]; omega) (by rw [hW, hS]; omega)
  refine ⟨?_, ?_, g3, g4, g6, g7⟩
  · intro j k hj hk
    unfold visible
    rw [g1, g2, g6, hcb.1 _ (by rw [hW, hS]; rw [hL] at hj; rw [hW] at hk; omega), flush_org,
      flush_display]
    rw [hL] at hj
    rw [hW] at hk ⊢
    by_cases h1 : j = r ∧ c ≤ k
    · rw [if_pos h1]
      by_cases h2 : k < c + n
      · rw [if_pos h2, if_pos (by omega)]
      · rw [if_neg h2, if_neg (by omega), if_pos (by omega)]
        congr 2
        omega
    · rw [if_neg h1, if_neg (by omega), if_neg (by omega)]
  · intro a ha
    rw [g1]
    exact hcb.2 a ha

/-- The effect of `ESC [vP` with the cursor on row `r`, column `c` and
`n = char_count v c`: in row `r` the columns left of `c` keep their cells, each
column from `c` to `scr_width - 1 - n` holds the cell that the column `n` to
its right held and the last `n` columns are blank; the other rows keep their
cells. -/
theorem delete_chars_effect (s : State) (v : Option Nat)
    (hint : param_value v < 32768) (r c : Nat)
    (hesc : s.cons.c_esc_state = 0)
    (hrow : s.cons.c_row = (r : Int)) (hcol : s.cons.c_column = (c : Int))
    (hr : r < scr_lines) (hc : c ≤ scr_width) (hok : display_ok s.display)
    (hwin : s.cons.c_org + scr_size < UINT_MOD) :
    (∀ j k, j < scr_lines → k < scr_width →
        visible (out_chars s (csi (param_digits v) 80)) (j * scr_width + k)
          = if j = r ∧ c ≤ k then
              (if k < scr_width - char_count (param_value v) c then
                 visible (flush s) (j * scr_width + (k + char_count (param_value v) c))
               else blank_cell s.display)
            else visible (flush s) (j * scr_width + k))
      ∧ (∀ a, outside_window s a →
          (out_chars s (csi (param_digits v) 80)).vram a = (flush s).vram a)
      ∧ (out_chars s (csi (param_digits v) 80)).cons.c_row = s.cons.c_row
      ∧ (out_chars s (csi (param_digits v) 80)).cons.c_column = s.cons.c_column
      ∧ (out_chars s (csi (param_digits v) 80)).cons.c_org = s.cons.c_org
      ∧ (out_chars s (csi (param_digits v) 80)).cons.c_esc_state = 0 := by
  have hL : scr_lines = 25 := rfl
  have hW : scr_width = 80 := rfl
  have hS : scr_size = 2000 := rfl
  have hn : char_count (param_value v) c ≤ scr_width - c := by
    unfold char_count
    omega
  rw [delete_chars_run s v hint r c hesc hrow hcol hr hc hwin]
  generalize char_count (param_value v) c = n at hn
  rw [hL] at hr
  rw [hW] at hn hc
  obtain ⟨g1, g2, g3, g4, _, g6, g7⟩ := csi_vram_result s (param_value v)
    (mem_vid_copy none (s.cons.c_org + (r * scr_width + (scr_width - n))) n s.display
      (vid_vid_copy (s.cons.c_org + (r * scr_width + c + n))
        (s.cons.c_org + (r * scr_width + c)) (scr_width - c - n) s.display (flush s).vram))
    (cursor_in_range_of s r c hrow hcol (by omega) (by omega))
  have hcb := copy_blank_window s.display hok s.cons.c_org (flush s).vram
    (r * scr_width + c + n) (r * scr_width + c) (scr_width - c - n)
    (r * scr_width + (scr_width - n)) n
    (by rw [hW, hS]; omega) (by rw [hW, hS]; omega)
  refine ⟨?_, ?_, g3, g4, g6, g7⟩
  · intro j k hj hk
    unfold visible
    rw [g1, g2, g6, hcb.1 _ (by rw [hW, hS]; rw [hL] at hj; rw [hW] at hk; omega), flush_org,
      flush_display]
    rw [hL] at hj
    rw [hW] at hk ⊢
    by_cases h1 : j = r ∧ c ≤ k
    · rw [if_pos h1]
      by_cases h2 : k < 80 - n
      · rw [if_pos h2, if_neg (by omega), if_pos (by omega)]
        congr 2
        omega
      · rw [if_neg h2, if_pos (by omega)]
    · rw [if_neg h1, if_neg (by omega), if_neg (by omega)]
  · intro a ha
    rw [g1]
    exact hcb.2 a ha

/-- C22 (amended): on a console in Normal state with the cursor on row `r`
(`r < scr_lines`, column at most `scr_width`), and with
`n = min(max(v, 1), scr_lines - r)` for a first parameter `v` (0 when omitted):
after `ESC [vM` the rows above `r` hold the cells they held, each row `i` from
`r` to `scr_lines - 1 - n` holds the cells that row `i + n` held, and the last
`n` rows are blank; every word outside the window, the cursor and the origin
are unchanged.  The cells are those left by the flush at the `ESC`, read
through the addressing of a display that fits the driver.  The
parameter is one that an `int` holds, `v < 32768`. -/
theorem C22_delete_lines (s : State) (v : Option Nat)
    (hint : param_value v < 32768) (r c : Nat)
    (hesc : s.cons.c_esc_state = 0)
    (hrow : s.cons.c_row = (r : Int)) (hcol : s.cons.c_column = (c : Int))
    (hr : r < scr_lines) (hc : c ≤ scr_width) (hok : display_ok s.display)
    (hwin : s.cons.c_org + scr_size < UINT_MOD) :
    (∀ j k, j < scr_lines → k < scr_width →
        visible (out_chars s (csi (param_digits v) 77)) (j * scr_width + k)
          = if j < r then visible (flush s) (j * scr_width + k)
            else if j < scr_lines - line_count (param_value v) r then
              visible (flush s) ((j + line_count (param_value v) r) * scr_width + k)
            else blank_cell s.display)
      ∧ (∀ a, outside_window s a →
          (out_chars s (csi (param_digits v) 77)).vram a = (flush s).vram a)
      ∧ (out_chars s (csi (param_digits v) 77)).cons.c_row = s.cons.c_row
      ∧ (out_chars s (csi (param_digits v) 77)).cons.c_column = s.cons.c_column
      ∧ (out_chars s (csi (param_digits v) 77)).cons.c_org = s.cons.c_org
      ∧ (out_chars s (csi (param_digits v) 77)).cons.c_esc_state = 0 :=
  delete_lines_rows s v hint r c hesc hrow hcol hr hc hok hwin

theorem C22_delete_lines_witness :
    visible (out_chars ex_lines (csi (param_digits (some 3)) 77)) (5 * scr_width + 7)
      = if 5 < 2 then visible (flush ex_lines) (5 * scr_width + 7)
            else if 5 < scr_lines - line_count (param_value (some 3)) 2 then
              visible (flush ex_lines) ((5 + line_count (param_value (some 3)) 2) * scr_width + 7)
            else blank_cell ex_lines.display :=
  (C22_delete_lines ex_lines (some 3) (by decide) 2 0 (by decide) (by decide) (by decide) (by decide)
    (by decide) (fun _ => ⟨13, by decide, by decide⟩) (by decide)).1 5 7
      (by decide) (by decide)

set_option maxRecDepth 100000 in
/-- C22, counterexample: the parameter 65536 does not fit in an `int`; the
digits leave 0 in `c_esc_parmv[0]`, and `ESC [65536M` with the cursor on row 2
deletes one line: row 2 holds the cells that row 3 held, where the claim, with
`n = min(max(65536, 1), 25 - 2) = 23`, has the rows 2 to 24 blank. -/
theorem C22_counterexample :
    ex_lines.cons.c_row = 2 ∧ line_count (param_value (some 65536)) 2 = 23
      ∧ visible (flush ex_lines) (3 * scr_width + 7) = 0x0744
      ∧ visible (out_chars ex_lines (csi (param_digits (some 65536)) 77)) (2 * scr_width + 7)
          = 0x0744
      ∧ visible (out_chars ex_lines (csi (param_digits (some 65536)) 77)) (24 * scr_width + 7)
          = blank_cell ex_lines.display
      ∧ blank_cell ex_lines.display = 0x0720 := by
  decide

/-- What `scroll_screen` does to the rows of the visible window, in both
directions. -/
theorem scroll_rows (s : State) (hw : window_ok s) (j k : Nat) (hj : j < scr_lines)
    (hk : k < scr_width) :
    visible (scroll_screen s SCROLL_UP) (j * scr_width + k)
        = (if j < scr_lines - 1 then visible (flush s) ((j + 1) * scr_width + k)
           else blank_cell s.display)
      ∧ visible (scroll_screen s SCROLL_DOWN) (j * scr_width + k)
        = (if j = 0 then blank_cell s.display
           else visible (flush s) ((j - 1) * scr_width + k)) := by
  have hL : scr_lines = 25 := rfl
  have hW : scr_width = 80 := rfl
  have hS : scr_size = 2000 := rfl
  have hi : j * scr_width + k < scr_size := by
    rw [hW, hS]
    rw [hL] at hj
    rw [hW] at hk
    omega
  rw [scroll_up_visible s hw _ hi, scroll_down_visible s hw _ hi]
  rw [hL] at hj ⊢
  rw [hW] at hk ⊢
  rw [hS]
  constructor
  · by_cases h : j < 25 - 1
    · rw [if_pos h, if_pos (by omega)]
      congr 1
      omega
    · rw [if_neg h, if_neg (by omega)]
  · by_cases h : j = 0
    · rw [if_pos h, if_pos (by omega)]
    · rw [if_neg h, if_neg (by omega)]
      congr 1
      omega

/-- Two consoles that show the same cells, whatever their scrolling strategy,
show the same cells after a scroll. -/
theorem scroll_strategy_free (s t : State) (hs : window_ok s) (ht : window_ok t)
    (hsame : ∀ i, i < scr_size → visible (flush s) i = visible (flush t) i)
    (hblank : s.display.blank_color = t.display.blank_color) (i : Nat) (hi : i < scr_size) :
    visible (scroll_screen s SCROLL_UP) i = visible (scroll_screen t SCROLL_UP) i
      ∧ visible (scroll_screen s SCROLL_DOWN) i = visible (scroll_screen t SCROLL_DOWN) i := by
  have hW : scr_width = 80 := rfl
  have hS : scr_size = 2000 := rfl
  have hb : blank_cell s.display = blank_cell t.display := by
    unfold blank_cell
    rw [hblank]
  rw [scroll_up_visible s hs i hi, scroll_up_visible t ht i hi,
    scroll_down_visible s hs i hi, scroll_down_visible t ht i hi, hb]
  constructor
  · by_cases h : i < scr_size - scr_width
    · rw [if_pos h, if_pos h, hsame _ (by omega)]
    · rw [if_neg h, if_neg h]
  · by_cases h : i < scr_width
    · rw [if_pos h, if_pos h]
    · rw [if_neg h, if_neg h, hsame _ (by omega)]

/-- After a colour command the blank colour of the display is the `c_blank` of
the console that issued it. -/
theorem colour_sets_display_blank (s : State) (v : Nat) (hesc : s.cons.c_esc_state = 0)
    (hv : (30 ≤ v ∧ v ≤ 37) ∨ (40 ≤ v ∧ v ≤ 47)) :
    (out_chars s (csi (decimal v) 109)).display.blank_color
      = (out_chars s (csi (decimal v) 109)).cons.c_blank := by
  have hv4 : param_value (some v) < 32768 := by
    show v < 32768
    rcases hv with h | h <;> omega
  have e := csi_rendition s hesc (some v) hv4
  have e1 : param_digits (some v) = decimal v := rfl
  have e2 : param_value (some v) = v := rfl
  rw [e1, e2] at e
  rw [e]
  rcases hv with h | h
  · rw [do_rendition_fg _ v h]
    rfl
  · rw [do_rendition_bg _ v h]
    rfl

/-- The cells that the clearing operations of a console blank hold a space in
the blank colour of the display. -/
theorem clearing_uses_display_blank (s : State) (v : Option Nat)
    (hint : param_value v < 32768) (r c : Nat)
    (hesc : s.cons.c_esc_state = 0)
    (hrow : s.cons.c_row = (r : Int)) (hcol : s.cons.c_column = (c : Int))
    (hr : r < scr_lines) (hc : c ≤ scr_width) (hw : window_ok s)
    (hwin : s.cons.c_org + scr_size < UINT_MOD) :
    (∀ i, i < scr_size → erased_J (param_value v) (r * scr_width + c) i →
        visible (out_chars s (csi (param_digits v) 74)) i = s.display.blank_color ||| 0x20)
      ∧ (∀ k, k < scr_width → erased_K (param_value v) c k →
        visible (out_chars s (csi (param_digits v) 75)) (r * scr_width + k)
          = s.display.blank_color ||| 0x20)
      ∧ (∀ j k, j < scr_lines → k < scr_width →
        r ≤ j ∧ j < r + line_count (param_value v) r →
        visible (out_chars s (csi (param_digits v) 76)) (j * scr_width + k)
          = s.display.blank_color ||| 0x20)
      ∧ (∀ j k, j < scr_lines → k < scr_width →
        scr_lines - line_count (param_value v) r ≤ j →
        visible (out_chars s (csi (param_digits v) 77)) (j * scr_width + k)
          = s.display.blank_color ||| 0x20)
      ∧ (∀ k, k < scr_width → c ≤ k ∧ k < c + char_count (param_value v) c →
        visible (out_chars s (csi (param_digits v) 64)) (r * scr_width + k)
          = s.display.blank_color ||| 0x20)
      ∧ (∀ k, k < scr_width → c ≤ k ∧ scr_width - char_count (param_value v) c ≤ k →
        visible (out_chars s (csi (param_digits v) 80)) (r * scr_width + k)
          = s.display.blank_color ||| 0x20)
      ∧ (∀ k, k < scr_width →
        visible (scroll_screen s SCROLL_UP) ((scr_lines - 1) * scr_width + k)
          = s.display.blank_color ||| 0x20)
      ∧ (∀ k, k < scr_width →
        visible (scroll_screen s SCROLL_DOWN) k = s.display.blank_color ||| 0x20) := by
  have hL : scr_lines = 25 := rfl
  have hW : scr_width = 80 := rfl
  have hS : scr_size = 2000 := rfl
  have hok : display_ok s.display := hw.2.1
  have hcur := cursor_in_range_of s r c hrow hcol hr hc
  have hp : (s.cons.c_row * scr_width + s.cons.c_column).toNat = r * scr_width + c := by
    rw [hrow, hcol, hW]
    omega
  have hn : line_count (param_value v) r ≤ scr_lines - r := by
    unfold line_count
    omega
  refine ⟨?_, ?_, ?_, ?_, ?_, ?_, ?_, ?_⟩
  · intro i hi he
    rw [(erase_display_effect s v hint hesc hcur hok hwin).1 i hi, hp, if_pos he]
    rfl
  · intro k hk he
    rw [(erase_line_effect s v hint r c hesc hrow hcol hr hc hok hwin).1 r k hr hk,
      if_pos ⟨rfl, he⟩]
    rfl
  · intro j k hj hk h
    rw [(insert_lines_effect s v hint r c hesc hrow hcol hr hc hok hwin).1 j k hj hk,
      if_neg (by omega), if_pos h.2]
    rfl
  · intro j k hj hk h
    rw [(delete_lines_rows s v hint r c hesc hrow hcol hr hc hok hwin).1 j k hj hk,
      if_neg (by rw [hL] at hn h hr; omega), if_neg (by omega)]
    rfl
  · intro k hk h
    rw [(insert_chars_effect s v hint r c hesc hrow hcol hr hc hok hwin).1 r k hr hk,
      if_pos ⟨rfl, h.1⟩, if_pos h.2]
    rfl
  · intro k hk h
    rw [(delete_chars_effect s v hint r c hesc hrow hcol hr hc hok hwin).1 r k hr hk,
      if_pos ⟨rfl, h.1⟩, if_neg (by omega)]
    rfl
  · intro k hk
    rw [(scroll_rows s hw (scr_lines - 1) k (by rw [hL]; omega) hk).1, if_neg (by omega)]
    rfl
  · intro k hk
    have h := (scroll_rows s hw 0 k (by rw [hL]; omega) hk).2
    rw [Nat.zero_mul, Nat.zero_add] at h
    rw [h, if_pos rfl]
    rfl

/-- C29 (amended): the cells blanked by the clearing operations of a console
(`ESC [vJ`, `ESC [vK`, the blanked lines or characters of `ESC [vL`, `ESC [vM`,
`ESC [v@`, `ESC [vP`, and the line that a scroll exposes) hold a space in the
blank colour of the console's display, `display->blank_color`; a colour command
of the console makes that colour equal to the console's `c_blank`.  The
parameter `v`, which only selects the cells, is one that an `int` holds,
`v < 32768`. -/
theorem C29_clearing_colour (s : State) (v : Option Nat)
    (hint : param_value v < 32768) (r c : Nat)
    (hesc : s.cons.c_esc_state = 0)
    (hrow : s.cons.c_row = (r : Int)) (hcol : s.cons.c_column = (c : Int))
    (hr : r < scr_lines) (hc : c ≤ scr_width) (hw : window_ok s)
    (hwin : s.cons.c_org + scr_size < UINT_MOD) :
    ((∀ i, i < scr_size → erased_J (param_value v) (r * scr_width + c) i →
        visible (out_chars s (csi (param_digits v) 74)) i = s.display.blank_color ||| 0x20)
      ∧ (∀ k, k < scr_width → erased_K (param_value v) c k →
        visible (out_chars s (csi (param_digits v) 75)) (r * scr_width + k)
          = s.display.blank_color ||| 0x20)
      ∧ (∀ j k, j < scr_lines → k < scr_width →
        r ≤ j ∧ j < r + line_count (param_value v) r →
        visible (out_chars s (csi (param_digits v) 76)) (j * scr_width + k)
          = s.display.blank_color ||| 0x20)
      ∧ (∀ j k, j < scr_lines → k < scr_width →
        scr_lines - line_count (param_value v) r ≤ j →
        visible (out_chars s (csi (param_digits v) 77)) (j * scr_width + k)
          = s.display.blank_color ||| 0x20)
      ∧ (∀ k, k < scr_width → c ≤ k ∧ k < c + char_count (param_value v) c →
        visible (out_chars s (csi (param_digits v) 64)) (r * scr_width + k)
          = s.display.blank_color ||| 0x20)
      ∧ (∀ k, k < scr_width → c ≤ k ∧ scr_width - char_count (param_value v) c ≤ k →
        visible (out_chars s (csi (param_digits v) 80)) (r * scr_width + k)
          = s.display.blank_color ||| 0x20)
      ∧ (∀ k, k < scr_width →
        visible (scroll_screen s SCROLL_UP) ((scr_lines - 1) * scr_width + k)
          = s.display.blank_color ||| 0x20)
      ∧ (∀ k, k < scr_width →
        visible (scroll_screen s SCROLL_DOWN) k = s.display.blank_color ||| 0x20))
    ∧ (∀ w, (30 ≤ w ∧ w ≤ 37) ∨ (40 ≤ w ∧ w ≤ 47) →
        (out_chars s (csi (decimal w) 109)).display.blank_color
          = (out_chars s (csi (decimal w) 109)).cons.c_blank) :=
  ⟨clearing_uses_display_blank s v hint r c hesc hrow hcol hr hc hw hwin,
   fun w hw2 => colour_sets_display_blank s w hesc hw2⟩

theorem C29_clearing_colour_witness :
    visible (out_chars ex_lines (csi (param_digits (some 2)) 74)) 1999
        = ex_lines.display.blank_color ||| 0x20
      ∧ visible (scroll_screen ex_lines SCROLL_DOWN) 79
        = ex_lines.display.blank_color ||| 0x20 :=
  ⟨(C29_clearing_colour ex_lines (some 2) (by decide) 2 0 (by decide) (by decide) (by decide) (by decide)
      (by decide)
      ⟨⟨13, by decide, by decide⟩, fun _ => ⟨13, by decide, by decide⟩,
        fun h => absurd h (by decide), fun h => absurd h (by decide)⟩
      (by decide)).1.1 1999 (by decide) (by decide),
   (C29_clearing_colour ex_lines (some 2) (by decide) 2 0 (by decide) (by decide) (by decide) (by decide)
      (by decide)
      ⟨⟨13, by decide, by decide⟩, fun _ => ⟨13, by decide, by decide⟩,
        fun h => absurd h (by decide), fun h => absurd h (by decide)⟩
      (by decide)).1.2.2.2.2.2.2.2 79 (by decide)⟩

set_option maxRecDepth 1000000 in
/-- C29, counterexample: the first two consoles of `ex_driver` share a
display.  After the second one has set a red foreground with `ESC [ 3 1 m`,
`ESC [ 2 J` on the first one fills its window with the cell 0x0420, a space in
the colour of the second console, although the `c_blank` of the first console
is still `BLANK_COLOR`, whose blank cell is 0x0720. -/
theorem C29_counterexample :
    ex_driver.display 0 = ex_driver.display 1
      ∧ ((driver_out_chars (driver_out_chars ex_driver 1 (csi (decimal 31) 109)) 0
            (csi (decimal 2) 74)).cons_table 0).c_blank = BLANK_COLOR
      ∧ visible (console_view
            (driver_out_chars (driver_out_chars ex_driver 1 (csi (decimal 31) 109)) 0
              (csi (decimal 2) 74)) 0) 1999 = 0x0420
      ∧ visible (console_view
            (driver_out_chars (driver_out_chars ex_driver 1 (csi (decimal 31) 109)) 0
              (csi (decimal 2) 74)) 0) 1999 ≠ BLANK_COLOR ||| 0x20 := by
  decide

/-! ## hexdump -/

theorem Hexdump.read_loop_size (bytes : List Nat) : ∀ (buf : Nat → Nat) (size : Nat),
    (Hexdump.read_loop bytes buf size).2 = size + bytes.length + 1 := by
  induction bytes with
  | nil => intro buf size; rfl
  | cons b rest ih =>
    intro buf size
    rw [Hexdump.read_loop, ih, List.length_cons]
    omega

theorem Hexdump.read_loop_buf (bytes : List Nat) : ∀ (buf : Nat → Nat) (size : Nat) (i : Nat),
    (Hexdump.read_loop bytes buf size).1 i
      = if size ≤ i ∧ i < size + bytes.length then bytes.getD (i - size) 0 else buf i := by
  induction bytes with
  | nil =>
    intro buf size i
    rw [Hexdump.read_loop, if_neg]
    rw [List.length_nil]
    omega
  | cons b rest ih =>
    intro buf size i
    rw [Hexdump.read_loop, ih, List.length_cons]
    by_cases h1 : i = size
    · subst h1
      rw [if_neg (by omega), if_pos (by omega), Function.update_same, Nat.sub_self]
      rfl
    · rw [Function.update_noteq h1]
      by_cases h2 : size + 1 ≤ i ∧ i < size + 1 + rest.length
      · rw [if_pos h2, if_pos (by omega)]
        have e : i - size = (i - (size + 1)) + 1 := by omega
        rw [e]
        rfl
      · rw [if_neg h2, if_neg (by omega)]

/-- C40: for every file of `n` bytes, `main` of hexdump passes `n + 1` as the
size to `print_buf`, not `n`: the buffer holds the bytes of the file at the
indices below `n`, and the byte at index `n`, which is dumped as well, is
whatever the uninitialised array held there. -/
theorem C40_hexdump_size (bytes : List Nat) (buf : Nat → Nat) :
    (Hexdump.read_loop bytes buf 0).2 = bytes.length + 1
      ∧ (∀ i, i < bytes.length → (Hexdump.read_loop bytes buf 0).1 i = bytes.getD i 0)
      ∧ (Hexdump.read_loop bytes buf 0).1 bytes.length = buf bytes.length
      ∧ Hexdump.main 2 (some bytes) buf
          = (0, Hexdump.print_buf (Hexdump.read_loop bytes buf 0).1 (bytes.length + 1))
      ∧ Hexdump.main 2 (some [0x41]) (fun _ => 0xcc) = (0, "0000:   41 cc \n".toList) := by
  have h1 := Hexdump.read_loop_size bytes buf 0
  rw [Nat.zero_add] at h1
  refine ⟨h1, fun i hi => ?_, ?_, ?_, by decide⟩
  · rw [Hexdump.read_loop_buf, if_pos (by omega), Nat.sub_zero]
  · rw [Hexdump.read_loop_buf, if_neg (by omega)]
  · unfold Hexdump.main
    rw [if_neg (by decide)]
    simp only [h1]

/-! ## flush and the focus; the style renditions -/

theorem flush_ports (s : State) :
    (flush s).ports
      = if flush_cur_addr s ≠ s.cons.c_cur ∧ s.is_curcons = true then
          set_6845 CURSOR (flush_cur_addr s) s.display s.ports
        else s.ports := by
  rw [flush_eq]

/-- C35: `flush` leaves `c_cur` at `c_org + c_row * scr_width + c_column`, a
value of the type `unsigned`, whether the console is the visible one or not;
it writes the four bytes of the register pair `CURSOR` when the console is the
visible one and that address differs from the cached `c_cur`, and writes no
port otherwise; a second `flush` right after a `flush` changes nothing and
writes nothing. -/
theorem C35_flush_focus (s : State) :
    (flush s).cons.c_cur
        = to_unsigned (((flush s).cons.c_org : Int) + (flush s).cons.c_row * scr_width
            + (flush s).cons.c_column)
      ∧ (flush s).cons.c_cur = flush_cur_addr s
      ∧ (flush s).ports
          = (if s.is_curcons = true ∧ flush_cur_addr s ≠ s.cons.c_cur then
              s.ports ++ [(s.display.vid_port + INDEX, CURSOR),
                          (s.display.vid_port + DATA, (flush_cur_addr s >>> 8) &&& BYTE),
                          (s.display.vid_port + INDEX, CURSOR + 1),
                          (s.display.vid_port + DATA, flush_cur_addr s &&& BYTE)]
             else s.ports)
      ∧ flush (flush s) = flush s
      ∧ (flush (flush s)).ports = (flush s).ports := by
  refine ⟨?_, flush_cur s, ?_, flush_flush s, by rw [flush_flush]⟩
  · rw [flush_cur, flush_org, flush_row, flush_column]
    unfold flush_cur_addr
    rfl
  · rw [flush_ports]
    by_cases h : s.is_curcons = true ∧ flush_cur_addr s ≠ s.cons.c_cur
    · rw [if_pos h, if_pos ⟨h.2, h.1⟩]
      rfl
    · rw [if_neg h, if_neg (fun x => h ⟨x.2, x.1⟩)]

set_option maxRecDepth 100000 in
/-- C36: the attribute that `ESC [1m`, `ESC [4m`, `ESC [5m` and `ESC [7m` leave
does not depend on the display: for every display the result is the one that
the variable `color` selects, which `do_escape` reads without assigning it.
With `color` holding 0 the console on the colour adapter gets the monochrome
bold (0x0F00, not yellow 0x0E00), and with `color` holding 1 a console on the
monochrome adapter gets the colour variant. -/
theorem C36_style_variant :
    (∀ (s : State) (d : display_t) (v : Int),
        (do_rendition { s with display := d } v).cons.c_attr = (do_rendition s v).cons.c_attr)
      ∧ ex_state.display.vid_port = C_6845 ∧ ex_state.display.vid_base = 0xB8000
      ∧ (out_chars ex_state (csi (decimal 1) 109)).cons.c_attr = 0x0F00
      ∧ (out_chars { ex_state with color := true } (csi (decimal 1) 109)).cons.c_attr = 0x0E00
      ∧ ex_mda.vid_port ≠ C_6845
      ∧ (out_chars { ex_state with color := true, display := ex_mda }
            (csi (decimal 1) 109)).cons.c_attr = 0x0E00 := by
  refine ⟨fun s d v => ?_, by decide, by decide, by decide, by decide, by decide, by decide⟩
  unfold do_rendition
  dsimp only
  split_ifs <;> rfl

/-! ## C31: the relocation path of scroll_screen -/

/-- C31, amended: with software scrolling off, `scroll_screen` takes the
relocation path exactly when the display cannot wrap and, for `SCROLL_UP`,
`c_org + scr_size + scr_width >= c_limit`, for `SCROLL_DOWN`,
`c_org < c_start + scr_width`: it then copies the window and sets `c_org` to
`c_start`, respectively `c_limit - scr_size`.  In every other case it shifts
`c_org` by `scr_width` under the address mask and moves no data: the video
memory is the one its first `flush` leaves but for the blanked new line. -/
theorem C31_relocation (s : State) (dir : Nat) (hsoft : s.softscroll = false) :
    (relocates s dir →
        (scroll_screen s dir).cons.c_org
            = (if dir = SCROLL_UP then s.cons.c_start else usub s.cons.c_limit scr_size)
          ∧ (scroll_screen s dir).vram
              = blank_new_line s dir (scroll_screen s dir).cons.c_org
                  (if dir = SCROLL_UP then
                    vid_vid_copy (uadd s.cons.c_org scr_width) s.cons.c_start
                      (scr_size - scr_width) s.display (flush s).vram
                   else
                    vid_vid_copy s.cons.c_org (uadd (usub s.cons.c_limit scr_size) scr_width)
                      (scr_size - scr_width) s.display (flush s).vram))
      ∧ (¬ relocates s dir →
          (scroll_screen s dir).cons.c_org
              = (if dir = SCROLL_UP then uadd s.cons.c_org scr_width
                 else usub s.cons.c_org scr_width) &&& s.display.vid_mask
            ∧ (scroll_screen s dir).vram
                = blank_new_line s dir (scroll_screen s dir).cons.c_org (flush s).vram) := by
  have hs : (flush s).softscroll = false := by rw [flush_softscroll]; exact hsoft
  have hs2 : ¬ (flush s).softscroll = true := by rw [hs]; decide
  rw [scroll_screen_vram, scroll_screen_org]
  unfold relocates blank_new_line scroll_new_line scroll_copy scroll_org
  rw [flush_org, flush_start, flush_limit, flush_display]
  by_cases hd : dir = SCROLL_UP
  · simp only [hd, if_true, if_neg hs2]
    constructor
    · intro h
      rw [if_pos h, if_pos h]
      exact ⟨rfl, rfl⟩
    · intro h
      rw [if_neg h, if_neg h]
      exact ⟨rfl, rfl⟩
  · simp only [hd, if_false, if_neg hs2]
    constructor
    · intro h
      rw [if_pos h, if_pos h]
      exact ⟨rfl, rfl⟩
    · intro h
      rw [if_neg h, if_neg h]
      exact ⟨rfl, rfl⟩

/-- C31, witness: the console `ex_first` with its origin one line below the
start of the region, scrolling up. -/
theorem C31_relocation_witness :
    (ex_first_at 80).softscroll = false ∧ ¬ relocates (ex_first_at 80) SCROLL_UP
      ∧ (scroll_screen (ex_first_at 80) SCROLL_UP).cons.c_org
          = (uadd (ex_first_at 80).cons.c_org scr_width) &&& (ex_first_at 80).display.vid_mask :=
  ⟨by decide, by decide,
   ((C31_relocation (ex_first_at 80) SCROLL_UP (by decide)).2 (by decide)).1⟩

/-- C31, counterexample: on the display `ex_ega`, which does not wrap, with
software scrolling off.  With `c_org + scr_size + scr_width == c_limit` the
window plus one more line does not exceed the limit, yet `SCROLL_UP` relocates
the origin to `c_start` instead of shifting it by `scr_width`; with the origin
21 words above `c_start`, and so not at the region start, `SCROLL_DOWN`
relocates it to `c_limit - scr_size` instead of shifting it. -/
theorem C31_counterexample :
    (ex_first_at 3381).softscroll = false ∧ (ex_first_at 3381).display.wrap = false
      ∧ ¬ ((ex_first_at 3381).cons.c_org + scr_size + scr_width > (ex_first_at 3381).cons.c_limit)
      ∧ (scroll_screen (ex_first_at 3381) SCROLL_UP).cons.c_org = (ex_first_at 3381).cons.c_start
      ∧ (scroll_screen (ex_first_at 3381) SCROLL_UP).cons.c_org
          ≠ (ex_first_at 3381).cons.c_org + scr_width
      ∧ (ex_first_at 21).softscroll = false ∧ (ex_first_at 21).display.wrap = false
      ∧ (ex_first_at 21).cons.c_org ≠ (ex_first_at 21).cons.c_start
      ∧ (scroll_screen (ex_first_at 21) SCROLL_DOWN).cons.c_org
          = (ex_first_at 21).cons.c_limit - scr_size := by
  decide

/-! ## Properties kept along the output path -/

theorem kept_flush {P : State → Prop} (k : Kept P) (s : State) (h : P s) : P (flush s) :=
  k.on_flush s s.cons.c_row s.cons.c_column h

theorem kept_scroll {P : State → Prop} (k : Kept P) (s : State) (dir : Nat) (h : P s) :
    P (scroll_screen s dir) :=
  k.on_scroll s s.cons.c_row s.cons.c_column dir h

theorem kept_next_row_flush {P : State → Prop} (k : Kept P) (s : State) (r c : Int)
    (h : P s) : P (flush (next_row (set_cursor s r c))) := by
  unfold next_row
  split_ifs
  · exact kept_flush k _ (k.on_scroll s r c _ h)
  · exact k.on_flush s _ _ h

theorem kept_do_escape {P : State → Prop} (k : Kept P) (s : State) (c : Nat) (h : P s) :
    P (do_escape s c) := by
  have hf := kept_flush k s h
  have hq : (flush s).cons.c_rwords = 0 := flush_rwords s
  have key : ∀ x, P x → P { x with cons := { x.cons with c_esc_state := 0 } } :=
    fun x hx => k.on_esc x 0 _ _ _ _ hx
  unfold do_escape
  dsimp only
  apply key
  split_ifs
  · exact kept_flush k _ (kept_scroll k _ _ hf)
  · exact k.on_flush (flush s) _ _ hf
  · exact hf
  · exact k.on_csi _ c hf hq
  · exact hf

theorem kept_parse_escape {P : State → Prop} (k : Kept P) (s : State) (c : Nat) (h : P s) :
    P (parse_escape s c) := by
  unfold parse_escape
  dsimp only
  split_ifs
  · exact k.on_esc s 2 c 0 0 0 h
  · exact kept_do_escape k _ c (k.on_esc s _ 0 0 0 0 h)
  · exact k.on_esc s 0 0 0 0 0 h
  · exact k.on_esc s _ _ _ _ _ h
  · exact k.on_esc s _ _ _ _ _ h
  · exact h
  · exact k.on_esc s _ _ _ _ _ h
  · exact k.on_esc s _ _ _ _ _ h
  · exact kept_do_escape k s c h
  · exact h

theorem kept_out_char {P : State → Prop} (k : Kept P) (s : State) (c : Int) (h : P s) :
    P (out_char s c) := by
  obtain ⟨r, hr⟩ : ∃ r, r = out_char s c := ⟨_, rfl⟩
  rw [← hr]
  unfold out_char at hr
  by_cases h0 : 0 < s.cons.c_esc_state
  · rw [if_pos h0] at hr
    rw [hr]
    exact kept_parse_escape k s _ h
  rw [if_neg h0] at hr
  by_cases h1 : c = 0
  · rw [if_pos h1] at hr
    rw [hr]
    exact h
  rw [if_neg h1] at hr
  by_cases h7 : c = 7
  · rw [if_pos h7] at hr
    subst hr
    dsimp only
    split_ifs
    · exact k.on_beep _ (kept_flush k s h)
    · exact kept_flush k s h
  rw [if_neg h7] at hr
  by_cases h8 : c = 8
  · rw [if_pos h8] at hr
    subst hr
    dsimp only
    split_ifs
    · exact k.on_flush s _ _ h
    · exact k.on_flush s _ _ h
    · exact k.on_flush s _ _ h
  rw [if_neg h8] at hr
  by_cases h10 : c = 10 ∨ c = 11 ∨ c = 12
  · rw [if_pos h10] at hr
    subst hr
    dsimp only
    split_ifs
    · exact kept_next_row_flush k s _ 0 h
    · exact kept_next_row_flush k s s.cons.c_row s.cons.c_column h
  rw [if_neg h10] at hr
  by_cases h13 : c = 13
  · rw [if_pos h13] at hr
    subst hr
    exact k.on_flush s _ 0 h
  rw [if_neg h13] at hr
  by_cases h9 : c = 9
  · rw [if_pos h9] at hr
    subst hr
    dsimp only
    split_ifs
    · exact kept_next_row_flush k s _ _ h
    · exact k.on_flush s _ _ h
  rw [if_neg h9] at hr
  by_cases h27 : c = 27
  · rw [if_pos h27] at hr
    subst hr
    exact k.on_esc _ 1 _ _ _ _ (kept_flush k s h)
  rw [if_neg h27] at hr
  by_cases hd : s.cons.c_column ≥ scr_width ∧ s.LINEWRAP = false
  · rw [if_pos hd] at hr
    rw [hr]
    exact h
  rw [if_neg hd] at hr
  by_cases hw : s.cons.c_column ≥ scr_width
  · rw [if_pos hw] at hr
    dsimp only at hr
    rw [flush_rwords, if_neg (by decide : ¬ (0 = CONS_RAM_WORDS))] at hr
    rw [hr]
    have hu : P (flush
        { next_row s with cons := { (next_row s).cons with c_column := 0 } }) := by
      unfold next_row
      split_ifs
      · exact k.on_flush (scroll_screen s SCROLL_UP) _ 0 (kept_scroll k s _ h)
      · exact k.on_flush s _ 0 h
    have hc0 : clip_column 0 < (scr_width : Int) := by decide
    exact k.on_queue _ _ hu (by rw [flush_column]; exact hc0) (by rw [flush_rwords]; decide)
  · rw [if_neg hw] at hr
    dsimp only at hr
    by_cases hq : s.cons.c_rwords = CONS_RAM_WORDS
    · rw [if_pos hq] at hr
      rw [hr]
      refine k.on_queue _ _ (kept_flush k s h) ?_ (by rw [flush_rwords]; decide)
      rw [flush_column]
      have hW : scr_width = 80 := rfl
      unfold clip_column
      dsimp only
      split_ifs <;> omega
    · rw [if_neg hq] at hr
      rw [hr]
      exact k.on_queue s _ h (by omega) hq

theorem kept_cons_write_byte {P : State → Prop} (k : Kept P) (s : State) (b : Nat)
    (h : P s) : P (cons_write_byte s b) := by
  unfold cons_write_byte
  split_ifs with hc
  · exact kept_out_char k s b h
  · exact k.on_queue s _ h (by omega) (by omega)

theorem kept_cons_write_loop {P : State → Prop} (k : Kept P) (buf : List Nat) :
    ∀ s, P s → P (cons_write_loop s buf) := by
  induction buf with
  | nil => intro s h; exact h
  | cons b rest ih =>
    intro s h
    exact ih _ (kept_cons_write_byte k s b h)

theorem kept_cons_write {P : State → Prop} (k : Kept P) (s : State) (buf : List Nat)
    (h : P s) : P (cons_write s buf) := by
  unfold cons_write
  split_ifs
  · exact h
  · exact kept_flush k _ (kept_cons_write_loop k buf s h)

/-! ## C32: the window stays inside the region -/

/-- The three forms of the result of an `ESC [` command: a `flush` after a
move of the cursor, a change of the video memory only, or a rendition. -/
theorem do_escape_csi_cases (t : State) (c : Nat) :
    (∃ r k, do_escape_csi t c = flush (set_cursor t r k))
      ∨ (∃ v, do_escape_csi t c = { t with vram := v })
      ∨ (∃ v, do_escape_csi t c = do_rendition t v) := by
  by_cases h65 : c = 65
  · subst h65; exact Or.inl ⟨_, _, rfl⟩
  by_cases h66 : c = 66
  · subst h66; exact Or.inl ⟨_, _, rfl⟩
  by_cases h67 : c = 67
  · subst h67; exact Or.inl ⟨_, _, rfl⟩
  by_cases h68 : c = 68
  · subst h68; exact Or.inl ⟨_, _, rfl⟩
  by_cases h72 : c = 72
  · subst h72; exact Or.inl ⟨_, _, rfl⟩
  by_cases h74 : c = 74
  · subst h74; exact Or.inr (Or.inl ⟨_, rfl⟩)
  by_cases h75 : c = 75
  · subst h75; exact Or.inr (Or.inl ⟨_, rfl⟩)
  by_cases h76 : c = 76
  · subst h76; exact Or.inr (Or.inl ⟨_, rfl⟩)
  by_cases h77 : c = 77
  · subst h77; exact Or.inr (Or.inl ⟨_, rfl⟩)
  by_cases h64 : c = 64
  · subst h64; exact Or.inr (Or.inl ⟨_, rfl⟩)
  by_cases h80 : c = 80
  · subst h80; exact Or.inr (Or.inl ⟨_, rfl⟩)
  by_cases h109 : c = 109
  · subst h109; exact Or.inr (Or.inr ⟨_, rfl⟩)
  · refine Or.inr (Or.inl ⟨t.vram, ?_⟩)
    unfold do_escape_csi
    dsimp only
    simp only [h65, h66, h67, h68, h72, h74, h75, h76, h77, h64, h80, h109, if_false]

theorem do_rendition_frame (t : State) (v : Int) :
    (do_rendition t v).cons.c_start = t.cons.c_start
      ∧ (do_rendition t v).cons.c_limit = t.cons.c_limit
      ∧ (do_rendition t v).cons.c_org = t.cons.c_org
      ∧ (do_rendition t v).cons.c_cur = t.cons.c_cur
      ∧ (do_rendition t v).display.wrap = t.display.wrap
      ∧ (do_rendition t v).display.vid_mask = t.display.vid_mask
      ∧ (do_rendition t v).vram = t.vram := by
  unfold do_rendition
  split_ifs <;> simp

theorem region_ok_congr (s r : State) (h : region_ok s)
    (h1 : r.display.wrap = s.display.wrap) (h2 : r.display.vid_mask = s.display.vid_mask)
    (h3 : r.cons.c_start = s.cons.c_start) (h4 : r.cons.c_limit = s.cons.c_limit)
    (h5 : r.cons.c_org = s.cons.c_org) : region_ok r := by
  unfold region_ok mask_ok at h ⊢
  rw [h1, h2, h3, h4, h5]
  exact h

/-- The origin that `scroll_screen` chooses keeps the window inside the
region, under hardware and under software scrolling. -/
theorem scroll_org_region (t : State) (h : region_ok t) (dir : Nat) :
    t.cons.c_start ≤ scroll_org t dir ∧ scroll_org t dir + scr_size ≤ t.cons.c_limit := by
  obtain ⟨hw, hm, hl, h1, h2⟩ := h
  by_cases hs : t.softscroll = true
  · rw [scroll_org_soft t dir hs]
    exact ⟨h1, h2⟩
  · refine scroll_org_plain t ⟨hm, ?_, fun _ => ⟨h1, h2, hl⟩, fun e => absurd e hs⟩ dir hw
    intro e
    rw [hw] at e
    exact absurd e (by decide)

theorem region_ok_scroll (s : State) (dir : Nat) (h : region_ok s) :
    region_ok (scroll_screen s dir) := by
  have hf : region_ok (flush s) :=
    region_ok_congr s _ h (by rw [flush_display]) (by rw [flush_display]) (flush_start s)
      (flush_limit s) (flush_org s)
  have ho := scroll_org_region (flush s) hf dir
  rw [flush_start, flush_limit] at ho
  obtain ⟨hw, hm, hl, h1, h2⟩ := h
  unfold region_ok mask_ok at *
  rw [scroll_screen_display, scroll_screen_start, scroll_screen_limit, scroll_screen_org]
  exact ⟨hw, hm, hl, ho.1, ho.2⟩

/-- The window predicate and the bounds of the region are kept along the
output path. -/
theorem region_kept (a b : Nat) :
    Kept (fun r => region_ok r ∧ r.cons.c_start = a ∧ r.cons.c_limit = b) where
  on_flush := fun s r c h =>
    ⟨region_ok_congr s _ h.1 (by rw [flush_display]; rfl) (by rw [flush_display]; rfl)
      (flush_start _) (flush_limit _) (flush_org _),
     (flush_start _).trans h.2.1, (flush_limit _).trans h.2.2⟩
  on_scroll := fun s r c dir h =>
    ⟨region_ok_scroll _ dir h.1, (scroll_screen_start _ dir).trans h.2.1,
      (scroll_screen_limit _ dir).trans h.2.2⟩
  on_esc := fun s st i pp p0 p1 h => h
  on_queue := fun s b h _ _ => h
  on_csi := fun s c h _ => by
    rcases do_escape_csi_cases s c with ⟨r, k, e⟩ | ⟨v, e⟩ | ⟨v, e⟩
    · rw [e]
      exact ⟨region_ok_congr s _ h.1 (by rw [flush_display]; rfl) (by rw [flush_display]; rfl)
        (flush_start _) (flush_limit _) (flush_org _),
        (flush_start _).trans h.2.1, (flush_limit _).trans h.2.2⟩
    · rw [e]
      exact h
    · rw [e]
      have hd := do_rendition_frame s v
      exact ⟨region_ok_congr s _ h.1 hd.2.2.2.2.1 hd.2.2.2.2.2.1 hd.1 hd.2.1 hd.2.2.1,
        hd.1.trans h.2.1, hd.2.1.trans h.2.2⟩
  on_beep := fun s h => by
    unfold beep
    split_ifs
    · exact h
    · exact h

/-- C32: for a console on a display that does not wrap, with a well-formed
address mask and the region inside the addressed memory, the predicate
`c_start <= c_org && c_org + scr_size <= c_limit` (which says that the region
holds a screen) is kept by `scroll_screen` in both directions, whether
scrolling is by software or by hardware, and by `out_char`, the loop step of
`cons_write` and `cons_write`; the bounds of the region stay as they are. -/
theorem C32_window_kept (s : State) (hwrap : s.display.wrap = false)
    (hmask : mask_ok s.display) (hmem : s.cons.c_limit ≤ s.display.vid_mask + 1)
    (hwin : s.cons.c_start ≤ s.cons.c_org ∧ s.cons.c_org + scr_size ≤ s.cons.c_limit)
    (r : State)
    (hr : (∃ dir, r = scroll_screen s dir) ∨ (∃ c, r = out_char s c)
            ∨ (∃ b, r = cons_write_byte s b) ∨ (∃ buf, r = cons_write s buf)) :
    (r.cons.c_start ≤ r.cons.c_org ∧ r.cons.c_org + scr_size ≤ r.cons.c_limit)
      ∧ r.cons.c_start = s.cons.c_start ∧ r.cons.c_limit = s.cons.c_limit := by
  have h : region_ok s ∧ s.cons.c_start = s.cons.c_start ∧ s.cons.c_limit = s.cons.c_limit :=
    ⟨⟨hwrap, hmask, hmem, hwin.1, hwin.2⟩, rfl, rfl⟩
  have k := region_kept s.cons.c_start s.cons.c_limit
  have key : region_ok r ∧ r.cons.c_start = s.cons.c_start ∧ r.cons.c_limit = s.cons.c_limit := by
    rcases hr with ⟨dir, e⟩ | ⟨c, e⟩ | ⟨b, e⟩ | ⟨buf, e⟩
    · rw [e]; exact kept_scroll k s dir h
    · rw [e]; exact kept_out_char k s c h
    · rw [e]; exact kept_cons_write_byte k s b h
    · rw [e]; exact kept_cons_write k s buf h
  exact ⟨⟨key.1.2.2.2.1, key.1.2.2.2.2⟩, key.2⟩

/-- C32, witness: a line feed on the last row of `ex_first`, which scrolls the
screen by hardware. -/
theorem C32_window_kept_witness :
    (out_char (ex_first_bottom false) 10).cons.c_org = 80
      ∧ (out_char (ex_first_bottom false) 10).cons.c_start
          ≤ (out_char (ex_first_bottom false) 10).cons.c_org
      ∧ (out_char (ex_first_bottom false) 10).cons.c_org + scr_size
          ≤ (out_char (ex_first_bottom false) 10).cons.c_limit :=
  ⟨by decide,
   (C32_window_kept (ex_first_bottom false) (by decide) ⟨14, by decide, by decide⟩
      (by decide) (by decide) _ (Or.inr (Or.inl ⟨10, rfl⟩))).1⟩

/-! ## C37: the cached cursor address -/

theorem to_unsigned_lt (i : Int) : to_unsigned i < UINT_MOD := by
  unfold to_unsigned UINT_MOD
  omega

theorem settled_flush (s : State) : settled (flush s) := by
  refine ⟨flush_rwords s, ?_⟩
  rw [flush_cur, flush_org, flush_row, flush_column]
  rfl

theorem settled_scroll (s : State) (dir : Nat) : settled (scroll_screen s dir) := by
  rw [scroll_screen_eq]
  exact settled_flush _

theorem settled_synced (s : State) (h : settled s) : queue_synced s := by
  unfold queue_synced
  rw [h.1, ← h.2]
  have hlt : s.cons.c_cur < UINT_MOD := by
    rw [h.2]
    exact to_unsigned_lt _
  unfold uadd
  rw [Nat.add_zero, Nat.mod_eq_of_lt hlt]

theorem queue_synced_step (s : State) (b : Nat) (h : queue_synced s) :
    queue_synced (queue_step s b) := by
  unfold queue_synced at h ⊢
  show uadd s.cons.c_cur (s.cons.c_rwords + 1)
    = to_unsigned ((s.cons.c_org : Int) + s.cons.c_row * scr_width + (s.cons.c_column + 1))
  unfold uadd to_unsigned UINT_MOD at *
  have hW : (scr_width : Int) = 80 := rfl
  rw [hW] at h ⊢
  omega

theorem settled_csi (t : State) (c : Nat) (h : settled t) : settled (do_escape_csi t c) := by
  rcases do_escape_csi_cases t c with ⟨r, k, e⟩ | ⟨v, e⟩ | ⟨v, e⟩
  · rw [e]
    exact settled_flush _
  · rw [e]
    exact h
  · rw [e]
    have hd := do_rendition_frame t v
    have hi := do_rendition_inv t v
    unfold settled at h ⊢
    rw [hi.1, hi.2.1, hi.2.2.1, hd.2.2.1, hd.2.2.2.1]
    exact h

theorem settled_do_escape (s : State) (c : Nat) : settled (do_escape s c) := by
  have key : ∀ x, settled x → settled { x with cons := { x.cons with c_esc_state := 0 } } :=
    fun x hx => hx
  unfold do_escape
  dsimp only
  apply key
  split_ifs
  · exact settled_flush _
  · exact settled_flush _
  · exact settled_flush _
  · exact settled_csi _ c (settled_flush _)
  · exact settled_flush _

/-- The relation `queue_synced` is kept along the output path. -/
theorem queue_synced_kept : Kept queue_synced where
  on_flush := fun s r c _ => settled_synced _ (settled_flush _)
  on_scroll := fun s r c dir _ => settled_synced _ (settled_scroll _ dir)
  on_esc := fun s st i pp p0 p1 h => h
  on_queue := fun s b h _ _ => queue_synced_step s b h
  on_csi := fun s c h _ => by
    rcases do_escape_csi_cases s c with ⟨r, k, e⟩ | ⟨v, e⟩ | ⟨v, e⟩
    · rw [e]
      exact settled_synced _ (settled_flush _)
    · rw [e]
      exact h
    · rw [e]
      have hd := do_rendition_frame s v
      have hi := do_rendition_inv s v
      unfold queue_synced at h ⊢
      rw [hi.1, hi.2.1, hi.2.2.1, hd.2.2.1, hd.2.2.2.1]
      exact h
  on_beep := fun s h => by
    unfold beep
    split_ifs
    · exact h
    · exact h

/-- The cached cursor address on a console whose cache is in step: `flush`,
`scroll_screen` and `do_escape` leave nothing pending and
`c_cur == c_org + c_row * scr_width + c_column`, whatever the state before, and
so does `cons_write` when it finds bytes to write; `out_char`, the loop step of
`cons_write` and `cons_write` keep
`c_cur + c_rwords == c_org + c_row * scr_width + c_column` when it holds
before.  The sums are those of the type `unsigned`. -/
theorem cursor_cache_when_synced (s : State) (h : queue_synced s) :
    settled (flush s) ∧ (∀ dir, settled (scroll_screen s dir))
      ∧ (∀ c, settled (do_escape s c))
      ∧ (∀ c, queue_synced (out_char s c))
      ∧ (∀ b, queue_synced (cons_write_byte s b))
      ∧ (∀ buf, buf ≠ [] → settled (cons_write s buf))
      ∧ (∀ buf, queue_synced (cons_write s buf)) :=
  ⟨settled_flush s, settled_scroll s, settled_do_escape s,
   fun c => kept_out_char queue_synced_kept s c h,
   fun b => kept_cons_write_byte queue_synced_kept s b h,
   fun buf hb => by
    unfold cons_write
    rw [if_neg (fun e => hb (List.length_eq_zero.mp e))]
    exact settled_flush _,
   fun buf => kept_cons_write queue_synced_kept s buf h⟩

set_option maxRecDepth 100000 in
/-- C37: with an EGA and `NR_CONS = 3`, `scr_init` leaves the second console,
the state `ex_second`, with `c_org == 5461` and `c_cur == 0`: already there
`c_cur + c_rwords` is not `c_org + c_row * scr_width + c_column`.  After
`out_char` of the letter A `c_cur + c_rwords` is 1 and
`c_org + c_row * scr_width + c_column` is 5462; the same holds after the loop
step of `cons_write`.  A call of `cons_write` that finds no byte to write
returns at once and leaves the cache as it was. -/
theorem C37_cache_unsynced :
    (scr_init_lines 3 C_6845 true 3).cons_table 1 = ex_second.cons
      ∧ ex_second.cons.c_cur = 0 ∧ ex_second.cons.c_org = 5461
      ∧ ex_second.cons.c_rwords = 0
      ∧ ¬ queue_synced ex_second
      ∧ (out_char ex_second 65).cons.c_cur + (out_char ex_second 65).cons.c_rwords = 1
      ∧ ((out_char ex_second 65).cons.c_org : Int)
          + (out_char ex_second 65).cons.c_row * scr_width
          + (out_char ex_second 65).cons.c_column = 5462
      ∧ ¬ queue_synced (out_char ex_second 65)
      ∧ ¬ queue_synced (cons_write_byte ex_second 65)
      ∧ ¬ queue_synced (cons_write ex_second []) := by
  refine ⟨rfl, ?_⟩
  decide

/-! ## C33: writes stay inside the region -/

theorem changed_within_refl (lo hi : Nat) (v : Nat → Nat) : changed_within lo hi v v :=
  fun _ _ => rfl

theorem changed_within_trans (lo hi : Nat) (u v w : Nat → Nat)
    (h1 : changed_within lo hi u v) (h2 : changed_within lo hi v w) :
    changed_within lo hi u w :=
  fun x hx => (h2 x hx).trans (h1 x hx)

theorem changed_within_mono (lo hi a b : Nat) (v w : Nat → Nat) (h1 : a ≤ lo) (h2 : hi ≤ b)
    (h : changed_within lo hi v w) : changed_within a b v w :=
  fun x hx => h x (fun e => hx ⟨by omega, by omega⟩)

theorem write_run_within (d : display_t) (hw : d.wrap = false) (cells : Nat → Nat)
    (dst n : Nat) (v : Nat → Nat) (lo hi : Nat) (h1 : lo ≤ dst) (h2 : dst + n ≤ hi) :
    changed_within lo hi v (write_run d cells dst n v) := by
  intro x hx
  apply write_run_miss
  intro i hi' e
  unfold vid_addr at e
  rw [hw] at e
  simp only [Bool.false_eq_true, if_false] at e
  omega

theorem blank_within (d : display_t) (hw : d.wrap = false) (dst n : Nat) (v : Nat → Nat)
    (lo hi : Nat) (h1 : lo ≤ dst) (h2 : dst + n ≤ hi) :
    changed_within lo hi v (mem_vid_copy none dst n d v) :=
  write_run_within d hw _ dst n v lo hi h1 h2

theorem copy_within (d : display_t) (hw : d.wrap = false) (src dst n : Nat) (v : Nat → Nat)
    (lo hi : Nat) (h1 : lo ≤ dst) (h2 : dst + n ≤ hi) :
    changed_within lo hi v (vid_vid_copy src dst n d v) :=
  write_run_within d hw _ dst n v lo hi h1 h2

theorem region_ok_lt (s : State) (h : region_ok s) : s.cons.c_limit ≤ 32768 := by
  obtain ⟨_, ⟨j, hj, hm⟩, hl, _, _⟩ := h
  have := pow_le_65536 j hj
  omega

theorem settled_in_row (r : State) (h : settled r) (hc : cursor_in_range r)
    (hwin : r.cons.c_org + scr_size < UINT_MOD) : queue_in_row r := by
  obtain ⟨h0, h1⟩ := h
  obtain ⟨a, b, c, d⟩ := hc
  rw [cur_addr_exact _ _ _ a b c d hwin] at h1
  refine ⟨⟨a, b, c, d⟩, ?_, ?_⟩
  · rw [h0]
    exact c
  · rw [h0, h1]
    have hW : (scr_width : Int) = 80 := rfl
    rw [hW] at *
    push_cast
    omega

theorem queue_in_row_flush (u : State) (hwin : u.cons.c_org + scr_size < UINT_MOD) :
    queue_in_row (flush u) :=
  settled_in_row _ (settled_flush u) (cursor_in_range_flush u) (by rw [flush_org]; exact hwin)

/-- With the queue in the cursor's row, `flush` after any move of the cursor
writes inside the visible window. -/
theorem flush_within (s : State) (r c : Int) (hw : s.display.wrap = false)
    (hq : queue_in_row s) :
    changed_within s.cons.c_org (s.cons.c_org + scr_size) s.vram
      (flush (set_cursor s r c)).vram := by
  rw [flush_vram]
  show changed_within _ _ _
    (write_run s.display s.cons.c_ramqueue s.cons.c_cur s.cons.c_rwords s.vram)
  obtain ⟨⟨a, b, c1, d⟩, h1, h2⟩ := hq
  apply write_run_within _ hw
  · simp only [scr_size, scr_width, scr_lines] at *
    omega
  · simp only [scr_size, scr_width, scr_lines] at *
    omega

/-- The copy and the blank line of `scroll_screen` lie inside the region. -/
theorem scroll_within (t : State) (h : region_ok t) (dir : Nat) :
    changed_within t.cons.c_start t.cons.c_limit t.vram
      (mem_vid_copy none (scroll_new_line t dir) scr_width t.display (scroll_copy t dir)) := by
  have ho := scroll_org_region t h dir
  have hlim := region_ok_lt t h
  obtain ⟨hw, ⟨j, hj, hm⟩, hl, h1, h2⟩ := h
  have hp := pow_le_65536 j hj
  have hsz : scr_size = 2000 := rfl
  have hwd : scr_width = 80 := rfl
  have hu : UINT_MOD = 65536 := rfl
  have e3 : uadd t.cons.c_start scr_width = t.cons.c_start + scr_width :=
    uadd_small _ _ (by omega)
  have e4 : usub t.cons.c_limit scr_size = t.cons.c_limit - scr_size := by
    rw [usub_eq _ _ (by omega), hu, hsz]
    omega
  have e5 : uadd (t.cons.c_limit - scr_size) scr_width = t.cons.c_limit - scr_size + scr_width :=
    uadd_small _ _ (by omega)
  have e6 : uadd (scroll_org t dir) (scr_size - scr_width)
      = scroll_org t dir + (scr_size - scr_width) := uadd_small _ _ (by omega)
  refine changed_within_trans _ _ _ (scroll_copy t dir) _ ?_ ?_
  · unfold scroll_copy
    split_ifs
    · exact copy_within _ hw _ _ _ _ _ _ (le_refl _) (by omega)
    · exact copy_within _ hw _ _ _ _ _ _ (le_refl _) (by omega)
    · exact changed_within_refl _ _ _
    · rw [e3]
      exact copy_within _ hw _ _ _ _ _ _ (by omega) (by omega)
    · rw [e4, e5]
      exact copy_within _ hw _ _ _ _ _ _ (by omega) (by omega)
    · exact changed_within_refl _ _ _
  · unfold scroll_new_line
    split_ifs
    · rw [e6, and_mask _ j _ hm, Nat.mod_eq_of_lt (by omega)]
      exact blank_within _ hw _ _ _ _ _ (by omega) (by omega)
    · exact blank_within _ hw _ _ _ _ _ (by omega) (by omega)

theorem clamp_count_bounds (v room : Int) (h : 0 ≤ room) :
    0 ≤ clamp_count v room ∧ clamp_count v room ≤ room := by
  unfold clamp_count
  dsimp only
  split_ifs <;> omega

/-- With nothing pending, the `ESC [` commands other than J, K, L, M, @ and P
leave the video memory as it is. -/
theorem csi_vram_cases (t : State) (c : Nat) (hq : t.cons.c_rwords = 0) :
    (do_escape_csi t c).vram = t.vram
      ∨ c = 74 ∨ c = 75 ∨ c = 76 ∨ c = 77 ∨ c = 64 ∨ c = 80 := by
  by_cases h74 : c = 74
  · exact Or.inr (Or.inl h74)
  by_cases h75 : c = 75
  · exact Or.inr (Or.inr (Or.inl h75))
  by_cases h76 : c = 76
  · exact Or.inr (Or.inr (Or.inr (Or.inl h76)))
  by_cases h77 : c = 77
  · exact Or.inr (Or.inr (Or.inr (Or.inr (Or.inl h77))))
  by_cases h64 : c = 64
  · exact Or.inr (Or.inr (Or.inr (Or.inr (Or.inr (Or.inl h64)))))
  by_cases h80 : c = 80
  · exact Or.inr (Or.inr (Or.inr (Or.inr (Or.inr (Or.inr h80)))))
  have hm : ∀ r k, (flush (set_cursor t r k)).vram = t.vram := by
    intro r k
    rw [flush_vram]
    show write_run _ _ _ t.cons.c_rwords _ = _
    rw [hq, write_run_zero]
    rfl
  left
  by_cases h65 : c = 65
  · subst h65; exact hm _ _
  by_cases h66 : c = 66
  · subst h66; exact hm _ _
  by_cases h67 : c = 67
  · subst h67; exact hm _ _
  by_cases h68 : c = 68
  · subst h68; exact hm _ _
  by_cases h72 : c = 72
  · subst h72; exact hm _ _
  by_cases h109 : c = 109
  · subst h109; exact (do_rendition_frame t _).2.2.2.2.2.2
  unfold do_escape_csi
  dsimp only
  simp only [h65, h66, h67, h68, h72, h74, h75, h76, h77, h64, h80, h109, if_false]

theorem to_unsigned_int (x : Int) (h0 : 0 ≤ x) (h1 : x < 65536) :
    ((to_unsigned x : Nat) : Int) = x := by
  unfold to_unsigned UINT_MOD
  have e : x % ((65536 : Nat) : Int) = x := Int.emod_eq_of_lt h0 (by omega)
  rw [e]
  omega

theorem usub_int (a b : Nat) (h : b ≤ a) (h1 : a < 65536) :
    ((usub a b : Nat) : Int) = (a : Int) - b :=
  to_unsigned_int _ (by omega) (by omega)

/-- With nothing pending and the cached cursor address in step with the cursor,
every `ESC [` command writes inside the visible window only, whatever its
parameter. -/
theorem csi_within (t : State) (c : Nat) (hw : t.display.wrap = false)
    (hwin : t.cons.c_org + scr_size ≤ 32768) (hr : queue_in_row t)
    (hq : t.cons.c_rwords = 0) :
    changed_within t.cons.c_org (t.cons.c_org + scr_size) t.vram (do_escape_csi t c).vram := by
  obtain ⟨⟨r0, r1, c0, c1⟩, _, hcur⟩ := hr
  rw [hq] at hcur
  have hbl := clamp_count_bounds t.cons.c_esc_parmv0 ((scr_lines : Int) - t.cons.c_row)
    (by omega)
  have hbc := clamp_count_bounds t.cons.c_esc_parmv0 ((scr_width : Int) - t.cons.c_column)
    (by omega)
  have hW : (scr_width : Int) = 80 := rfl
  have hL : (scr_lines : Int) = 25 := rfl
  have hS : scr_size = 2000 := rfl
  have hWn : scr_width = 80 := rfl
  rw [hW] at hcur c1 hbc
  rw [hL] at r1 hbl
  rw [hS] at hwin
  rcases csi_vram_cases t c hq with e | rfl | rfl | rfl | rfl | rfl | rfl
  · rw [e]
    exact changed_within_refl _ _ _
  · have j1 := usub_int t.cons.c_cur t.cons.c_org (by omega) (by omega)
    have j2 : ((usub scr_size (usub t.cons.c_cur t.cons.c_org) : Nat) : Int)
        = 2000 - (usub t.cons.c_cur t.cons.c_org : Nat) :=
      usub_int 2000 (usub t.cons.c_cur t.cons.c_org) (by omega) (by decide)
    show changed_within _ _ _ (mem_vid_copy none _ _ t.display t.vram)
    apply blank_within _ hw
    · split_ifs <;> dsimp only <;> omega
    · split_ifs <;> dsimp only <;> omega
  · have k1 : ((to_unsigned ((scr_width : Int) - t.cons.c_column) : Nat) : Int)
        = 80 - t.cons.c_column := to_unsigned_int (80 - t.cons.c_column) (by omega) (by omega)
    have k2 := to_unsigned_int t.cons.c_column (by omega) (by omega)
    have k3 := to_unsigned_int ((t.cons.c_cur : Int) - t.cons.c_column) (by omega) (by omega)
    show changed_within _ _ _ (mem_vid_copy none _ _ t.display t.vram)
    apply blank_within _ hw
    · split_ifs <;> dsimp only <;> omega
    · split_ifs <;> dsimp only <;> omega
  · obtain ⟨n, hn⟩ : ∃ n,
        n = clamp_count t.cons.c_esc_parmv0 ((scr_lines : Int) - t.cons.c_row) := ⟨_, rfl⟩
    obtain ⟨src, hsrc⟩ : ∃ src,
        src = to_unsigned ((t.cons.c_org : Int) + t.cons.c_row * scr_width) := ⟨_, rfl⟩
    obtain ⟨dst, hdst⟩ : ∃ dst, dst = to_unsigned ((src : Int) + n * scr_width) := ⟨_, rfl⟩
    obtain ⟨count, hcount⟩ : ∃ count,
        count = to_unsigned (((scr_lines : Int) - t.cons.c_row - n) * scr_width) := ⟨_, rfl⟩
    rw [do_escape_csi_L t n dst src count hn hsrc hdst hcount]
    have hbn : 0 ≤ n ∧ n ≤ 25 - t.cons.c_row := by
      rw [hn]
      exact hbl
    have f1 : (src : Int) = t.cons.c_org + t.cons.c_row * 80 := by
      rw [hsrc]
      exact to_unsigned_int ((t.cons.c_org : Int) + t.cons.c_row * 80) (by omega) (by omega)
    have f2 : (dst : Int) = src + n * 80 := by
      rw [hdst]
      exact to_unsigned_int ((src : Int) + n * 80) (by omega) (by omega)
    have f3 : (count : Int) = (25 - t.cons.c_row - n) * 80 := by
      rw [hcount]
      exact to_unsigned_int ((25 - t.cons.c_row - n) * 80) (by omega) (by omega)
    have f4 : ((to_unsigned (n * (scr_width : Int)) : Nat) : Int) = n * 80 :=
      to_unsigned_int (n * 80) (by omega) (by omega)
    refine changed_within_trans _ _ _ _ _ (copy_within _ hw _ _ _ _ _ _ ?_ ?_)
      (blank_within _ hw _ _ _ _ _ ?_ ?_) <;> omega
  · obtain ⟨n, hn⟩ : ∃ n,
        n = clamp_count t.cons.c_esc_parmv0 ((scr_lines : Int) - t.cons.c_row) := ⟨_, rfl⟩
    obtain ⟨dst, hdst⟩ : ∃ dst,
        dst = to_unsigned ((t.cons.c_org : Int) + t.cons.c_row * scr_width) := ⟨_, rfl⟩
    obtain ⟨src, hsrc⟩ : ∃ src, src = to_unsigned ((dst : Int) + n * scr_width) := ⟨_, rfl⟩
    obtain ⟨count, hcount⟩ : ∃ count,
        count = to_unsigned (((scr_lines : Int) - t.cons.c_row - n) * scr_width) := ⟨_, rfl⟩
    rw [do_escape_csi_M t n dst src count hn hdst hsrc hcount]
    have hbn : 0 ≤ n ∧ n ≤ 25 - t.cons.c_row := by
      rw [hn]
      exact hbl
    have f1 : (dst : Int) = t.cons.c_org + t.cons.c_row * 80 := by
      rw [hdst]
      exact to_unsigned_int ((t.cons.c_org : Int) + t.cons.c_row * 80) (by omega) (by omega)
    have f3 : (count : Int) = (25 - t.cons.c_row - n) * 80 := by
      rw [hcount]
      exact to_unsigned_int ((25 - t.cons.c_row - n) * 80) (by omega) (by omega)
    have f4 : ((to_unsigned (n * (scr_width : Int)) : Nat) : Int) = n * 80 :=
      to_unsigned_int (n * 80) (by omega) (by omega)
    have f5 : uadd dst count = dst + count :=
      uadd_small dst count (show dst + count < 65536 by omega)
    refine changed_within_trans _ _ _ _ _ (copy_within _ hw _ _ _ _ _ _ ?_ ?_)
      (blank_within _ hw _ _ _ _ _ ?_ ?_) <;> omega
  · obtain ⟨n, hn⟩ : ∃ n,
        n = clamp_count t.cons.c_esc_parmv0 ((scr_width : Int) - t.cons.c_column) := ⟨_, rfl⟩
    obtain ⟨src, hsrc⟩ : ∃ src, src = t.cons.c_cur := ⟨_, rfl⟩
    obtain ⟨dst, hdst⟩ : ∃ dst, dst = to_unsigned ((src : Int) + n) := ⟨_, rfl⟩
    obtain ⟨count, hcount⟩ : ∃ count,
        count = to_unsigned ((scr_width : Int) - t.cons.c_column - n) := ⟨_, rfl⟩
    rw [do_escape_csi_at t n dst src count hn hsrc hdst hcount]
    have hbn : 0 ≤ n ∧ n ≤ 80 - t.cons.c_column := by
      rw [hn]
      exact hbc
    have f2 : (dst : Int) = src + n := by
      rw [hdst]
      exact to_unsigned_int _ (by omega) (by omega)
    have f3 : (count : Int) = 80 - t.cons.c_column - n := by
      rw [hcount]
      exact to_unsigned_int (80 - t.cons.c_column - n) (by omega) (by omega)
    have f4 : ((to_unsigned n : Nat) : Int) = n := to_unsigned_int _ (by omega) (by omega)
    refine changed_within_trans _ _ _ _ _ (copy_within _ hw _ _ _ _ _ _ ?_ ?_)
      (blank_within _ hw _ _ _ _ _ ?_ ?_) <;> omega
  · obtain ⟨n, hn⟩ : ∃ n,
        n = clamp_count t.cons.c_esc_parmv0 ((scr_width : Int) - t.cons.c_column) := ⟨_, rfl⟩
    obtain ⟨dst, hdst⟩ : ∃ dst, dst = t.cons.c_cur := ⟨_, rfl⟩
    obtain ⟨src, hsrc⟩ : ∃ src, src = to_unsigned ((dst : Int) + n) := ⟨_, rfl⟩
    obtain ⟨count, hcount⟩ : ∃ count,
        count = to_unsigned ((scr_width : Int) - t.cons.c_column - n) := ⟨_, rfl⟩
    rw [do_escape_csi_P t n dst src count hn hdst hsrc hcount]
    have hbn : 0 ≤ n ∧ n ≤ 80 - t.cons.c_column := by
      rw [hn]
      exact hbc
    have f3 : (count : Int) = 80 - t.cons.c_column - n := by
      rw [hcount]
      exact to_unsigned_int (80 - t.cons.c_column - n) (by omega) (by omega)
    have f4 : ((to_unsigned n : Nat) : Int) = n := to_unsigned_int _ (by omega) (by omega)
    have f5 : uadd dst count = dst + count :=
      uadd_small dst count (show dst + count < 65536 by omega)
    refine changed_within_trans _ _ _ _ _ (copy_within _ hw _ _ _ _ _ _ ?_ ?_)
      (blank_within _ hw _ _ _ _ _ ?_ ?_) <;> omega

theorem queue_in_row_step (s : State) (b : Nat) (h : queue_in_row s)
    (hcol : s.cons.c_column < scr_width) : queue_in_row (queue_step s b) := by
  obtain ⟨⟨r0, r1, c0, c1⟩, h1, h2⟩ := h
  refine ⟨⟨r0, r1, ?_, ?_⟩, ?_, ?_⟩
  · show (0 : Int) ≤ s.cons.c_column + 1
    omega
  · show s.cons.c_column + 1 ≤ (scr_width : Int)
    omega
  · show ((s.cons.c_rwords + 1 : Nat) : Int) ≤ s.cons.c_column + 1
    omega
  · show (s.cons.c_cur : Int) + ((s.cons.c_rwords + 1 : Nat) : Int)
      = s.cons.c_org + s.cons.c_row * scr_width + (s.cons.c_column + 1)
    omega

theorem queue_in_row_csi (s : State) (c : Nat) (h : queue_in_row s)
    (hwin : s.cons.c_org + scr_size < UINT_MOD) : queue_in_row (do_escape_csi s c) := by
  rcases do_escape_csi_cases s c with ⟨r, k, e⟩ | ⟨v, e⟩ | ⟨v, e⟩
  · rw [e]
    exact queue_in_row_flush _ hwin
  · rw [e]
    exact h
  · rw [e]
    have hd := do_rendition_frame s v
    have hi := do_rendition_inv s v
    unfold queue_in_row cursor_in_range at h ⊢
    rw [hi.1, hi.2.1, hi.2.2.1, hd.2.2.1, hd.2.2.2.1]
    exact h

/-- The invariant `writes_ok` is kept along the output path. -/
theorem writes_kept (a b : Nat) (v0 : Nat → Nat) : Kept (writes_ok a b v0) where
  on_flush := fun s r c h => by
    obtain ⟨hreg, hrow, ha, hb, hv⟩ := h
    have hk := (region_kept a b).on_flush s r c ⟨hreg, ha, hb⟩
    have hl := region_ok_lt s hreg
    have hU : UINT_MOD = 65536 := rfl
    obtain ⟨hw, _, _, h1, h2⟩ := hreg
    refine ⟨hk.1, queue_in_row_flush _ ?_, hk.2.1, hk.2.2, ?_⟩
    · show s.cons.c_org + scr_size < UINT_MOD
      omega
    · exact changed_within_trans _ _ _ _ _ hv
        (changed_within_mono _ _ _ _ _ _ (by omega) (by omega) (flush_within s r c hw hrow))
  on_scroll := fun s r c dir h => by
    obtain ⟨hreg, hrow, ha, hb, hv⟩ := h
    have hk := (region_kept a b).on_scroll s r c dir ⟨hreg, ha, hb⟩
    have hf := (region_kept a b).on_flush s r c ⟨hreg, ha, hb⟩
    have hl := region_ok_lt _ hk.1
    have hU : UINT_MOD = 65536 := rfl
    have h2 := hk.1.2.2.2.2
    refine ⟨hk.1, settled_in_row _ (settled_scroll _ dir) (cursor_in_range_scroll _ dir)
      (by omega), hk.2.1, hk.2.2, ?_⟩
    have hs := scroll_within _ hf.1 dir
    rw [flush_start, flush_limit, flush_display] at hs
    rw [scroll_screen_vram]
    have hw := hreg.1
    have hfl := flush_within s r c hw hrow
    obtain ⟨_, _, _, g1, g2⟩ := hreg
    have e1 : (set_cursor s r c).cons.c_start = a := ha
    have e2 : (set_cursor s r c).cons.c_limit = b := hb
    rw [e1, e2] at hs
    exact changed_within_trans _ _ _ _ _ hv
      (changed_within_trans _ _ _ _ _
        (changed_within_mono _ _ _ _ _ _ (by omega) (by omega) hfl) hs)
  on_esc := fun s st i pp p0 p1 h => h
  on_queue := fun s b h hcol _ => ⟨h.1, queue_in_row_step s b h.2.1 hcol, h.2.2⟩
  on_csi := fun s c h hq => by
    obtain ⟨hreg, hrow, ha, hb, hv⟩ := h
    have hk := (region_kept a b).on_csi s c ⟨hreg, ha, hb⟩ hq
    have hl := region_ok_lt s hreg
    have hU : UINT_MOD = 65536 := rfl
    obtain ⟨hw, _, _, h1, h2⟩ := hreg
    refine ⟨hk.1, queue_in_row_csi s c hrow (by omega), hk.2.1, hk.2.2, ?_⟩
    exact changed_within_trans _ _ _ _ _ hv
      (changed_within_mono _ _ _ _ _ _ (by omega) (by omega)
        (csi_within s c hw (by omega) hrow hq))
  on_beep := fun s h => by
    unfold beep
    split_ifs
    · exact h
    · exact h

theorem kept_out_chars {P : State → Prop} (k : Kept P) (cs : List Int) :
    ∀ s, P s → P (out_chars s cs) := by
  induction cs with
  | nil => intro s h; exact h
  | cons c rest ih =>
    intro s h
    exact ih _ (kept_out_char k s c h)

theorem do_escape_vram_csi (s : State) (c : Nat) (h : s.cons.c_esc_intro = 91) :
    (do_escape s c).vram = (do_escape_csi (flush s) c).vram := by
  unfold do_escape
  dsimp only
  rw [flush_esc_intro, h, if_neg (by decide), if_pos rfl]

/-- Writes with the cursor cache in step: for a console on a well-formed display that does not wrap,
with the window inside the region and the pending queue in the cursor's row
(`c_cur + c_rwords == c_org + c_row * scr_width + c_column`, cursor in range),
`flush`, `out_char`, `scroll_screen`, `do_escape` and `cons_write` leave every
word outside `[c_start, c_limit)` as it is; `do_escape` for a command that
begins with `ESC [`, whatever the parameter, leaves every word outside the
visible window `[c_org, c_org + scr_size)` as it is; and output to console `i`
of a driver changes no word of its display outside the region of console `i`
and no word of another display. -/
theorem writes_in_region (s : State) (hwrap : s.display.wrap = false)
    (hmask : mask_ok s.display) (hmem : s.cons.c_limit ≤ s.display.vid_mask + 1)
    (hwin : s.cons.c_start ≤ s.cons.c_org ∧ s.cons.c_org + scr_size ≤ s.cons.c_limit)
    (hrow : queue_in_row s) :
    (∀ x, ¬ (s.cons.c_start ≤ x ∧ x < s.cons.c_limit) →
        (flush s).vram x = s.vram x
          ∧ (∀ c, (out_char s c).vram x = s.vram x)
          ∧ (∀ dir, (scroll_screen s dir).vram x = s.vram x)
          ∧ (∀ c, (do_escape s c).vram x = s.vram x)
          ∧ (∀ buf, (cons_write s buf).vram x = s.vram x))
      ∧ (∀ x, ¬ (s.cons.c_org ≤ x ∧ x < s.cons.c_org + scr_size) →
          s.cons.c_esc_intro = 91 → ∀ c, (do_escape s c).vram x = s.vram x)
      ∧ (∀ (d : Driver) (i : Nat), console_view d i = s → ∀ (cs : List Int),
          (∀ x, ¬ (s.cons.c_start ≤ x ∧ x < s.cons.c_limit) →
              (driver_out_chars d i cs).vram (d.display i) x = d.vram (d.display i) x)
            ∧ (∀ k, k ≠ d.display i → (driver_out_chars d i cs).vram k = d.vram k)) := by
  have hreg : region_ok s := ⟨hwrap, hmask, hmem, hwin.1, hwin.2⟩
  have h0 : writes_ok s.cons.c_start s.cons.c_limit s.vram s :=
    ⟨hreg, hrow, rfl, rfl, changed_within_refl _ _ _⟩
  have k := writes_kept s.cons.c_start s.cons.c_limit s.vram
  refine ⟨fun x hx => ⟨?_, fun c => ?_, fun dir => ?_, fun c => ?_, fun buf => ?_⟩,
    fun x hx hi c => ?_, fun d i hd cs => ⟨fun x hx => ?_, fun j hj => ?_⟩⟩
  · exact (kept_flush k s h0).2.2.2.2 x hx
  · exact (kept_out_char k s c h0).2.2.2.2 x hx
  · exact (kept_scroll k s dir h0).2.2.2.2 x hx
  · exact (kept_do_escape k s c h0).2.2.2.2 x hx
  · exact (kept_cons_write k s buf h0).2.2.2.2 x hx
  · rw [do_escape_vram_csi s c hi]
    have hf := kept_flush k s h0
    have hl := region_ok_lt s hreg
    have hS : scr_size = 2000 := rfl
    have h1 := flush_within s s.cons.c_row s.cons.c_column hwrap hrow
    have h2 := csi_within (flush s) c (by rw [flush_display]; exact hwrap)
      (by rw [flush_org]; omega) hf.2.1 (flush_rwords s)
    rw [flush_org] at h2
    exact (h2 x hx).trans (h1 x hx)
  · have h := (kept_out_chars k cs s h0).2.2.2.2 x hx
    unfold driver_out_chars console_store
    rw [hd]
    show Function.update d.vram (d.display i) (out_chars s cs).vram (d.display i) x = _
    rw [Function.update_same, h, ← hd]
    rfl
  · unfold driver_out_chars console_store
    show Function.update d.vram (d.display i) _ j = _
    rw [Function.update_noteq hj]

set_option maxRecDepth 100000 in
/-- C33: with an EGA and `NR_CONS = 3`, `scr_init` leaves the second console,
the state `ex_second`, with the region `[5461, 10922)`, `c_org == 5461` and
`c_cur == 0`.  It is on a display that does not wrap and satisfies
`c_start <= c_org && c_org + scr_size <= c_limit`, and so does the state after
`out_char` of the letter A; `flush` then writes the cell of the letter at word
address 0, which is outside the region `[5461, 10922)` and inside the region
`[0, 5461)` of the first console.  And on `ex_window`, whose window is
`[160, 2160)`, `do_escape` for `ESC M` on the top row blanks the word at
address 80, outside the window. -/
theorem C33_write_outside_region :
    (scr_init_lines 3 C_6845 true 3).cons_table 1 = ex_second.cons
      ∧ ((scr_init_lines 3 C_6845 true 3).cons_table 0).c_start = 0
      ∧ ((scr_init_lines 3 C_6845 true 3).cons_table 0).c_limit = 5461
      ∧ (scr_init_lines 3 C_6845 true 3).display 0 = (scr_init_lines 3 C_6845 true 3).display 1
      ∧ ex_second.display.wrap = false
      ∧ ex_second.cons.c_start = 5461 ∧ ex_second.cons.c_limit = 10922
      ∧ (out_char ex_second 65).cons.c_start ≤ (out_char ex_second 65).cons.c_org
      ∧ (out_char ex_second 65).cons.c_org + scr_size ≤ (out_char ex_second 65).cons.c_limit
      ∧ ¬ ((out_char ex_second 65).cons.c_start ≤ 0)
      ∧ (out_char ex_second 65).vram 0 = 0x0720
      ∧ (flush (out_char ex_second 65)).vram 0 = 0x0741
      ∧ ex_window.display.wrap = false
      ∧ ex_window.cons.c_start ≤ ex_window.cons.c_org
      ∧ ex_window.cons.c_org + scr_size ≤ ex_window.cons.c_limit
      ∧ ex_window.cons.c_org = 160
      ∧ ex_window.vram 80 = 0x0742
      ∧ (do_escape ex_window 77).vram 80 = 0x0720 := by
  refine ⟨rfl, ?_⟩
  decide

/-! ## C34 and C38: the regions that scr_init hands out -/

set_option maxRecDepth 100000 in
/-- C34: the regions that `scr_init` hands out need not hold a screen.  With a
monochrome primary adapter and `NR_CONS = 2` there are two consoles and the
region of the first is `[0, 1024)`; with a CGA and `NR_CONS = 5` there are five
consoles and the four on the CGA get 1638 words each; with an EGA and
`NR_CONS = 9`, nine consoles, eight of them with 1820 words each.  A screen is
2000 words.  With an EGA and `NR_CONS = 3` the regions are 5461 words long. -/
theorem C34_regions_too_small :
    (scr_init_lines 2 M_6845 false 2).nr_cons = 2
      ∧ ((scr_init_lines 2 M_6845 false 2).cons_table 0).c_start = 0
      ∧ ((scr_init_lines 2 M_6845 false 2).cons_table 0).c_limit = 1024
      ∧ (scr_init_lines 2 M_6845 false 2).display 0 = 0
      ∧ ((scr_init_lines 2 M_6845 false 2).cons_table 0).c_limit
            - ((scr_init_lines 2 M_6845 false 2).cons_table 0).c_start < scr_size
      ∧ (scr_init_lines 5 C_6845 false 5).nr_cons = 5
      ∧ ((scr_init_lines 5 C_6845 false 5).cons_table 1).c_start = 1638
      ∧ ((scr_init_lines 5 C_6845 false 5).cons_table 1).c_limit = 3276
      ∧ (scr_init_lines 9 C_6845 true 9).nr_cons = 9
      ∧ ((scr_init_lines 9 C_6845 true 9).cons_table 1).c_start = 1820
      ∧ ((scr_init_lines 9 C_6845 true 9).cons_table 1).c_limit = 3640
      ∧ (scr_init_lines 3 C_6845 true 3).nr_cons = 3
      ∧ ((scr_init_lines 3 C_6845 true 3).cons_table 1).c_start = 5461
      ∧ ((scr_init_lines 3 C_6845 true 3).cons_table 1).c_limit = 10922 := by
  decide

set_option maxRecDepth 100000 in
/-- C38: with a CGA and `NR_CONS = 5`, `scr_init` gives the second console the
region `[1638, 3276)`.  The reverse index `ESC M` on its top row relocates the
origin to `c_limit - scr_size = 1276`, below `c_start`; `cons_stop` then leaves
the origin there, because `cons_org0` moves an origin only when it is above
`c_start`, and turns software scrolling on. -/
theorem C38_soft_origin_off_start :
    ((scr_init_lines 5 C_6845 false 5).cons_table 1).c_start = 1638
      ∧ ((scr_init_lines 5 C_6845 false 5).cons_table 1).c_org = 1638
      ∧ ((driver_out_chars (scr_init_lines 5 C_6845 false 5) 1 [27, 77]).cons_table 1).c_org
          = 1276
      ∧ (cons_stop 1 (driver_out_chars (scr_init_lines 5 C_6845 false 5) 1 [27, 77])).map
            (fun d => (d.softscroll, (d.cons_table 1).c_org, (d.cons_table 1).c_start))
          = some (true, 1276, 1638) := by
  decide

/-! ## C39: what the consoles show after cons_org0 -/

/-- The `while` loop of `cons_org0` moves the window: the cells of the window
at the start of the region are those of the window before, and on a display
that does not wrap nothing changes outside `[c_start, c_org + scr_size)`. -/
theorem cons_org0_loop_content (fuel : Nat) : ∀ (s : State),
    s.cons.c_start ≤ s.cons.c_org → s.cons.c_org < UINT_MOD →
    scr_size < s.display.vid_size → s.display.vid_size < UINT_MOD →
    display_ok s.display → s.cons.c_org - s.cons.c_start < fuel →
    ∃ v, cons_org0_loop fuel s
        = some { s with vram := v, cons := { s.cons with c_org := s.cons.c_start } }
      ∧ (∀ k, k < scr_size →
          v (vid_addr s.display (s.cons.c_start + k)) = s.vram (vid_addr s.display (s.cons.c_org + k)))
      ∧ (s.display.wrap = false →
          changed_within s.cons.c_start (s.cons.c_org + scr_size) s.vram v) := by
  have hU : UINT_MOD = 65536 := rfl
  have hS : scr_size = 2000 := rfl
  induction fuel with
  | zero => intro s _ _ _ _ _ hf; omega
  | succ fuel ih =>
    intro s h1 h2 h3 h4 hok hf
    unfold cons_org0_loop
    by_cases hgt : s.cons.c_org > s.cons.c_start
    · rw [if_pos hgt]
      dsimp only
      have hn0 : usub s.display.vid_size scr_size = s.display.vid_size - scr_size := by
        unfold usub to_unsigned
        rw [hU]
        omega
      have hm : usub s.cons.c_org s.cons.c_start = s.cons.c_org - s.cons.c_start := by
        unfold usub to_unsigned
        rw [hU]
        omega
      rw [hn0, hm]
      generalize hn : (if s.display.vid_size - scr_size > s.cons.c_org - s.cons.c_start
        then s.cons.c_org - s.cons.c_start else s.display.vid_size - scr_size) = n
      have hn1 : 1 ≤ n ∧ n ≤ s.cons.c_org - s.cons.c_start := by
        rw [← hn]
        split_ifs <;> omega
      have hsub : usub s.cons.c_org n = s.cons.c_org - n := by
        unfold usub to_unsigned
        rw [hU]
        omega
      rw [hsub]
      obtain ⟨v, hv, hc, hfr⟩ := ih
        { s with
          vram := vid_vid_copy s.cons.c_org (s.cons.c_org - n) scr_size s.display s.vram
          cons := { s.cons with c_org := s.cons.c_org - n } }
        (by show s.cons.c_start ≤ s.cons.c_org - n; omega)
        (by show s.cons.c_org - n < UINT_MOD; omega) h3 h4 hok
        (by show s.cons.c_org - n - s.cons.c_start < fuel; omega)
      refine ⟨v, hv, fun k hk => ?_, fun hw => ?_⟩
      · have e := hc k hk
        have w := write_run_window s.display hok
          (fun i => s.vram (vid_addr s.display (s.cons.c_org + i))) (s.cons.c_org - n) 0
          scr_size s.vram (by omega) k hk
        rw [if_pos ⟨by omega, by omega⟩, Nat.add_zero, Nat.sub_zero] at w
        exact e.trans w
      · have f1 := hfr hw
        have f2 := copy_within s.display hw s.cons.c_org (s.cons.c_org - n) scr_size s.vram
          s.cons.c_start (s.cons.c_org + scr_size) (by omega) (by omega)
        exact changed_within_trans _ _ _ _ _ f2
          (changed_within_mono _ _ _ _ _ _ (le_refl _)
            (by show s.cons.c_org - n + scr_size ≤ s.cons.c_org + scr_size; omega) f1)
    · rw [if_neg hgt]
      have e : s.cons.c_org = s.cons.c_start := by omega
      refine ⟨s.vram, ?_, fun k _ => ?_, fun _ => changed_within_refl _ _ _⟩
      · rw [← e]
      · rw [e]

theorem flush_idle_vram (s : State) (h : s.cons.c_rwords = 0) : (flush s).vram = s.vram := by
  rw [flush_vram, h, write_run_zero]

/-- One round of the `for` loop of `cons_org0` with nothing pending. -/
theorem cons_org0_console_content (fuel : Nat) (hfuel : UINT_MOD ≤ fuel) (d : Driver) (i : Nat)
    (h : org0_ready d i) (hok : display_ok (d.display_table (d.display i)))
    (hidle : (d.cons_table i).c_rwords = 0) :
    ∃ d1 v, cons_org0_console fuel d i = some d1
      ∧ (d1.nr_cons = d.nr_cons ∧ d1.current = d.current ∧ d1.curcons = d.curcons
          ∧ d1.display = d.display ∧ d1.display_table = d.display_table)
      ∧ (∀ j, j ≠ i → d1.cons_table j = d.cons_table j)
      ∧ ((d1.cons_table i).c_start = (d.cons_table i).c_start
          ∧ (d1.cons_table i).c_limit = (d.cons_table i).c_limit
          ∧ (d1.cons_table i).c_org = (d.cons_table i).c_start
          ∧ (d1.cons_table i).c_rwords = 0)
      ∧ d1.vram = Function.update d.vram (d.display i) v
      ∧ (∀ k, k < scr_size →
          v (vid_addr (d.display_table (d.display i)) ((d.cons_table i).c_start + k))
            = d.vram (d.display i)
                (vid_addr (d.display_table (d.display i)) ((d.cons_table i).c_org + k)))
      ∧ ((d.display_table (d.display i)).wrap = false →
          changed_within (d.cons_table i).c_start ((d.cons_table i).c_org + scr_size)
            (d.vram (d.display i)) v) := by
  obtain ⟨h1, h2, h3, h4⟩ := h
  obtain ⟨v, hv, hc, hfr⟩ := cons_org0_loop_content fuel (console_view d i) h1 h2 h3 h4 hok
    (by show (d.cons_table i).c_org - (d.cons_table i).c_start < fuel; omega)
  unfold cons_org0_console
  rw [hv]
  refine ⟨_, v, rfl, ⟨rfl, rfl, rfl, rfl, ?_⟩, ?_, ⟨?_, ?_, ?_, ?_⟩, ?_, hc, hfr⟩
  · show Function.update d.display_table (d.display i) (flush _).display = d.display_table
    rw [flush_display]
    exact Function.update_eq_self _ _
  · intro j hj
    show Function.update d.cons_table i _ j = d.cons_table j
    rw [Function.update_noteq hj]
  · show (Function.update d.cons_table i (flush _).cons i).c_start = _
    rw [Function.update_same, flush_start]
    rfl
  · show (Function.update d.cons_table i (flush _).cons i).c_limit = _
    rw [Function.update_same, flush_limit]
    rfl
  · show (Function.update d.cons_table i (flush _).cons i).c_org = _
    rw [Function.update_same, flush_org]
    rfl
  · show (Function.update d.cons_table i (flush _).cons i).c_rwords = _
    rw [Function.update_same, flush_rwords]
  · show Function.update d.vram (d.display i) (flush _).vram = _
    rw [flush_idle_vram _ hidle]

theorem org0_shown_refl (d : Driver) : org0_shown d d :=
  ⟨org0_frame_refl d, fun _ => ⟨rfl, rfl⟩, fun _ _ _ _ => rfl⟩

/-- The `for` loop of `cons_org0` over the consoles of the list `l`, with
nothing pending and the consoles kept apart: every console goes on showing
what it showed. -/
theorem cons_org0_for_content (fuel : Nat) (hfuel : UINT_MOD ≤ fuel) (d0 : Driver)
    (hready : ∀ i, i < d0.nr_cons.toNat → org0_ready d0 i)
    (hok : ∀ i, i < d0.nr_cons.toNat → display_ok (d0.display_table (d0.display i)))
    (hidle : ∀ i, i < d0.nr_cons.toNat → (d0.cons_table i).c_rwords = 0)
    (hsep : org0_separate d0) (l : List Nat) :
    (∀ i ∈ l, i < d0.nr_cons.toNat) → ∀ (d : Driver), org0_shown d0 d →
    ∃ d', l.foldlM (cons_org0_console fuel) d = some d' ∧ org0_shown d0 d' := by
  have hS : scr_size = 2000 := rfl
  induction l with
  | nil =>
    intro _ d hd
    exact ⟨d, rfl, hd⟩
  | cons i l ih =>
    intro hl d hd
    obtain ⟨⟨e1, e2, e3, e4, e5, e6⟩, e7, e8⟩ := hd
    have hi : i < d0.nr_cons.toNat := hl i (by simp)
    obtain ⟨a1, a2, a3, a4⟩ := hready i hi
    have hr : org0_ready d i := by
      unfold org0_ready
      rw [e4, e5, (e6 i).1]
      refine ⟨?_, ?_, a3, a4⟩
      · rcases (e6 i).2 with h | h
        · rw [h]; exact a1
        · rw [h, (e6 i).1]
      · rcases (e6 i).2 with h | h
        · rw [h]; exact a2
        · rw [h, (e6 i).1]; omega
    have hok1 : display_ok (d.display_table (d.display i)) := by
      rw [e4, e5]
      exact hok i hi
    have hidle1 : (d.cons_table i).c_rwords = 0 := (e7 i).2.trans (hidle i hi)
    obtain ⟨d1, v, hd1, ⟨f1, f2, f3, f4, f5⟩, f6, ⟨g1, g2, g3, g4⟩, hv, hc, hfr⟩ :=
      cons_org0_console_content fuel hfuel d i hr hok1 hidle1
    have hshown : org0_shown d0 d1 := by
      refine ⟨⟨f1.trans e1, f2.trans e2, f3.trans e3, f4.trans e4, f5.trans e5, fun j => ?_⟩,
        fun j => ?_, fun j hj k hk => ?_⟩
      · by_cases hji : j = i
        · subst hji
          exact ⟨g1.trans (e6 j).1, Or.inr (g3.trans g1.symm)⟩
        · rw [f6 j hji]
          exact e6 j
      · by_cases hji : j = i
        · subst hji
          exact ⟨g2.trans (e7 j).1, g4.trans (hidle j hi).symm⟩
        · rw [f6 j hji]
          exact e7 j
      · rw [← e8 j hj k hk]
        show d1.vram (d1.display j)
            (vid_addr (d1.display_table (d1.display j)) ((d1.cons_table j).c_org + k))
          = d.vram (d.display j)
              (vid_addr (d.display_table (d.display j)) ((d.cons_table j).c_org + k))
        rw [hv, f4, f5]
        by_cases hji : j = i
        · subst hji
          rw [Function.update_same, g3]
          exact hc k hk
        · rw [f6 j hji]
          by_cases hdisp : d.display j = d.display i
          · rw [hdisp, Function.update_same]
            have hd0 : d0.display i = d0.display j := by
              rw [← e4]
              exact hdisp.symm
            obtain ⟨w1, w2, w3⟩ := hsep i hi j hj (fun e => hji e.symm) hd0
            obtain ⟨_, w5, _⟩ := hsep j hj i hi hji hd0.symm
            have hw : (d.display_table (d.display i)).wrap = false := by
              rw [e4, e5]
              exact w1
            have b1 := (hready j hj).1
            have ci := e6 i
            have cj := e6 j
            have li := (e7 i).1
            have lj := (e7 j).1
            apply hfr hw
            unfold vid_addr
            rw [hw]
            simp only [Bool.false_eq_true, if_false]
            rcases ci.2 with q1 | q1 <;> rcases cj.2 with q2 | q2 <;> omega
          · rw [Function.update_noteq hdisp]
    obtain ⟨d', hd', hs'⟩ := ih (fun k hk => hl k (by simp [hk])) d1 hshown
    refine ⟨d', ?_, hs'⟩
    rw [List.foldlM_cons, hd1]
    exact hd'

theorem select_console_visible (d : Driver) (c : Int) (i k : Nat) :
    visible (console_view (select_console d c) i) k = visible (console_view d i) k := by
  unfold select_console
  split_ifs <;> rfl

end Console
